import Mathlib

/-!
# The threaded socket server (`src/server`) and its companions: a shallow embedding

The development follows the C sources under `src/server/src`:

* `resource_utils.c`: the resource collector (`malloc_wrapper`, `free_wrapper`,
  `register_fd`, `cleanup`);
* `main.c`: the connection worker `socket_connection_thread`, the ticker
  `timer_handler`, the registry walk `handle_completed_threads`, the insertion into
  the registry and its drain, and the function `main` with its startup state
  machine and its teardown;
* `socket_server.c`: `create_socket_server` and `wait_connection`;
* `conn_thread.c`: `spawn_connection_thread`;

and two further sources of the repository:

* `src/aesd-char-driver/aesd-circular-buffer.c`: the circular buffer of the
  character driver;
* `src/examples/systemcalls/systemcalls.c`: `do_exec` and `do_exec_redirect`.

Conventions.  Pointers are natural numbers, `0` is `NULL`.  Bytes are natural
numbers (`10` is the newline, `0` the NUL byte).  C `int` counters are natural
numbers; where the C code would leave the range of `int` the worker stops in the
program point `Pc.int_overflow`, so every statement about a run that does not
stop there is a statement about a run on which the C arithmetic is exact.  The
loop that allocates the echo buffer is given a second time with the conversions
of C (`echo_alloc_loop`), for a store whose size is beyond the range of `int`.
Every call into the C library or the kernel takes its outcome from the
environment `Env` of the calling thread, one outcome per call, in call order.
-/

namespace AesdSocket

abbrev Byte := Nat
abbrev Ptr := Nat

def NULL : Ptr := 0
def NL : Byte := 10
def NUL : Byte := 0

/-- The constant `allocated_chunk_size` of `main.c`. -/
def allocated_chunk_size : Nat := 4096

def INT_MAX : Nat := 2147483647
def UINT_MODULUS : Nat := 4294967296
def ENOMEM : Int := 12
def EAGAIN : Int := 11

/-! ## resource_utils.c -/

/-- The struct `ResourcesCollector_t`.  The two containers are arrays owned by the
caller; `none` stands for a `NULL` container. -/
structure ResourcesCollector where
  allocated_mem : Option (List Ptr)
  num_of_allocated_mem : Nat
  max_num_of_allocated_mem : Nat
  open_file_fd : Option (List Int)
  num_of_open_file : Nat
  max_num_of_open_file : Nat
deriving DecidableEq, Repr

/-- The function `initialize_resource_collector` (the collector pointer is not `NULL`). -/
def initialize_resource_collector (allocated_mem_container : Option (List Ptr))
    (allocated_mem_container_size : Nat) (open_file_fd_container : Option (List Int))
    (open_file_container_size : Nat) : ResourcesCollector :=
  { allocated_mem := allocated_mem_container
    num_of_allocated_mem := 0
    max_num_of_allocated_mem :=
      match allocated_mem_container with
      | none => 0
      | some _ => allocated_mem_container_size
    open_file_fd := open_file_fd_container
    num_of_open_file := 0
    max_num_of_open_file :=
      match open_file_fd_container with
      | none => 0
      | some _ => open_file_container_size }

/-- The static function `is_allocated`: index of `ptr` among the first
`num_of_allocated_mem` slots, `-1` when absent. -/
def is_allocated (collector : ResourcesCollector) (ptr : Ptr) : Int :=
  match collector.allocated_mem with
  | none => -1
  | some mem =>
    if ptr = NULL then -1
    else
      match (List.range collector.num_of_allocated_mem).find?
          (fun i => decide (mem.getD i NULL = ptr)) with
      | some i => (i : Int)
      | none => -1

/-- Outcome of one call of `malloc` or `realloc`: the pointer returned (`NULL`
allowed, errno untouched) or a failure that returns `NULL` and sets errno. -/
inductive Alloc where
  | ok (p : Ptr)
  | fail (e : Int)
deriving DecidableEq, Repr

/-- Which C library call `malloc_wrapper` issued. -/
inductive HeapCall where
  | none
  | malloc (size : Nat)
  | realloc (p : Ptr) (size : Nat)
deriving DecidableEq, Repr

structure MallocResult where
  ret : Ptr
  error_code : Int
  collector : ResourcesCollector
  errno : Int
  call : HeapCall
deriving DecidableEq, Repr

def Alloc.ptr : Alloc → Ptr
  | .ok p => p
  | .fail _ => NULL

def Alloc.errnoAfter (errno : Int) : Alloc → Int
  | .ok _ => errno
  | .fail e => e

/-- The function `malloc_wrapper` (collector and `error_code` pointers not `NULL`).
`error_code` is the value held by `*error_code` before the call, `errno` the
errno of the thread, `libc` the outcome of the `malloc`/`realloc` call if one is made. -/
def malloc_wrapper (collector : ResourcesCollector) (buf_ptr : Ptr) (size : Nat)
    (error_code : Int) (errno : Int) (libc : Alloc) : MallocResult :=
  match collector.allocated_mem with
  | none =>
    { ret := NULL, error_code := error_code, collector := collector, errno := errno,
      call := .none }
  | some mem =>
    -- *error_code = 0;
    let (mem_index, buf_ptr1, errno1, call) :=
      if buf_ptr = NULL then
        let mem_index := collector.num_of_allocated_mem
        if mem_index < collector.max_num_of_allocated_mem then
          (mem_index, libc.ptr, libc.errnoAfter errno, HeapCall.malloc size)
        else
          (mem_index, buf_ptr, errno, HeapCall.none)
      else
        -- the int returned by is_allocated is stored into an unsigned int
        let mem_index := ((is_allocated collector buf_ptr) % (UINT_MODULUS : Int)).toNat
        if mem_index < collector.num_of_allocated_mem then
          (mem_index, libc.ptr, libc.errnoAfter errno, HeapCall.realloc buf_ptr size)
        else
          (mem_index, NULL, errno, HeapCall.none)
    if buf_ptr1 = NULL then
      { ret := NULL, error_code := errno1, collector := collector, errno := errno1,
        call := call }
    else
      { ret := buf_ptr1
        error_code := 0
        collector :=
          { collector with
            allocated_mem := some (mem.set mem_index buf_ptr1)
            num_of_allocated_mem :=
              if mem_index = collector.num_of_allocated_mem then
                collector.num_of_allocated_mem + 1
              else collector.num_of_allocated_mem }
        errno := errno1
        call := call }

/-- The function `free_wrapper`: the collector afterwards and the pointer handed to
`free`, if any. -/
def free_wrapper (collector : ResourcesCollector) (ptr : Ptr) :
    ResourcesCollector × Option Ptr :=
  match collector.allocated_mem with
  | none => (collector, none)
  | some mem =>
    if ptr = NULL then (collector, none)
    else
      let mem_index := is_allocated collector ptr
      if mem_index ≠ -1 then
        let last_mem_index := collector.num_of_allocated_mem - 1
        let shifted :=
          (List.range' mem_index.toNat (last_mem_index - mem_index.toNat)).foldl
            (fun m i => m.set i (m.getD (i + 1) NULL)) mem
        ({ collector with
            allocated_mem := some (shifted.set last_mem_index NULL)
            num_of_allocated_mem := collector.num_of_allocated_mem - 1 }, some ptr)
      else (collector, none)

/-- The function `register_fd`. -/
def register_fd (collector : ResourcesCollector) (fd : Int) : ResourcesCollector × Bool :=
  match collector.open_file_fd with
  | none => (collector, false)
  | some fds =>
    if collector.num_of_open_file < collector.max_num_of_open_file then
      ({ collector with
          open_file_fd := some (fds.set collector.num_of_open_file fd)
          num_of_open_file := collector.num_of_open_file + 1 }, true)
    else (collector, false)

/-- The function `cleanup`: the collector afterwards, the pointers freed and the
descriptors closed, in call order. -/
def cleanup (collector : ResourcesCollector) :
    ResourcesCollector × List Ptr × List Int :=
  match collector.allocated_mem, collector.open_file_fd with
  | some mem, some fds =>
    ({ collector with
        allocated_mem :=
          some ((List.range collector.num_of_allocated_mem).foldl
            (fun m i => m.set i NULL) mem)
        open_file_fd :=
          some ((List.range collector.num_of_open_file).foldl
            (fun m i => m.set i (-1)) fds)
        num_of_allocated_mem := 0
        num_of_open_file := 0 },
      (List.range collector.num_of_allocated_mem).map (fun i => mem.getD i NULL),
      (List.range collector.num_of_open_file).map (fun i => fds.getD i (-1)))
  | _, _ => (collector, [], [])

/-! ## The store: the file opened by `main` at line 137

`open(tempfile, O_CREAT | O_RDWR | O_TRUNC, S_IRWXU)`: one open file description,
shared by every thread through the same descriptor, hence one shared file offset;
the file is not opened with `O_APPEND`, so `write` stores at the current offset. -/

structure Store where
  content : List Byte
  offset : Nat
deriving DecidableEq, Repr

/-- The store right after `open` with `O_TRUNC`. -/
def Store.fresh : Store := { content := [], offset := 0 }

/-- Outcome of `fstat` or `lseek`. -/
inductive IoRes where
  | ok
  | fail (e : Int)
deriving DecidableEq, Repr

/-- Outcome of `write`, `read` or `send`: everything asked for (or everything there
is), at most `k` bytes, or `-1` with errno `e`. -/
inductive Xfer where
  | full
  | short (k : Nat)
  | fail (e : Int)
deriving DecidableEq, Repr

/-- Outcome of one `recv`: a segment of data waiting in the socket, or `-1` with
errno `e`.  When the list of outcomes is used up the peer has closed and `recv`
returns `0`. -/
inductive RecvEv where
  | data (bs : List Byte)
  | err (e : Int)
deriving DecidableEq, Repr

/-- File content after storing `bytes` at offset `off` (a gap is zero filled). -/
def pwrite (content : List Byte) (off : Nat) (bytes : List Byte) : List Byte :=
  content.take off ++ List.replicate (off - content.length) 0 ++ bytes ++
    content.drop (off + bytes.length)

/-- The call `write(output_fd, bytes, bytes.length)`: new store, return value, errno. -/
def sys_write (st : Store) (bytes : List Byte) (errno : Int) : Xfer → Store × Int × Int
  | .full =>
    ({ content := pwrite st.content st.offset bytes, offset := st.offset + bytes.length },
      bytes.length, errno)
  | .short k =>
    ({ content := pwrite st.content st.offset (bytes.take k),
       offset := st.offset + (bytes.take k).length }, (bytes.take k).length, errno)
  | .fail e => (st, -1, e)

/-- The call `read(output_fd, buf, len)`: new store, bytes placed in `buf`, return
value, errno. -/
def sys_read (st : Store) (len : Nat) (errno : Int) : Xfer → Store × List Byte × Int × Int
  | .full =>
    let bs := (st.content.drop st.offset).take len
    ({ st with offset := st.offset + bs.length }, bs, bs.length, errno)
  | .short k =>
    let bs := (st.content.drop st.offset).take (min len k)
    ({ st with offset := st.offset + bs.length }, bs, bs.length, errno)
  | .fail e => (st, [], -1, e)

/-- The call `fstat(output_fd, &statebuf)`: return value, `st_size`, errno. -/
def sys_fstat (st : Store) (errno : Int) : IoRes → Int × Nat × Int
  | .ok => (0, st.content.length, errno)
  | .fail e => (-1, 0, e)

/-- The call `lseek(output_fd, 0, SEEK_SET)`. -/
def sys_lseek_set (st : Store) (errno : Int) : IoRes → Store × Int × Int
  | .ok => ({ st with offset := 0 }, 0, errno)
  | .fail e => (st, -1, e)

/-- The call `lseek(output_fd, 0, SEEK_END)`. -/
def sys_lseek_end (st : Store) (errno : Int) : IoRes → Store × Int × Int
  | .ok => ({ st with offset := st.content.length }, st.content.length, errno)
  | .fail e => (st, -1, e)

/-- The call `send(cfd, buf, n_read, 0)` where `buf` holds `held`: bytes that reach
the client, return value, errno.  With `n_read = -1` the length argument is
`SIZE_MAX`; such a call cannot transfer its full length, so `full` is then a failure
(`EFAULT`), and `short k` transfers `k` bytes of what the buffer holds. -/
def sys_send (held : List Byte) (n_read : Int) (errno : Int) : Xfer → List Byte × Int × Int
  | .full =>
    if n_read < 0 then ([], -1, 14)
    else (held.take n_read.toNat, (held.take n_read.toNat).length, errno)
  | .short k =>
    if n_read < 0 then (held.take k, (held.take k).length, errno)
    else (held.take (min n_read.toNat k), (held.take (min n_read.toNat k)).length, errno)
  | .fail e => ([], -1, e)

/-- The call `recv(cfd, &buf[total_byte_read], space, MSG_DONTWAIT)`: return value,
bytes stored, errno, remaining outcomes.  A segment longer than `space` is cut and
its rest stays in the socket. -/
def sys_recv (inbox : List RecvEv) (space : Nat) (errno : Int) :
    Int × List Byte × Int × List RecvEv :=
  match inbox with
  | [] => (0, [], errno, [])
  | .err e :: rest => (-1, [], e, rest)
  | .data bs :: rest =>
    if bs.length ≤ space then (bs.length, bs, errno, rest)
    else (space, bs.take space, errno, .data (bs.drop space) :: rest)

/-! ## main.c: `socket_connection_thread` -/

/-- The outcomes the environment gives to one worker, one list per call site kind,
consumed in call order.  A list that is used up means success from then on (for
`recv`: the peer has closed). -/
structure Env where
  recv : List RecvEv
  alloc : List Alloc
  write : List Xfer
  fstat : List IoRes
  lseek : List IoRes
  read : List Xfer
  send : List Xfer
deriving DecidableEq, Repr

/-- What a worker does, in program order. -/
inductive Event where
  | lock
  | unlock
  | heap (c : HeapCall) (ret : Ptr)
  | free (p : Ptr)
  | recv (space : Nat) (ret : Int)
  | write (bytes : List Byte) (ret : Int)
  | fstat (ret : Int)
  | lseek_set (ret : Int)
  | lseek_end (ret : Int)
  | read (len : Nat) (ret : Int)
  | send (bytes : List Byte) (ret : Int)
  | close (fd : Int)
  | set_done
deriving DecidableEq, Repr

/-- Program points of `socket_connection_thread` between which a worker can be
preempted with an effect on the store: the top of `while (connected)` (line 429),
the three critical sections of a flush (lines 477, 499, 533), the return, and the
stop of the model when a C `int` would overflow. -/
inductive Pc where
  | recv_loop
  | flush_write
  | flush_fstat
  | flush_echo
  | returned
  | int_overflow
deriving DecidableEq, Repr

/-- Locals of `socket_connection_thread` together with `thread_params->done`, the
errno of the thread, the outcomes still to come and the events so far.  `mem` holds the
bytes `buf[0 .. total_byte_read)`, `buf_size` the size last obtained for `buf`. -/
structure Thread where
  pc : Pc
  env : Env
  errno : Int
  conn_thread_res_collector : ResourcesCollector
  cfd : Int
  connected : Bool
  error_code : Int
  available_space : Nat
  total_byte_read : Nat
  buf : Ptr
  buf_size : Nat
  mem : List Byte
  st_size : Nat
  n_byte : Nat
  done : Bool
  trace : List Event
deriving DecidableEq, Repr

/-- Lines 410 to 427: the locals at entry, the collector initialised with a
two-slot memory container and a one-slot descriptor container, `cfd` registered. -/
def Thread.init (cfd : Int) (env : Env) : Thread :=
  { pc := .recv_loop
    env := env
    errno := 0
    conn_thread_res_collector :=
      (register_fd (initialize_resource_collector (some [NULL, NULL]) 2 (some [-1]) 1) cfd).1
    cfd := cfd
    connected := true
    error_code := 0
    available_space := 0
    total_byte_read := 0
    buf := NULL
    buf_size := 0
    mem := []
    st_size := 0
    n_byte := 0
    done := false
    trace := [] }

/-- The macro `CLEAN_RETURN(conn_thread_res_collector, NULL)`. -/
def clean_return (t : Thread) : Thread :=
  let r := cleanup t.conn_thread_res_collector
  { t with
    pc := .returned
    conn_thread_res_collector := r.1
    trace := t.trace ++ r.2.1.map Event.free ++ r.2.2.map Event.close }

/-- Lines 575 to 582, reached when the loop is left: `done = true`, then
`CLEAN_RETURN`. -/
def thread_exit (t : Thread) : Thread :=
  clean_return { t with done := true, trace := t.trace ++ [Event.set_done] }

/-- One call of `malloc_wrapper(&conn_thread_res_collector, buf_ptr, size, &error_code)`
by the worker; the result is stored in `buf`. -/
def call_malloc_wrapper (t : Thread) (buf_ptr : Ptr) (size : Nat) : Thread :=
  let r := malloc_wrapper t.conn_thread_res_collector buf_ptr size t.error_code t.errno
    (t.env.alloc.headD (Alloc.ok 1))
  { t with
    env := if r.call = HeapCall.none then t.env else { t.env with alloc := t.env.alloc.tail }
    errno := r.errno
    error_code := r.error_code
    conn_thread_res_collector := r.collector
    buf := r.ret
    buf_size := if r.ret = NULL then t.buf_size else size
    trace := t.trace ++ [Event.heap r.call r.ret] }

/-- One call of `free_wrapper(&conn_thread_res_collector, buf)`; `buf` keeps its
value. -/
def call_free_wrapper (t : Thread) : Thread :=
  let r := free_wrapper t.conn_thread_res_collector t.buf
  { t with
    conn_thread_res_collector := r.1
    trace := t.trace ++ (match r.2 with | some p => [Event.free p] | none => []) }

/-- Lines 431 to 448: grow the packet buffer when no space is left. -/
def loop_alloc (t : Thread) : Thread :=
  if t.available_space = 0 then
    if t.total_byte_read + allocated_chunk_size > INT_MAX then
      { t with pc := .int_overflow }
    else
      let t1 := call_malloc_wrapper t t.buf (t.total_byte_read + allocated_chunk_size)
      if t1.buf = NULL then clean_return t1
      else { t1 with available_space := allocated_chunk_size }
  else t

/-- Lines 450 to 475: one `recv` and the test of the last byte received. -/
def loop_recv (t : Thread) : Thread :=
  let r := sys_recv t.env.recv t.available_space t.errno
  let t1 : Thread :=
    { t with
      env := { t.env with recv := r.2.2.2 }
      errno := r.2.2.1
      trace := t.trace ++ [Event.recv t.available_space r.1] }
  if r.1 = 0 then
    thread_exit { t1 with connected := false }
  else if r.1 = -1 then
    t1
  else
    let total := t1.total_byte_read + r.1.toNat
    let mem := t1.mem.take t1.total_byte_read ++ r.2.1
    let t2 : Thread :=
      { t1 with
        total_byte_read := total
        available_space := t1.available_space - r.1.toNat
        mem := mem }
    if mem.getD (total - 1) NUL ≠ NUL ∧ mem.getD (total - 1) NUL ≠ NL then
      t2
    else
      { t2 with
        mem := if mem.getD (total - 1) NUL = NUL then mem.set (total - 1) NL else mem
        pc := .flush_write }

/-- Lines 477 to 479: `lock`, `write`, `unlock`.  The last component is `written`. -/
def append_section (t : Thread) (st : Store) : Thread × Store × Int :=
  let bytes := t.mem.take t.total_byte_read
  let r := sys_write st bytes t.errno (t.env.write.headD Xfer.full)
  ({ t with
      env := { t.env with write := t.env.write.tail }
      errno := r.2.2
      trace := t.trace ++ [Event.lock, Event.write bytes r.2.1, Event.unlock] },
    r.1, r.2.1)

/-- Lines 477 to 496: the append, in its own critical section, the test of
`written`, the release of the packet buffer. -/
def flush_write (t : Thread) (st : Store) : Thread × Store :=
  if (append_section t st).2.2 ≠ (t.total_byte_read : Int) then
    (clean_return (append_section t st).1, (append_section t st).2.1)
  else
    ({ (call_free_wrapper (append_section t st).1) with
        available_space := 0, total_byte_read := 0, pc := .flush_fstat },
      (append_section t st).2.1)

/-- Lines 510 to 531: `while (buf == NULL)`, the request halved after each `ENOMEM`.
The first argument bounds the number of rounds. -/
def alloc_echo_buffer : Nat → Thread → Thread
  | 0, t => t
  | fuel + 1, t =>
    if t.buf = NULL then
      let t1 := call_malloc_wrapper t t.buf t.n_byte
      if t1.buf = NULL then
        if t1.error_code = ENOMEM then
          let t2 := { t1 with n_byte := t1.n_byte / 2 }
          if t2.n_byte = 0 then clean_return t2 else alloc_echo_buffer fuel t2
        else clean_return t1
      else if t1.n_byte = 0 then clean_return t1
      else t1
    else t

/-- Lines 499 to 506: `lock`, `fstat`, `unlock` (on failure the `unlock` of line
502).  The last component is the value returned by `fstat`. -/
def fstat_section (t : Thread) (st : Store) : Thread × Int :=
  let r := sys_fstat st t.errno (t.env.fstat.headD IoRes.ok)
  ({ t with
      env := { t.env with fstat := t.env.fstat.tail }
      errno := r.2.2
      st_size := r.2.1
      trace := t.trace ++ [Event.lock, Event.fstat r.1, Event.unlock] },
    r.1)

/-- Lines 498 to 531: `fstat` in its own critical section, then the allocation of
the echo buffer. -/
def flush_fstat (t : Thread) (st : Store) : Thread × Store :=
  if (fstat_section t st).2 ≠ 0 then
    (clean_return (fstat_section t st).1, st)
  else if (fstat_section t st).1.st_size > INT_MAX then
    ({ (fstat_section t st).1 with pc := .int_overflow }, st)
  else
    let t2 := alloc_echo_buffer ((fstat_section t st).1.st_size + 1)
      { (fstat_section t st).1 with n_byte := (fstat_section t st).1.st_size, buf := NULL }
    (if t2.pc = .flush_fstat then { t2 with pc := .flush_echo } else t2, st)

/-- The statement `pthread_mutex_unlock(mutex)`. -/
def unlock (t : Thread) : Thread :=
  { t with trace := t.trace ++ [Event.unlock] }

/-- Lines 545 to 548: one `read` of the store into the echo buffer and one `send`
of what was read; the boolean is the test `n_sent == n_read`. -/
def echo_round (t : Thread) (st : Store) : Thread × Store × Bool :=
  let r := sys_read st t.n_byte t.errno (t.env.read.headD Xfer.full)
  let held := if r.2.2.1 < 0 then t.mem else r.2.1
  let s := sys_send held r.2.2.1 r.2.2.2 (t.env.send.headD Xfer.full)
  ({ t with
      env := { t.env with read := t.env.read.tail, send := t.env.send.tail }
      errno := s.2.2
      mem := held
      trace := t.trace ++ [Event.read t.n_byte r.2.2.1, Event.send s.1 s.2.1] },
    r.1, decide (s.2.1 = r.2.2.1))

/-- Lines 543 to 562: the rounds of the `for` loop that remain.  The boolean is
false when the loop was left through the `n_sent != n_read` return. -/
def echo_loop : Nat → Thread → Store → Thread × Store × Bool
  | 0, t, st => (t, st, true)
  | rounds + 1, t, st =>
    if (echo_round t st).2.2 = false then
      (clean_return (unlock (echo_round t st).1), (echo_round t st).2.1, false)
    else echo_loop rounds (echo_round t st).1 (echo_round t st).2.1

/-- Lines 533 and 534: `lock`, then `lseek(output_fd, 0, SEEK_SET)`.  The last
component is the value returned by `lseek`. -/
def echo_begin (t : Thread) (st : Store) : Thread × Store × Int :=
  let r := sys_lseek_set st t.errno (t.env.lseek.headD IoRes.ok)
  ({ t with
      env := { t.env with lseek := t.env.lseek.tail }
      errno := r.2.2
      mem := []
      trace := t.trace ++ [Event.lock, Event.lseek_set r.2.1] },
    r.1, r.2.1)

/-- Line 564: `lseek(output_fd, 0, SEEK_END)`. -/
def echo_end (t : Thread) (st : Store) : Thread × Store × Int :=
  let r := sys_lseek_end st t.errno (t.env.lseek.headD IoRes.ok)
  ({ t with
      env := { t.env with lseek := t.env.lseek.tail }
      errno := r.2.2
      trace := t.trace ++ [Event.lseek_end r.2.1] },
    r.1, r.2.1)

/-- The result of the `for` loop of line 543, entered after `echo_begin`. -/
def echo_rounds (t : Thread) (st : Store) : Thread × Store × Bool :=
  echo_loop (((echo_begin t st).1.st_size + (echo_begin t st).1.n_byte - 1) /
      (echo_begin t st).1.n_byte) (echo_begin t st).1 (echo_begin t st).2.1

/-- Lines 533 to 572: the echo, in its own critical section, and the release of
the echo buffer. -/
def flush_echo (t : Thread) (st : Store) : Thread × Store :=
  if (echo_begin t st).2.2 = -1 then
    (clean_return (unlock (echo_begin t st).1), (echo_begin t st).2.1)
  else if (echo_rounds t st).2.2 = false then
    ((echo_rounds t st).1, (echo_rounds t st).2.1)
  else if (echo_end (echo_rounds t st).1 (echo_rounds t st).2.1).2.2 = -1 then
    (clean_return (unlock (echo_end (echo_rounds t st).1 (echo_rounds t st).2.1).1),
      (echo_end (echo_rounds t st).1 (echo_rounds t st).2.1).2.1)
  else
    ({ (call_free_wrapper (unlock (echo_end (echo_rounds t st).1 (echo_rounds t st).2.1).1))
        with pc := .recv_loop },
      (echo_end (echo_rounds t st).1 (echo_rounds t st).2.1).2.1)

/-- One scheduling step of a worker: from its program point to the next one. -/
def step (t : Thread) (st : Store) : Thread × Store :=
  match t.pc with
  | .recv_loop =>
    let t1 := loop_alloc t
    if t1.pc = .recv_loop then (loop_recv t1, st) else (t1, st)
  | .flush_write => flush_write t st
  | .flush_fstat => flush_fstat t st
  | .flush_echo => flush_echo t st
  | .returned => (t, st)
  | .int_overflow => (t, st)

/-- Run a worker alone for `fuel` scheduling steps (a worker that has returned
stays as it is). -/
def run : Nat → Thread → Store → Thread × Store
  | 0, t, st => (t, st)
  | fuel + 1, t, st => run fuel (step t st).1 (step t st).2

/-- Size of what `recv` can still deliver: one unit per outcome and per byte. -/
def recvMeasure : List RecvEv → Nat
  | [] => 0
  | .data bs :: rest => bs.length + 1 + recvMeasure rest
  | .err _ :: rest => 1 + recvMeasure rest

/-- The function `socket_connection_thread` run to its return with no other thread
active: one `recv` uses up at least one unit of `recvMeasure` and a flush takes
three further steps. -/
def socket_connection_thread (cfd : Int) (env : Env) (st : Store) : Thread × Store :=
  run (4 * recvMeasure env.recv + 4) (Thread.init cfd env) st

/-- The byte strings stored by the `write` calls that did not fail, in order. -/
def appended : List Event → List (List Byte)
  | [] => []
  | .write bs ret :: rest =>
    if ret < 0 then appended rest else (bs.take ret.toNat) :: appended rest
  | _ :: rest => appended rest

/-- The bytes that reached the client in each `send` call, in order. -/
def sendCalls : List Event → List (List Byte)
  | [] => []
  | .send bs _ :: rest => bs :: sendCalls rest
  | _ :: rest => sendCalls rest

/-- The bytes sent to the client, in order. -/
def sentBytes (trace : List Event) : List Byte :=
  (sendCalls trace).flatten

/-! ## Predicates used in the statements about the worker -/

/-- The environment lets every call succeed: `malloc` and `realloc` return a
pointer that is not `NULL`, `write`, `read` and `send` transfer all they are asked
to, `fstat` and `lseek` succeed.  (Nothing is asked of `recv`.) -/
structure Env.Succeeds (e : Env) : Prop where
  alloc : ∀ a ∈ e.alloc, ∃ p, p ≠ NULL ∧ a = Alloc.ok p
  write : ∀ w ∈ e.write, w = Xfer.full
  fstat : ∀ x ∈ e.fstat, x = IoRes.ok
  lseek : ∀ x ∈ e.lseek, x = IoRes.ok
  read : ∀ x ∈ e.read, x = Xfer.full
  send : ∀ x ∈ e.send, x = Xfer.full

/-- An environment in which only the outcomes of `recv` are listed; every other
call succeeds. -/
def Env.ofRecv (r : List RecvEv) : Env :=
  { recv := r, alloc := [], write := [], fstat := [], lseek := [], read := [], send := [] }

/-- The pointer in `buf` is live and is the one entry of the collector. -/
structure Thread.Tracked (t : Thread) : Prop where
  mem : t.conn_thread_res_collector.allocated_mem = some [t.buf, NULL]
  num : t.conn_thread_res_collector.num_of_allocated_mem = 1
  max : t.conn_thread_res_collector.max_num_of_allocated_mem = 2
  buf : t.buf ≠ NULL

/-- The collector tracks no memory. -/
structure Thread.Untracked (t : Thread) : Prop where
  mem : t.conn_thread_res_collector.allocated_mem = some [NULL, NULL]
  num : t.conn_thread_res_collector.num_of_allocated_mem = 0
  max : t.conn_thread_res_collector.max_num_of_allocated_mem = 2

/-- Space offered to the next `recv`. -/
def Thread.space (t : Thread) : Nat :=
  if t.available_space = 0 then allocated_chunk_size else t.available_space

/-- The packet the worker makes of the bytes accumulated when it flushes: a
final NUL byte becomes a newline. -/
def packetOf (l : List Byte) : List Byte :=
  if l.getLast? = some NUL then l.dropLast ++ [NL] else l

/-- A chunk whose last byte is a newline or NUL: the worker flushes after it. -/
def endsPacket (c : List Byte) : Prop :=
  c.getLast? = some NL ∨ c.getLast? = some NUL

instance (c : List Byte) : Decidable (endsPacket c) := by
  unfold endsPacket; infer_instance

/-- The worker is at the top of its loop with `acc` accumulated in the buffer. -/
structure Thread.Accumulating (t : Thread) (acc : List Byte) : Prop where
  pc : t.pc = Pc.recv_loop
  mem : t.mem = acc
  total : t.total_byte_read = acc.length
  env : t.env.Succeeds
  coll : (t.buf = NULL ∧ t.Untracked ∧ t.available_space = 0) ∨ t.Tracked

/-- The worker is about to append `bytes`. -/
structure Thread.Ready (t : Thread) (bytes : List Byte) : Prop where
  pc : t.pc = Pc.flush_write
  mem : t.mem = bytes
  total : t.total_byte_read = bytes.length
  env : t.env.Succeeds
  coll : t.Tracked

/-- Each chunk is at most the space `recv` is offered when it arrives, starting
with `avail` bytes of space left in the buffer. -/
def Fits : Nat → List (List Byte) → Prop
  | _, [] => True
  | avail, c :: cs =>
    c.length ≤ (if avail = 0 then allocated_chunk_size else avail) ∧
      Fits ((if avail = 0 then allocated_chunk_size else avail) - c.length) cs

instance Fits.instDecidable : ∀ (avail : Nat) (cs : List (List Byte)), Decidable (Fits avail cs)
  | _, [] => isTrue trivial
  | avail, c :: cs =>
    have := Fits.instDecidable ((if avail = 0 then allocated_chunk_size else avail) - c.length) cs
    inferInstanceAs (Decidable
      (c.length ≤ (if avail = 0 then allocated_chunk_size else avail) ∧
        Fits ((if avail = 0 then allocated_chunk_size else avail) - c.length) cs))

/-- The newline-terminated segments of a byte sequence, each with its newline, in
order (the packets of the wire protocol); `cur` holds the bytes of the segment
under way. -/
def segmentsFrom : List Byte → List Byte → List (List Byte)
  | _, [] => []
  | cur, b :: bs =>
    if b = NL then (cur ++ [b]) :: segmentsFrom [] bs else segmentsFrom (cur ++ [b]) bs

def segments (bytes : List Byte) : List (List Byte) :=
  segmentsFrom [] bytes

/-- The worker has left `socket_connection_thread` (or the model has stopped at an
`int` overflow). -/
def Pc.final : Pc → Bool
  | .returned => true
  | .int_overflow => true
  | _ => false

/-- A bound on the number of steps a worker can still take: four per unit of
`recvMeasure`, plus the sections of the flush under way. -/
def Thread.potential (t : Thread) : Nat :=
  4 * recvMeasure t.env.recv +
    match t.pc with
    | .flush_write => 3
    | .flush_fstat => 2
    | .flush_echo => 1
    | _ => 0

/-! ## Reading the mutex discipline off a trace -/

/-- Events that touch neither the mutex nor the store nor the data of the socket:
heap calls, `close`, and the store to `done`. -/
def Event.offStore : Event → Bool
  | .heap _ _ => true
  | .free _ => true
  | .close _ => true
  | .set_done => true
  | _ => false

/-- The events `lock` and `unlock`. -/
def Event.isMutex : Event → Bool
  | .lock => true
  | .unlock => true
  | _ => false

/-- A `send` occurs in the trace. -/
def hasSend : List Event → Bool
  | [] => false
  | .send _ _ :: _ => true
  | _ :: rest => hasSend rest

/-- An `unlock` occurs in the trace and a `send` after it. -/
def unlockBeforeSend : List Event → Bool
  | [] => false
  | .unlock :: rest => hasSend rest || unlockBeforeSend rest
  | _ :: rest => unlockBeforeSend rest

/-- The mutex is released between an append (`write`) and a later `send` of the
echo. -/
def unlockBetweenWriteAndSend : List Event → Bool
  | [] => false
  | .write _ _ :: rest => unlockBeforeSend rest || unlockBetweenWriteAndSend rest
  | _ :: rest => unlockBetweenWriteAndSend rest

/-! ## main.c: the ticker and the interleaving of the threads

The store mutex makes each critical section atomic with respect to the store, and
outside its critical sections a thread touches only its own locals and socket.  A
run of the server is therefore an interleaving of the steps of `step` (each holds
at most one critical section) and of the `timer_handler` of the ticker. -/

/-- The macro `TIMESTAMP_PREFIX`, the string `timestamp:`. -/
def TIMESTAMP_PREFIX : List Byte := [116, 105, 109, 101, 115, 116, 97, 109, 112, 58]

/-- The C function `strlen` on an array: the number of bytes before the first NUL. -/
def strlen (s : List Byte) : Nat :=
  (s.takeWhile (fun b => decide (b ≠ NUL))).length

/-- The function `timer_handler`.  `window` is what `strftime` left in the 54 bytes
from `&cur_timestamp[10]` on (the array is zero beyond its initialiser); the
bytes written are the array up to its first NUL. -/
def timer_handler (window : List Byte) (st : Store) (w : Xfer) : Store × List Event :=
  let cur_timestamp := TIMESTAMP_PREFIX ++ (window ++ List.replicate 54 NUL).take 54
  let bytes := cur_timestamp.take (strlen cur_timestamp)
  let r := sys_write st bytes 0 w
  (r.1, [Event.lock, Event.write bytes r.2.1, Event.unlock])

/-- The store, the workers spawned so far, and the indices of the workers in the
order in which their append sections (lines 477 to 479) took the mutex. -/
structure System where
  store : Store
  workers : List Thread
  order : List Nat
deriving Repr

/-- A scheduling choice: worker `i` runs to its next program point, or the timer
fires. -/
inductive Sched where
  | worker (i : Nat)
  | tick (window : List Byte) (w : Xfer)
deriving DecidableEq, Repr

def System.step (s : System) : Sched → System
  | .worker i =>
    match s.workers[i]? with
    | none => s
    | some t =>
      { store := (AesdSocket.step t s.store).2
        workers := s.workers.set i (AesdSocket.step t s.store).1
        order := if t.pc = Pc.flush_write then s.order ++ [i] else s.order }
  | .tick window w => { s with store := (timer_handler window s.store w).1 }

def System.exec (s : System) (sched : List Sched) : System :=
  sched.foldl System.step s

/-- The server after `main` has opened the store and accepted the given
connections (descriptor and environment of each worker). -/
def System.init (conns : List (Int × Env)) : System :=
  { store := Store.fresh
    workers := conns.map (fun c => Thread.init c.1 c.2)
    order := [] }

/-- The bytes sent to the client of worker `i`. -/
def System.echo (s : System) (i : Nat) : List Byte :=
  match s.workers[i]? with
  | none => []
  | some t => sentBytes t.trace

/-! ### N clients, one packet each -/

/-- The packet of client `i`, when `chunks` lists for every client the recv results
in which its packet arrives. -/
def pktOf (chunks : List (List (List Byte))) (i : Nat) : List Byte :=
  (chunks.getD i []).flatten

/-- The packets of the clients `order`, one after the other. -/
def concatOf (chunks : List (List (List Byte))) (order : List Nat) : List Byte :=
  (order.map (pktOf chunks)).flatten

/-- Client environment `env` delivers one packet in the recv results `ch` and then
closes: the results are non-empty, each at most the space offered, the last one
ends in a newline and none before it ends in a newline or NUL; every other call
succeeds. -/
structure OnePacket (env : Env) (ch : List (List Byte)) : Prop where
  succeeds : env.Succeeds
  stream : env.recv = ch.map RecvEv.data
  chunks : ∀ x ∈ ch, x ≠ []
  body : ∀ x ∈ ch.dropLast, ¬ endsPacket x
  last : ∃ c, ch.getLast? = some c ∧ c.getLast? = some NL
  fits : Fits 0 ch

/-- Worker `i` has sent its client one echo: the packets of the first `j` appends,
its own among them. -/
def Echoed (chunks : List (List (List Byte))) (order : List Nat) (i : Nat) (t : Thread) :
    Prop :=
  ∃ j, j ≤ order.length ∧ i ∈ order.take j ∧
    sendCalls t.trace = [concatOf chunks (order.take j)]

/-- Where worker `i` stands after `k` of its own steps, `n` being the number of
recv results its packet arrives in. -/
def Phase (chunks : List (List (List Byte))) (order : List Nat) (i k : Nat) (t : Thread) :
    Prop :=
  (k < (chunks.getD i []).length ∧
      t.Accumulating ((chunks.getD i []).take k).flatten ∧
      t.env.recv = ((chunks.getD i []).drop k).map RecvEv.data ∧
      Fits t.available_space ((chunks.getD i []).drop k) ∧
      sendCalls t.trace = [] ∧ i ∉ order) ∨
  (k = (chunks.getD i []).length ∧
      t.Ready (pktOf chunks i) ∧ sendCalls t.trace = [] ∧ i ∉ order) ∨
  (k = (chunks.getD i []).length + 1 ∧
      t.pc = Pc.flush_fstat ∧ t.Untracked ∧ t.buf ≠ NULL ∧ t.env.Succeeds ∧
      t.available_space = 0 ∧ t.total_byte_read = 0 ∧ sendCalls t.trace = [] ∧ i ∈ order) ∨
  (k = (chunks.getD i []).length + 2 ∧
      t.pc = Pc.flush_echo ∧ t.Tracked ∧ t.env.Succeeds ∧ t.st_size = t.n_byte ∧
      t.available_space = 0 ∧ t.total_byte_read = 0 ∧ sendCalls t.trace = [] ∧
      ∃ j, j ≤ order.length ∧ i ∈ order.take j ∧
        t.n_byte = (concatOf chunks (order.take j)).length) ∨
  (k = (chunks.getD i []).length + 3 ∧
      t.pc = Pc.recv_loop ∧ t.Untracked ∧ t.buf ≠ NULL ∧ t.available_space = 0 ∧
      t.total_byte_read = 0 ∧ Echoed chunks order i t) ∨
  ((chunks.getD i []).length + 4 ≤ k ∧ t.pc = Pc.returned ∧ Echoed chunks order i t)

/-- What holds of every state the `N` workers reach, `k i` being the number of
steps worker `i` has been scheduled for. -/
structure Inv (chunks : List (List (List Byte))) (s : System) (k : Nat → Nat) : Prop where
  off : s.store.offset = s.store.content.length
  content : s.store.content = concatOf chunks s.order
  nodup : s.order.Nodup
  bound : ∀ i ∈ s.order, i < chunks.length
  len : s.workers.length = chunks.length
  phase : ∀ i t, s.workers[i]? = some t → Phase chunks s.order i (k i) t

/-- Every client sends one packet: `chunks` lists the recv results of each. -/
def OnePacketEach (conns : List (Int × Env)) (chunks : List (List (List Byte))) : Prop :=
  conns.length = chunks.length ∧
    ∀ i (h : i < conns.length), OnePacket (conns[i]).2 (chunks.getD i [])

/-! ## main.c: the registry of workers

The registry is the singly linked list headed by `thread_list_head` (the
`SLIST_*` macros of `<sys/queue.h>`), with `last_thread_node` pointing at the node
inserted last.  Nodes and descriptors live on the heap.  A freed cell keeps what it
last held; every read or write of a freed cell, and every second `free` of a cell,
is recorded in `uaf`, and the dereference of a pointer that points at no cell
(`NULL` included) stops the function with `fault` set. -/

/-- The struct `ThreadNode_t`; `next` is `node.sle_next`. -/
structure ThreadNode where
  thread_id : Nat
  thread_params : Ptr
  next : Ptr
deriving DecidableEq, Repr

/-- The heap cells of the registry and the locals of `main` that refer to them:
`node` and `done` give what the `ThreadNode_t` and the `ConnThreadParams_t` (its
`done` field) at an address hold, `node_live` and `params_live` whether the cell is
allocated; `joined` and `freed` list the `pthread_join` and `free` calls so far. -/
structure Registry where
  node : Ptr → Option ThreadNode
  done : Ptr → Option Bool
  node_live : Ptr → Bool
  params_live : Ptr → Bool
  slh_first : Ptr
  last_thread_node : Ptr
  joined : List Nat
  freed : List Ptr
  uaf : Bool
  fault : Bool

/-- The registry after `SLIST_INIT`, with `last_thread_node = NULL`. -/
def Registry.empty : Registry :=
  { node := fun _ => none
    done := fun _ => none
    node_live := fun _ => false
    params_live := fun _ => false
    slh_first := NULL
    last_thread_node := NULL
    joined := []
    freed := []
    uaf := false
    fault := false }

/-- A read through a `ThreadNode_t *`. -/
def Registry.load (r : Registry) (p : Ptr) : Option (ThreadNode × Registry) :=
  match r.node p with
  | none => none
  | some n => some (n, if r.node_live p then r else { r with uaf := true })

/-- A read of `thread_params->done`. -/
def Registry.load_done (r : Registry) (p : Ptr) : Option (Bool × Registry) :=
  match r.done p with
  | none => none
  | some d => some (d, if r.params_live p then r else { r with uaf := true })

/-- The assignment `p->node.sle_next = q`. -/
def Registry.store_next (r : Registry) (p q : Ptr) : Option Registry :=
  match r.node p with
  | none => none
  | some n =>
    some { r with
      node := Function.update r.node p (some { n with next := q })
      uaf := r.uaf || !r.node_live p }

/-- The call `free(node)`. -/
def Registry.free_node (r : Registry) (p : Ptr) : Registry :=
  { r with
    node_live := Function.update r.node_live p false
    freed := r.freed ++ [p]
    uaf := r.uaf || !r.node_live p }

/-- The call `free(node->thread_params)`. -/
def Registry.free_params (r : Registry) (p : Ptr) : Registry :=
  { r with
    params_live := Function.update r.params_live p false
    freed := r.freed ++ [p]
    uaf := r.uaf || !r.params_live p }

/-- The call `pthread_join(thread_id, NULL)`. -/
def Registry.join (r : Registry) (thread_id : Nat) : Registry :=
  { r with joined := r.joined ++ [thread_id] }

/-- The loop `while (curelm->field.sle_next != (elm)) curelm = curelm->field.sle_next`
of `SLIST_REMOVE`: the node before `elm`.  The outer `none` means that the loop did
not end within `fuel` rounds, the inner one a fault. -/
def slist_find_prev : Nat → Registry → Ptr → Ptr → Option (Option (Ptr × Registry))
  | 0, _, _, _ => none
  | fuel + 1, r, curelm, elm =>
    match r.load curelm with
    | none => some none
    | some (n, r1) =>
      if n.next ≠ elm then slist_find_prev fuel r1 n.next elm
      else some (some (curelm, r1))

/-- The macro `SLIST_REMOVE(head, elm, ThreadNode, node)`. -/
def slist_remove (fuel : Nat) (r : Registry) (elm : Ptr) : Option Registry :=
  if r.slh_first = elm then
    -- SLIST_REMOVE_HEAD: head->slh_first = head->slh_first->node.sle_next
    match r.load r.slh_first with
    | none => some { r with fault := true }
    | some (n, r1) => some { r1 with slh_first := n.next }
  else
    match slist_find_prev fuel r r.slh_first elm with
    | none => none
    | some none => some { r with fault := true }
    | some (some (curelm, r1)) =>
      -- curelm->node.sle_next = curelm->node.sle_next->node.sle_next
      match r1.load elm with
      | none => some { r1 with fault := true }
      | some (e, r2) =>
        match r2.store_next curelm e.next with
        | none => some { r2 with fault := true }
        | some r3 => some r3

/-- The `SLIST_FOREACH` loop of `handle_completed_threads` from the test `(node)`
on, with the update `node = node->node.sle_next` at the end of each round. -/
def reap_loop : Nat → Registry → Ptr → Ptr → Option Registry
  | 0, _, _, _ => none
  | fuel + 1, r, node, prev_node =>
    if node = NULL then some r
    else
      match r.load node with
      | none => some { r with fault := true }
      | some (n, r1) =>
        match r1.load_done n.thread_params with
        | none => some { r1 with fault := true }
        | some (d, r2) =>
          if d then
            match slist_remove fuel ((r2.join n.thread_id).free_params n.thread_params) node with
            | none => none
            | some r3 =>
              if r3.fault then some r3
              else
                -- free(node); node = prev_node; then node = node->node.sle_next
                match (r3.free_node node).load prev_node with
                | none => some { r3.free_node node with fault := true }
                | some (pn, r4) => reap_loop fuel r4 pn.next prev_node
          else
            -- prev_node = node; then node = node->node.sle_next
            reap_loop fuel r2 n.next node

/-- The function `handle_completed_threads` (its argument is `&thread_list_head`,
not `NULL`). -/
def handle_completed_threads (fuel : Nat) (r : Registry) : Option Registry :=
  reap_loop fuel r r.slh_first r.slh_first

/-- Lines 289 to 315 of `main` when `spawn_connection_thread` and the `malloc` of
the node succeed: completed workers are reaped, the descriptor is allocated at
`params` with `done = false`, the node at `node`, and the node is inserted at the
head of an empty list or after `last_thread_node`. -/
def register_worker (fuel : Nat) (r : Registry) (tid : Nat) (params node : Ptr) :
    Option Registry :=
  match handle_completed_threads fuel r with
  | none => none
  | some r1 =>
    if r1.fault then some r1
    else
      let r2 : Registry :=
        { r1 with
          done := Function.update r1.done params (some false)
          params_live := Function.update r1.params_live params true
          node := Function.update r1.node node
            (some { thread_id := tid, thread_params := params,
                    next := match r1.node node with
                      | some old => old.next
                      | none => NULL })
          node_live := Function.update r1.node_live node true }
      if r2.slh_first = NULL then
        -- SLIST_INSERT_HEAD
        match r2.store_next node r2.slh_first with
        | none => some { r2 with fault := true }
        | some r3 => some { r3 with slh_first := node, last_thread_node := node }
      else
        -- SLIST_INSERT_AFTER(last_thread_node, thread_node, node)
        match r2.load r2.last_thread_node with
        | none => some { r2 with fault := true }
        | some (l, r3) =>
          match r3.store_next node l.next with
          | none => some { r3 with fault := true }
          | some r4 =>
            match r4.store_next r4.last_thread_node node with
            | none => some { r4 with fault := true }
            | some r5 => some { r5 with last_thread_node := node }

/-- The worker whose descriptor is at `params` executes `thread_params->done = true`
(line 580). -/
def Registry.set_done (r : Registry) (params : Ptr) : Registry :=
  { r with done := Function.update r.done params (some true) }

/-- The nodes met from `p` on by following `node.sle_next`, at most `fuel` of them. -/
def Registry.chain : Nat → Registry → Ptr → List Ptr
  | 0, _, _ => []
  | fuel + 1, r, p =>
    if p = NULL then []
    else
      match r.node p with
      | none => []
      | some n => p :: Registry.chain fuel r n.next

/-- The nodes reachable from the head of the registry. -/
def Registry.members (fuel : Nat) (r : Registry) : List Ptr :=
  Registry.chain fuel r r.slh_first

/-- The drain loop of `main`, lines 336 to 344, with the number of rounds made. -/
def drain_loop : Nat → Registry → Nat → Option (Registry × Nat)
  | 0, _, _ => none
  | fuel + 1, r, rounds =>
    if r.slh_first = NULL then some (r, rounds)
    else
      match r.load r.slh_first with
      | none => some ({ r with fault := true }, rounds)
      | some (n, r1) =>
        match slist_remove fuel ((r1.join n.thread_id).free_params n.thread_params)
            r.slh_first with
        | none => none
        | some r2 =>
          if r2.fault then some (r2, rounds)
          else drain_loop fuel (r2.free_node r.slh_first) (rounds + 1)

/-- The list that starts at `p` consists of the cells `ns` (address and content), in
this order, each allocated and with an allocated descriptor, and ends in `NULL`. -/
def Registry.IsList (r : Registry) : Ptr → List (Ptr × ThreadNode) → Prop
  | p, [] => p = NULL
  | p, (a, n) :: rest =>
    p = a ∧ a ≠ NULL ∧ r.node a = some n ∧ r.node_live a = true ∧
      r.params_live n.thread_params = true ∧ Registry.IsList r n.next rest

/-- A registry in the state `main` keeps it in: the cells `ns` reachable from the
head are distinct, so are their descriptors, and nothing has gone wrong so far. -/
structure Registry.WellFormed (r : Registry) (ns : List (Ptr × ThreadNode)) : Prop where
  list : r.IsList r.slh_first ns
  nodes : (ns.map Prod.fst).Nodup
  params : (ns.map (fun x => x.2.thread_params)).Nodup
  uaf : r.uaf = false
  fault : r.fault = false

/-- A registry of two workers: node `201` (thread 1, descriptor `101`) followed by
node `202` (thread 2, descriptor `102`, `done` set). -/
def Registry.twoWorkers : Registry :=
  { node := fun p =>
      if p = 201 then some { thread_id := 1, thread_params := 101, next := 202 }
      else if p = 202 then some { thread_id := 2, thread_params := 102, next := NULL }
      else none
    done := fun p => if p = 101 then some false else if p = 102 then some true else none
    node_live := fun p => decide (p = 201 ∨ p = 202)
    params_live := fun p => decide (p = 101 ∨ p = 102)
    slh_first := 201
    last_thread_node := 202
    joined := []
    freed := []
    uaf := false
    fault := false }

/-! ## socket_server.c -/

def SOCKET_SERVER_SETUP_OK : Int := 0
def SOCKET_SERVER_GET_ADDRINFO_FAILED : Int := 1
def SOCKET_SERVER_CREATE_FAILED : Int := 2
def SOCKET_SERVER_BIND_FAILED : Int := 3
def SOCKET_SERVER_WAIT_CONN_OK : Int := 0
def SOCKET_SERVER_WAIT_CONN_FAILED : Int := 1
def SOCKET_SERVER_INVALID_PARAM : Int := -1

def EINTR : Int := 4
def EBADF : Int := 9

/-- Outcome of a call that returns a new descriptor (`open`, `socket`, `accept`):
the descriptor, or `-1` with errno `e`. -/
inductive FdRes where
  | ok (fd : Nat)
  | fail (e : Int)
deriving DecidableEq, Repr

def FdRes.ret : FdRes → Int
  | .ok fd => fd
  | .fail _ => -1

def FdRes.errnoAfter (errno : Int) : FdRes → Int
  | .ok _ => errno
  | .fail e => e

def IoRes.ret : IoRes → Int
  | .ok => 0
  | .fail _ => -1

def IoRes.errnoAfter (errno : Int) : IoRes → Int
  | .ok => errno
  | .fail e => e

/-- Outcomes of the calls made by one `create_socket_server`: the value returned by
`getaddrinfo` (`0` on success, and only then is `sockaddrinfo` set), the outcome of
`socket`, and the outcome of `bind` when it is given an open descriptor. -/
structure ServerCalls where
  getaddrinfo : Int
  socket : FdRes
  bind : IoRes
deriving DecidableEq, Repr

/-- The three calls succeed and `socket` returns descriptor `4`. -/
def ServerCalls.success : ServerCalls :=
  { getaddrinfo := 0, socket := .ok 4, bind := .ok }

/-- The call `bind(*sfd, ...)`: return value and errno.  On `-1`, the value left in
`*sfd` by a failed `socket`, the call fails with `EBADF`. -/
def sys_bind (sfd : Int) (errno : Int) (o : IoRes) : Int × Int :=
  if sfd = -1 then (-1, EBADF) else (o.ret, o.errnoAfter errno)

/-- What `create_socket_server` leaves behind: its return value, `*sfd`,
`*error_code`, errno, and the descriptors it has passed to `close`. -/
structure ServerResult where
  ret : Int
  sfd : Int
  error_code : Int
  errno : Int
  closed : List Int
deriving DecidableEq, Repr

/-- The function `create_socket_server` called with no `NULL` argument.  The
result `none` stands for the read of `sockaddrinfo->ai_family` at line 69 through
the pointer that a failed `getaddrinfo` has left `NULL`: the function does not
return. -/
def create_socket_server (errno : Int) (c : ServerCalls) : Option ServerResult :=
  -- *error_code = 0; rc = getaddrinfo(NULL, port, &hint, &sockaddrinfo);
  let rc := c.getaddrinfo
  let error_code1 : Int := if rc ≠ 0 then rc else 0
  let ret1 : Int :=
    if rc ≠ 0 then SOCKET_SERVER_GET_ADDRINFO_FAILED else SOCKET_SERVER_SETUP_OK
  if rc ≠ 0 then none
  else
    -- *sfd = socket(...)
    let sfd := c.socket.ret
    let errno2 := c.socket.errnoAfter errno
    let error_code2 : Int := if sfd = -1 then errno2 else error_code1
    let ret2 : Int := if sfd = -1 then SOCKET_SERVER_CREATE_FAILED else ret1
    -- rc = bind(*sfd, ...)
    let b := sys_bind sfd errno2 c.bind
    let error_code3 : Int := if b.1 = -1 then b.2 else error_code2
    let ret3 : Int := if b.1 = -1 then SOCKET_SERVER_BIND_FAILED else ret2
    some
      { ret := ret3
        sfd := sfd
        error_code := error_code3
        errno := b.2
        closed := if ret3 > SOCKET_SERVER_CREATE_FAILED then [sfd] else [] }

/-- The function `wait_connection` called with no `NULL` argument: return value,
`*cfd`, `*error_code`, errno. -/
def wait_connection (error_code errno : Int) (a : FdRes) : Int × Int × Int × Int :=
  if a.ret = -1 then
    (SOCKET_SERVER_WAIT_CONN_FAILED, a.ret, a.errnoAfter errno, a.errnoAfter errno)
  else (SOCKET_SERVER_WAIT_CONN_OK, a.ret, error_code, a.errnoAfter errno)

/-! ## conn_thread.c -/

/-- The function `spawn_connection_thread` called with no `NULL` argument: its
result, `*thread_params_ptr` (left `NULL` on failure) and `*error_code`.  `params` is
the outcome of the `malloc` of the descriptor, `created` the value returned by
`pthread_create`. -/
def spawn_connection_thread (error_code : Int) (params : Alloc) (created : Int) :
    Bool × Ptr × Int :=
  if params.ptr = NULL then (false, NULL, error_code)
  else if created ≠ 0 then (false, NULL, created)
  else (true, params.ptr, created)

/-! ## main.c: the function `main` -/

/-- The enum `SystemState_t`. -/
inductive SystemState_t where
  | SYSTEM_STATE_INIT
  | SYSTEM_STATE_SOCK_CREATED
  | SYSTEM_STATE_SOCK_START_LISTENING
  | SYSTEM_STATE_SOCK_WAITING_CONN
deriving DecidableEq, Repr

/-- The value of an enumerator. -/
def SystemState_t.toNat : SystemState_t → Nat
  | .SYSTEM_STATE_INIT => 0
  | .SYSTEM_STATE_SOCK_CREATED => 1
  | .SYSTEM_STATE_SOCK_START_LISTENING => 2
  | .SYSTEM_STATE_SOCK_WAITING_CONN => 3

/-- Outcome of `fork`: `0` in the child, `-1` with errno `e`, or the pid of the
child in the parent. -/
inductive ForkRes where
  | child
  | fail (e : Int)
  | parent
deriving DecidableEq, Repr

/-- Outcomes of the calls `main` makes before its loop (lines 127 to 161). -/
structure SetupCalls where
  mutex_init : Int
  open_store : FdRes
  sigaction_int : IoRes
  sigaction_term : IoRes
deriving DecidableEq, Repr

/-- One connection taken by `accept` and the outcomes of the calls `main` makes for
it: `completed` lists the descriptors of the workers that have executed
`thread_params->done = true` since the previous walk of the registry, `params` is the
outcome of the `malloc` in `spawn_connection_thread`, `created` the value returned by
`pthread_create`, `thread_id` the id it stores, `node` the outcome of the `malloc`
of the `ThreadNode_t`. -/
structure Conn where
  cfd : Nat
  completed : List Ptr
  params : Alloc
  created : Int
  thread_id : Nat
  node : Alloc
deriving DecidableEq, Repr

/-- Outcome of one `accept`: a connection, or `-1` with errno `e`. -/
inductive AcceptRes where
  | conn (c : Conn)
  | fail (e : Int)
deriving DecidableEq, Repr

def AcceptRes.fd : AcceptRes → FdRes
  | .conn c => .ok c.cfd
  | .fail e => .fail e

/-- The outcomes the environment gives to `main` inside its loop, one list per call
site, consumed in call order.  `signal` is consumed by the test of the `while`
at line 180: `true` when `signal_handler` has run for `SIGINT` or `SIGTERM` since the
previous test.  A list that is used up means: no signal; success of
`create_socket_server` with descriptor `4`, of `fork` (in the child), of the timer
calls and of `listen`; for `accept`, no client connects and the call returns `-1`
with `EINTR`. -/
structure MainEnv where
  signal : List Bool
  server : List ServerCalls
  fork : List ForkRes
  timer_create : List IoRes
  timer_settime : List IoRes
  listen : List IoRes
  accept : List AcceptRes
deriving DecidableEq, Repr

/-- Where the process is: at the test of the `while` of line 180, returned from
`main` with a status, stopped by an invalid memory access, or in a walk of the
registry that did not end within the bound of the model. -/
inductive MainPc where
  | loop
  | returned (status : Int)
  | fault
  | hung
deriving DecidableEq, Repr

/-- Calls made by `main` that are visible outside the process, in program order. -/
inductive MainEvent where
  | create_socket_server (ret : Option Int)
  | fork (r : ForkRes)
  | timer_create (ret : Int)
  | timer_settime (ret : Int)
  | timer_delete
  | listen (ret : Int)
  | accept (ret : Int)
  | pthread_create (ret : Int)
  | close (fd : Int)
  | mutex_destroy
deriving DecidableEq, Repr

/-- The globals `interrupt_signal_received` and `system_state`, the locals of `main`,
the registry, whether the file `/var/tmp/aesdsocketdata` exists, the number of
workers created, the outcomes still to come and the calls so far. -/
structure Main where
  pc : MainPc
  env : MainEnv
  errno : Int
  interrupt_signal_received : Bool
  system_state : SystemState_t
  main_thread_res_collector : ResourcesCollector
  run_as_daemon : Bool
  sfd : Int
  cfd : Int
  output_fd : Int
  rc : Int
  error_code : Int
  unexpected_error : Bool
  registry : Registry
  tempfile_exists : Bool
  spawned : Nat
  trace : List MainEvent

/-- Lines 100 to 178: the state in which `main` reaches its loop, or the return
with status `1` when `pthread_mutex_init`, `open` or `sigaction` fails.
`run_as_daemon` tells whether the first argument is `-d`, `existed` whether the
store file exists when the process starts.  `open` is called with
`O_CREAT | O_RDWR | O_TRUNC`: when it succeeds the file exists. -/
def main_init (run_as_daemon existed : Bool) (c : SetupCalls) (env : MainEnv) : Main :=
  let s0 : Main :=
    { pc := .loop
      env := env
      errno := 0
      interrupt_signal_received := false
      system_state := .SYSTEM_STATE_INIT
      main_thread_res_collector := initialize_resource_collector none 0 (some [-1, -1, -1]) 3
      run_as_daemon := false
      sfd := -1
      cfd := -1
      output_fd := -1
      rc := 0
      error_code := 0
      unexpected_error := false
      registry := Registry.empty
      tempfile_exists := existed
      spawned := 0
      trace := [] }
  if c.mutex_init ≠ 0 then { s0 with pc := .returned 1, rc := c.mutex_init }
  else
    let s1 : Main :=
      { s0 with
        rc := c.mutex_init
        output_fd := c.open_store.ret
        errno := c.open_store.errnoAfter s0.errno
        tempfile_exists := existed || decide (c.open_store.ret ≠ -1) }
    if s1.output_fd = -1 then { s1 with pc := .returned 1 }
    else
      let s2 : Main :=
        { s1 with
          main_thread_res_collector :=
            (register_fd s1.main_thread_res_collector s1.output_fd).1 }
      if c.sigaction_int.ret ≠ 0 then
        { s2 with pc := .returned 1, errno := c.sigaction_int.errnoAfter s2.errno }
      else if c.sigaction_term.ret ≠ 0 then
        { s2 with pc := .returned 1, errno := c.sigaction_term.errnoAfter s2.errno }
      else { s2 with run_as_daemon := run_as_daemon }

/-- The call `cleanup(&main_thread_res_collector)` made by `main`, with the `close`
calls it makes recorded. -/
def main_cleanup (s : Main) : Main :=
  { s with
    main_thread_res_collector := (cleanup s.main_thread_res_collector).1
    trace := s.trace ++ (cleanup s.main_thread_res_collector).2.2.map MainEvent.close }

/-- Lines 184 to 213: `case SYSTEM_STATE_INIT`. -/
def main_case_init (s : Main) : Main :=
  let s1 : Main := { s with env := { s.env with server := s.env.server.tail } }
  match create_socket_server s.errno (s.env.server.headD ServerCalls.success) with
  | none =>
    { s1 with pc := .fault, trace := s.trace ++ [MainEvent.create_socket_server none] }
  | some r =>
    let s2 : Main :=
      { s1 with
        rc := r.ret
        sfd := r.sfd
        error_code := r.error_code
        errno := r.errno
        trace := s.trace ++ [MainEvent.create_socket_server (some r.ret)] ++
          r.closed.map MainEvent.close }
    if r.ret = SOCKET_SERVER_SETUP_OK then
      { s2 with
        main_thread_res_collector := (register_fd s2.main_thread_res_collector s2.sfd).1
        system_state := .SYSTEM_STATE_SOCK_CREATED }
    else s2

/-- Lines 238 to 258: the timer is created and armed; a failure ends `main` with
status `1`. -/
def main_arm_timer (s : Main) : Main :=
  let tc := s.env.timer_create.headD IoRes.ok
  let s1 : Main :=
    { s with
      env := { s.env with timer_create := s.env.timer_create.tail }
      rc := tc.ret
      errno := tc.errnoAfter s.errno
      trace := s.trace ++ [MainEvent.timer_create tc.ret] }
  if s1.rc ≠ 0 then { (main_cleanup s1) with pc := .returned 1 }
  else
    let ts := s1.env.timer_settime.headD IoRes.ok
    let s2 : Main :=
      { s1 with
        env := { s1.env with timer_settime := s1.env.timer_settime.tail }
        rc := ts.ret
        errno := ts.errnoAfter s1.errno
        trace := s1.trace ++ [MainEvent.timer_settime ts.ret] }
    if s2.rc ≠ 0 then
      { (main_cleanup { s2 with trace := s2.trace ++ [MainEvent.timer_delete] }) with
        pc := .returned 1 }
    else s2

/-- Lines 216 to 236: the `fork` of the daemon mode.  The child goes on to
`SYSTEM_STATE_SOCK_START_LISTENING`, the parent returns `0`, a failed `fork` leaves
the state as it is; without `-d` the state advances at once. -/
def main_fork (s : Main) : Main :=
  if s.run_as_daemon then
    match s.env.fork.headD ForkRes.child with
    | .child =>
      { s with
        env := { s.env with fork := s.env.fork.tail }
        trace := s.trace ++ [MainEvent.fork ForkRes.child]
        system_state := .SYSTEM_STATE_SOCK_START_LISTENING }
    | .fail e =>
      { s with
        env := { s.env with fork := s.env.fork.tail }
        trace := s.trace ++ [MainEvent.fork (ForkRes.fail e)]
        errno := e }
    | .parent =>
      { s with
        env := { s.env with fork := s.env.fork.tail }
        trace := s.trace ++ [MainEvent.fork ForkRes.parent]
        pc := .returned 0 }
  else { s with system_state := .SYSTEM_STATE_SOCK_START_LISTENING }

/-- Lines 215 to 259: `case SYSTEM_STATE_SOCK_CREATED`. -/
def main_case_sock_created (s : Main) : Main :=
  if (main_fork s).pc = .loop ∧
      (main_fork s).system_state = .SYSTEM_STATE_SOCK_START_LISTENING then
    main_arm_timer (main_fork s)
  else main_fork s

/-- Lines 261 to 271: `case SYSTEM_STATE_SOCK_START_LISTENING`. -/
def main_case_start_listening (s : Main) : Main :=
  let l := s.env.listen.headD IoRes.ok
  let s1 : Main :=
    { s with
      env := { s.env with listen := s.env.listen.tail }
      rc := l.ret
      errno := l.errnoAfter s.errno
      trace := s.trace ++ [MainEvent.listen l.ret] }
  if s1.rc = -1 then s1
  else { s1 with system_state := .SYSTEM_STATE_SOCK_WAITING_CONN }

/-- Bound given to the walks of the registry: a walk of a list of `n` nodes that
removes nodes makes fewer than `2 * n + 2` steps, and the registry holds at most as
many nodes as workers were created. -/
def Main.fuel (s : Main) : Nat := 2 * s.spawned + 2

/-- Lines 289 to 321: the walk of the registry, the worker created for the
connection with file descriptor `cfd`, and its insertion into the registry. -/
def main_serve (s : Main) (c : Conn) : Main :=
  let r0 := c.completed.foldl Registry.set_done s.registry
  match handle_completed_threads s.fuel r0 with
  | none => { s with pc := .hung }
  | some r1 =>
    if r1.fault then { s with pc := .fault, registry := r1 }
    else
      let sp := spawn_connection_thread s.error_code c.params c.created
      let s1 : Main :=
        { s with
          registry := r1
          error_code := sp.2.2
          trace := s.trace ++
            (if c.params.ptr = NULL then [] else [MainEvent.pthread_create c.created]) }
      if sp.1 then
        let s2 : Main := { s1 with spawned := s1.spawned + 1 }
        if c.node.ptr = NULL then
          { s2 with
            unexpected_error := true
            errno := c.node.errnoAfter s2.errno
            registry :=
              { r1 with
                done := Function.update r1.done sp.2.1 (some false)
                params_live := Function.update r1.params_live sp.2.1 true } }
        else
          match register_worker s.fuel r0 c.thread_id sp.2.1 c.node.ptr with
          | none => { s2 with pc := .hung }
          | some r2 =>
            if r2.fault then { s2 with pc := .fault, registry := r2 }
            else { s2 with registry := r2 }
      else { s1 with unexpected_error := true }

/-- Lines 273 to 327: `case SYSTEM_STATE_SOCK_WAITING_CONN`. -/
def main_case_waiting_conn (s : Main) : Main :=
  let a := s.env.accept.headD (AcceptRes.fail EINTR)
  let w := wait_connection s.error_code s.errno a.fd
  let s1 : Main :=
    { s with
      env := { s.env with accept := s.env.accept.tail }
      rc := w.1
      cfd := w.2.1
      error_code := w.2.2.1
      errno := w.2.2.2
      trace := s.trace ++ [MainEvent.accept w.2.1] }
  match a with
  | .conn c => if s1.rc = SOCKET_SERVER_WAIT_CONN_OK then main_serve s1 c else s1
  | .fail _ => s1

/-- Lines 182 to 328: the `switch (system_state)`, one pass of the loop body. -/
def main_loop_body (s : Main) : Main :=
  match s.system_state with
  | .SYSTEM_STATE_INIT => main_case_init s
  | .SYSTEM_STATE_SOCK_CREATED => main_case_sock_created s
  | .SYSTEM_STATE_SOCK_START_LISTENING => main_case_start_listening s
  | .SYSTEM_STATE_SOCK_WAITING_CONN => main_case_waiting_conn s

/-- Lines 331 to 357: the drain of the registry, `pthread_mutex_destroy`,
`cleanup(&main_thread_res_collector)`, `timer_delete`, and the return with status `1`
when `unexpected_error` is set and `0` otherwise. -/
def main_teardown (s : Main) : Main :=
  match drain_loop s.fuel s.registry 0 with
  | none => { s with pc := .hung }
  | some (r, _) =>
    if r.fault then { s with pc := .fault, registry := r }
    else
      let s1 := main_cleanup { s with registry := r, trace := s.trace ++ [MainEvent.mutex_destroy] }
      { s1 with
        pc := .returned (if s1.unexpected_error then 1 else 0)
        trace := s1.trace ++ [MainEvent.timer_delete] }

/-- The handler `signal_handler` has run for a stop signal, or not, since the
previous test of the loop condition. -/
def main_signal (s : Main) : Main :=
  { s with
    env := { s.env with signal := s.env.signal.tail }
    interrupt_signal_received := s.interrupt_signal_received || s.env.signal.headD false }

/-- One test of the condition of the `while` at line 180 followed by the loop body,
or by the rest of `main` when the loop is left. -/
def main_step (s : Main) : Main :=
  match s.pc with
  | .loop =>
    if (main_signal s).interrupt_signal_received = false ∧
        (main_signal s).unexpected_error = false then
      main_loop_body (main_signal s)
    else main_teardown (main_signal s)
  | _ => s

/-- The process followed for `fuel` passes. -/
def main_run : Nat → Main → Main
  | 0, s => s
  | fuel + 1, s => main_run fuel (main_step s)

/-- An environment in which only stop signals are listed. -/
def MainEnv.ofSignal (signal : List Bool) : MainEnv :=
  { signal := signal, server := [], fork := [], timer_create := [], timer_settime := [],
    listen := [], accept := [] }

/-- Every call made before the loop succeeds; `open` returns descriptor `3`. -/
def SetupCalls.success : SetupCalls :=
  { mutex_init := 0, open_store := .ok 3, sigaction_int := .ok, sigaction_term := .ok }

/-- A run of the foreground server in which every call succeeds: one client
connects (descriptor `5`, worker `1`), then a stop signal arrives. -/
def MainEnv.oneClientThenSignal : MainEnv :=
  { MainEnv.ofSignal [false, false, false, false, true] with
    accept := [AcceptRes.conn
      { cfd := 5, completed := [], params := Alloc.ok 101, created := 0, thread_id := 1,
        node := Alloc.ok 201 }] }

/-! ## Further readings of a worker trace -/

/-- The values returned by the `recv` calls of a trace, in order. -/
def recvCalls : List Event → List Int
  | [] => []
  | .recv _ ret :: rest => ret :: recvCalls rest
  | _ :: rest => recvCalls rest

/-- The store mutex as the thread that owns the trace meets it: `held` tells whether
the thread holds the mutex before the first event.  The result is `none` when the
thread locks the mutex while holding it, unlocks it while not holding it, or calls
`recv` while holding it; otherwise it tells whether the mutex is held after the last
event. -/
def mutexScan : Bool → List Event → Option Bool
  | held, [] => some held
  | held, .lock :: rest => if held then none else mutexScan true rest
  | held, .unlock :: rest => if held then mutexScan false rest else none
  | held, .recv _ _ :: rest => if held then none else mutexScan held rest
  | held, _ :: rest => mutexScan held rest

/-- The client sends the packet `abc\n`.  The first `malloc` of the echo buffer
fails with `ENOMEM`, so the store is echoed in two chunks of two bytes; the first
`read` of the echo fails with `EIO` and the `send` that follows it fails with
`EINTR`.  Every other call succeeds. -/
def Env.failedReadAndSend : Env :=
  { recv := [RecvEv.data [97, 98, 99, 10]]
    alloc := [Alloc.ok 1, Alloc.fail ENOMEM, Alloc.ok 2]
    write := []
    fstat := []
    lseek := []
    read := [Xfer.fail 5, Xfer.full]
    send := [Xfer.fail EINTR, Xfer.full] }

/-- The client sends the packet `abc\n` and every `malloc` of the echo buffer fails
with `ENOMEM`. -/
def Env.outOfMemory : Env :=
  { Env.failedReadAndSend with
    alloc := [Alloc.ok 1, Alloc.fail ENOMEM, Alloc.fail ENOMEM, Alloc.fail ENOMEM] }

/-- The trace of `t1` is the trace of `t` followed by events that take the mutex
from the state `before` to the state `after` without a violation. -/
def Extends (t t1 : Thread) (before after : Bool) : Prop :=
  ∃ tail, t1.trace = t.trace ++ tail ∧ mutexScan before tail = some after

/-! ## Readings of the state and trace of `main` -/

/-- The values returned by the calls of `create_socket_server`, in order (`none`
for a call that did not return). -/
def createCalls : List MainEvent → List (Option Int)
  | [] => []
  | .create_socket_server ret :: rest => ret :: createCalls rest
  | _ :: rest => createCalls rest

/-- The values returned by the calls of `listen`, in order. -/
def listenCalls : List MainEvent → List Int
  | [] => []
  | .listen ret :: rest => ret :: listenCalls rest
  | _ :: rest => listenCalls rest

/-- The values returned by the calls of `accept`, in order. -/
def acceptCalls : List MainEvent → List Int
  | [] => []
  | .accept ret :: rest => ret :: acceptCalls rest
  | _ :: rest => acceptCalls rest

/-- The success of a startup step as the specification names it, read at the top
of the loop body on the outcome the environment gives next: in
`SYSTEM_STATE_INIT`, `create_socket_server` returns `SOCKET_SERVER_SETUP_OK`; in
`SYSTEM_STATE_SOCK_CREATED`, daemon mode is off or `fork` returns `0`; in
`SYSTEM_STATE_SOCK_START_LISTENING`, `listen` does not return `-1`.  The last state
has no successor. -/
def Main.operationSucceeds (s : Main) : Bool :=
  match s.system_state with
  | .SYSTEM_STATE_INIT =>
    match create_socket_server s.errno (s.env.server.headD ServerCalls.success) with
    | some r => decide (r.ret = SOCKET_SERVER_SETUP_OK)
    | none => false
  | .SYSTEM_STATE_SOCK_CREATED =>
    !s.run_as_daemon || decide (s.env.fork.headD ForkRes.child = ForkRes.child)
  | .SYSTEM_STATE_SOCK_START_LISTENING => decide ((s.env.listen.headD IoRes.ok).ret ≠ -1)
  | .SYSTEM_STATE_SOCK_WAITING_CONN => false

/-- The failure of a startup step: `create_socket_server` returns another code than
`SOCKET_SERVER_SETUP_OK`, `fork` returns `-1`, or `listen` returns `-1`. -/
def Main.operationFails (s : Main) : Bool :=
  match s.system_state with
  | .SYSTEM_STATE_INIT =>
    match create_socket_server s.errno (s.env.server.headD ServerCalls.success) with
    | some r => decide (r.ret ≠ SOCKET_SERVER_SETUP_OK)
    | none => false
  | .SYSTEM_STATE_SOCK_CREATED =>
    s.run_as_daemon &&
      (match s.env.fork.headD ForkRes.child with
        | .fail _ => true
        | _ => false)
  | .SYSTEM_STATE_SOCK_START_LISTENING => decide ((s.env.listen.headD IoRes.ok).ret = -1)
  | .SYSTEM_STATE_SOCK_WAITING_CONN => false

/-- The state of `main` during startup in the foreground when no stop signal is on
its way and the timer calls succeed. -/
structure Main.Starting (s : Main) : Prop where
  pc : s.pc = MainPc.loop
  interrupt : s.interrupt_signal_received = false
  unexpected : s.unexpected_error = false
  signal : s.env.signal = []
  daemon : s.run_as_daemon = false
  timer_create : s.env.timer_create = []
  timer_settime : s.env.timer_settime = []

/-- An environment of the foreground server in which `create_socket_server` meets
the outcomes `server` and then succeeds, `listen` fails with the errnos `listen`
and then succeeds, `accept` has the outcomes `accept`, and no stop signal arrives. -/
def MainEnv.startup (server : List ServerCalls) (listen : List Int)
    (accept : List AcceptRes) : MainEnv :=
  { signal := [], server := server, fork := [], timer_create := [], timer_settime := [],
    listen := listen.map IoRes.fail, accept := accept }

/-- The port is in use at the first attempt (`bind` fails with `EADDRINUSE`) and the
first `listen` fails; then one client connects. -/
def MainEnv.busyPort : MainEnv :=
  MainEnv.startup [{ getaddrinfo := 0, socket := .ok 4, bind := .fail 98 }] [98]
    [AcceptRes.conn
      { cfd := 5, completed := [], params := Alloc.ok 101, created := 0, thread_id := 1,
        node := Alloc.ok 201 }]

/-- During startup: the state of `main`, the outcomes still to come for
`create_socket_server`, `listen` and `accept`, the listening descriptor, and the
values returned so far by `create_socket_server` and by `listen`. -/
structure Main.StartupAt (s : Main) (state : SystemState_t) (server : List ServerCalls)
    (listen : List IoRes) (accept : List AcceptRes) (sfd : Int)
    (creates : List (Option Int)) (listens : List Int) : Prop where
  starting : s.Starting
  state : s.system_state = state
  server : s.env.server = server
  listen : s.env.listen = listen
  accept : s.env.accept = accept
  sfd : s.sfd = sfd
  creates : createCalls s.trace = creates
  listens : listenCalls s.trace = listens

/-! ## Readings of a run of `main` used for its return value -/

/-- The connections among the outcomes of `accept`. -/
def served : List AcceptRes → List Conn
  | [] => []
  | .conn c :: rest => c :: served rest
  | .fail _ :: rest => served rest

/-- The error that `main` records in `unexpected_error` while it serves the
connection: `spawn_connection_thread` returns `false` (line 317), or the `malloc` of
the registry node returns `NULL` (line 296). -/
def Conn.unrecoverable (c : Conn) : Bool :=
  !(spawn_connection_thread 0 c.params c.created).1 || decide (c.node.ptr = NULL)

/-- The ticker has been armed: `main` is past `SYSTEM_STATE_SOCK_CREATED`. -/
def Main.Armed (s : Main) : Prop :=
  s.system_state = .SYSTEM_STATE_SOCK_START_LISTENING ∨
    s.system_state = .SYSTEM_STATE_SOCK_WAITING_CONN

/-- What holds of `main` after the ticker is armed, given the outcomes `accepted` of
the `accept` calls made since: while `main` is in its loop, `unexpected_error` is set
exactly when one of the connections served met an unrecoverable error; once it has
returned, the status is `1` in that case and `0` otherwise. -/
def Main.Serving (s : Main) (accepted : List AcceptRes) : Prop :=
  s.Armed ∧
    match s.pc with
    | .loop => (s.unexpected_error = true ↔ ∃ c ∈ served accepted, c.unrecoverable = true)
    | .returned status =>
      (status = 1 ↔ ∃ c ∈ served accepted, c.unrecoverable = true) ∧
        (status = 0 ↔ ∀ c ∈ served accepted, c.unrecoverable = false)
    | .fault => True
    | .hung => True

/-- A run of the foreground server in which the `malloc` of the registry node fails
for the second connection. -/
def MainEnv.nodeAllocationFails : MainEnv :=
  MainEnv.startup [] []
    [AcceptRes.conn
      { cfd := 5, completed := [], params := Alloc.ok 101, created := 0, thread_id := 1,
        node := Alloc.ok 201 },
     AcceptRes.conn
      { cfd := 6, completed := [], params := Alloc.ok 102, created := 0, thread_id := 2,
        node := Alloc.fail ENOMEM }]

/-- The ticker has not been armed: no `timer_settime` has returned `0`.  Up to
there no `accept` was made, so the outcomes `accept` are all still to come, and
`unexpected_error` is clear; inside the loop the state is one of the first two. -/
def Main.Unarmed (s : Main) (accept : List AcceptRes) : Prop :=
  s.env.accept = accept ∧ s.unexpected_error = false ∧
    MainEvent.timer_settime 0 ∉ s.trace ∧
    (s.pc = MainPc.loop →
      s.system_state = .SYSTEM_STATE_INIT ∨ s.system_state = .SYSTEM_STATE_SOCK_CREATED)

/-- The stop signal arrives once the daemon child or the foreground process is
waiting for a client. -/
def MainEnv.signalWhileWaiting : MainEnv := MainEnv.ofSignal [false, false, false, false, true]

/-! ## main.c: what `strftime` leaves in `cur_timestamp` -/

/-- The array `cur_timestamp` from index `TIMESTAMP_PREFIX_LEN` on after a call of
`strftime` that succeeds and places the characters `formatted`: these characters
and the terminating NUL. -/
def strftime_window (formatted : List Byte) : List Byte := formatted ++ [NUL]

/-- The characters of `Thu, 01 Jan 1970 00:00:10 +0000`, the expansion of
`%a, %d %b %Y %T %z` ten seconds after the epoch in UTC and the C locale. -/
def epoch_plus_ten : List Byte :=
  [84, 104, 117, 44, 32, 48, 49, 32, 74, 97, 110, 32, 49, 57, 55, 48, 32, 48, 48, 58, 48, 48,
    58, 49, 48, 32, 43, 48, 48, 48, 48]

/-! ## aesd-circular-buffer.c

The header `aesd-circular-buffer.h` gives the constant
`AESDCHAR_MAX_WRITE_OPERATIONS_SUPPORTED` and the two structures.  The constant is
the parameter `cap` of every definition below; the offsets `in_offs` and `out_offs`
are `uint8_t`, the sizes are `size_t`. -/

/-- Number of values of a `size_t`. -/
def SIZE_MODULUS : Nat := 18446744073709551616

/-- Number of values of a `uint8_t`. -/
def UINT8_MODULUS : Nat := 256

/-- The structure `aesd_buffer_entry`: the address of the bytes and their number. -/
structure aesd_buffer_entry where
  buffptr : Ptr
  size : Nat
deriving DecidableEq, Repr, Inhabited

/-- The structure `aesd_circular_buffer`, with the array `entry` as the list of
its slots. -/
structure aesd_circular_buffer where
  entry : List aesd_buffer_entry
  in_offs : Nat
  out_offs : Nat
  full : Bool
deriving DecidableEq, Repr

/-- The slot `buffer->entry[index]`. -/
def aesd_circular_buffer.slot (b : aesd_circular_buffer) (index : Nat) : aesd_buffer_entry :=
  b.entry.getD index { buffptr := NULL, size := 0 }

/-- Lines 97 to 100: `memset` clears every slot, both offsets and `full`. -/
def aesd_circular_buffer_init (cap : Nat) : aesd_circular_buffer :=
  { entry := List.replicate cap { buffptr := NULL, size := 0 }
    in_offs := 0
    out_offs := 0
    full := false }

/-- Lines 71 to 92.  `none` is the `NULL` pointer, for which the function returns at
once.  The sum `in_offs + 1` is computed in `int`; the remainder is stored in a
`uint8_t`. -/
def aesd_circular_buffer_add_entry (cap : Nat) (buffer : Option aesd_circular_buffer)
    (add_entry : Option aesd_buffer_entry) : Option aesd_circular_buffer :=
  match buffer, add_entry with
  | some b, some e =>
    let in_offs := b.in_offs
    let out_offs := b.out_offs
    let b1 : aesd_circular_buffer :=
      { b with
        entry := b.entry.set in_offs e
        in_offs := (in_offs + 1) % cap % UINT8_MODULUS }
    if b1.full then some { b1 with out_offs := (out_offs + 1) % cap % UINT8_MODULUS }
    else if b1.in_offs = b1.out_offs then some { b1 with full := true }
    else some b1
  | _, _ => buffer

/-- Lines 42 to 54, the `for` loop: `fuel` bounds the number of tests of its
condition, `none` means that the bound was reached.  The result is `char_len`,
`*entry_offset_byte_rtn` and the index of the slot `entry` points to.  The sum of
two `size_t` wraps. -/
def find_entry_loop (cap : Nat) (b : aesd_circular_buffer) (char_offset : Nat) :
    Nat → Nat → Nat → Bool → Nat → Nat → Option (Nat × Nat × Nat)
  | 0, _, _, _, _, _ => none
  | fuel + 1, index, char_len, is_first, rtn, entry =>
    if char_len ≤ char_offset ∧ (index ≠ b.in_offs ∨ (b.full = true ∧ is_first = true)) then
      if (char_len + (b.slot index).size) % SIZE_MODULUS > char_offset then
        find_entry_loop cap b char_offset fuel ((index + 1) % cap % UINT8_MODULUS)
          ((char_len + (b.slot index).size) % SIZE_MODULUS) false (char_offset - char_len) index
      else
        find_entry_loop cap b char_offset fuel ((index + 1) % cap % UINT8_MODULUS)
          ((char_len + (b.slot index).size) % SIZE_MODULUS) false rtn entry
    else some (char_len, rtn, entry)

/-- Lines 29 to 62.  `buffer` and `entry_offset_byte_rtn` are `none` for a `NULL`
pointer; `entry_offset_byte_rtn` holds the value the pointer points to before the
call.  The result is the pointer returned (the index of a slot, `none` for `NULL`)
and the value `entry_offset_byte_rtn` points to after the call; the outer `none`
means that the loop did not end within `fuel` tests. -/
def aesd_circular_buffer_find_entry_offset_for_fpos (cap fuel : Nat)
    (buffer : Option aesd_circular_buffer) (char_offset : Nat)
    (entry_offset_byte_rtn : Option Nat) : Option (Option Nat × Option Nat) :=
  match buffer, entry_offset_byte_rtn with
  | some b, some _ =>
    match find_entry_loop cap b char_offset fuel b.out_offs 0 true 0 b.out_offs with
    | none => none
    | some (char_len, rtn, entry) =>
      if char_len ≤ char_offset then some (none, some rtn) else some (some entry, some rtn)
  | _, _ => some (none, entry_offset_byte_rtn)

/-- The buffer is well formed: `cap` slots, both offsets below `cap`, and
`in_offs = out_offs` when it is full. -/
structure aesd_circular_buffer.WellFormed (cap : Nat) (b : aesd_circular_buffer) : Prop where
  slots : b.entry.length = cap
  in_lt : b.in_offs < cap
  out_lt : b.out_offs < cap
  full_eq : b.full = true → b.in_offs = b.out_offs

/-- Number of entries the buffer holds. -/
def aesd_circular_buffer.count (cap : Nat) (b : aesd_circular_buffer) : Nat :=
  if b.full then cap else (b.in_offs + cap - b.out_offs) % cap

/-- The entries the buffer holds, read from `out_offs` on, oldest first. -/
def aesd_circular_buffer.stored (cap : Nat) (b : aesd_circular_buffer) :
    List aesd_buffer_entry :=
  (List.range (b.count cap)).map (fun i => b.slot ((b.out_offs + i) % cap))

/-- The sizes of the entries the buffer holds, oldest first. -/
def aesd_circular_buffer.sizes (cap : Nat) (b : aesd_circular_buffer) : List Nat :=
  (b.stored cap).map (fun e => e.size)

/-- The buffer after `aesd_circular_buffer_init` and one call of
`aesd_circular_buffer_add_entry` for each entry of `es`, in this order. -/
def added (cap : Nat) (es : List aesd_buffer_entry) : Option aesd_circular_buffer :=
  es.foldl (fun b e => aesd_circular_buffer_add_entry cap b (some e))
    (some (aesd_circular_buffer_init cap))

/-- A buffer of three slots to which four entries were added: the fourth entry
took the slot of the first one, and the oldest entry is in slot `1`. -/
def wrapped_buffer : aesd_circular_buffer :=
  { entry := [{ buffptr := 400, size := 4 }, { buffptr := 200, size := 5 },
      { buffptr := 300, size := 1 }]
    in_offs := 1
    out_offs := 1
    full := true }

/-! ## examples/systemcalls/systemcalls.c -/

/-- The macro `WIFEXITED` of `sys/wait.h`: the low seven bits of the status word are
clear. -/
def WIFEXITED (status : Nat) : Bool := status % 128 = 0

/-- The macro `WEXITSTATUS` of `sys/wait.h`: bits 8 to 15 of the status word. -/
def WEXITSTATUS (status : Nat) : Nat := status / 256 % 256

/-- The status word of a process that ended through `exit(code)`. -/
def W_EXITCODE (code : Nat) : Nat := code % 256 * 256

/-- Outcome of `waitpid(pid, &rc, 0)`: the child was reaped and its status word
stored in `rc`, or the call returned `-1` with errno `e` and left `rc` as it was. -/
inductive WaitRes where
  | reaped (status : Nat)
  | fail (e : Int)
deriving DecidableEq, Repr

/-- Lines 52 to 73 of `do_exec`, in the process that called it.  `pid` is what
`fork` returned.  In the child (`pid = 0`) the function does not return: `execv`
replaces the process image or `_exit(EXIT_FAILURE)` ends the process; this is the
result `none`. -/
def do_exec (pid : Int) (waitpid : WaitRes) : Option Bool :=
  let rc : Nat := 0
  let ret := true
  if pid > 0 then
    let rc :=
      match waitpid with
      | .reaped status => status
      | .fail _ => rc
    if !WIFEXITED rc || decide (WEXITSTATUS rc ≠ 0) then some false else some ret
  else if pid = 0 then none
  else some ret

/-- Lines 93 to 130 of `do_exec_redirect`, in the process that called it: as
`do_exec`, with a last branch for the failure of `fork`. -/
def do_exec_redirect (pid : Int) (waitpid : WaitRes) : Option Bool :=
  let rc : Nat := 0
  let ret := true
  if pid > 0 then
    let rc :=
      match waitpid with
      | .reaped status => status
      | .fail _ => rc
    if !WIFEXITED rc || decide (WEXITSTATUS rc ≠ 0) then some false else some ret
  else if pid = 0 then none
  else some false

/-! ## resource_utils.c: readings of the collector, and `close_file_wrapper` -/

/-- The pointers the collector tracks: the first `num_of_allocated_mem` slots of
its table. -/
def ResourcesCollector.tracked (c : ResourcesCollector) : List Ptr :=
  match c.allocated_mem with
  | none => []
  | some mem => (List.range c.num_of_allocated_mem).map (fun i => mem.getD i NULL)

/-- The collector of a worker (two slots for pointers, one for descriptors, lines
412 to 427 of `main.c`) that has registered the socket `5` and holds the one
buffer `p`. -/
def ResourcesCollector.holding (p : Ptr) : ResourcesCollector :=
  { allocated_mem := some [p, NULL]
    num_of_allocated_mem := 1
    max_num_of_allocated_mem := 2
    open_file_fd := some [5]
    num_of_open_file := 1
    max_num_of_open_file := 1 }

/-- The function `close_file_wrapper`, lines 185 to 217: the collector afterwards and
the descriptor handed to `close`, if any.  `fd_index` is the first index below
`num_of_open_file` whose slot holds `fd`, and `num_of_open_file` when there is
none. -/
def close_file_wrapper (collector : ResourcesCollector) (fd : Int) :
    ResourcesCollector × Option Int :=
  match collector.open_file_fd with
  | none => (collector, none)
  | some fds =>
    if collector.num_of_open_file < collector.max_num_of_open_file then
      let fd_index :=
        ((List.range collector.num_of_open_file).find?
          (fun i => decide (fds.getD i (-1) = fd))).getD collector.num_of_open_file
      if fd_index < collector.num_of_open_file then
        let last_fd_index := collector.num_of_open_file - 1
        let shifted :=
          (List.range' fd_index (last_fd_index - fd_index)).foldl
            (fun m i => m.set i (m.getD (i + 1) (-1))) fds
        ({ collector with
            open_file_fd := some (shifted.set last_fd_index (-1))
            num_of_open_file := collector.num_of_open_file - 1 }, some fd)
      else (collector, none)
    else (collector, none)

/-- The descriptors registered in the collector: the first `num_of_open_file` slots
of its table. -/
def ResourcesCollector.registered (c : ResourcesCollector) : List Int :=
  match c.open_file_fd with
  | none => []
  | some fds => (List.range c.num_of_open_file).map (fun i => fds.getD i (-1))

/-! ## main.c: the packet buffer of a worker -/

/-- The states a worker can be in: it starts in `Thread.init` and takes its steps
with the store in any state (other threads write to it in between). -/
inductive Thread.Reachable : Thread → Prop where
  | init (cfd : Int) (env : Env) : Thread.Reachable (Thread.init cfd env)
  | step (t : Thread) (st : Store) : Thread.Reachable t → Thread.Reachable (step t st).1

/-- What holds of the collector and of the counters at each program point: the
collector tracks either nothing or the pointer in `buf`; at the top of the loop,
when space is left, `buf` is tracked and the space left is what remains of the
size last obtained for it; during a flush no space is left. -/
def Thread.BufferInv (t : Thread) : Prop :=
  match t.pc with
  | .recv_loop =>
    (t.Untracked ∨ t.Tracked) ∧
      (0 < t.available_space →
        t.Tracked ∧ t.total_byte_read + t.available_space = t.buf_size)
  | .flush_write => t.Untracked ∨ t.Tracked
  | .flush_fstat => t.Untracked ∧ t.available_space = 0
  | .flush_echo => (t.Untracked ∨ t.Tracked) ∧ t.available_space = 0
  | .returned => True
  | .int_overflow => True

/-- A worker whose client has sent `a` and then `b` and a newline in a second
segment, after its first pass: the first segment is in the buffer. -/
def Thread.afterFirstSegment : Thread :=
  (step (Thread.init 5 (Env.ofRecv [RecvEv.data [97], RecvEv.data [98, 10]])) Store.fresh).1

/-! ## main.c: the allocation of the echo buffer in the arithmetic of C

`alloc_echo_buffer` follows lines 510 to 531 while `n_byte` holds the size of the
store.  Line 508 stores `statebuf.st_size`, an `off_t`, in the `int` `n_byte`, and line
513 passes this `int` for the `size_t` parameter of `malloc_wrapper`; the definitions
below follow the same lines with both conversions. -/

/-- The `int` that receives an `off_t` at line 508: the low 32 bits of the value, read
as a signed number (the conversion gcc and clang make). -/
def int_of_off_t (st_size : Nat) : Int :=
  ((st_size : Int) + 2147483648) % 4294967296 - 2147483648

/-- The `size_t` that receives an `int` (the third argument of `malloc_wrapper` at
line 513): the value modulo `2 ^ 64`. -/
def size_t_of_int (n : Int) : Nat := (n % (SIZE_MODULUS : Int)).toNat

/-- How the loop of lines 510 to 531 ends: with a buffer, through the exit of
lines 525 to 529 (`n_byte == 0`), or through the exit of lines 519 to 522 (an error
other than `ENOMEM`). -/
inductive EchoAllocEnd where
  | allocated
  | out_of_memory
  | malloc_error
deriving DecidableEq, Repr

/-- The locals the loop of lines 510 to 531 works on, the outcomes of `malloc` still
to come and the sizes `malloc` was asked for so far. -/
structure EchoAlloc where
  conn_thread_res_collector : ResourcesCollector
  n_byte : Int
  buf : Ptr
  error_code : Int
  errno : Int
  alloc : List Alloc
  requested : List Nat
deriving DecidableEq, Repr

/-- Lines 508 and 509: `n_byte = statebuf.st_size; buf = NULL`, in a worker whose
collector tracks no memory (the packet buffer was released at line 494). -/
def EchoAlloc.start (cfd : Int) (st_size : Nat) (error_code errno : Int)
    (alloc : List Alloc) : EchoAlloc :=
  { conn_thread_res_collector :=
      { allocated_mem := some [NULL, NULL], num_of_allocated_mem := 0,
        max_num_of_allocated_mem := 2, open_file_fd := some [cfd], num_of_open_file := 1,
        max_num_of_open_file := 1 }
    n_byte := int_of_off_t st_size
    buf := NULL
    error_code := error_code
    errno := errno
    alloc := alloc
    requested := [] }

/-- Lines 510 to 531, `while (buf == NULL)`: the first argument bounds the number of
rounds and `none` means that the loop has not ended within them.  `n_byte >>= 1` on
a negative `int` is the arithmetic shift, the division by two rounded down. -/
def echo_alloc_loop : Nat → EchoAlloc → Option (EchoAllocEnd × EchoAlloc)
  | 0, _ => none
  | fuel + 1, s =>
    if s.buf = NULL then
      let r := malloc_wrapper s.conn_thread_res_collector s.buf (size_t_of_int s.n_byte)
        s.error_code s.errno (s.alloc.headD (Alloc.ok 1))
      let s1 : EchoAlloc :=
        { s with
          conn_thread_res_collector := r.collector
          buf := r.ret
          error_code := r.error_code
          errno := r.errno
          alloc := if r.call = HeapCall.none then s.alloc else s.alloc.tail
          requested :=
            match r.call with
            | .malloc size => s.requested ++ [size]
            | .realloc _ size => s.requested ++ [size]
            | .none => s.requested }
      if s1.buf = NULL then
        if s1.error_code = ENOMEM then
          let s2 : EchoAlloc := { s1 with n_byte := s1.n_byte / 2 }
          if s2.n_byte = 0 then some (EchoAllocEnd.out_of_memory, s2)
          else echo_alloc_loop fuel s2
        else some (EchoAllocEnd.malloc_error, s1)
      else if s1.n_byte = 0 then some (EchoAllocEnd.out_of_memory, s1)
      else some (EchoAllocEnd.allocated, s1)
    else some (EchoAllocEnd.allocated, s)

/-! ## main.c: the list `main` walks when it leaves its loop -/

/-- The cells met from `p` on by following `node.sle_next` are the cells at `ps`, in
this order, each of them allocated; the last one ends in `NULL`. -/
def Registry.Chain (r : Registry) : Ptr → List Ptr → Prop
  | p, [] => p = NULL
  | p, a :: rest =>
    p = a ∧ a ≠ NULL ∧ r.node_live a = true ∧
      ∃ n, r.node a = some n ∧ Registry.Chain r n.next rest

/-- The list headed by `slh_first` consists of the distinct allocated cells `ps`,
no cell sits at `NULL`, and no walk has met an invalid pointer. -/
structure Registry.Linked (r : Registry) (ps : List Ptr) : Prop where
  chain : r.Chain r.slh_first ps
  nodup : ps.Nodup
  null : r.node NULL = none
  fault : r.fault = false

/-- What `malloc` guarantees for the node of line 295: when the pass that starts in
`s` accepts a connection while `main` waits for one, the address it gets for the
`ThreadNode_t`, unless it is `NULL`, is not that of a node allocated at this moment
(after the walk of line 289 has released the nodes of completed workers). -/
def Main.node_fresh (s : Main) : Bool :=
  match s.system_state, s.env.accept.headD (AcceptRes.fail EINTR) with
  | .SYSTEM_STATE_SOCK_WAITING_CONN, .conn c =>
    match handle_completed_threads s.fuel (c.completed.foldl Registry.set_done s.registry) with
    | none => true
    | some r1 => decide (c.node.ptr = NULL) || !(r1.node_live c.node.ptr)
  | _, _ => true

/-- The registry of a state at the top of the loop: its list is made of distinct
allocated cells, at most as many as workers were created. -/
def Main.Tidy (s : Main) : Prop :=
  s.pc = MainPc.loop → ∃ ps, s.registry.Linked ps ∧ ps.length ≤ s.spawned

/-- Four clients connect to the foreground server.  The worker of the second one
has set `done` when the fourth one is accepted, so its node is released in the walk
of line 289, and `malloc` gives the node of the fourth worker the address just
released.  Then the stop signal arrives. -/
def MainEnv.workerCompletes : MainEnv :=
  { MainEnv.ofSignal [false, false, false, false, false, false, false, true] with
    accept :=
      [AcceptRes.conn
        { cfd := 5, completed := [], params := Alloc.ok 101, created := 0, thread_id := 1,
          node := Alloc.ok 201 },
       AcceptRes.conn
        { cfd := 6, completed := [], params := Alloc.ok 102, created := 0, thread_id := 2,
          node := Alloc.ok 202 },
       AcceptRes.conn
        { cfd := 7, completed := [], params := Alloc.ok 103, created := 0, thread_id := 3,
          node := Alloc.ok 203 },
       AcceptRes.conn
        { cfd := 8, completed := [102], params := Alloc.ok 104, created := 0, thread_id := 4,
          node := Alloc.ok 202 }] }

/-! # Theorems -/

theorem run_add (a b : Nat) (t : Thread) (st : Store) :
    run (a + b) t st = run b (run a t st).1 (run a t st).2 := by
  induction a generalizing t st with
  | zero => simp [run]
  | succ n ih =>
    have : n + 1 + b = (n + b) + 1 := by omega
    rw [this]
    simp only [run]
    exact ih _ _

theorem sendCalls_append (a b : List Event) :
    sendCalls (a ++ b) = sendCalls a ++ sendCalls b := by
  induction a with
  | nil => simp [sendCalls]
  | cons e a ih => cases e <;> simp [sendCalls, ih]

theorem appended_append (a b : List Event) :
    appended (a ++ b) = appended a ++ appended b := by
  induction a with
  | nil => simp [appended]
  | cons e a ih =>
    cases e with
    | write bs ret =>
      by_cases h : ret < 0
      · simp [appended, ih, h]
      · simp [appended, ih, h]
    | _ => simp [appended, ih]

theorem sendCalls_map_free (l : List Ptr) : sendCalls (l.map Event.free) = [] := by
  induction l with
  | nil => rfl
  | cons _ _ ih => simpa [sendCalls] using ih

theorem sendCalls_map_close (l : List Int) : sendCalls (l.map Event.close) = [] := by
  induction l with
  | nil => rfl
  | cons _ _ ih => simpa [sendCalls] using ih

theorem appended_map_free (l : List Ptr) : appended (l.map Event.free) = [] := by
  induction l with
  | nil => rfl
  | cons _ _ ih => simpa [appended] using ih

theorem appended_map_close (l : List Int) : appended (l.map Event.close) = [] := by
  induction l with
  | nil => rfl
  | cons _ _ ih => simpa [appended] using ih

theorem Env.Succeeds.alloc_head {e : Env} (h : e.Succeeds) :
    ∃ p, p ≠ NULL ∧ e.alloc.headD (Alloc.ok 1) = Alloc.ok p := by
  cases ha : e.alloc with
  | nil => exact ⟨1, by decide, rfl⟩
  | cons a as =>
    obtain ⟨p, hp, rfl⟩ := h.alloc a (by simp [ha])
    exact ⟨p, hp, rfl⟩

theorem Env.Succeeds.alloc_tail {e : Env} (h : e.Succeeds) :
    ({ e with alloc := e.alloc.tail } : Env).Succeeds :=
  { h with alloc := fun a ha => h.alloc a (List.mem_of_mem_tail ha) }

theorem Env.Succeeds.with_recv {e : Env} (h : e.Succeeds) (r : List RecvEv) :
    ({ e with recv := r } : Env).Succeeds :=
  ⟨h.alloc, h.write, h.fstat, h.lseek, h.read, h.send⟩

/-- The macro `CLEAN_RETURN` only appends `free` and `close` events. -/
theorem sendCalls_clean_return (t : Thread) :
    sendCalls (clean_return t).trace = sendCalls t.trace := by
  simp [clean_return, sendCalls_append, sendCalls_map_free, sendCalls_map_close]

theorem appended_clean_return (t : Thread) :
    appended (clean_return t).trace = appended t.trace := by
  simp [clean_return, appended_append, appended_map_free, appended_map_close]

/-- Growing the buffer: the first `malloc` or a `realloc` of the tracked buffer. -/
theorem call_malloc_wrapper_untracked (t : Thread) (size : Nat) (hu : t.Untracked)
    (hs : t.env.Succeeds) :
    let t1 := call_malloc_wrapper t NULL size
    t1.Tracked ∧ t1.env.Succeeds ∧ t1.env.recv = t.env.recv ∧ t1.pc = t.pc ∧
      t1.mem = t.mem ∧ t1.total_byte_read = t.total_byte_read ∧
      t1.available_space = t.available_space ∧ t1.done = t.done ∧ t1.st_size = t.st_size ∧
      t1.n_byte = t.n_byte ∧ t1.cfd = t.cfd ∧
      ∃ p, t1.trace = t.trace ++ [Event.heap (HeapCall.malloc size) p] := by
  obtain ⟨p, hp, hhead⟩ := hs.alloc_head
  have hp' : ¬ p = 0 := hp
  simp only [call_malloc_wrapper, malloc_wrapper, hu.mem, hu.num, hu.max, hhead, Alloc.ptr,
    Alloc.errnoAfter, NULL]
  simp [hp', NULL]
  refine ⟨⟨?_, ?_, ?_, ?_⟩, ?_⟩
  · simp [NULL]
  · simp
  · simp [hu.max]
  · simpa [NULL] using hp'
  · exact hs.alloc_tail

theorem call_malloc_wrapper_tracked (t : Thread) (size : Nat) (ht : t.Tracked)
    (hs : t.env.Succeeds) :
    let t1 := call_malloc_wrapper t t.buf size
    t1.Tracked ∧ t1.env.Succeeds ∧ t1.env.recv = t.env.recv ∧ t1.pc = t.pc ∧
      t1.mem = t.mem ∧ t1.total_byte_read = t.total_byte_read ∧
      t1.available_space = t.available_space ∧ t1.done = t.done ∧ t1.st_size = t.st_size ∧
      t1.n_byte = t.n_byte ∧ t1.cfd = t.cfd ∧
      ∃ p, t1.trace = t.trace ++ [Event.heap (HeapCall.realloc t.buf size) p] := by
  obtain ⟨p, hp, hhead⟩ := hs.alloc_head
  have hp' : ¬ p = 0 := hp
  have hb : ¬ t.buf = 0 := ht.buf
  have hia : is_allocated t.conn_thread_res_collector t.buf = 0 := by
    simp [is_allocated, ht.mem, ht.num, NULL, hb, List.range_succ]
  simp only [call_malloc_wrapper, malloc_wrapper, ht.mem, ht.num, ht.max, hhead, Alloc.ptr,
    Alloc.errnoAfter, NULL, hia]
  simp [hp', NULL, hb, UINT_MODULUS]
  refine ⟨⟨?_, ?_, ?_, ?_⟩, ?_⟩
  · simp [NULL]
  · simp [ht.num]
  · simp [ht.max]
  · simpa [NULL] using hp'
  · exact hs.alloc_tail

/-- The stale pointer: `buf` is not `NULL` but no longer tracked. -/
theorem call_malloc_wrapper_stale (t : Thread) (size : Nat) (hu : t.Untracked)
    (hb : t.buf ≠ NULL) :
    let t1 := call_malloc_wrapper t t.buf size
    t1.buf = NULL ∧ t1.done = t.done ∧ t1.env = t.env ∧
      t1.trace = t.trace ++ [Event.heap HeapCall.none NULL] := by
  have hb' : ¬ t.buf = 0 := hb
  have hia : is_allocated t.conn_thread_res_collector t.buf = -1 := by
    simp [is_allocated, hu.mem, hu.num, NULL, hb']
  simp only [call_malloc_wrapper, malloc_wrapper, hu.mem, hu.num, hu.max, NULL, hia]
  simp [hb', NULL, UINT_MODULUS]

theorem call_free_wrapper_tracked (t : Thread) (ht : t.Tracked) :
    let t1 := call_free_wrapper t
    t1.Untracked ∧ t1.buf = t.buf ∧ t1.env = t.env ∧ t1.pc = t.pc ∧ t1.mem = t.mem ∧
      t1.total_byte_read = t.total_byte_read ∧ t1.available_space = t.available_space ∧
      t1.done = t.done ∧ t1.st_size = t.st_size ∧ t1.n_byte = t.n_byte ∧ t1.cfd = t.cfd ∧
      t1.trace = t.trace ++ [Event.free t.buf] := by
  have hb : ¬ t.buf = 0 := ht.buf
  have hia : is_allocated t.conn_thread_res_collector t.buf = 0 := by
    simp [is_allocated, ht.mem, ht.num, NULL, hb, List.range_succ]
  simp only [call_free_wrapper, free_wrapper, ht.mem, ht.num, NULL, hia]
  simp [hb, NULL]
  refine ⟨?_, ?_, ?_⟩
  · simp [List.range', NULL]
  · simp
  · simpa using ht.max

theorem getD_append_last (acc c : List Byte) (hc : c ≠ []) (d : Byte) :
    (acc ++ c).getD (acc.length + c.length - 1) d = c.getLast hc := by
  have h1 : acc.length ≤ acc.length + c.length - 1 := by
    have := List.length_pos.mpr hc; omega
  rw [List.getD_eq_getElem?_getD, List.getElem?_append_right h1]
  have h2 : acc.length + c.length - 1 - acc.length = c.length - 1 := by omega
  rw [h2, List.getLast_eq_getElem]
  have h3 : c.length - 1 < c.length := by
    have := List.length_pos.mpr hc; omega
  simp [List.getElem?_eq_getElem h3]

theorem set_last_eq (l : List Byte) (hl : l ≠ []) (b : Byte) :
    l.set (l.length - 1) b = l.dropLast ++ [b] := by
  induction l with
  | nil => exact absurd rfl hl
  | cons a l ih =>
    cases l with
    | nil => simp
    | cons a' l' =>
      have := ih (by simp)
      simp only [List.length_cons, Nat.add_sub_cancel] at this ⊢
      simp [List.set, List.dropLast, this]

theorem loop_alloc_accumulating (t : Thread) (acc : List Byte) (h : t.Accumulating acc)
    (hint : acc.length + allocated_chunk_size ≤ INT_MAX) :
    let t1 := loop_alloc t
    t1.Accumulating acc ∧ t1.Tracked ∧ t1.available_space = t.space ∧
      0 < t1.available_space ∧ t1.env.recv = t.env.recv ∧ t1.done = t.done ∧
      t1.cfd = t.cfd ∧ t1.st_size = t.st_size ∧ t1.n_byte = t.n_byte ∧
      sendCalls t1.trace = sendCalls t.trace ∧ appended t1.trace = appended t.trace := by
  by_cases ha : t.available_space = 0
  · have hov : ¬ (t.total_byte_read + allocated_chunk_size > INT_MAX) := by
      rw [h.total]; omega
    rcases h.coll with ⟨hb, hu, -⟩ | ht
    · have key := call_malloc_wrapper_untracked t (t.total_byte_read + allocated_chunk_size)
        hu h.env
      rw [← hb] at key
      obtain ⟨k1, k2, k3, k4, k5, k6, k7, k8, k9, k10, k11, p, k12⟩ := key
      simp only [loop_alloc, ha, hov, if_true, if_false, k1.buf]
      refine ⟨⟨by simpa [h.pc] using k4, by simpa [h.mem] using k5, by simpa [h.total] using k6,
        k2, Or.inr ⟨k1.mem, k1.num, k1.max, k1.buf⟩⟩, ⟨k1.mem, k1.num, k1.max, k1.buf⟩, ?_, ?_,
        k3, k8, k11, k9, k10, ?_, ?_⟩
      · simp [Thread.space, ha]
      · simp [allocated_chunk_size]
      · simp [k12, sendCalls_append, sendCalls]
      · simp [k12, appended_append, appended]
    · have key := call_malloc_wrapper_tracked t (t.total_byte_read + allocated_chunk_size)
        ht h.env
      obtain ⟨k1, k2, k3, k4, k5, k6, k7, k8, k9, k10, k11, p, k12⟩ := key
      simp only [loop_alloc, ha, hov, if_true, if_false, k1.buf]
      refine ⟨⟨by simpa [h.pc] using k4, by simpa [h.mem] using k5, by simpa [h.total] using k6,
        k2, Or.inr ⟨k1.mem, k1.num, k1.max, k1.buf⟩⟩, ⟨k1.mem, k1.num, k1.max, k1.buf⟩, ?_, ?_,
        k3, k8, k11, k9, k10, ?_, ?_⟩
      · simp [Thread.space, ha]
      · simp [allocated_chunk_size]
      · simp [k12, sendCalls_append, sendCalls]
      · simp [k12, appended_append, appended]
  · rcases h.coll with ⟨-, -, h0⟩ | ht
    · exact absurd h0 ha
    · have e : loop_alloc t = t := by simp [loop_alloc, ha]
      intro t1
      have e1 : t1 = t := e
      rw [e1]
      exact ⟨h, ht, by simp [Thread.space, ha], Nat.pos_of_ne_zero ha, rfl, rfl, rfl, rfl, rfl,
        rfl, rfl⟩

theorem packetOf_append (acc c : List Byte) (hc : c ≠ []) :
    packetOf (acc ++ c) =
      if c.getLast hc = NUL then (acc ++ c).set ((acc ++ c).length - 1) NL else acc ++ c := by
  have hne : acc ++ c ≠ [] := by simp [hc]
  have hl : (acc ++ c).getLast? = some (c.getLast hc) := by
    rw [List.getLast?_eq_getLast _ hne]
    simp [List.getLast_append_of_ne_nil, hc]
  unfold packetOf
  rw [hl, set_last_eq _ hne]
  simp

theorem loop_recv_data (t : Thread) (acc c : List Byte) (rest : List RecvEv)
    (h : t.Accumulating acc) (ht : t.Tracked) (hr : t.env.recv = RecvEv.data c :: rest)
    (hc : c ≠ []) (hfit : c.length ≤ t.available_space) :
    let t1 := loop_recv t
    t1.env.recv = rest ∧ t1.done = t.done ∧ t1.cfd = t.cfd ∧ t1.st_size = t.st_size ∧
      t1.n_byte = t.n_byte ∧ t1.trace = t.trace ++ [Event.recv t.available_space c.length] ∧
      (endsPacket c → t1.Ready (packetOf (acc ++ c))) ∧
      (¬ endsPacket c → t1.Accumulating (acc ++ c) ∧ t1.Tracked ∧
        t1.available_space = t.available_space - c.length) := by
  have hpos : 0 < c.length := List.length_pos.mpr hc
  have hlast := getD_append_last acc c hc NUL
  have hq : c.getLast? = some (c.getLast hc) := List.getLast?_eq_getLast _ hc
  have r0 : ¬ ((c.length : Int) = 0) := by omega
  have r1 : ¬ ((c.length : Int) = -1) := by omega
  have hs : sys_recv t.env.recv t.available_space t.errno = ((c.length : Int), c, t.errno, rest) := by
    simp [sys_recv, hr, hfit]
  have hlen : (acc ++ c).length = acc.length + c.length := by simp
  by_cases he : endsPacket c
  · have hcond : ¬ (c.getLast hc ≠ NUL ∧ c.getLast hc ≠ NL) := by
      unfold endsPacket at he
      rw [hq] at he
      rcases he with he | he
      · simp only [Option.some.injEq] at he; simp [he]
      · simp only [Option.some.injEq] at he; simp [he]
    simp only [loop_recv, hs, r0, r1, if_false, h.mem, h.total, List.take_length, Int.toNat_ofNat,
      hlast, if_neg hcond]
    refine ⟨trivial, trivial, trivial, trivial, trivial, trivial,
      fun _ => ?_, fun hn => absurd he hn⟩
    refine ⟨rfl, ?_, ?_, h.env.with_recv rest, ⟨ht.mem, ht.num, ht.max, ht.buf⟩⟩
    · show (if c.getLast hc = NUL then (acc ++ c).set (acc.length + c.length - 1) NL
        else acc ++ c) = packetOf (acc ++ c)
      rw [packetOf_append acc c hc, hlen]
    · show acc.length + c.length = (packetOf (acc ++ c)).length
      rw [packetOf_append acc c hc]
      split <;> simp
  · have hcond : (c.getLast hc ≠ NUL ∧ c.getLast hc ≠ NL) := by
      unfold endsPacket at he
      rw [hq] at he
      simp only [Option.some.injEq, not_or] at he
      exact ⟨he.2, he.1⟩
    simp only [loop_recv, hs, r0, r1, if_false, h.mem, h.total, List.take_length, Int.toNat_ofNat,
      hlast, if_pos hcond]
    refine ⟨trivial, trivial, trivial, trivial, trivial, trivial,
      fun hn => absurd hn he, fun _ => ?_⟩
    refine ⟨⟨h.pc, rfl, hlen.symm, h.env.with_recv rest,
      Or.inr ⟨ht.mem, ht.num, ht.max, ht.buf⟩⟩, ⟨ht.mem, ht.num, ht.max, ht.buf⟩, trivial⟩

theorem loop_recv_err (t : Thread) (acc : List Byte) (e : Int) (rest : List RecvEv)
    (h : t.Accumulating acc) (ht : t.Tracked) (hr : t.env.recv = RecvEv.err e :: rest) :
    let t1 := loop_recv t
    t1.env.recv = rest ∧ t1.done = t.done ∧ t1.cfd = t.cfd ∧ t1.st_size = t.st_size ∧
      t1.n_byte = t.n_byte ∧ t1.trace = t.trace ++ [Event.recv t.available_space (-1)] ∧
      t1.Accumulating acc ∧ t1.Tracked ∧ t1.available_space = t.available_space := by
  have hs : sys_recv t.env.recv t.available_space t.errno = (-1, [], e, rest) := by
    simp [sys_recv, hr]
  simp only [loop_recv, hs]
  simp only [show ¬ ((-1 : Int) = 0) by decide, if_false, if_true]
  exact ⟨trivial, trivial, trivial, trivial, trivial, trivial,
    ⟨h.pc, h.mem, h.total, h.env.with_recv rest,
      Or.inr ⟨ht.mem, ht.num, ht.max, ht.buf⟩⟩, ⟨ht.mem, ht.num, ht.max, ht.buf⟩, trivial⟩

theorem step_recv_data (t : Thread) (st : Store) (acc c : List Byte) (rest : List RecvEv)
    (h : t.Accumulating acc) (hr : t.env.recv = RecvEv.data c :: rest) (hc : c ≠ [])
    (hfit : c.length ≤ t.space) (hint : acc.length + allocated_chunk_size ≤ INT_MAX) :
    (step t st).2 = st ∧ (step t st).1.env.recv = rest ∧ (step t st).1.done = t.done ∧
      (step t st).1.cfd = t.cfd ∧
      sendCalls (step t st).1.trace = sendCalls t.trace ∧
      appended (step t st).1.trace = appended t.trace ∧
      (endsPacket c → (step t st).1.Ready (packetOf (acc ++ c))) ∧
      (¬ endsPacket c → (step t st).1.Accumulating (acc ++ c) ∧
        (step t st).1.available_space = t.space - c.length ∧
        (step t st).1.available_space ≠ t.space) := by
  obtain ⟨a1, a2, a3, a4, a5, a6, a7, a8, a9, a10, a11⟩ := loop_alloc_accumulating t acc h hint
  have hr1 : (loop_alloc t).env.recv = RecvEv.data c :: rest := by rw [a5, hr]
  have hfit1 : c.length ≤ (loop_alloc t).available_space := by rw [a3]; exact hfit
  obtain ⟨b1, b2, b3, b4, b5, b6, b7, b8⟩ :=
    loop_recv_data (loop_alloc t) acc c rest a1 a2 hr1 hc hfit1
  have hstep : step t st = (loop_recv (loop_alloc t), st) := by
    simp [step, h.pc, a1.pc]
  rw [hstep]
  refine ⟨rfl, b1, by rw [b2, a6], by rw [b3, a7], ?_, ?_, b7, fun hn => ?_⟩
  · show sendCalls (loop_recv (loop_alloc t)).trace = _
    rw [b6, sendCalls_append, a10]; simp [sendCalls]
  · show appended (loop_recv (loop_alloc t)).trace = _
    rw [b6, appended_append, a11]; simp [appended]
  · obtain ⟨c1, c2, c3⟩ := b8 hn
    have hpos : 0 < c.length := List.length_pos.mpr hc
    refine ⟨c1, by rw [c3, a3], ?_⟩
    show (loop_recv (loop_alloc t)).available_space ≠ _
    rw [c3, a3]
    have : 0 < t.space := by rw [← a3]; exact a4
    omega

theorem step_recv_err (t : Thread) (st : Store) (acc : List Byte) (e : Int)
    (rest : List RecvEv) (h : t.Accumulating acc) (hr : t.env.recv = RecvEv.err e :: rest)
    (hint : acc.length + allocated_chunk_size ≤ INT_MAX) :
    (step t st).2 = st ∧ (step t st).1.env.recv = rest ∧ (step t st).1.done = t.done ∧
      (step t st).1.cfd = t.cfd ∧
      sendCalls (step t st).1.trace = sendCalls t.trace ∧
      appended (step t st).1.trace = appended t.trace ∧
      (step t st).1.Accumulating acc ∧ (step t st).1.available_space = t.space := by
  obtain ⟨a1, a2, a3, a4, a5, a6, a7, a8, a9, a10, a11⟩ := loop_alloc_accumulating t acc h hint
  have hr1 : (loop_alloc t).env.recv = RecvEv.err e :: rest := by rw [a5, hr]
  obtain ⟨b1, b2, b3, b4, b5, b6, b7, b8, b9⟩ := loop_recv_err (loop_alloc t) acc e rest a1 a2 hr1
  have hstep : step t st = (loop_recv (loop_alloc t), st) := by
    simp [step, h.pc, a1.pc]
  rw [hstep]
  refine ⟨rfl, b1, by rw [b2, a6], by rw [b3, a7], ?_, ?_, b7, by rw [b9, a3]⟩
  · show sendCalls (loop_recv (loop_alloc t)).trace = _
    rw [b6, sendCalls_append, a10]; simp [sendCalls]
  · show appended (loop_recv (loop_alloc t)).trace = _
    rw [b6, appended_append, a11]; simp [appended]

theorem pwrite_at_end (content bytes : List Byte) :
    pwrite content content.length bytes = content ++ bytes := by
  simp [pwrite]

theorem flush_write_ready (t : Thread) (st : Store) (bytes : List Byte) (h : t.Ready bytes)
    (hoff : st.offset = st.content.length) :
    (flush_write t st).2 =
        { content := st.content ++ bytes, offset := (st.content ++ bytes).length } ∧
      (flush_write t st).1.pc = Pc.flush_fstat ∧ (flush_write t st).1.Untracked ∧
      (flush_write t st).1.buf ≠ NULL ∧ (flush_write t st).1.env.Succeeds ∧
      (flush_write t st).1.env.recv = t.env.recv ∧
      (flush_write t st).1.available_space = 0 ∧ (flush_write t st).1.total_byte_read = 0 ∧
      (flush_write t st).1.done = t.done ∧ (flush_write t st).1.cfd = t.cfd ∧
      (flush_write t st).1.trace = t.trace ++
        [Event.lock, Event.write bytes bytes.length, Event.unlock, Event.free t.buf] := by
  have hw : t.env.write.headD Xfer.full = Xfer.full := by
    cases hl : t.env.write with
    | nil => rfl
    | cons w ws => simpa using h.env.write w (by simp [hl])
  have htake : t.mem.take t.total_byte_read = bytes := by
    rw [h.mem, h.total, List.take_length]
  have hsw : sys_write st bytes t.errno Xfer.full =
      ({ content := st.content ++ bytes, offset := (st.content ++ bytes).length },
        (bytes.length : Int), t.errno) := by
    simp [sys_write, hoff, pwrite_at_end]
  have hs2 : ({ t.env with write := t.env.write.tail } : Env).Succeeds :=
    { h.env with write := fun w hw => h.env.write w (List.mem_of_mem_tail hw) }
  let t1 : Thread :=
    { t with
      env := { t.env with write := t.env.write.tail }
      errno := t.errno
      trace := t.trace ++ [Event.lock, Event.write bytes bytes.length, Event.unlock] }
  have ht1 : t1.Tracked := ⟨h.coll.mem, h.coll.num, h.coll.max, h.coll.buf⟩
  obtain ⟨f1, f2, f3, f4, f5, f6, f7, f8, f9, f10, f11, f12⟩ := call_free_wrapper_tracked t1 ht1
  have hfw : flush_write t st =
      ({ (call_free_wrapper t1) with
          available_space := 0, total_byte_read := 0, pc := Pc.flush_fstat },
        { content := st.content ++ bytes, offset := (st.content ++ bytes).length }) := by
    simp only [flush_write, append_section, hw, h.total, h.mem, List.take_length, hsw]
    simp [t1, h.total, h.mem]
  rw [hfw]
  refine ⟨rfl, rfl, ⟨f1.mem, f1.num, f1.max⟩, ?_, ?_, ?_, rfl, rfl, ?_, ?_, ?_⟩
  · show (call_free_wrapper t1).buf ≠ NULL
    rw [f2]; exact h.coll.buf
  · show (call_free_wrapper t1).env.Succeeds
    rw [f3]; exact hs2
  · show (call_free_wrapper t1).env.recv = _
    rw [f3]
  · show (call_free_wrapper t1).done = _
    rw [f8]
  · show (call_free_wrapper t1).cfd = _
    rw [f11]
  · show (call_free_wrapper t1).trace = _
    rw [f12]; simp [t1]

theorem flush_fstat_ok (t : Thread) (st : Store) (hpc : t.pc = Pc.flush_fstat)
    (hu : t.Untracked) (hs : t.env.Succeeds) (hne : st.content ≠ [])
    (hint : st.content.length ≤ INT_MAX) :
    (flush_fstat t st).2 = st ∧ (flush_fstat t st).1.pc = Pc.flush_echo ∧
      (flush_fstat t st).1.Tracked ∧ (flush_fstat t st).1.env.Succeeds ∧
      (flush_fstat t st).1.st_size = st.content.length ∧
      (flush_fstat t st).1.n_byte = st.content.length ∧
      (flush_fstat t st).1.env.recv = t.env.recv ∧
      (flush_fstat t st).1.available_space = t.available_space ∧
      (flush_fstat t st).1.total_byte_read = t.total_byte_read ∧
      (flush_fstat t st).1.done = t.done ∧ (flush_fstat t st).1.cfd = t.cfd ∧
      ∃ p, (flush_fstat t st).1.trace = t.trace ++
        [Event.lock, Event.fstat 0, Event.unlock,
          Event.heap (HeapCall.malloc st.content.length) p] := by
  have hf : t.env.fstat.headD IoRes.ok = IoRes.ok := by
    cases hl : t.env.fstat with
    | nil => rfl
    | cons w ws => simpa using hs.fstat w (by simp [hl])
  have hs2 : ({ t.env with fstat := t.env.fstat.tail } : Env).Succeeds :=
    { hs with fstat := fun w hw => hs.fstat w (List.mem_of_mem_tail hw) }
  have hpos : 0 < st.content.length := List.length_pos.mpr hne
  let t1 : Thread :=
    { t with
      env := { t.env with fstat := t.env.fstat.tail }
      errno := t.errno
      st_size := st.content.length
      trace := t.trace ++ [Event.lock, Event.fstat 0, Event.unlock]
      n_byte := st.content.length
      buf := NULL }
  have hu1 : t1.Untracked := ⟨hu.mem, hu.num, hu.max⟩
  obtain ⟨k1, k2, k3, k4, k5, k6, k7, k8, k9, k10, k11, p, k12⟩ :=
    call_malloc_wrapper_untracked t1 st.content.length hu1 hs2
  have hn : (call_malloc_wrapper t1 NULL st.content.length).n_byte ≠ 0 := by
    rw [k10]; show st.content.length ≠ 0; omega
  have hfs : flush_fstat t st =
      ({ (call_malloc_wrapper t1 NULL st.content.length) with pc := Pc.flush_echo }, st) := by
    have hov : ¬ (st.content.length > INT_MAX) := by omega
    simp only [flush_fstat, fstat_section, hf, sys_fstat, alloc_echo_buffer]
    simp only [show ¬ ((0 : Int) ≠ 0) by decide, hov, if_false]
    have e1 : ({ t with
        env := { t.env with fstat := t.env.fstat.tail }
        errno := t.errno
        st_size := st.content.length
        trace := t.trace ++ [Event.lock, Event.fstat 0, Event.unlock]
        n_byte := st.content.length
        buf := NULL } : Thread) = t1 := rfl
    simp only [e1]
    have e2 : t1.buf = NULL := rfl
    have e3 : t1.n_byte = st.content.length := rfl
    simp only [e2, e3, if_true, k1.buf, hn, if_false, k4]
    simp [t1, hpc]
  rw [hfs]
  refine ⟨rfl, rfl, ⟨k1.mem, k1.num, k1.max, k1.buf⟩, k2, k9, k10, k3, k7, k6, k8, k11, p, ?_⟩
  show (call_malloc_wrapper t1 NULL st.content.length).trace = _
  rw [k12]; simp [t1]

theorem step_stale (t : Thread) (st : Store) (hpc : t.pc = Pc.recv_loop) (hu : t.Untracked)
    (hb : t.buf ≠ NULL) (ha : t.available_space = 0) (ht : t.total_byte_read = 0) :
    (step t st).2 = st ∧ (step t st).1.pc = Pc.returned ∧ (step t st).1.done = t.done ∧
      (step t st).1.env.recv = t.env.recv ∧
      sendCalls (step t st).1.trace = sendCalls t.trace ∧
      appended (step t st).1.trace = appended t.trace := by
  obtain ⟨s1, s2, s3, s4⟩ :=
    call_malloc_wrapper_stale t (t.total_byte_read + allocated_chunk_size) hu hb
  have hov : ¬ (t.total_byte_read + allocated_chunk_size > INT_MAX) := by
    rw [ht]; decide
  have hla : loop_alloc t =
      clean_return (call_malloc_wrapper t t.buf (t.total_byte_read + allocated_chunk_size)) := by
    simp only [loop_alloc, ha, hov, if_true, if_false, s1]
  have hstep : step t st = (loop_alloc t, st) := by
    simp only [step, hpc, hla]
    simp [clean_return]
  rw [hstep, hla]
  refine ⟨rfl, rfl, ?_, ?_, ?_, ?_⟩
  · exact s2
  · exact congrArg Env.recv s3
  · rw [sendCalls_clean_return, s4, sendCalls_append]; simp [sendCalls]
  · rw [appended_clean_return, s4, appended_append]; simp [appended]

theorem headD_ok_of_all {α : Type} (l : List α) (d : α) (h : ∀ x ∈ l, x = d) :
    l.headD d = d := by
  cases l with
  | nil => rfl
  | cons a as => simpa using h a (by simp)

theorem flush_echo_ok (t : Thread) (st : Store)
    (ht : t.Tracked) (hs : t.env.Succeeds) (hsz : t.st_size = t.n_byte)
    (h1 : 1 ≤ t.n_byte) (hle : t.n_byte ≤ st.content.length) :
    (flush_echo t st).2 = { content := st.content, offset := st.content.length } ∧
      (flush_echo t st).1.pc = Pc.recv_loop ∧ (flush_echo t st).1.Untracked ∧
      (flush_echo t st).1.buf ≠ NULL ∧ (flush_echo t st).1.env.Succeeds ∧
      (flush_echo t st).1.env.recv = t.env.recv ∧
      (flush_echo t st).1.available_space = t.available_space ∧
      (flush_echo t st).1.total_byte_read = t.total_byte_read ∧
      (flush_echo t st).1.done = t.done ∧ (flush_echo t st).1.cfd = t.cfd ∧
      (flush_echo t st).1.trace = t.trace ++
        [Event.lock, Event.lseek_set 0, Event.read t.n_byte t.n_byte,
          Event.send (st.content.take t.n_byte) t.n_byte,
          Event.lseek_end st.content.length, Event.unlock, Event.free t.buf] := by
  have hl : t.env.lseek.headD IoRes.ok = IoRes.ok := headD_ok_of_all _ _ hs.lseek
  have hl2 : t.env.lseek.tail.headD IoRes.ok = IoRes.ok :=
    headD_ok_of_all _ _ (fun x hx => hs.lseek x (List.mem_of_mem_tail hx))
  have hr : t.env.read.headD Xfer.full = Xfer.full := headD_ok_of_all _ _ hs.read
  have hsd : t.env.send.headD Xfer.full = Xfer.full := headD_ok_of_all _ _ hs.send
  have hiter : (t.st_size + t.n_byte - 1) / t.n_byte = 1 := by
    rw [hsz]
    apply Nat.div_eq_of_lt_le
    · omega
    · omega
  have hlen : (st.content.take t.n_byte).length = t.n_byte := by
    rw [List.length_take]; omega
  let t3 : Thread :=
    { t with
      env := { t.env with lseek := t.env.lseek.tail.tail, read := t.env.read.tail,
                          send := t.env.send.tail }
      errno := t.errno
      mem := st.content.take t.n_byte
      trace := t.trace ++
        [Event.lock, Event.lseek_set 0, Event.read t.n_byte t.n_byte,
          Event.send (st.content.take t.n_byte) t.n_byte,
          Event.lseek_end st.content.length, Event.unlock] }
  have ht3 : t3.Tracked := ⟨ht.mem, ht.num, ht.max, ht.buf⟩
  have hs3 : t3.env.Succeeds :=
    ⟨hs.alloc, hs.write, hs.fstat,
      fun x hx => hs.lseek x (List.mem_of_mem_tail (List.mem_of_mem_tail hx)),
      fun x hx => hs.read x (List.mem_of_mem_tail hx),
      fun x hx => hs.send x (List.mem_of_mem_tail hx)⟩
  obtain ⟨f1, f2, f3, f4, f5, f6, f7, f8, f9, f10, f11, f12⟩ := call_free_wrapper_tracked t3 ht3
  have hfe : flush_echo t st =
      ({ (call_free_wrapper t3) with pc := Pc.recv_loop },
        { content := st.content, offset := st.content.length }) := by
    have hnn : ¬ ((t.n_byte : Int) < 0) := by omega
    simp only [flush_echo, echo_rounds, echo_begin, echo_end, unlock, hl, sys_lseek_set, hiter,
      echo_loop, echo_round, hr, sys_read, hsd, sys_send,
      List.drop_zero, hlen, Nat.zero_add, hnn, if_false, Int.toNat_ofNat, List.take_take,
      Nat.min_self]
    have hl2' : t.env.lseek[1]?.getD IoRes.ok = IoRes.ok := by simpa using hl2
    have hne1 : ¬ ((st.content.length : Int) = -1) := by omega
    simp [hlen, hl2', sys_lseek_end, t3, hne1]
  rw [hfe]
  refine ⟨rfl, rfl, ⟨f1.mem, f1.num, f1.max⟩, ?_, ?_, ?_, ?_, ?_, ?_, ?_, ?_⟩
  · show (call_free_wrapper t3).buf ≠ NULL
    rw [f2]; exact ht.buf
  · show (call_free_wrapper t3).env.Succeeds
    rw [f3]; exact hs3
  · show (call_free_wrapper t3).env.recv = _
    rw [f3]
  · show (call_free_wrapper t3).available_space = _
    rw [f7]
  · show (call_free_wrapper t3).total_byte_read = _
    rw [f6]
  · show (call_free_wrapper t3).done = _
    rw [f8]
  · show (call_free_wrapper t3).cfd = _
    rw [f11]
  · show (call_free_wrapper t3).trace = _
    rw [f12]; simp [t3]


theorem run_returned (n : Nat) (t : Thread) (st : Store) (h : t.pc = Pc.returned) :
    run n t st = (t, st) := by
  induction n with
  | zero => rfl
  | succ n ih => simp [run, step, h, ih]

theorem run_succ_last (n : Nat) (t : Thread) (st : Store) :
    run (n + 1) t st = step (run n t st).1 (run n t st).2 := by
  rw [run_add]; rfl

/-- Accumulation up to the first chunk that ends in a newline or NUL. -/
theorem run_accumulate (cs : List (List Byte)) (c : List Byte) (rest : List RecvEv) :
    ∀ (t : Thread) (st : Store) (acc : List Byte), t.Accumulating acc →
      t.env.recv = (cs ++ [c]).map RecvEv.data ++ rest →
      (∀ x ∈ cs, x ≠ [] ∧ ¬ endsPacket x) → c ≠ [] → endsPacket c →
      Fits t.available_space (cs ++ [c]) →
      (acc ++ cs.flatten ++ c).length + allocated_chunk_size ≤ INT_MAX →
      (run (cs.length + 1) t st).2 = st ∧
        (run (cs.length + 1) t st).1.Ready (packetOf (acc ++ cs.flatten ++ c)) ∧
        (run (cs.length + 1) t st).1.env.recv = rest ∧
        (run (cs.length + 1) t st).1.done = t.done ∧
        (run (cs.length + 1) t st).1.cfd = t.cfd ∧
        sendCalls (run (cs.length + 1) t st).1.trace = sendCalls t.trace ∧
        appended (run (cs.length + 1) t st).1.trace = appended t.trace := by
  induction cs with
  | nil =>
    intro t st acc h hr _ hc hend hfit hint
    have hfit' : c.length ≤ t.space := by
      simpa [Fits, Thread.space] using hfit.1
    have hint' : acc.length + allocated_chunk_size ≤ INT_MAX := by
      simp only [List.flatten_nil, List.append_nil, List.length_append] at hint; omega
    obtain ⟨s1, s2, s3, s4, s5, s6, s7, -⟩ :=
      step_recv_data t st acc c rest h (by simpa using hr) hc hfit' hint'
    have hrun : run (([] : List (List Byte)).length + 1) t st = step t st := rfl
    rw [hrun]
    refine ⟨s1, ?_, s2, s3, s4, s5, s6⟩
    simpa using s7 hend
  | cons x cs ih =>
    intro t st acc h hr hcs hc hend hfit hint
    have hx := hcs x (by simp)
    have hfit' : x.length ≤ t.space := by
      simpa [Fits, Thread.space] using hfit.1
    have hlen : (acc ++ (x :: cs).flatten ++ c).length =
        acc.length + x.length + cs.flatten.length + c.length := by
      simp [List.flatten]; omega
    have hint' : acc.length + allocated_chunk_size ≤ INT_MAX := by omega
    obtain ⟨s1, s2, s3, s4, s5, s6, -, s8⟩ :=
      step_recv_data t st acc x ((cs ++ [c]).map RecvEv.data ++ rest) h (by simpa using hr)
        hx.1 hfit' hint'
    obtain ⟨a1, a2, -⟩ := s8 hx.2
    have hfit2 : Fits (step t st).1.available_space (cs ++ [c]) := by
      rw [a2]
      have := hfit.2
      simpa [Thread.space] using this
    have hint2 : (acc ++ x ++ cs.flatten ++ c).length + allocated_chunk_size ≤ INT_MAX := by
      have : (acc ++ x ++ cs.flatten ++ c).length =
          acc.length + x.length + cs.flatten.length + c.length := by
        simp; omega
      omega
    have key := ih (step t st).1 (step t st).2 (acc ++ x) a1 s2
      (fun y hy => hcs y (by simp [hy])) hc hend hfit2 hint2
    have hrun : run ((x :: cs).length + 1) t st =
        run (cs.length + 1) (step t st).1 (step t st).2 := rfl
    rw [hrun]
    obtain ⟨k1, k2, k3, k4, k5, k6, k7⟩ := key
    refine ⟨by rw [k1, s1], ?_, k3, by rw [k4, s3], by rw [k5, s4], by rw [k6, s5],
      by rw [k7, s6]⟩
    have e : acc ++ (x :: cs).flatten ++ c = acc ++ x ++ cs.flatten ++ c := by
      simp [List.flatten]
    rw [e]; exact k2

theorem step_flush_write (t : Thread) (st : Store) (h : t.pc = Pc.flush_write) :
    step t st = flush_write t st := by
  simp [step, h]

theorem step_flush_fstat (t : Thread) (st : Store) (h : t.pc = Pc.flush_fstat) :
    step t st = flush_fstat t st := by
  simp [step, h]

theorem step_flush_echo (t : Thread) (st : Store) (h : t.pc = Pc.flush_echo) :
    step t st = flush_echo t st := by
  simp [step, h]

/-- The three critical sections of a flush, with nothing in between. -/
theorem run_flush (t : Thread) (st : Store) (bytes : List Byte) (h : t.Ready bytes)
    (hne : bytes ≠ []) (hoff : st.offset = st.content.length)
    (hint : (st.content ++ bytes).length ≤ INT_MAX) :
    (run 3 t st).2 = { content := st.content ++ bytes, offset := (st.content ++ bytes).length } ∧
      (run 3 t st).1.pc = Pc.recv_loop ∧ (run 3 t st).1.Untracked ∧
      (run 3 t st).1.buf ≠ NULL ∧ (run 3 t st).1.available_space = 0 ∧
      (run 3 t st).1.total_byte_read = 0 ∧ (run 3 t st).1.env.Succeeds ∧
      (run 3 t st).1.env.recv = t.env.recv ∧ (run 3 t st).1.done = t.done ∧
      appended (run 3 t st).1.trace = appended t.trace ++ [bytes] ∧
      sendCalls (run 3 t st).1.trace = sendCalls t.trace ++ [st.content ++ bytes] := by
  obtain ⟨w1, w2, w3, w4, w5, w6, w7, w8, w9, w10, w11⟩ := flush_write_ready t st bytes h hoff
  have hne2 : (flush_write t st).2.content ≠ [] := by
    rw [w1]; simp [hne]
  have hint2 : (flush_write t st).2.content.length ≤ INT_MAX := by
    rw [w1]; exact hint
  obtain ⟨x1, x2, x3, x4, x5, x6, x7, x8, x9, x10, x11, p, x12⟩ :=
    flush_fstat_ok (flush_write t st).1 (flush_write t st).2 w2 w3 w5 hne2 hint2
  have hpos : 0 < bytes.length := List.length_pos.mpr hne
  have h1 : 1 ≤ (flush_fstat (flush_write t st).1 (flush_write t st).2).1.n_byte := by
    rw [x6, w1]; simp only [List.length_append]; omega
  have hle : (flush_fstat (flush_write t st).1 (flush_write t st).2).1.n_byte ≤
      (flush_fstat (flush_write t st).1 (flush_write t st).2).2.content.length := by
    rw [x6, x1]
  obtain ⟨y1, y2, y3, y4, y5, y6, y7, y8, y9, y10, y11⟩ :=
    flush_echo_ok (flush_fstat (flush_write t st).1 (flush_write t st).2).1
      (flush_fstat (flush_write t st).1 (flush_write t st).2).2 x3 x4 (by rw [x5, x6]) h1 hle
  have hrun : run 3 t st =
      flush_echo (flush_fstat (flush_write t st).1 (flush_write t st).2).1
        (flush_fstat (flush_write t st).1 (flush_write t st).2).2 := by
    simp only [run]
    rw [step_flush_write t st h.pc, step_flush_fstat _ _ w2, step_flush_echo _ _ x2]
  rw [hrun]
  have hn : (flush_fstat (flush_write t st).1 (flush_write t st).2).1.n_byte =
      (st.content ++ bytes).length := by rw [x6, w1]
  have hc2 : (flush_fstat (flush_write t st).1 (flush_write t st).2).2.content =
      st.content ++ bytes := by rw [x1, w1]
  have htr := y11
  rw [x12, w11, hn, hc2, List.take_length] at htr
  refine ⟨by rw [y1, hc2], y2, y3, y4, by rw [y7, x8, w7], by rw [y8, x9, w8], y5,
    by rw [y6, x7, w6], by rw [y9, x10, w9], ?_, ?_⟩
  · rw [htr]; simp [appended_append, appended]
  · rw [htr]; simp [sendCalls_append, sendCalls]

theorem init_accumulating (cfd : Int) (env : Env) (hs : env.Succeeds) :
    (Thread.init cfd env).Accumulating [] := by
  refine ⟨rfl, rfl, rfl, hs, Or.inl ⟨rfl, ⟨?_, ?_, ?_⟩, rfl⟩⟩
  · simp [Thread.init, register_fd, initialize_resource_collector]
  · simp [Thread.init, register_fd, initialize_resource_collector]
  · simp [Thread.init, register_fd, initialize_resource_collector]

theorem packetOf_length (l : List Byte) : (packetOf l).length = l.length := by
  unfold packetOf
  split
  · rename_i h
    have hne : l ≠ [] := by
      intro h0; rw [h0] at h; simp at h
    have := List.length_pos.mpr hne
    simp; omega
  · rfl

theorem packetOf_ne_nil (l : List Byte) (h : l ≠ []) : packetOf l ≠ [] := by
  intro h0
  have := packetOf_length l
  rw [h0] at this
  exact h (List.length_eq_zero.mp this.symm)

/-- A worker started on a store whose offset is at the end: its run through the
chunks up to the first one ending in a newline or NUL and through the flush. -/
theorem run_first_flush (cfd : Int) (env : Env) (st : Store) (cs : List (List Byte))
    (c : List Byte) (rest : List RecvEv) (hs : env.Succeeds)
    (hrecv : env.recv = (cs ++ [c]).map RecvEv.data ++ rest)
    (hcs : ∀ x ∈ cs, x ≠ [] ∧ ¬ endsPacket x) (hc : c ≠ []) (hend : endsPacket c)
    (hfit : Fits 0 (cs ++ [c])) (hoff : st.offset = st.content.length)
    (hint : (st.content ++ cs.flatten ++ c).length + allocated_chunk_size ≤ INT_MAX) :
    (run (cs.length + 4) (Thread.init cfd env) st).2 =
        { content := st.content ++ packetOf (cs.flatten ++ c),
          offset := (st.content ++ packetOf (cs.flatten ++ c)).length } ∧
      (run (cs.length + 4) (Thread.init cfd env) st).1.pc = Pc.recv_loop ∧
      (run (cs.length + 4) (Thread.init cfd env) st).1.Untracked ∧
      (run (cs.length + 4) (Thread.init cfd env) st).1.buf ≠ NULL ∧
      (run (cs.length + 4) (Thread.init cfd env) st).1.available_space = 0 ∧
      (run (cs.length + 4) (Thread.init cfd env) st).1.total_byte_read = 0 ∧
      (run (cs.length + 4) (Thread.init cfd env) st).1.env.recv = rest ∧
      (run (cs.length + 4) (Thread.init cfd env) st).1.done = false ∧
      appended (run (cs.length + 4) (Thread.init cfd env) st).1.trace =
        [packetOf (cs.flatten ++ c)] ∧
      sendCalls (run (cs.length + 4) (Thread.init cfd env) st).1.trace =
        [st.content ++ packetOf (cs.flatten ++ c)] := by
  have hlen : (st.content ++ cs.flatten ++ c).length =
      st.content.length + (cs.flatten ++ c).length := by
    simp only [List.length_append]; omega
  have hint1 : (([] : List Byte) ++ cs.flatten ++ c).length + allocated_chunk_size ≤ INT_MAX := by
    simp only [List.nil_append]; omega
  obtain ⟨a1, a2, a3, a4, a5, a6, a7⟩ :=
    run_accumulate cs c rest (Thread.init cfd env) st [] (init_accumulating cfd env hs) hrecv hcs
      hc hend hfit hint1
  simp only [List.nil_append] at a2
  have hpne : packetOf (cs.flatten ++ c) ≠ [] := packetOf_ne_nil _ (by simp [hc])
  have hint2 : (st.content ++ packetOf (cs.flatten ++ c)).length ≤ INT_MAX := by
    rw [List.length_append, packetOf_length]; omega
  have hsplit : run (cs.length + 4) (Thread.init cfd env) st =
      run 3 (run (cs.length + 1) (Thread.init cfd env) st).1 st := by
    rw [show cs.length + 4 = (cs.length + 1) + 3 by omega, run_add, a1]
  obtain ⟨b1, b2, b3, b4, b5, b6, b7, b8, b9, b10, b11⟩ :=
    run_flush (run (cs.length + 1) (Thread.init cfd env) st).1 st _ a2 hpne hoff hint2
  rw [hsplit]
  refine ⟨b1, b2, b3, b4, b5, b6, by rw [b8, a3], by rw [b9, a4]; rfl, ?_, ?_⟩
  · rw [b10, a7]; rfl
  · rw [b11, a6]; rfl

theorem sentBytes_eq (tr : List Event) : sentBytes tr = (sendCalls tr).flatten := rfl

theorem recvMeasure_map_data (chunks : List (List Byte)) (rest : List RecvEv) :
    chunks.length ≤ recvMeasure (chunks.map RecvEv.data ++ rest) := by
  induction chunks with
  | nil => simp
  | cons c cs ih =>
    have e : recvMeasure ((c :: cs).map RecvEv.data ++ rest) =
        c.length + 1 + recvMeasure (cs.map RecvEv.data ++ rest) := rfl
    rw [e, List.length_cons]; omega

/-- The whole run of a worker whose first flush is followed by the return at
line 444 (the request to grow a buffer that is no longer tracked). -/
theorem thread_after_first_flush (cfd : Int) (env : Env) (st : Store) (cs : List (List Byte))
    (c : List Byte) (rest : List RecvEv) (hs : env.Succeeds)
    (hrecv : env.recv = (cs ++ [c]).map RecvEv.data ++ rest)
    (hcs : ∀ x ∈ cs, x ≠ [] ∧ ¬ endsPacket x) (hc : c ≠ []) (hend : endsPacket c)
    (hfit : Fits 0 (cs ++ [c])) (hoff : st.offset = st.content.length)
    (hint : (st.content ++ cs.flatten ++ c).length + allocated_chunk_size ≤ INT_MAX) :
    (socket_connection_thread cfd env st).2 =
        { content := st.content ++ packetOf (cs.flatten ++ c),
          offset := (st.content ++ packetOf (cs.flatten ++ c)).length } ∧
      (socket_connection_thread cfd env st).1.pc = Pc.returned ∧
      (socket_connection_thread cfd env st).1.done = false ∧
      (socket_connection_thread cfd env st).1.env.recv = rest ∧
      appended (socket_connection_thread cfd env st).1.trace = [packetOf (cs.flatten ++ c)] ∧
      sendCalls (socket_connection_thread cfd env st).1.trace =
        [st.content ++ packetOf (cs.flatten ++ c)] := by
  obtain ⟨a1, a2, a3, a4, a5, a6, a7, a8, a9, a10⟩ :=
    run_first_flush cfd env st cs c rest hs hrecv hcs hc hend hfit hoff hint
  obtain ⟨b1, b2, b3, b4, b5, b6⟩ :=
    step_stale (run (cs.length + 4) (Thread.init cfd env) st).1
      (run (cs.length + 4) (Thread.init cfd env) st).2 a2 a3 a4 a5 a6
  have hm : (cs ++ [c]).length ≤ recvMeasure env.recv := by
    rw [hrecv]; exact recvMeasure_map_data _ _
  have hfuel : 4 * recvMeasure env.recv + 4 =
      (cs.length + 4 + 1) + (4 * recvMeasure env.recv - cs.length - 1) := by
    simp only [List.length_append, List.length_singleton] at hm; omega
  have hrun : socket_connection_thread cfd env st =
      step (run (cs.length + 4) (Thread.init cfd env) st).1
        (run (cs.length + 4) (Thread.init cfd env) st).2 := by
    unfold socket_connection_thread
    rw [hfuel, run_add, run_succ_last, run_returned _ _ _ b2]
  rw [hrun]
  exact ⟨by rw [b1, a1], b2, by rw [b3, a8], by rw [b4, a7], by rw [b6, a9], by rw [b5, a10]⟩

theorem getLast?_flatten_append (cs : List (List Byte)) (c : List Byte) (hc : c ≠ []) :
    (cs.flatten ++ c).getLast? = c.getLast? := by
  rw [List.getLast?_append_of_ne_nil _ hc]

theorem chunks_split (chunks : List (List Byte)) (p : List Byte)
    (hchunks : ∀ c ∈ chunks, c ≠ []) (hp : chunks.flatten = p)
    (hlast : p.getLast? = some NL) (hbody : ∀ b ∈ p.dropLast, b ≠ NL ∧ b ≠ NUL) :
    ∃ cs c, chunks = cs ++ [c] ∧ (∀ x ∈ cs, x ≠ [] ∧ ¬ endsPacket x) ∧ c ≠ [] ∧
      endsPacket c ∧ cs.flatten ++ c = p ∧ packetOf p = p := by
  have hpne : p ≠ [] := by
    intro h0; rw [h0] at hlast; simp at hlast
  have hne : chunks ≠ [] := by
    intro h0; rw [h0] at hp; exact hpne hp.symm
  have hsplit : chunks = chunks.dropLast ++ [chunks.getLast hne] :=
    (List.dropLast_append_getLast hne).symm
  have hc : chunks.getLast hne ≠ [] := hchunks _ (List.getLast_mem hne)
  have hflat : chunks.dropLast.flatten ++ chunks.getLast hne = p := by
    rw [← hp]
    conv_rhs => rw [hsplit]
    simp
  have hcl : (chunks.getLast hne).getLast? = some NL := by
    rw [← getLast?_flatten_append chunks.dropLast _ hc, hflat]; exact hlast
  refine ⟨chunks.dropLast, chunks.getLast hne, hsplit, ?_, hc, Or.inl hcl, hflat, ?_⟩
  · intro x hx
    have hxne : x ≠ [] := hchunks x (List.mem_of_mem_dropLast hx)
    refine ⟨hxne, ?_⟩
    have hmem : x.getLast hxne ∈ p.dropLast := by
      rw [← hflat, List.dropLast_append_of_ne_nil _ hc]
      apply List.mem_append_left
      exact List.mem_flatten.mpr ⟨x, hx, List.getLast_mem hxne⟩
    have hb := hbody _ hmem
    intro he
    unfold endsPacket at he
    rw [List.getLast?_eq_getLast _ hxne] at he
    rcases he with he | he
    · exact hb.1 (Option.some.inj he)
    · exact hb.2 (Option.some.inj he)
  · unfold packetOf
    rw [hlast]
    simp [NL, NUL]

/-! ## The worker alone: claims C1 to C4 -/

theorem succeeds_ofRecv (r : List RecvEv) : (Env.ofRecv r).Succeeds :=
  ⟨by simp [Env.ofRecv], by simp [Env.ofRecv], by simp [Env.ofRecv], by simp [Env.ofRecv],
    by simp [Env.ofRecv], by simp [Env.ofRecv]⟩

/-- C1, the code at the failing input: one client sends `hello\n` and then
`world\n` on the same connection and every call succeeds.  The worker echoes
`hello\n` once and returns at its next pass through the loop, before any `recv`:
`world\n` is still unread, nothing more is appended or sent, and `done` is false. -/
theorem second_packet_never_echoed :
    sendCalls (socket_connection_thread 5
        (Env.ofRecv [RecvEv.data [104, 101, 108, 108, 111, 10],
          RecvEv.data [119, 111, 114, 108, 100, 10]]) Store.fresh).1.trace =
        [[104, 101, 108, 108, 111, 10]] ∧
      (socket_connection_thread 5
        (Env.ofRecv [RecvEv.data [104, 101, 108, 108, 111, 10],
          RecvEv.data [119, 111, 114, 108, 100, 10]]) Store.fresh).2.content =
        [104, 101, 108, 108, 111, 10] ∧
      (socket_connection_thread 5
        (Env.ofRecv [RecvEv.data [104, 101, 108, 108, 111, 10],
          RecvEv.data [119, 111, 114, 108, 100, 10]]) Store.fresh).1.env.recv =
        [RecvEv.data [119, 111, 114, 108, 100, 10]] ∧
      (socket_connection_thread 5
        (Env.ofRecv [RecvEv.data [104, 101, 108, 108, 111, 10],
          RecvEv.data [119, 111, 114, 108, 100, 10]]) Store.fresh).1.pc = Pc.returned ∧
      (socket_connection_thread 5
        (Env.ofRecv [RecvEv.data [104, 101, 108, 108, 111, 10],
          RecvEv.data [119, 111, 114, 108, 100, 10]]) Store.fresh).1.done = false := by
  decide

/-- C2: a packet `p` whose only newline or NUL byte is its final newline arrives
in non-empty chunks, each at most the space offered to `recv`, on a fresh store,
every call succeeding and `p.length + 4096` within the range of `int`.  The
worker returns, the store holds exactly `p`, the one append is `p` and the bytes
sent to the client are exactly `p`. -/
theorem single_packet_appended_and_echoed (cfd : Int) (env : Env)
    (chunks : List (List Byte)) (p : List Byte) (hs : env.Succeeds)
    (hrecv : env.recv = chunks.map RecvEv.data) (hchunks : ∀ c ∈ chunks, c ≠ [])
    (hfit : Fits 0 chunks) (hp : chunks.flatten = p) (hlast : p.getLast? = some NL)
    (hbody : ∀ b ∈ p.dropLast, b ≠ NL ∧ b ≠ NUL)
    (hint : p.length + allocated_chunk_size ≤ INT_MAX) :
    (socket_connection_thread cfd env Store.fresh).1.pc = Pc.returned ∧
      (socket_connection_thread cfd env Store.fresh).2.content = p ∧
      appended (socket_connection_thread cfd env Store.fresh).1.trace = [p] ∧
      sentBytes (socket_connection_thread cfd env Store.fresh).1.trace = p := by
  obtain ⟨cs, c, hsplit, hcs, hc, hend, hflat, hpk⟩ :=
    chunks_split chunks p hchunks hp hlast hbody
  have hrecv' : env.recv = (cs ++ [c]).map RecvEv.data ++ [] := by
    rw [hrecv, hsplit]; simp
  have hint' : (Store.fresh.content ++ cs.flatten ++ c).length + allocated_chunk_size ≤
      INT_MAX := by
    have : Store.fresh.content ++ cs.flatten ++ c = p := by
      rw [← hflat]; simp [Store.fresh]
    rw [this]; exact hint
  obtain ⟨a1, a2, -, -, a5, a6⟩ :=
    thread_after_first_flush cfd env Store.fresh cs c [] hs hrecv' hcs hc hend
      (by rw [← hsplit]; exact hfit) rfl hint'
  rw [hflat, hpk] at a1 a5 a6
  refine ⟨a2, ?_, a5, ?_⟩
  · rw [a1]; simp [Store.fresh]
  · rw [sentBytes_eq, a6]; simp [Store.fresh]

theorem single_packet_appended_and_echoed_witness :
    (socket_connection_thread 5
        (Env.ofRecv [RecvEv.data [104, 101], RecvEv.data [108, 108, 111, 10]])
        Store.fresh).1.pc = Pc.returned ∧
      (socket_connection_thread 5
        (Env.ofRecv [RecvEv.data [104, 101], RecvEv.data [108, 108, 111, 10]])
        Store.fresh).2.content = [104, 101, 108, 108, 111, 10] ∧
      appended (socket_connection_thread 5
        (Env.ofRecv [RecvEv.data [104, 101], RecvEv.data [108, 108, 111, 10]])
        Store.fresh).1.trace = [[104, 101, 108, 108, 111, 10]] ∧
      sentBytes (socket_connection_thread 5
        (Env.ofRecv [RecvEv.data [104, 101], RecvEv.data [108, 108, 111, 10]])
        Store.fresh).1.trace = [104, 101, 108, 108, 111, 10] :=
  single_packet_appended_and_echoed 5
    (Env.ofRecv [RecvEv.data [104, 101], RecvEv.data [108, 108, 111, 10]])
    [[104, 101], [108, 108, 111, 10]] [104, 101, 108, 108, 111, 10]
    (succeeds_ofRecv _) rfl (by decide) ⟨by decide, by decide, trivial⟩ rfl (by decide)
    (by decide) (by decide)

/-- C3 as stated fails: the four bytes `a\nb\n` hold two newline-terminated
segments, but delivered by one `recv` they are appended by one `write`. -/
theorem one_append_for_two_segments :
    segments [97, 10, 98, 10] = [[97, 10], [98, 10]] ∧
      appended (socket_connection_thread 5 (Env.ofRecv [RecvEv.data [97, 10, 98, 10]])
        Store.fresh).1.trace = [[97, 10, 98, 10]] ∧
      appended (socket_connection_thread 5 (Env.ofRecv [RecvEv.data [97, 10, 98, 10]])
        Store.fresh).1.trace ≠ segments [97, 10, 98, 10] := by
  decide

/-- C3, amended: the worker looks only at the last byte each `recv` returned.  For
recv results `cs ++ [c]` (non-empty, each at most the space offered) of which `c`
is the first to end in a newline or NUL, whatever follows in the socket: after
these `cs.length + 1` receive steps and the three sections of the flush the worker
has made exactly one append and one `send`; the append is the concatenation of
all these results with a final NUL turned into a newline, the `send` is the store
content with it, and what follows is still unread. -/
theorem first_flush_appends_all_bytes_received (cfd : Int) (env : Env) (st : Store)
    (cs : List (List Byte)) (c : List Byte) (rest : List RecvEv) (hs : env.Succeeds)
    (hrecv : env.recv = (cs ++ [c]).map RecvEv.data ++ rest)
    (hcs : ∀ x ∈ cs, x ≠ [] ∧ ¬ endsPacket x) (hc : c ≠ []) (hend : endsPacket c)
    (hfit : Fits 0 (cs ++ [c])) (hoff : st.offset = st.content.length)
    (hint : (st.content ++ cs.flatten ++ c).length + allocated_chunk_size ≤ INT_MAX) :
    appended (run (cs.length + 4) (Thread.init cfd env) st).1.trace =
        [packetOf (cs.flatten ++ c)] ∧
      sendCalls (run (cs.length + 4) (Thread.init cfd env) st).1.trace =
        [st.content ++ packetOf (cs.flatten ++ c)] ∧
      (run (cs.length + 4) (Thread.init cfd env) st).2.content =
        st.content ++ packetOf (cs.flatten ++ c) ∧
      (run (cs.length + 4) (Thread.init cfd env) st).1.env.recv = rest := by
  obtain ⟨a1, -, -, -, -, -, a7, -, a9, a10⟩ :=
    run_first_flush cfd env st cs c rest hs hrecv hcs hc hend hfit hoff hint
  exact ⟨a9, a10, by rw [a1], a7⟩

theorem first_flush_appends_all_bytes_received_witness :
    appended (run 5 (Thread.init 5
        (Env.ofRecv [RecvEv.data [97, 10, 98], RecvEv.data [10, 99, 0], RecvEv.data [100, 10]]))
        Store.fresh).1.trace = [packetOf [97, 10, 98, 10, 99, 0]] ∧
      sendCalls (run 5 (Thread.init 5
        (Env.ofRecv [RecvEv.data [97, 10, 98], RecvEv.data [10, 99, 0], RecvEv.data [100, 10]]))
        Store.fresh).1.trace = [[] ++ packetOf [97, 10, 98, 10, 99, 0]] ∧
      (run 5 (Thread.init 5
        (Env.ofRecv [RecvEv.data [97, 10, 98], RecvEv.data [10, 99, 0], RecvEv.data [100, 10]]))
        Store.fresh).2.content = [] ++ packetOf [97, 10, 98, 10, 99, 0] ∧
      (run 5 (Thread.init 5
        (Env.ofRecv [RecvEv.data [97, 10, 98], RecvEv.data [10, 99, 0], RecvEv.data [100, 10]]))
        Store.fresh).1.env.recv = [RecvEv.data [100, 10]] :=
  first_flush_appends_all_bytes_received 5
    (Env.ofRecv [RecvEv.data [97, 10, 98], RecvEv.data [10, 99, 0], RecvEv.data [100, 10]])
    Store.fresh [[97, 10, 98]] [10, 99, 0] [RecvEv.data [100, 10]] (succeeds_ofRecv _) rfl
    (by decide) (by decide) (by decide) ⟨by decide, by decide, trivial⟩ rfl (by decide)

/-- C4, the code at the failing input: the client sends `hello\n` and the `write`
to the store fails (`-1`, `ENOSPC`).  The thread function returns through the
`CLEAN_RETURN` of line 491 and `thread_params->done` is still false. -/
theorem early_return_leaves_done_false :
    (socket_connection_thread 5
        { recv := [RecvEv.data [104, 101, 108, 108, 111, 10]], alloc := [],
          write := [Xfer.fail 28], fstat := [], lseek := [], read := [], send := [] }
        Store.fresh).1.pc = Pc.returned ∧
      (socket_connection_thread 5
        { recv := [RecvEv.data [104, 101, 108, 108, 111, 10]], alloc := [],
          write := [Xfer.fail 28], fstat := [], lseek := [], read := [], send := [] }
        Store.fresh).1.done = false := by
  decide

/-! ## The three critical sections of a flush: claim C6 -/

theorem clean_return_trace (t : Thread) :
    ∃ tail, (clean_return t).trace = t.trace ++ tail ∧ ∀ e ∈ tail, e.offStore = true := by
  refine ⟨(cleanup t.conn_thread_res_collector).2.1.map Event.free ++
    (cleanup t.conn_thread_res_collector).2.2.map Event.close, ?_, ?_⟩
  · simp [clean_return]
  · intro e he
    rcases List.mem_append.mp he with h | h
    · obtain ⟨p, -, rfl⟩ := List.mem_map.mp h; rfl
    · obtain ⟨p, -, rfl⟩ := List.mem_map.mp h; rfl

theorem call_free_wrapper_trace (t : Thread) :
    ∃ tail, (call_free_wrapper t).trace = t.trace ++ tail ∧
      ∀ e ∈ tail, e.offStore = true := by
  unfold call_free_wrapper
  cases h : (free_wrapper t.conn_thread_res_collector t.buf).2 with
  | none => exact ⟨[], by simp [h], by simp⟩
  | some p =>
    refine ⟨[Event.free p], by simp [h], ?_⟩
    intro e he
    rw [List.mem_singleton.mp he]; rfl

theorem call_malloc_wrapper_trace (t : Thread) (p : Ptr) (size : Nat) :
    ∃ tail, (call_malloc_wrapper t p size).trace = t.trace ++ tail ∧
      ∀ e ∈ tail, e.offStore = true := by
  refine ⟨[Event.heap _ _], rfl, ?_⟩
  intro e he
  rw [List.mem_singleton.mp he]; rfl

theorem alloc_echo_buffer_trace (fuel : Nat) :
    ∀ t : Thread, ∃ tail, (alloc_echo_buffer fuel t).trace = t.trace ++ tail ∧
      ∀ e ∈ tail, e.offStore = true := by
  induction fuel with
  | zero => intro t; exact ⟨[], by simp [alloc_echo_buffer], by simp⟩
  | succ n ih =>
    intro t
    unfold alloc_echo_buffer
    by_cases hb : t.buf = NULL
    · simp only [hb, if_true]
      obtain ⟨m, hm, hmq⟩ := call_malloc_wrapper_trace t NULL t.n_byte
      split
      · split
        · split
          · obtain ⟨c, hc, hcq⟩ := clean_return_trace
              { (call_malloc_wrapper t NULL t.n_byte) with
                n_byte := (call_malloc_wrapper t NULL t.n_byte).n_byte / 2 }
            refine ⟨m ++ c, ?_, ?_⟩
            · rw [hc]; show (call_malloc_wrapper t NULL t.n_byte).trace ++ c = _
              rw [hm, List.append_assoc]
            · intro e he
              rcases List.mem_append.mp he with h | h
              · exact hmq e h
              · exact hcq e h
          · obtain ⟨c, hc, hcq⟩ := ih
              { (call_malloc_wrapper t NULL t.n_byte) with
                n_byte := (call_malloc_wrapper t NULL t.n_byte).n_byte / 2 }
            refine ⟨m ++ c, ?_, ?_⟩
            · rw [hc]; show (call_malloc_wrapper t NULL t.n_byte).trace ++ c = _
              rw [hm, List.append_assoc]
            · intro e he
              rcases List.mem_append.mp he with h | h
              · exact hmq e h
              · exact hcq e h
        · obtain ⟨c, hc, hcq⟩ := clean_return_trace (call_malloc_wrapper t NULL t.n_byte)
          refine ⟨m ++ c, ?_, ?_⟩
          · rw [hc, hm, List.append_assoc]
          · intro e he
            rcases List.mem_append.mp he with h | h
            · exact hmq e h
            · exact hcq e h
      · split
        · obtain ⟨c, hc, hcq⟩ := clean_return_trace (call_malloc_wrapper t NULL t.n_byte)
          refine ⟨m ++ c, ?_, ?_⟩
          · rw [hc, hm, List.append_assoc]
          · intro e he
            rcases List.mem_append.mp he with h | h
            · exact hmq e h
            · exact hcq e h
        · exact ⟨m, hm, hmq⟩
    · simp only [hb, if_false]
      exact ⟨[], by simp, by simp⟩

theorem echo_round_trace (t : Thread) (st : Store) :
    ∃ len ret bytes sent, (echo_round t st).1.trace =
      t.trace ++ [Event.read len ret, Event.send bytes sent] :=
  ⟨_, _, _, _, rfl⟩

/-- The rounds of the echo loop add `read` and `send` events only; when the loop is
left through the failing `send`, one `unlock` follows, then the cleanup. -/
theorem echo_loop_trace (rounds : Nat) :
    ∀ (t : Thread) (st : Store), ∃ mid tail,
      (∀ e ∈ mid, e.isMutex = false ∧ e.offStore = false) ∧
      (∀ e ∈ tail, e.offStore = true) ∧
      ((echo_loop rounds t st).2.2 = true →
        (echo_loop rounds t st).1.trace = t.trace ++ mid) ∧
      ((echo_loop rounds t st).2.2 = false →
        (echo_loop rounds t st).1.trace = t.trace ++ mid ++ [Event.unlock] ++ tail) := by
  induction rounds with
  | zero =>
    intro t st
    exact ⟨[], [], by simp, by simp, by simp [echo_loop], by simp [echo_loop]⟩
  | succ n ih =>
    intro t st
    obtain ⟨len, ret, bytes, sent, hr⟩ := echo_round_trace t st
    have hpair : ∀ e ∈ [Event.read len ret, Event.send bytes sent],
        e.isMutex = false ∧ e.offStore = false := by
      intro e he
      simp only [List.mem_cons, List.mem_singleton, List.not_mem_nil, or_false] at he
      rcases he with rfl | rfl <;> exact ⟨rfl, rfl⟩
    by_cases hb : (echo_round t st).2.2 = false
    · obtain ⟨c, hc, hcq⟩ := clean_return_trace (unlock (echo_round t st).1)
      have he : echo_loop (n + 1) t st =
          (clean_return (unlock (echo_round t st).1), (echo_round t st).2.1, false) := by
        simp [echo_loop, hb]
      rw [he]
      refine ⟨[Event.read len ret, Event.send bytes sent], c, hpair, hcq, ?_, ?_⟩
      · intro h; exact absurd h (by simp)
      · intro _
        show (clean_return _).trace = _
        rw [hc]
        show ((echo_round t st).1.trace ++ [Event.unlock]) ++ c = _
        rw [hr]
    · obtain ⟨mid, tail, h1, h2, h3, h4⟩ := ih (echo_round t st).1 (echo_round t st).2.1
      have he : echo_loop (n + 1) t st =
          echo_loop n (echo_round t st).1 (echo_round t st).2.1 := by
        simp [echo_loop, hb]
      rw [he]
      refine ⟨[Event.read len ret, Event.send bytes sent] ++ mid, tail, ?_, h2, ?_, ?_⟩
      · intro e he
        rcases List.mem_append.mp he with h | h
        · exact hpair e h
        · exact h1 e h
      · intro h
        rw [h3 h, hr]; simp
      · intro h
        rw [h4 h, hr]; simp

theorem flush_write_trace (t : Thread) (st : Store) :
    ∃ bytes ret tail, (flush_write t st).1.trace =
        t.trace ++ [Event.lock, Event.write bytes ret, Event.unlock] ++ tail ∧
      ∀ e ∈ tail, e.offStore = true := by
  have ha : (append_section t st).1.trace = t.trace ++
      [Event.lock, Event.write (t.mem.take t.total_byte_read) (append_section t st).2.2,
        Event.unlock] := rfl
  by_cases h : (append_section t st).2.2 ≠ (t.total_byte_read : Int)
  · obtain ⟨c, hc, hcq⟩ := clean_return_trace (append_section t st).1
    refine ⟨t.mem.take t.total_byte_read, (append_section t st).2.2, c, ?_, hcq⟩
    unfold flush_write; rw [if_pos h]
    rw [hc, ha]
  · obtain ⟨c, hc, hcq⟩ := call_free_wrapper_trace (append_section t st).1
    refine ⟨t.mem.take t.total_byte_read, (append_section t st).2.2, c, ?_, hcq⟩
    unfold flush_write; rw [if_neg h]
    show (call_free_wrapper (append_section t st).1).trace = _
    rw [hc, ha]

theorem flush_fstat_trace (t : Thread) (st : Store) :
    ∃ ret tail, (flush_fstat t st).1.trace =
        t.trace ++ [Event.lock, Event.fstat ret, Event.unlock] ++ tail ∧
      ∀ e ∈ tail, e.offStore = true := by
  have hf : (fstat_section t st).1.trace = t.trace ++
      [Event.lock, Event.fstat (fstat_section t st).2, Event.unlock] := rfl
  by_cases h : (fstat_section t st).2 ≠ 0
  · obtain ⟨c, hc, hcq⟩ := clean_return_trace (fstat_section t st).1
    refine ⟨(fstat_section t st).2, c, ?_, hcq⟩
    unfold flush_fstat; rw [if_pos h]
    rw [hc, hf]
  · by_cases h2 : (fstat_section t st).1.st_size > INT_MAX
    · refine ⟨(fstat_section t st).2, [], ?_, by simp⟩
      unfold flush_fstat; rw [if_neg h, if_pos h2]
      show (fstat_section t st).1.trace = _
      rw [hf]; simp
    · obtain ⟨c, hc, hcq⟩ := alloc_echo_buffer_trace ((fstat_section t st).1.st_size + 1)
        { (fstat_section t st).1 with n_byte := (fstat_section t st).1.st_size, buf := NULL }
      refine ⟨(fstat_section t st).2, c, ?_, hcq⟩
      unfold flush_fstat; rw [if_neg h, if_neg h2]
      dsimp only
      split
      · show (alloc_echo_buffer _ _).trace = _
        rw [hc]; show (fstat_section t st).1.trace ++ c = _
        rw [hf]
      · rw [hc]; show (fstat_section t st).1.trace ++ c = _
        rw [hf]

theorem flush_echo_trace (t : Thread) (st : Store) :
    ∃ mid tail, (flush_echo t st).1.trace =
        t.trace ++ [Event.lock] ++ mid ++ [Event.unlock] ++ tail ∧
      (∀ e ∈ mid, e.isMutex = false ∧ e.offStore = false) ∧
      ∀ e ∈ tail, e.offStore = true := by
  have hb : (echo_begin t st).1.trace = t.trace ++
      [Event.lock, Event.lseek_set (echo_begin t st).2.2] := rfl
  have hseek : ∀ r : Int, (Event.lseek_set r).isMutex = false ∧
      (Event.lseek_set r).offStore = false := fun _ => ⟨rfl, rfl⟩
  have hend : ∀ r : Int, (Event.lseek_end r).isMutex = false ∧
      (Event.lseek_end r).offStore = false := fun _ => ⟨rfl, rfl⟩
  by_cases h1 : (echo_begin t st).2.2 = -1
  · obtain ⟨c, hc, hcq⟩ := clean_return_trace (unlock (echo_begin t st).1)
    refine ⟨[Event.lseek_set (echo_begin t st).2.2], c, ?_, ?_, hcq⟩
    · unfold flush_echo; rw [if_pos h1]
      rw [hc]
      show ((echo_begin t st).1.trace ++ [Event.unlock]) ++ c = _
      rw [hb, h1]; simp
    · intro e he
      rw [List.mem_singleton.mp he]; exact hseek _
  · obtain ⟨mid, tail, m1, m2, m3, m4⟩ := echo_loop_trace
      (((echo_begin t st).1.st_size + (echo_begin t st).1.n_byte - 1) /
        (echo_begin t st).1.n_byte) (echo_begin t st).1 (echo_begin t st).2.1
    have hmid : ∀ e ∈ Event.lseek_set (echo_begin t st).2.2 :: mid,
        e.isMutex = false ∧ e.offStore = false := by
      intro e he
      rcases List.mem_cons.mp he with rfl | h
      · exact hseek _
      · exact m1 e h
    by_cases h2 : (echo_rounds t st).2.2 = false
    · refine ⟨Event.lseek_set (echo_begin t st).2.2 :: mid, tail, ?_, hmid, m2⟩
      unfold flush_echo; rw [if_neg h1, if_pos h2]
      show (echo_rounds t st).1.trace = _
      have := m4 h2
      unfold echo_rounds
      rw [this, hb]; simp
    · have h2' : (echo_rounds t st).2.2 = true := by simpa using h2
      have hr : (echo_rounds t st).1.trace = (echo_begin t st).1.trace ++ mid := m3 h2'
      have he : (echo_end (echo_rounds t st).1 (echo_rounds t st).2.1).1.trace =
          (echo_rounds t st).1.trace ++
            [Event.lseek_end (echo_end (echo_rounds t st).1 (echo_rounds t st).2.1).2.2] := rfl
      have hmid2 : ∀ e ∈ Event.lseek_set (echo_begin t st).2.2 :: (mid ++
          [Event.lseek_end (echo_end (echo_rounds t st).1 (echo_rounds t st).2.1).2.2]),
          e.isMutex = false ∧ e.offStore = false := by
        intro e he
        rcases List.mem_cons.mp he with rfl | h
        · exact hseek _
        · rcases List.mem_append.mp h with h | h
          · exact m1 e h
          · rw [List.mem_singleton.mp h]; exact hend _
      by_cases h3 : (echo_end (echo_rounds t st).1 (echo_rounds t st).2.1).2.2 = -1
      · obtain ⟨c, hc, hcq⟩ := clean_return_trace
          (unlock (echo_end (echo_rounds t st).1 (echo_rounds t st).2.1).1)
        refine ⟨Event.lseek_set (echo_begin t st).2.2 :: (mid ++
          [Event.lseek_end (echo_end (echo_rounds t st).1 (echo_rounds t st).2.1).2.2]), c, ?_,
          hmid2, hcq⟩
        unfold flush_echo; rw [if_neg h1, if_neg h2, if_pos h3]
        rw [hc]
        show ((echo_end (echo_rounds t st).1 (echo_rounds t st).2.1).1.trace ++
          [Event.unlock]) ++ c = _
        rw [he, hr, hb]; simp
      · obtain ⟨c, hc, hcq⟩ := call_free_wrapper_trace
          (unlock (echo_end (echo_rounds t st).1 (echo_rounds t st).2.1).1)
        refine ⟨Event.lseek_set (echo_begin t st).2.2 :: (mid ++
          [Event.lseek_end (echo_end (echo_rounds t st).1 (echo_rounds t st).2.1).2.2]), c, ?_,
          hmid2, hcq⟩
        unfold flush_echo; rw [if_neg h1, if_neg h2, if_neg h3]
        show (call_free_wrapper _).trace = _
        rw [hc]
        show ((echo_end (echo_rounds t st).1 (echo_rounds t st).2.1).1.trace ++
          [Event.unlock]) ++ c = _
        rw [he, hr, hb]; simp

/-- C6 as stated fails: in the run of one worker on the packet `hello\n`, every
call succeeding, an `unlock` lies between the append `write` and the `send` of
the echo. -/
theorem mutex_released_between_append_and_echo :
    unlockBetweenWriteAndSend (socket_connection_thread 5
      (Env.ofRecv [RecvEv.data [104, 101, 108, 108, 111, 10]]) Store.fresh).1.trace = true := by
  decide

/-- C6, amended: whatever the calls return, a flush holds the mutex in three
separate sections.  The append is `lock`, `write`, `unlock`; the size query is
`lock`, `fstat`, `unlock`; the echo is one section that opens with `lock`, holds
the `lseek` calls and every `read` and `send` with no `lock` or `unlock` among
them, and closes with `unlock`.  What each section leaves behind after its
`unlock` are heap calls and `close` only. -/
theorem flush_holds_mutex_in_three_sections (t : Thread) (st : Store) :
    (∃ bytes ret tail, (flush_write t st).1.trace =
        t.trace ++ [Event.lock, Event.write bytes ret, Event.unlock] ++ tail ∧
      ∀ e ∈ tail, e.offStore = true) ∧
    (∃ ret tail, (flush_fstat t st).1.trace =
        t.trace ++ [Event.lock, Event.fstat ret, Event.unlock] ++ tail ∧
      ∀ e ∈ tail, e.offStore = true) ∧
    (∃ mid tail, (flush_echo t st).1.trace =
        t.trace ++ [Event.lock] ++ mid ++ [Event.unlock] ++ tail ∧
      (∀ e ∈ mid, e.isMutex = false ∧ e.offStore = false) ∧
      ∀ e ∈ tail, e.offStore = true) :=
  ⟨flush_write_trace t st, flush_fstat_trace t st, flush_echo_trace t st⟩

/-! ## N concurrent workers: claims C5 and C7 -/

theorem concatOf_append (chunks : List (List (List Byte))) (a b : List Nat) :
    concatOf chunks (a ++ b) = concatOf chunks a ++ concatOf chunks b := by
  simp [concatOf]

theorem concatOf_singleton (chunks : List (List (List Byte))) (i : Nat) :
    concatOf chunks [i] = pktOf chunks i := by
  simp [concatOf]

theorem concatOf_take_prefix (chunks : List (List (List Byte))) (order : List Nat) (j : Nat) :
    (concatOf chunks order).take (concatOf chunks (order.take j)).length =
      concatOf chunks (order.take j) := by
  conv_lhs => rw [← List.take_append_drop j order, concatOf_append]
  simp

theorem concatOf_take_le (chunks : List (List (List Byte))) (order : List Nat) (j : Nat) :
    (concatOf chunks (order.take j)).length ≤ (concatOf chunks order).length := by
  conv_rhs => rw [← List.take_append_drop j order, concatOf_append]
  simp

theorem pktOf_le_concatOf (chunks : List (List (List Byte))) (order : List Nat) (i : Nat)
    (h : i ∈ order) : (pktOf chunks i).length ≤ (concatOf chunks order).length := by
  induction order with
  | nil => simp at h
  | cons a l ih =>
    have e : concatOf chunks (a :: l) = pktOf chunks a ++ concatOf chunks l := by
      simp [concatOf]
    rw [e, List.length_append]
    rcases List.mem_cons.mp h with rfl | h
    · omega
    · have := ih h; omega

/-- The packets of distinct clients are no longer than the packets of all. -/
theorem concatOf_le_total (chunks : List (List (List Byte))) (order : List Nat)
    (hd : order.Nodup) (hb : ∀ i ∈ order, i < chunks.length) :
    (concatOf chunks order).length ≤ (concatOf chunks (List.range chunks.length)).length := by
  have hsub : List.Subperm order (List.range chunks.length) :=
    List.subperm_of_subset hd (fun i hi => List.mem_range.mpr (hb i hi))
  obtain ⟨l, hp, hs⟩ := hsub
  have h1 : (concatOf chunks order).length = (concatOf chunks l).length := by
    simp only [concatOf, List.length_flatten, List.map_map]
    exact ((hp.map _).sum_eq).symm
  rw [h1]
  simp only [concatOf, List.length_flatten, List.map_map]
  exact List.Sublist.sum_le_sum (hs.map _) (fun _ _ => Nat.zero_le _)

theorem echoed_order_append (chunks : List (List (List Byte))) (order : List Nat)
    (i j : Nat) (t : Thread) (h : Echoed chunks order j t) :
    Echoed chunks (order ++ [i]) j t := by
  obtain ⟨m, hm, hmem, hs⟩ := h
  refine ⟨m, ?_, ?_, ?_⟩
  · simp only [List.length_append, List.length_singleton]; omega
  · rw [List.take_append_of_le_length hm]; exact hmem
  · rw [List.take_append_of_le_length hm]; exact hs

/-- The phase of a worker is not disturbed by the append of another worker. -/
theorem phase_order_append (chunks : List (List (List Byte))) (order : List Nat)
    (i j k : Nat) (t : Thread) (h : Phase chunks order j k t) (hij : i ≠ j) :
    Phase chunks (order ++ [i]) j k t := by
  have hnot : j ∉ order → j ∉ order ++ [i] := by
    intro hn hmem
    rcases List.mem_append.mp hmem with h1 | h1
    · exact hn h1
    · exact hij (List.mem_singleton.mp h1).symm
  rcases h with ⟨h0, h1, h2, h3, h4, h5⟩ | ⟨h0, h1, h2, h3⟩ |
    ⟨h0, h1, h2, h3, h4, h5, h6, h7, h8⟩ | ⟨h0, h1, h2, h3, h4, h5, h6, h7, m, hm, hmem, hn⟩ |
    ⟨h0, h1, h2, h3, h4, h5, h6⟩ | ⟨h0, h1, h2⟩
  · exact Or.inl ⟨h0, h1, h2, h3, h4, hnot h5⟩
  · exact Or.inr (Or.inl ⟨h0, h1, h2, hnot h3⟩)
  · exact Or.inr (Or.inr (Or.inl ⟨h0, h1, h2, h3, h4, h5, h6, h7, List.mem_append_left _ h8⟩))
  · refine Or.inr (Or.inr (Or.inr (Or.inl ⟨h0, h1, h2, h3, h4, h5, h6, h7, m, ?_, ?_, ?_⟩)))
    · simp only [List.length_append, List.length_singleton]; omega
    · rw [List.take_append_of_le_length hm]; exact hmem
    · rw [List.take_append_of_le_length hm]; exact hn
  · exact Or.inr (Or.inr (Or.inr (Or.inr (Or.inl
      ⟨h0, h1, h2, h3, h4, h5, echoed_order_append chunks order i j t h6⟩))))
  · exact Or.inr (Or.inr (Or.inr (Or.inr (Or.inr
      ⟨h0, h1, echoed_order_append chunks order i j t h2⟩))))

/-- In the recv results of one packet, the result at index `k` is the last one or
does not end the packet. -/
theorem chunk_at (ch : List (List Byte)) (k : Nat) (hk : k < ch.length)
    (hbody : ∀ x ∈ ch.dropLast, ¬ endsPacket x)
    (hlast : ∃ c, ch.getLast? = some c ∧ c.getLast? = some NL) :
    (k + 1 < ch.length → ¬ endsPacket ch[k]) ∧
      (k + 1 = ch.length → endsPacket ch[k] ∧ ch[k].getLast? = some NL) := by
  constructor
  · intro h
    apply hbody
    have hk' : k < ch.dropLast.length := by rw [List.length_dropLast]; omega
    have : ch.dropLast[k] = ch[k] := by
      rw [List.getElem_dropLast]
    rw [← this]
    exact List.getElem_mem _
  · intro h
    obtain ⟨c, hc, hcl⟩ := hlast
    have hne : ch ≠ [] := by
      intro h0; rw [h0] at hk; simp at hk
    rw [List.getLast?_eq_getLast _ hne] at hc
    have hc' : ch.getLast hne = c := Option.some.inj hc
    have : ch[k] = c := by
      rw [← hc', List.getLast_eq_getElem]
      congr 1
      omega
    rw [this]
    exact ⟨Or.inl hcl, hcl⟩

theorem packetOf_of_newline (l : List Byte) (h : l.getLast? = some NL) : packetOf l = l := by
  unfold packetOf
  rw [h]
  simp [NL, NUL]

theorem flatten_take_succ (ch : List (List Byte)) (k : Nat) (hk : k < ch.length) :
    (ch.take (k + 1)).flatten = (ch.take k).flatten ++ ch[k] := by
  have e : ch.take (k + 1) = ch.take k ++ [ch[k]] := by
    rw [List.take_succ, List.getElem?_eq_getElem hk]; rfl
  rw [e, List.flatten_append]
  simp

theorem flatten_take_le (ch : List (List Byte)) (k : Nat) :
    (ch.take k).flatten.length ≤ ch.flatten.length := by
  have e : ch.flatten = (ch.take k).flatten ++ (ch.drop k).flatten := by
    rw [← List.flatten_append, List.take_append_drop]
  rw [e, List.length_append]
  omega

theorem pktOf_ne_nil (chunks : List (List (List Byte))) (i : Nat)
    (hlast : ∃ c, (chunks.getD i []).getLast? = some c ∧ c.getLast? = some NL) :
    pktOf chunks i ≠ [] := by
  obtain ⟨c, hc, hcl⟩ := hlast
  have hcne : c ≠ [] := by
    intro h0; rw [h0] at hcl; simp at hcl
  have hmem : c ∈ chunks.getD i [] := List.mem_of_getLast?_eq_some hc
  intro h0
  unfold pktOf at h0
  rw [List.flatten_eq_nil_iff] at h0
  exact hcne (h0 c hmem)

theorem step_returned (t : Thread) (st : Store) (h : t.pc = Pc.returned) :
    step t st = (t, st) := by
  simp [step, h]

/-- One step of worker `i`, in whatever phase it is, among the other workers. -/
theorem worker_step_phase (chunks : List (List (List Byte))) (order : List Nat) (i k : Nat)
    (t : Thread) (st : Store) (hph : Phase chunks order i k t)
    (hoff : st.offset = st.content.length) (hcontent : st.content = concatOf chunks order)
    (hnd : order.Nodup) (hb : ∀ j ∈ order, j < chunks.length) (hi : i < chunks.length)
    (hch : ∀ x ∈ chunks.getD i [], x ≠ [])
    (hbody : ∀ x ∈ (chunks.getD i []).dropLast, ¬ endsPacket x)
    (hlast : ∃ c, (chunks.getD i []).getLast? = some c ∧ c.getLast? = some NL)
    (htot : (concatOf chunks (List.range chunks.length)).length + allocated_chunk_size ≤
      INT_MAX) :
    Phase chunks (if t.pc = Pc.flush_write then order ++ [i] else order) i (k + 1)
        (step t st).1 ∧
      (step t st).2.offset = (step t st).2.content.length ∧
      (step t st).2.content =
        concatOf chunks (if t.pc = Pc.flush_write then order ++ [i] else order) ∧
      (t.pc = Pc.flush_write → i ∉ order) := by
  have hpi : (pktOf chunks i).length ≤ (concatOf chunks (List.range chunks.length)).length :=
    pktOf_le_concatOf chunks _ i (List.mem_range.mpr hi)
  have hpne : pktOf chunks i ≠ [] := pktOf_ne_nil chunks i hlast
  have hppos : 0 < (pktOf chunks i).length := List.length_pos.mpr hpne
  rcases hph with ⟨hk, hacc, hrecv, hfit, hsend, hni⟩ | ⟨hk, hready, hsend, hni⟩ |
    ⟨hk, hpc, hu, hbuf, hs, ha, ht, hsend, hmem⟩ |
    ⟨hk, hpc, htr, hs, hsz, ha, ht, hsend, j, hj, hjmem, hn⟩ |
    ⟨hk, hpc, hu, hbuf, ha, ht, hech⟩ | ⟨hk, hpc, hech⟩
  · -- accumulating
    have hpcne : ¬ (t.pc = Pc.flush_write) := by rw [hacc.pc]; decide
    rw [if_neg hpcne]
    have hdrop : (chunks.getD i []).drop k =
        (chunks.getD i [])[k] :: (chunks.getD i []).drop (k + 1) :=
      List.drop_eq_getElem_cons hk
    have hx : (chunks.getD i [])[k] ≠ [] := hch _ (List.getElem_mem _)
    rw [hdrop] at hrecv hfit
    have hfit1 : ((chunks.getD i [])[k]).length ≤ t.space := hfit.1
    have hfit2 : Fits (t.space - ((chunks.getD i [])[k]).length)
        ((chunks.getD i []).drop (k + 1)) := hfit.2
    have hint : ((chunks.getD i []).take k).flatten.length + allocated_chunk_size ≤ INT_MAX := by
      have := flatten_take_le (chunks.getD i []) k
      have h2 : (chunks.getD i []).flatten.length = (pktOf chunks i).length := rfl
      omega
    obtain ⟨s1, s2, -, -, s5, -, s7, s8⟩ :=
      step_recv_data t st _ _ _ hacc hrecv hx hfit1 hint
    obtain ⟨c1, c2⟩ := chunk_at (chunks.getD i []) k hk hbody hlast
    refine ⟨?_, by rw [s1]; exact hoff, by rw [s1]; exact hcontent,
      fun h => absurd h hpcne⟩
    by_cases hk1 : k + 1 < (chunks.getD i []).length
    · obtain ⟨a1, a2, -⟩ := s8 (c1 hk1)
      refine Or.inl ⟨hk1, ?_, s2, ?_, by rw [s5]; exact hsend, hni⟩
      · rw [flatten_take_succ _ _ hk]; exact a1
      · rw [a2]; exact hfit2
    · have hk2 : k + 1 = (chunks.getD i []).length := by omega
      obtain ⟨e1, e2⟩ := c2 hk2
      have hr := s7 e1
      refine Or.inr (Or.inl ⟨hk2, ?_, by rw [s5]; exact hsend, hni⟩)
      have hfl : ((chunks.getD i []).take k).flatten ++ (chunks.getD i [])[k] =
          pktOf chunks i := by
        rw [← flatten_take_succ _ _ hk, hk2, List.take_length]; rfl
      rw [hfl] at hr
      have hl : (pktOf chunks i).getLast? = some NL := by
        rw [← hfl, List.getLast?_append_of_ne_nil _ hx]; exact e2
      rw [packetOf_of_newline _ hl] at hr
      exact hr
  · -- the append
    rw [if_pos hready.pc]
    obtain ⟨w1, w2, w3, w4, w5, -, w7, w8, -, -, w11⟩ :=
      flush_write_ready t st (pktOf chunks i) hready hoff
    rw [step_flush_write t st hready.pc]
    refine ⟨Or.inr (Or.inr (Or.inl ⟨by omega, w2, w3, w4, w5, w7, w8, ?_, by simp⟩)), ?_, ?_,
      fun _ => hni⟩
    · rw [w11, sendCalls_append, hsend]; rfl
    · rw [w1]
    · rw [w1, concatOf_append, concatOf_singleton, hcontent]
  · -- fstat and the echo buffer
    have hpcne : ¬ (t.pc = Pc.flush_write) := by rw [hpc]; decide
    rw [if_neg hpcne]
    have hle := pktOf_le_concatOf chunks order i hmem
    have hne : st.content ≠ [] := by
      intro h0
      rw [hcontent] at h0
      have h00 : (concatOf chunks order).length = 0 := by rw [h0]; rfl
      omega
    have hint : st.content.length ≤ INT_MAX := by
      rw [hcontent]
      have := concatOf_le_total chunks order hnd hb
      omega
    obtain ⟨x1, x2, x3, x4, x5, x6, -, x8, x9, -, -, p, x12⟩ :=
      flush_fstat_ok t st hpc hu hs hne hint
    rw [step_flush_fstat t st hpc]
    refine ⟨Or.inr (Or.inr (Or.inr (Or.inl ⟨by omega, x2, x3, x4, by rw [x5, x6],
      by rw [x8, ha], by rw [x9, ht], ?_, order.length, le_refl _, ?_, ?_⟩))),
      by rw [x1]; exact hoff, by rw [x1]; exact hcontent, fun h => absurd h hpcne⟩
    · rw [x12, sendCalls_append, hsend]; rfl
    · rw [List.take_length]; exact hmem
    · rw [x6, List.take_length, hcontent]
  · -- the echo
    have hpcne : ¬ (t.pc = Pc.flush_write) := by rw [hpc]; decide
    rw [if_neg hpcne]
    have h1 : 1 ≤ t.n_byte := by
      rw [hn]
      have := pktOf_le_concatOf chunks _ i hjmem
      omega
    have hle : t.n_byte ≤ st.content.length := by
      rw [hn, hcontent]; exact concatOf_take_le chunks order j
    obtain ⟨y1, y2, y3, y4, -, -, y7, y8, -, -, y11⟩ := flush_echo_ok t st htr hs hsz h1 hle
    rw [step_flush_echo t st hpc]
    refine ⟨Or.inr (Or.inr (Or.inr (Or.inr (Or.inl ⟨by omega, y2, y3, y4, by rw [y7, ha],
      by rw [y8, ht], j, hj, hjmem, ?_⟩)))), by rw [y1], by rw [y1]; exact hcontent,
      fun h => absurd h hpcne⟩
    rw [y11, sendCalls_append, hsend, hn, hcontent, concatOf_take_prefix]
    rfl
  · -- the return at line 444
    have hpcne : ¬ (t.pc = Pc.flush_write) := by rw [hpc]; decide
    rw [if_neg hpcne]
    obtain ⟨z1, z2, -, -, z5, -⟩ := step_stale t st hpc hu hbuf ha ht
    obtain ⟨j, hj, hjmem, hsc⟩ := hech
    refine ⟨Or.inr (Or.inr (Or.inr (Or.inr (Or.inr ⟨by omega, z2, j, hj, hjmem, ?_⟩)))),
      by rw [z1]; exact hoff, by rw [z1]; exact hcontent, fun h => absurd h hpcne⟩
    rw [z5]; exact hsc
  · -- returned
    have hpcne : ¬ (t.pc = Pc.flush_write) := by rw [hpc]; decide
    rw [if_neg hpcne, step_returned t st hpc]
    exact ⟨Or.inr (Or.inr (Or.inr (Or.inr (Or.inr ⟨by omega, hpc, hech⟩)))), hoff, hcontent,
      fun h => absurd h hpcne⟩

/-- The invariant is kept by a step of any worker. -/
theorem inv_step (chunks : List (List (List Byte))) (s : System) (k : Nat → Nat) (i : Nat)
    (hinv : Inv chunks s k)
    (hch : ∀ j < chunks.length, ∀ x ∈ chunks.getD j [], x ≠ [])
    (hbody : ∀ j < chunks.length, ∀ x ∈ (chunks.getD j []).dropLast, ¬ endsPacket x)
    (hlast : ∀ j < chunks.length,
      ∃ c, (chunks.getD j []).getLast? = some c ∧ c.getLast? = some NL)
    (htot : (concatOf chunks (List.range chunks.length)).length + allocated_chunk_size ≤
      INT_MAX) :
    Inv chunks (s.step (Sched.worker i)) (Function.update k i (k i + 1)) := by
  cases hw : s.workers[i]? with
  | none =>
    have hs : s.step (Sched.worker i) = s := by simp [System.step, hw]
    rw [hs]
    refine ⟨hinv.off, hinv.content, hinv.nodup, hinv.bound, hinv.len, ?_⟩
    intro j t hj
    have hji : j ≠ i := by
      intro h0; rw [h0, hw] at hj; exact Option.noConfusion hj
    rw [Function.update_noteq hji]
    exact hinv.phase j t hj
  | some t =>
    have hi : i < chunks.length := by
      rw [← hinv.len]
      exact (List.getElem?_eq_some.mp hw).1
    obtain ⟨p1, p2, p3, p4⟩ := worker_step_phase chunks s.order i (k i) t s.store
      (hinv.phase i t hw) hinv.off hinv.content hinv.nodup hinv.bound hi (hch i hi)
      (hbody i hi) (hlast i hi) htot
    have hs : s.step (Sched.worker i) =
        { store := (step t s.store).2
          workers := s.workers.set i (step t s.store).1
          order := if t.pc = Pc.flush_write then s.order ++ [i] else s.order } := by
      simp [System.step, hw]
    rw [hs]
    refine ⟨p2, p3, ?_, ?_, ?_, ?_⟩
    · show (if t.pc = Pc.flush_write then s.order ++ [i] else s.order).Nodup
      by_cases hpc : t.pc = Pc.flush_write
      · rw [if_pos hpc]
        exact List.Nodup.append hinv.nodup (List.nodup_singleton i)
          (by
            intro a ha hb
            rw [List.mem_singleton.mp hb] at ha
            exact p4 hpc ha)
      · rw [if_neg hpc]; exact hinv.nodup
    · show ∀ j ∈ (if t.pc = Pc.flush_write then s.order ++ [i] else s.order), j < chunks.length
      intro j hj
      by_cases hpc : t.pc = Pc.flush_write
      · rw [if_pos hpc] at hj
        rcases List.mem_append.mp hj with h | h
        · exact hinv.bound j h
        · rw [List.mem_singleton.mp h]; exact hi
      · rw [if_neg hpc] at hj; exact hinv.bound j hj
    · show (s.workers.set i (step t s.store).1).length = chunks.length
      rw [List.length_set]; exact hinv.len
    · intro j t' hj
      have hj' : (s.workers.set i (step t s.store).1)[j]? = some t' := hj
      show Phase chunks (if t.pc = Pc.flush_write then s.order ++ [i] else s.order) j
        (Function.update k i (k i + 1) j) t'
      by_cases hji : j = i
      · subst hji
        rw [List.getElem?_set_self (List.getElem?_eq_some.mp hw).1] at hj'
        rw [← Option.some.inj hj', Function.update_same]
        exact p1
      · rw [List.getElem?_set_ne (Ne.symm hji)] at hj'
        rw [Function.update_noteq hji]
        have := hinv.phase j t' hj'
        by_cases hpc : t.pc = Pc.flush_write
        · rw [if_pos hpc]
          exact phase_order_append chunks s.order i j (k j) t' this (Ne.symm hji)
        · rw [if_neg hpc]; exact this

/-- The invariant holds after any schedule of worker steps. -/
theorem inv_exec (chunks : List (List (List Byte)))
    (hch : ∀ j < chunks.length, ∀ x ∈ chunks.getD j [], x ≠ [])
    (hbody : ∀ j < chunks.length, ∀ x ∈ (chunks.getD j []).dropLast, ¬ endsPacket x)
    (hlast : ∀ j < chunks.length,
      ∃ c, (chunks.getD j []).getLast? = some c ∧ c.getLast? = some NL)
    (htot : (concatOf chunks (List.range chunks.length)).length + allocated_chunk_size ≤
      INT_MAX)
    (sched : List Nat) :
    ∀ (s : System) (k : Nat → Nat), Inv chunks s k →
      Inv chunks (s.exec (sched.map Sched.worker)) (fun j => k j + sched.count j) := by
  induction sched with
  | nil =>
    intro s k h
    simpa [System.exec] using h
  | cons i rest ih =>
    intro s k h
    have h1 := inv_step chunks s k i h hch hbody hlast htot
    have h2 := ih _ _ h1
    have hk : (fun j => Function.update k i (k i + 1) j + rest.count j) =
        (fun j => k j + (i :: rest).count j) := by
      funext j
      by_cases hji : j = i
      · subst hji
        simp [List.count_cons]
        omega
      · rw [Function.update_noteq hji, List.count_cons_of_ne hji]
    rw [← hk]
    exact h2

theorem inv_init (conns : List (Int × Env)) (chunks : List (List (List Byte)))
    (h : OnePacketEach conns chunks) :
    Inv chunks (System.init conns) (fun _ => 0) := by
  refine ⟨rfl, rfl, List.nodup_nil, by simp [System.init], by simp [System.init, h.1], ?_⟩
  intro i t hi
  have hi' : (conns.map (fun c => Thread.init c.1 c.2))[i]? = some t := hi
  rw [List.getElem?_map] at hi'
  cases hc : conns[i]? with
  | none => rw [hc] at hi'; exact Option.noConfusion hi'
  | some c =>
    rw [hc] at hi'
    have ht : t = Thread.init c.1 c.2 := (Option.some.inj hi').symm
    obtain ⟨hlt, hget⟩ := List.getElem?_eq_some.mp hc
    have hp := h.2 i hlt
    rw [hget] at hp
    obtain ⟨c0, hc0, hcl⟩ := hp.last
    have hne : chunks.getD i [] ≠ [] := by
      intro h0; rw [h0] at hc0; simp at hc0
    refine Or.inl ⟨List.length_pos.mpr hne, ?_, ?_, ?_, ?_, by simp [System.init]⟩
    · rw [ht]; simpa using init_accumulating c.1 c.2 hp.succeeds
    · rw [ht]; simpa [Thread.init] using hp.stream
    · rw [ht]; simpa [Thread.init] using hp.fits
    · rw [ht]; rfl

theorem phase_returned_iff (chunks : List (List (List Byte))) (order : List Nat) (i k : Nat)
    (t : Thread) (h : Phase chunks order i k t) :
    (t.pc = Pc.returned ↔ (chunks.getD i []).length + 4 ≤ k) ∧
      (t.pc = Pc.returned → Echoed chunks order i t) := by
  rcases h with ⟨h0, h1, -⟩ | ⟨h0, h1, -⟩ | ⟨h0, h1, -⟩ | ⟨h0, h1, -⟩ | ⟨h0, h1, -⟩ |
    ⟨h0, h1, h2⟩
  · have hp := h1.pc
    exact ⟨⟨fun h => by rw [hp] at h; exact absurd h (by decide), fun h => by omega⟩,
      fun h => by rw [hp] at h; exact absurd h (by decide)⟩
  · have hp := h1.pc
    exact ⟨⟨fun h => by rw [hp] at h; exact absurd h (by decide), fun h => by omega⟩,
      fun h => by rw [hp] at h; exact absurd h (by decide)⟩
  · exact ⟨⟨fun h => by rw [h1] at h; exact absurd h (by decide), fun h => by omega⟩,
      fun h => by rw [h1] at h; exact absurd h (by decide)⟩
  · exact ⟨⟨fun h => by rw [h1] at h; exact absurd h (by decide), fun h => by omega⟩,
      fun h => by rw [h1] at h; exact absurd h (by decide)⟩
  · exact ⟨⟨fun h => by rw [h1] at h; exact absurd h (by decide), fun h => by omega⟩,
      fun h => by rw [h1] at h; exact absurd h (by decide)⟩
  · exact ⟨⟨fun _ => h0, fun _ => h1⟩, fun _ => h2⟩

theorem inv_reached (conns : List (Int × Env)) (chunks : List (List (List Byte)))
    (sched : List Nat) (h : OnePacketEach conns chunks)
    (htot : (concatOf chunks (List.range chunks.length)).length + allocated_chunk_size ≤
      INT_MAX) :
    Inv chunks ((System.init conns).exec (sched.map Sched.worker)) (fun j => sched.count j) := by
  have hidx : ∀ j, j < chunks.length → OnePacket (conns.getD j (0, Env.ofRecv [])).2
      (chunks.getD j []) := by
    intro j hj
    have hj' : j < conns.length := by rw [h.1]; exact hj
    have := h.2 j hj'
    rw [List.getD_eq_getElem _ _ hj']
    exact this
  have := inv_exec chunks (fun j hj => (hidx j hj).chunks) (fun j hj => (hidx j hj).body)
    (fun j hj => (hidx j hj).last) htot sched (System.init conns) (fun _ => 0)
    (inv_init conns chunks h)
  simpa using this

/-- C5, the code at the failing input: workers 0 and 1 receive `a\n` and `b\n` on a
fresh store, and the `send` of worker 0 fails.  After worker 0 has appended and
queried the size, worker 1 appends; worker 0 then seeks to the start, reads its
two bytes, fails to send them and returns without seeking back: the store holds
`a\nb\n` with the shared offset at 2.  The next write, the
`timestamp:Thu, 01 Jan 1970 00:00:10 +0000\n` of the ticker, lands there: it overwrites `b\n`,
and the old content is not a prefix of the new one. -/
theorem failed_echo_leaves_offset_inside_store :
    ((System.init
        [(5, { recv := [RecvEv.data [97, 10]], alloc := [], write := [], fstat := [],
               lseek := [], read := [], send := [Xfer.fail 32] }),
          (6, Env.ofRecv [RecvEv.data [98, 10]])]).exec
        [Sched.worker 0, Sched.worker 0, Sched.worker 0, Sched.worker 1, Sched.worker 1,
          Sched.worker 0]).store = { content := [97, 10, 98, 10], offset := 2 } ∧
      ((System.init
        [(5, { recv := [RecvEv.data [97, 10]], alloc := [], write := [], fstat := [],
               lseek := [], read := [], send := [Xfer.fail 32] }),
          (6, Env.ofRecv [RecvEv.data [98, 10]])]).exec
        [Sched.worker 0, Sched.worker 0, Sched.worker 0, Sched.worker 1, Sched.worker 1,
          Sched.worker 0, Sched.tick
            [84, 104, 117, 44, 32, 48, 49, 32, 74, 97, 110, 32, 49, 57, 55, 48, 32, 48, 48, 58, 48, 48,
              58, 49, 48, 32, 43, 48, 48, 48, 48, 10] Xfer.full]).store.content =
        [97, 10, 116, 105, 109, 101, 115, 116, 97, 109, 112, 58, 84, 104, 117, 44, 32, 48, 49, 32, 74,
          97, 110, 32, 49, 57, 55, 48, 32, 48, 48, 58, 48, 48, 58, 49, 48, 32, 43, 48, 48, 48, 48, 10] ∧
      ¬ ([97, 10, 98, 10] <+:
        ((System.init
          [(5, { recv := [RecvEv.data [97, 10]], alloc := [], write := [], fstat := [],
                 lseek := [], read := [], send := [Xfer.fail 32] }),
            (6, Env.ofRecv [RecvEv.data [98, 10]])]).exec
          [Sched.worker 0, Sched.worker 0, Sched.worker 0, Sched.worker 1, Sched.worker 1,
            Sched.worker 0, Sched.tick
            [84, 104, 117, 44, 32, 48, 49, 32, 74, 97, 110, 32, 49, 57, 55, 48, 32, 48, 48, 58, 48, 48,
              58, 49, 48, 32, 43, 48, 48, 48, 48, 10] Xfer.full]).store.content) := by
  decide

/-- C7 as stated fails: two clients send `a\n` and `b\n`, every call succeeds, and
worker 1 appends between the append and the size query of worker 0.  Both workers
return, the store holds `a\nb\n`, and the echo of client 0 is `a\nb\n`, which
does not end with its own packet `a\n`. -/
theorem echo_need_not_end_with_own_packet :
    ((System.init [(5, Env.ofRecv [RecvEv.data [97, 10]]),
        (6, Env.ofRecv [RecvEv.data [98, 10]])]).exec
        ([0, 1, 0, 1, 0, 0, 0, 1, 1, 1].map Sched.worker)).echo 0 = [97, 10, 98, 10] ∧
      ¬ ([97, 10] <:+
        ((System.init [(5, Env.ofRecv [RecvEv.data [97, 10]]),
          (6, Env.ofRecv [RecvEv.data [98, 10]])]).exec
          ([0, 1, 0, 1, 0, 0, 0, 1, 1, 1].map Sched.worker)).echo 0) ∧
      ((System.init [(5, Env.ofRecv [RecvEv.data [97, 10]]),
        (6, Env.ofRecv [RecvEv.data [98, 10]])]).exec
        ([0, 1, 0, 1, 0, 0, 0, 1, 1, 1].map Sched.worker)).workers.map (fun t => t.pc) =
        [Pc.returned, Pc.returned] := by
  decide

/-- C7, amended: `N` clients send one packet each, every call succeeds, the packets
together stay within the range of `int`, and the workers are interleaved by any
schedule.  At every moment the store is the concatenation of the packets appended
so far, whole, in the order in which the appends took the mutex, and no worker
appends twice.  Worker `i` has returned exactly when it has been scheduled for
its `n + 4` steps (`n` recv results); its client has then received one echo: the
first `j` packets in append order for some `j` that covers its own packet.  When
every worker has had its steps, the order is a permutation of the `N` clients. -/
theorem concurrent_packets_appended_whole (conns : List (Int × Env))
    (chunks : List (List (List Byte))) (sched : List Nat) (h : OnePacketEach conns chunks)
    (htot : (concatOf chunks (List.range chunks.length)).length + allocated_chunk_size ≤
      INT_MAX) :
    ((System.init conns).exec (sched.map Sched.worker)).store.content =
        concatOf chunks ((System.init conns).exec (sched.map Sched.worker)).order ∧
      ((System.init conns).exec (sched.map Sched.worker)).order.Nodup ∧
      (∀ i t, ((System.init conns).exec (sched.map Sched.worker)).workers[i]? = some t →
        (t.pc = Pc.returned ↔ (chunks.getD i []).length + 4 ≤ sched.count i) ∧
        (t.pc = Pc.returned →
          ∃ j, i ∈ ((System.init conns).exec (sched.map Sched.worker)).order.take j ∧
            sentBytes t.trace =
              concatOf chunks
                (((System.init conns).exec (sched.map Sched.worker)).order.take j))) ∧
      ((∀ i, i < chunks.length → (chunks.getD i []).length + 4 ≤ sched.count i) →
        ((System.init conns).exec (sched.map Sched.worker)).order.Perm
          (List.range chunks.length)) := by
  have hinv := inv_reached conns chunks sched h htot
  refine ⟨hinv.content, hinv.nodup, ?_, ?_⟩
  · intro i t ht
    obtain ⟨r1, r2⟩ := phase_returned_iff chunks _ i _ t (hinv.phase i t ht)
    refine ⟨r1, fun hr => ?_⟩
    obtain ⟨j, -, hmem, hs⟩ := r2 hr
    exact ⟨j, hmem, by rw [sentBytes_eq, hs]; simp⟩
  · intro hall
    apply (List.perm_ext_iff_of_nodup hinv.nodup (List.nodup_range _)).mpr
    intro i
    constructor
    · intro hi; exact List.mem_range.mpr (hinv.bound i hi)
    · intro hi
      have hi' : i < chunks.length := List.mem_range.mp hi
      have hlt : i < ((System.init conns).exec (sched.map Sched.worker)).workers.length := by
        rw [hinv.len]; exact hi'
      have hget : ((System.init conns).exec (sched.map Sched.worker)).workers[i]? =
          some (((System.init conns).exec (sched.map Sched.worker)).workers[i]) :=
        List.getElem?_eq_getElem hlt
      obtain ⟨r1, r2⟩ := phase_returned_iff chunks _ i _ _ (hinv.phase i _ hget)
      obtain ⟨j, -, hmem, -⟩ := r2 (r1.mpr (hall i hi'))
      exact List.mem_of_mem_take hmem

theorem concurrent_packets_appended_whole_witness :
    ((System.init [(5, Env.ofRecv [RecvEv.data [97, 10]]),
        (6, Env.ofRecv [RecvEv.data [98], RecvEv.data [10]])]).exec
        ([0, 1, 0, 1, 0, 0, 0, 1, 1, 1, 1].map Sched.worker)).store.content =
      concatOf [[[97, 10]], [[98], [10]]]
        ((System.init [(5, Env.ofRecv [RecvEv.data [97, 10]]),
          (6, Env.ofRecv [RecvEv.data [98], RecvEv.data [10]])]).exec
          ([0, 1, 0, 1, 0, 0, 0, 1, 1, 1, 1].map Sched.worker)).order :=
  (concurrent_packets_appended_whole
    [(5, Env.ofRecv [RecvEv.data [97, 10]]),
      (6, Env.ofRecv [RecvEv.data [98], RecvEv.data [10]])]
    [[[97, 10]], [[98], [10]]] [0, 1, 0, 1, 0, 0, 0, 1, 1, 1, 1]
    ⟨rfl, fun i hi =>
      match i, hi with
      | 0, _ => ⟨succeeds_ofRecv _, rfl, by decide, by decide, ⟨[97, 10], rfl, rfl⟩,
          ⟨by decide, trivial⟩⟩
      | 1, _ => ⟨succeeds_ofRecv _, rfl, by decide, by decide, ⟨[10], rfl, rfl⟩,
          ⟨by decide, by decide, trivial⟩⟩⟩
    (by decide)).1

/-! ## The registry: claims C8 to C10 -/

theorem isList_congr (r r' : Registry) (ns : List (Ptr × ThreadNode)) :
    ∀ p, (∀ x ∈ ns, r'.node x.1 = r.node x.1 ∧ r'.node_live x.1 = r.node_live x.1 ∧
        r'.params_live x.2.thread_params = r.params_live x.2.thread_params) →
      r.IsList p ns → r'.IsList p ns := by
  induction ns with
  | nil => intro p _ h; exact h
  | cons x rest ih =>
    intro p hx h
    obtain ⟨a, n⟩ := x
    obtain ⟨h1, h2, h3, h4, h5, h6⟩ := h
    obtain ⟨e1, e2, e3⟩ := hx (a, n) (by simp)
    exact ⟨h1, h2, by rw [e1]; exact h3, by rw [e2]; exact h4, by rw [e3]; exact h5,
      ih _ (fun y hy => hx y (List.mem_cons_of_mem _ hy)) h6⟩

/-- One round of the drain loop on a well-formed registry. -/
theorem drain_round (r : Registry) (a : Ptr) (n : ThreadNode) (rest : List (Ptr × ThreadNode))
    (h : r.WellFormed ((a, n) :: rest)) (fuel rounds : Nat) :
    ∃ r1 : Registry, drain_loop (fuel + 1) r rounds = drain_loop fuel r1 (rounds + 1) ∧
      r1.WellFormed rest ∧ r1.joined = r.joined ++ [n.thread_id] ∧
      r1.freed = r.freed ++ [n.thread_params, a] := by
  obtain ⟨h1, h2, h3, h4, h5, h6⟩ := h.list
  have hne : ¬ (r.slh_first = NULL) := by rw [h1]; exact h2
  have hnode : r.node r.slh_first = some n := by rw [h1]; exact h3
  have hlive : r.node_live r.slh_first = true := by rw [h1]; exact h4
  refine ⟨{ r with
      joined := r.joined ++ [n.thread_id]
      params_live := Function.update r.params_live n.thread_params false
      node_live := Function.update r.node_live a false
      freed := r.freed ++ [n.thread_params, a]
      slh_first := n.next }, ?_, ?_, rfl, rfl⟩
  · have hu := h.uaf
    have hf := h.fault
    simp only [drain_loop, hne, if_false, Registry.load, hnode, hlive, if_true, slist_remove,
      Registry.join, Registry.free_params, Registry.free_node]
    simp [hnode, hlive, h5, hu, hf, h1, h4]
  · have hnd : a ∉ rest.map Prod.fst := (List.nodup_cons.mp h.nodes).1
    have hpd : n.thread_params ∉ rest.map (fun x => x.2.thread_params) :=
      (List.nodup_cons.mp h.params).1
    refine ⟨?_, (List.nodup_cons.mp h.nodes).2, (List.nodup_cons.mp h.params).2, h.uaf, h.fault⟩
    apply isList_congr r _ rest n.next _ h6
    intro x hx
    have hxa : x.1 ≠ a := fun h0 => hnd (h0 ▸ List.mem_map_of_mem Prod.fst hx)
    have hxp : x.2.thread_params ≠ n.thread_params := fun h0 =>
      hpd (h0 ▸ List.mem_map_of_mem (fun x => x.2.thread_params) hx)
    exact ⟨rfl, by simp [Function.update_noteq hxa], by simp [Function.update_noteq hxp]⟩

/-- The drain loop on a well-formed registry of `ns.length` nodes. -/
theorem drain_loop_spec (ns : List (Ptr × ThreadNode)) :
    ∀ (r : Registry) (fuel rounds : Nat), r.WellFormed ns → ns.length < fuel →
      ∃ r1 : Registry, drain_loop fuel r rounds = some (r1, rounds + ns.length) ∧
        r1.slh_first = NULL ∧ r1.joined = r.joined ++ ns.map (fun x => x.2.thread_id) ∧
        r1.freed = r.freed ++ ns.flatMap (fun x => [x.2.thread_params, x.1]) ∧
        r1.uaf = false ∧ r1.fault = false := by
  induction ns with
  | nil =>
    intro r fuel rounds h hfuel
    obtain ⟨f, rfl⟩ : ∃ f, fuel = f + 1 := ⟨fuel - 1, by simp at hfuel; omega⟩
    have h0 : r.slh_first = NULL := h.list
    exact ⟨r, by simp [drain_loop, h0], h0, by simp, by simp, h.uaf, h.fault⟩
  | cons x rest ih =>
    intro r fuel rounds h hfuel
    obtain ⟨a, n⟩ := x
    obtain ⟨f, rfl⟩ : ∃ f, fuel = f + 1 := ⟨fuel - 1, by simp at hfuel; omega⟩
    obtain ⟨r1, e1, w1, j1, f1⟩ := drain_round r a n rest h f rounds
    obtain ⟨r2, e2, s2, j2, f2, u2, t2⟩ := ih r1 f (rounds + 1) w1
      (by simp only [List.length_cons] at hfuel; omega)
    refine ⟨r2, ?_, s2, ?_, ?_, u2, t2⟩
    · rw [e1, e2]; simp only [List.length_cons]; congr 2; omega
    · rw [j2, j1]; simp
    · rw [f2, f1]; simp

/-- C8, the code at the failing input: the registry holds workers 1 and 2 (inserted
by two passes of the accept loop) and both have set `done`.  The walk removes and
frees the head node and then continues from `prev_node`, which still points at it:
it reads the freed node, meets worker 2 a second time after having freed it,
joins it and frees its descriptor again, and `SLIST_REMOVE` on the now empty list
dereferences `NULL`. -/
theorem completed_head_entries_walked_after_free :
    (((register_worker 10 Registry.empty 1 101 201).bind
        (fun r => register_worker 10 r 2 102 202)).bind
        (fun r => handle_completed_threads 10 ((r.set_done 101).set_done 102))).map
        (fun r => (r.joined, r.freed, r.uaf, r.fault)) =
      some ([1, 2, 2], [101, 201, 102, 202, 102], true, true) := by
  decide

/-- C9, the code at the failing input: workers 1, 2 and 3 are accepted in turn and
worker 2, the one inserted last, has set `done` before the third connection.  The
reap frees its node, the list is not empty, and the new node is inserted after
`last_thread_node`, the freed node: the registry head reaches node `201` only, the
new node `203` is not a member. -/
theorem node_inserted_after_freed_node_unreachable :
    (((register_worker 10 Registry.empty 1 101 201).bind
        (fun r => register_worker 10 r 2 102 202)).bind
        (fun r => register_worker 10 (r.set_done 102) 3 103 203)).map
        (fun r => (r.members 10, decide (203 ∈ r.members 10), r.last_thread_node, r.joined,
          r.uaf)) =
      some ([201], false, 203, [2], true) := by
  decide

/-- C10: on a registry whose head reaches `n` distinct allocated nodes with distinct
descriptors, the drain loop of `main` ends after exactly `n` rounds, has joined the
`n` workers once each, in list order and whatever their `done` flags, has freed each
descriptor and node once, and leaves the list empty. -/
theorem drain_joins_every_worker_once (r : Registry) (ns : List (Ptr × ThreadNode))
    (fuel : Nat) (h : r.WellFormed ns) (hfuel : ns.length < fuel) :
    ∃ r1 : Registry, drain_loop fuel r 0 = some (r1, ns.length) ∧ r1.slh_first = NULL ∧
      r1.joined = r.joined ++ ns.map (fun x => x.2.thread_id) ∧
      r1.freed = r.freed ++ ns.flatMap (fun x => [x.2.thread_params, x.1]) ∧
      r1.uaf = false ∧ r1.fault = false := by
  obtain ⟨r1, e, rest⟩ := drain_loop_spec ns r fuel 0 h hfuel
  exact ⟨r1, by rw [e]; simp, rest⟩

theorem drain_joins_every_worker_once_witness :
    ∃ r1 : Registry, drain_loop 3 Registry.twoWorkers 0 = some (r1, 2) ∧
      r1.slh_first = NULL ∧ r1.joined = [1, 2] ∧ r1.freed = [101, 201, 102, 202] ∧
      r1.uaf = false ∧ r1.fault = false :=
  drain_joins_every_worker_once Registry.twoWorkers
    [(201, { thread_id := 1, thread_params := 101, next := 202 }),
      (202, { thread_id := 2, thread_params := 102, next := NULL })] 3
    ⟨⟨rfl, by decide, rfl, rfl, rfl, rfl, by decide, rfl, rfl, rfl, rfl⟩, by decide, by decide,
      rfl, rfl⟩
    (by decide)

/-! ## The worker always comes to an end -/

theorem clean_return_pc (t : Thread) : (clean_return t).pc = Pc.returned := rfl

theorem call_malloc_wrapper_recv (t : Thread) (p : Ptr) (size : Nat) :
    (call_malloc_wrapper t p size).env.recv = t.env.recv ∧
      (call_malloc_wrapper t p size).pc = t.pc := by
  unfold call_malloc_wrapper
  constructor
  · dsimp only
    split <;> rfl
  · rfl

theorem call_free_wrapper_recv (t : Thread) :
    (call_free_wrapper t).env.recv = t.env.recv ∧ (call_free_wrapper t).pc = t.pc :=
  ⟨rfl, rfl⟩

theorem alloc_echo_buffer_recv (fuel : Nat) :
    ∀ t : Thread, (alloc_echo_buffer fuel t).env.recv = t.env.recv ∧
      ((alloc_echo_buffer fuel t).pc = t.pc ∨ (alloc_echo_buffer fuel t).pc = Pc.returned) := by
  induction fuel with
  | zero => intro t; exact ⟨rfl, Or.inl rfl⟩
  | succ n ih =>
    intro t
    obtain ⟨m1, m2⟩ := call_malloc_wrapper_recv t t.buf t.n_byte
    unfold alloc_echo_buffer
    by_cases hb : t.buf = NULL
    · rw [if_pos hb]
      dsimp only
      by_cases h1 : (call_malloc_wrapper t t.buf t.n_byte).buf = NULL
      · rw [if_pos h1]
        by_cases h2 : (call_malloc_wrapper t t.buf t.n_byte).error_code = ENOMEM
        · rw [if_pos h2]
          by_cases h3 : (call_malloc_wrapper t t.buf t.n_byte).n_byte / 2 = 0
          · rw [if_pos h3]
            exact ⟨m1, Or.inr rfl⟩
          · rw [if_neg h3]
            obtain ⟨i1, i2⟩ := ih
              { (call_malloc_wrapper t t.buf t.n_byte) with
                n_byte := (call_malloc_wrapper t t.buf t.n_byte).n_byte / 2 }
            refine ⟨i1.trans m1, ?_⟩
            rcases i2 with i2 | i2
            · exact Or.inl (i2.trans m2)
            · exact Or.inr i2
        · rw [if_neg h2]
          exact ⟨m1, Or.inr rfl⟩
      · rw [if_neg h1]
        by_cases h4 : (call_malloc_wrapper t t.buf t.n_byte).n_byte = 0
        · rw [if_pos h4]; exact ⟨m1, Or.inr rfl⟩
        · rw [if_neg h4]; exact ⟨m1, Or.inl m2⟩
    · rw [if_neg hb]; exact ⟨rfl, Or.inl rfl⟩

theorem echo_loop_recv (rounds : Nat) :
    ∀ (t : Thread) (st : Store), (echo_loop rounds t st).1.env.recv = t.env.recv ∧
      ((echo_loop rounds t st).2.2 = true → (echo_loop rounds t st).1.pc = t.pc) ∧
      ((echo_loop rounds t st).2.2 = false → (echo_loop rounds t st).1.pc = Pc.returned) := by
  induction rounds with
  | zero => intro t st; exact ⟨rfl, fun _ => rfl, fun h => by simp [echo_loop] at h⟩
  | succ n ih =>
    intro t st
    unfold echo_loop
    by_cases hb : (echo_round t st).2.2 = false
    · rw [if_pos hb]
      exact ⟨rfl, fun h => by simp at h, fun _ => rfl⟩
    · rw [if_neg hb]
      obtain ⟨i1, i2, i3⟩ := ih (echo_round t st).1 (echo_round t st).2.1
      exact ⟨i1, fun h => i2 h, i3⟩

theorem recvMeasure_sys_recv (inbox : List RecvEv) (space : Nat) (errno : Int)
    (hs : 0 < space) (h : (sys_recv inbox space errno).1 ≠ 0) :
    recvMeasure (sys_recv inbox space errno).2.2.2 < recvMeasure inbox := by
  cases inbox with
  | nil => simp [sys_recv] at h
  | cons e rest =>
    cases e with
    | err e => simp [sys_recv, recvMeasure]
    | data bs =>
      by_cases hl : bs.length ≤ space
      · simp [sys_recv, hl, recvMeasure]
      · have hd : (bs.drop space).length = bs.length - space := List.length_drop _ _
        simp only [sys_recv, if_neg hl, recvMeasure, hd]
        omega

theorem loop_alloc_recv (t : Thread) (h : t.pc = Pc.recv_loop) :
    (loop_alloc t).env.recv = t.env.recv ∧
      ((loop_alloc t).pc.final = true ∨
        ((loop_alloc t).pc = Pc.recv_loop ∧ 0 < (loop_alloc t).available_space)) := by
  unfold loop_alloc
  by_cases h0 : t.available_space = 0
  · rw [if_pos h0]
    by_cases h1 : t.total_byte_read + allocated_chunk_size > INT_MAX
    · rw [if_pos h1]
      exact ⟨rfl, Or.inl rfl⟩
    · rw [if_neg h1]
      obtain ⟨m1, m2⟩ :=
        call_malloc_wrapper_recv t t.buf (t.total_byte_read + allocated_chunk_size)
      dsimp only
      by_cases h2 : (call_malloc_wrapper t t.buf (t.total_byte_read + allocated_chunk_size)).buf
          = NULL
      · rw [if_pos h2]
        exact ⟨m1, Or.inl rfl⟩
      · rw [if_neg h2]
        exact ⟨m1, Or.inr ⟨m2.trans h, by change 0 < allocated_chunk_size; decide⟩⟩
  · rw [if_neg h0]
    exact ⟨rfl, Or.inr ⟨h, Nat.pos_of_ne_zero h0⟩⟩

theorem loop_recv_potential (t : Thread) (h : t.pc = Pc.recv_loop)
    (hs : 0 < t.available_space) :
    (loop_recv t).pc.final = true ∨ (loop_recv t).potential < t.potential := by
  have hm := recvMeasure_sys_recv t.env.recv t.available_space t.errno hs
  unfold loop_recv
  dsimp only
  by_cases h0 : (sys_recv t.env.recv t.available_space t.errno).1 = 0
  · rw [if_pos h0]
    exact Or.inl rfl
  · rw [if_neg h0]
    have hm := hm h0
    right
    by_cases h1 : (sys_recv t.env.recv t.available_space t.errno).1 = -1
    · rw [if_pos h1]
      simp only [Thread.potential, h]
      omega
    · rw [if_neg h1]
      split
      · simp only [Thread.potential, h]
        omega
      · simp only [Thread.potential, h]
        omega

theorem flush_write_potential (t : Thread) (st : Store) (h : t.pc = Pc.flush_write) :
    (flush_write t st).1.pc.final = true ∨ (flush_write t st).1.potential < t.potential := by
  unfold flush_write
  split
  · exact Or.inl rfl
  · right
    have e : (append_section t st).1.env.recv = t.env.recv := rfl
    simp only [Thread.potential, h, call_free_wrapper, e]
    omega

theorem flush_fstat_potential (t : Thread) (st : Store) (h : t.pc = Pc.flush_fstat) :
    (flush_fstat t st).1.pc.final = true ∨ (flush_fstat t st).1.potential < t.potential := by
  unfold flush_fstat
  split
  · exact Or.inl rfl
  · split
    · exact Or.inl rfl
    · obtain ⟨a1, a2⟩ := alloc_echo_buffer_recv ((fstat_section t st).1.st_size + 1)
        { (fstat_section t st).1 with n_byte := (fstat_section t st).1.st_size, buf := NULL }
      have e : (fstat_section t st).1.env.recv = t.env.recv := rfl
      have e2 : (fstat_section t st).1.pc = Pc.flush_fstat := h
      dsimp only
      dsimp only at a1 a2
      rw [e] at a1
      rcases a2 with a2 | a2
      · right
        rw [if_pos (a2.trans e2)]
        simp only [Thread.potential, h, a1]
        omega
      · left
        rw [if_neg (by rw [a2]; decide), a2]
        rfl

theorem flush_echo_potential (t : Thread) (st : Store) (h : t.pc = Pc.flush_echo) :
    (flush_echo t st).1.pc.final = true ∨ (flush_echo t st).1.potential < t.potential := by
  obtain ⟨l1, l2, l3⟩ := echo_loop_recv
    (((echo_begin t st).1.st_size + (echo_begin t st).1.n_byte - 1) /
      (echo_begin t st).1.n_byte) (echo_begin t st).1 (echo_begin t st).2.1
  have e : (echo_begin t st).1.env.recv = t.env.recv := rfl
  unfold flush_echo
  split
  · exact Or.inl rfl
  · split
    · rename_i hf
      left
      change (echo_rounds t st).1.pc.final = true
      unfold echo_rounds at hf ⊢
      rw [l3 hf]
      rfl
    · split
      · exact Or.inl rfl
      · right
        have e3 : (echo_end (echo_rounds t st).1 (echo_rounds t st).2.1).1.env.recv
            = t.env.recv := by
          change (echo_rounds t st).1.env.recv = t.env.recv
          unfold echo_rounds
          rw [l1, e]
        simp only [Thread.potential, h, call_free_wrapper, unlock, e3]
        omega

/-- One scheduling step of a worker that has not returned either ends it or lowers
its potential. -/
theorem step_potential (t : Thread) (st : Store) (h : t.pc.final = false) :
    (step t st).1.pc.final = true ∨ (step t st).1.potential < t.potential := by
  unfold step
  split
  · rename_i hp
    obtain ⟨a1, a2⟩ := loop_alloc_recv t hp
    dsimp only
    rcases a2 with a2 | ⟨a2, a3⟩
    · left
      rw [if_neg (by intro hc; rw [hc] at a2; exact absurd a2 (by decide))]
      exact a2
    · rw [if_pos a2]
      rcases loop_recv_potential (loop_alloc t) a2 a3 with r | r
      · exact Or.inl r
      · right
        have : (loop_alloc t).potential = t.potential := by
          simp only [Thread.potential, a1, a2, hp]
        change (loop_recv (loop_alloc t)).potential < t.potential
        omega
  · exact flush_write_potential t st (by assumption)
  · exact flush_fstat_potential t st (by assumption)
  · exact flush_echo_potential t st (by assumption)
  · rename_i hp; rw [hp] at h; exact absurd h (by decide)
  · rename_i hp; rw [hp] at h; exact absurd h (by decide)

theorem step_final (t : Thread) (st : Store) (h : t.pc.final = true) :
    step t st = (t, st) := by
  unfold step
  split
  all_goals first
    | rfl
    | (rename_i hp; rw [hp] at h; exact absurd h (by decide))

theorem run_final (n : Nat) (t : Thread) (st : Store) (h : t.pc.final = true) :
    run n t st = (t, st) := by
  induction n with
  | zero => rfl
  | succ n ih => simp only [run, step_final t st h, ih]

/-- A worker run alone for more steps than its potential has come to its end. -/
theorem run_reaches_final (n : Nat) :
    ∀ (t : Thread) (st : Store), t.potential < n → (run n t st).1.pc.final = true := by
  induction n with
  | zero => intro t st h; omega
  | succ n ih =>
    intro t st h
    by_cases hf : t.pc.final = true
    · rw [run_final _ t st hf]; exact hf
    · have hf : t.pc.final = false := by simpa using hf
      simp only [run]
      rcases step_potential t st hf with s | s
      · rw [run_final _ _ _ s]; exact s
      · exact ih _ _ (by omega)

/-- The function `socket_connection_thread` is total: for every client behaviour and
every outcome of the system calls, the worker run alone leaves the function (or
the model stops at an `int` overflow of a byte count). -/
theorem socket_connection_thread_ends (cfd : Int) (env : Env) (st : Store) :
    (socket_connection_thread cfd env st).1.pc = Pc.returned ∨
      (socket_connection_thread cfd env st).1.pc = Pc.int_overflow := by
  have h := run_reaches_final (4 * recvMeasure env.recv + 4) (Thread.init cfd env) st
    (by simp [Thread.potential, Thread.init])
  unfold socket_connection_thread
  revert h
  cases (run (4 * recvMeasure env.recv + 4) (Thread.init cfd env) st).1.pc <;>
    simp [Pc.final]

/-! ## The function `main`: what the teardown leaves behind -/

theorem main_case_init_tempfile (s : Main) :
    (main_case_init s).tempfile_exists = s.tempfile_exists := by
  unfold main_case_init
  dsimp only
  split
  · rfl
  · split <;> rfl

theorem main_arm_timer_tempfile (s : Main) :
    (main_arm_timer s).tempfile_exists = s.tempfile_exists := by
  unfold main_arm_timer
  dsimp only
  split
  · rfl
  · split <;> rfl

theorem main_fork_tempfile (s : Main) :
    (main_fork s).tempfile_exists = s.tempfile_exists := by
  unfold main_fork
  split
  · split <;> rfl
  · rfl

theorem main_case_sock_created_tempfile (s : Main) :
    (main_case_sock_created s).tempfile_exists = s.tempfile_exists := by
  unfold main_case_sock_created
  split
  · rw [main_arm_timer_tempfile, main_fork_tempfile]
  · rw [main_fork_tempfile]

theorem main_case_start_listening_tempfile (s : Main) :
    (main_case_start_listening s).tempfile_exists = s.tempfile_exists := by
  unfold main_case_start_listening
  dsimp only
  split <;> rfl

theorem main_serve_tempfile (s : Main) (c : Conn) :
    (main_serve s c).tempfile_exists = s.tempfile_exists := by
  unfold main_serve
  dsimp only
  split
  · rfl
  · split
    · rfl
    · split
      · split
        · rfl
        · split
          · rfl
          · split <;> rfl
      · rfl

theorem main_case_waiting_conn_tempfile (s : Main) :
    (main_case_waiting_conn s).tempfile_exists = s.tempfile_exists := by
  unfold main_case_waiting_conn
  dsimp only
  split
  · split
    · rw [main_serve_tempfile]
    · rfl
  · rfl

theorem main_teardown_tempfile (s : Main) :
    (main_teardown s).tempfile_exists = s.tempfile_exists := by
  unfold main_teardown
  split
  · rfl
  · split <;> rfl

/-- No pass of `main` changes whether the store file exists. -/
theorem main_step_tempfile (s : Main) :
    (main_step s).tempfile_exists = s.tempfile_exists := by
  unfold main_step
  split
  · split
    · unfold main_loop_body
      split
      · rw [main_case_init_tempfile]; rfl
      · rw [main_case_sock_created_tempfile]; rfl
      · rw [main_case_start_listening_tempfile]; rfl
      · rw [main_case_waiting_conn_tempfile]; rfl
    · rw [main_teardown_tempfile]; rfl
  · rfl

theorem main_run_tempfile (n : Nat) :
    ∀ s : Main, (main_run n s).tempfile_exists = s.tempfile_exists := by
  induction n with
  | zero => intro s; rfl
  | succ n ih => intro s; rw [main_run, ih, main_step_tempfile]

/-- C11, the code at the failing input: the foreground server starts, every call
succeeding, takes one connection and then receives a stop signal.  `main` leaves
its loop, joins the worker and returns `0`, and the store file still exists: no
statement of `main` removes it.  More generally, once `open` has created the
file it exists after every number of passes of `main`, whatever the environment
does. -/
theorem store_file_left_behind_at_exit :
    (main_run 5 (main_init false false SetupCalls.success
        MainEnv.oneClientThenSignal)).pc = MainPc.returned 0 ∧
      (main_run 5 (main_init false false SetupCalls.success
        MainEnv.oneClientThenSignal)).interrupt_signal_received = true ∧
      (main_run 5 (main_init false false SetupCalls.success
        MainEnv.oneClientThenSignal)).registry.joined = [1] ∧
      (main_run 5 (main_init false false SetupCalls.success
        MainEnv.oneClientThenSignal)).tempfile_exists = true ∧
      ∀ (run_as_daemon existed : Bool) (fd : Nat) (env : MainEnv) (n : Nat),
        (main_run n (main_init run_as_daemon existed
          { SetupCalls.success with open_store := FdRes.ok fd } env)).tempfile_exists = true := by
  refine ⟨by decide, by decide, by decide, by decide, ?_⟩
  intro d ex fd env n
  rw [main_run_tempfile]
  have h : ((fd : Int) ≠ -1) := by omega
  simp [main_init, SetupCalls.success, FdRes.ret, IoRes.ret, h]

theorem cleanup_without_memory_container (c : ResourcesCollector)
    (h : c.allocated_mem = none) : cleanup c = (c, [], []) := by
  unfold cleanup
  rw [h]

/-- C12, the code at the failing input: the collector of `main` is initialised with
`NULL` for the memory container, and `cleanup` returns at once when
`collector->allocated_mem` is `NULL` (line 221).  With the store descriptor and the
listening socket registered, `cleanup` closes no descriptor and leaves
`num_of_open_file` at `2`; in the run of the foreground server that ends with a stop
signal and status `0`, the only calls of the teardown are `pthread_mutex_destroy` and
`timer_delete`, and descriptors `3` and `4` stay in the table. -/
theorem teardown_cleanup_closes_no_descriptor (output_fd sfd : Int) :
    cleanup (register_fd (register_fd
        (initialize_resource_collector none 0 (some [-1, -1, -1]) 3) output_fd).1 sfd).1 =
      ({ allocated_mem := none, num_of_allocated_mem := 0, max_num_of_allocated_mem := 0,
         open_file_fd := some [output_fd, sfd, -1], num_of_open_file := 2,
         max_num_of_open_file := 3 }, [], []) ∧
      (main_run 5 (main_init false false SetupCalls.success
        MainEnv.oneClientThenSignal)).pc = MainPc.returned 0 ∧
      (main_run 5 (main_init false false SetupCalls.success
        MainEnv.oneClientThenSignal)).main_thread_res_collector =
        { allocated_mem := none, num_of_allocated_mem := 0, max_num_of_allocated_mem := 0,
          open_file_fd := some [3, 4, -1], num_of_open_file := 2,
          max_num_of_open_file := 3 } ∧
      (main_run 5 (main_init false false SetupCalls.success
        MainEnv.oneClientThenSignal)).trace =
        [MainEvent.create_socket_server (some 0), MainEvent.timer_create 0,
          MainEvent.timer_settime 0, MainEvent.listen 0, MainEvent.accept 5,
          MainEvent.pthread_create 0, MainEvent.mutex_destroy, MainEvent.timer_delete] := by
  refine ⟨?_, by decide, by decide, by decide⟩
  simp [cleanup, register_fd, initialize_resource_collector]

/-! ## The worker: errors of `recv`, `read` and `send` -/

theorem recvCalls_append (a b : List Event) :
    recvCalls (a ++ b) = recvCalls a ++ recvCalls b := by
  induction a with
  | nil => rfl
  | cons e a ih => cases e <;> simp [recvCalls, ih]

theorem recvCalls_map_free (l : List Ptr) : recvCalls (l.map Event.free) = [] := by
  induction l with
  | nil => rfl
  | cons a l ih => simpa [recvCalls] using ih

theorem recvCalls_map_close (l : List Int) : recvCalls (l.map Event.close) = [] := by
  induction l with
  | nil => rfl
  | cons a l ih => simpa [recvCalls] using ih

theorem recvCalls_clean_return (t : Thread) :
    recvCalls (clean_return t).trace = recvCalls t.trace := by
  simp [clean_return, recvCalls_append, recvCalls_map_free, recvCalls_map_close]

/-- Every pass through lines 450 to 475 adds one `recv` to the trace, with the value
the call returned. -/
theorem recvCalls_loop_recv (t : Thread) :
    recvCalls (loop_recv t).trace =
      recvCalls t.trace ++ [(sys_recv t.env.recv t.available_space t.errno).1] := by
  unfold loop_recv
  dsimp only
  split
  · simp [thread_exit, recvCalls_clean_return, recvCalls_append, recvCalls]
  · split
    · simp [recvCalls_append, recvCalls]
    · split <;> simp [recvCalls_append, recvCalls]

theorem recvCalls_loop_alloc (t : Thread) :
    recvCalls (loop_alloc t).trace = recvCalls t.trace := by
  have hm : ∀ (p : Ptr) (n : Nat), recvCalls (call_malloc_wrapper t p n).trace =
      recvCalls t.trace := by
    intro p n
    simp [call_malloc_wrapper, recvCalls_append, recvCalls]
  unfold loop_alloc
  split
  · split
    · rfl
    · dsimp only
      split
      · rw [recvCalls_clean_return, hm]
      · exact hm _ _
  · rfl

theorem step_recv_loop (t : Thread) (st : Store) (hp : t.pc = Pc.recv_loop)
    (hl : (loop_alloc t).pc = Pc.recv_loop) : step t st = (loop_recv (loop_alloc t), st) := by
  unfold step
  rw [hp]
  simp only [hl, if_true]

theorem loop_recv_after_error (t : Thread) (e : Int) (rest : List RecvEv)
    (hr : t.env.recv = RecvEv.err e :: rest) :
    (loop_recv t).pc = t.pc ∧ (loop_recv t).errno = e ∧ (loop_recv t).env.recv = rest ∧
      (loop_recv t).available_space = t.available_space ∧ (loop_recv t).done = t.done := by
  have hs : sys_recv t.env.recv t.available_space t.errno = (-1, [], e, rest) := by
    simp [sys_recv, hr]
  simp only [loop_recv, hs]
  simp only [show ¬ ((-1 : Int) = 0) by decide, if_false, if_true]
  exact ⟨trivial, trivial, trivial, trivial, trivial⟩

theorem step_recv_loop_space (t : Thread) (st : Store) (hp : t.pc = Pc.recv_loop)
    (ha : t.available_space ≠ 0) : step t st = (loop_recv t, st) := by
  have hla : loop_alloc t = t := by
    unfold loop_alloc
    rw [if_neg ha]
  rw [step_recv_loop t st hp (by rw [hla]; exact hp), hla]

/-- C13, the code at the failing input: the first `recv` of a worker returns `-1`
with errno `e`, for any `e` (`ECONNRESET`, say), and `rest` is what the socket
delivers afterwards.  Lines 458 to 462 log and `continue` without a look at
errno: the worker is back at the top of its loop, `done` is not set, and the next
pass calls `recv` again. -/
theorem recv_error_retried_for_every_errno (cfd e : Int) (rest : List RecvEv) (st : Store) :
    (step (Thread.init cfd (Env.ofRecv (RecvEv.err e :: rest))) st).1.pc = Pc.recv_loop ∧
      (step (Thread.init cfd (Env.ofRecv (RecvEv.err e :: rest))) st).1.done = false ∧
      (step (Thread.init cfd (Env.ofRecv (RecvEv.err e :: rest))) st).1.errno = e ∧
      (step (Thread.init cfd (Env.ofRecv (RecvEv.err e :: rest))) st).1.env.recv = rest ∧
      recvCalls (step (Thread.init cfd (Env.ofRecv (RecvEv.err e :: rest))) st).1.trace = [-1] ∧
      recvCalls (run 2 (Thread.init cfd (Env.ofRecv (RecvEv.err e :: rest))) st).1.trace =
        [-1, (sys_recv rest allocated_chunk_size e).1] := by
  obtain ⟨a1, -, a3, -, a5, a6, -⟩ := loop_alloc_accumulating
    (Thread.init cfd (Env.ofRecv (RecvEv.err e :: rest))) []
    (init_accumulating cfd _ (succeeds_ofRecv _)) (by decide)
  have h0 : (loop_alloc (Thread.init cfd (Env.ofRecv (RecvEv.err e :: rest)))).pc
      = Pc.recv_loop := a1.pc
  have h0r : (loop_alloc (Thread.init cfd (Env.ofRecv (RecvEv.err e :: rest)))).env.recv
      = RecvEv.err e :: rest := a5
  have h0a : (loop_alloc (Thread.init cfd (Env.ofRecv (RecvEv.err e :: rest)))).available_space
      = allocated_chunk_size := a3
  have h0d : (loop_alloc (Thread.init cfd (Env.ofRecv (RecvEv.err e :: rest)))).done
      = false := a6
  have hs0 := step_recv_loop (Thread.init cfd (Env.ofRecv (RecvEv.err e :: rest))) st rfl h0
  obtain ⟨l1, l2, l3, l4, l5⟩ := loop_recv_after_error _ e rest h0r
  rw [h0] at l1
  rw [h0a] at l4
  rw [h0d] at l5
  have h5 : recvCalls (step (Thread.init cfd (Env.ofRecv (RecvEv.err e :: rest))) st).1.trace
      = [-1] := by
    rw [hs0, recvCalls_loop_recv, recvCalls_loop_alloc, h0r]
    show recvCalls [] ++ [(sys_recv (RecvEv.err e :: rest) _ _).1] = [-1]
    simp [recvCalls, sys_recv]
  rw [hs0] at h5
  have hrun : run 2 (Thread.init cfd (Env.ofRecv (RecvEv.err e :: rest))) st =
      step (loop_recv (loop_alloc (Thread.init cfd (Env.ofRecv (RecvEv.err e :: rest))))) st := by
    have hr2 : ∀ (t : Thread) (s : Store), run 2 t s = step (step t s).1 (step t s).2 :=
      fun _ _ => rfl
    rw [hr2, hs0]
  rw [hrun, hs0]
  dsimp only at h5 ⊢
  refine ⟨l1, l5, l2, l3, h5, ?_⟩
  rw [step_recv_loop_space _ _ l1 (by rw [l4]; simp [allocated_chunk_size]),
    recvCalls_loop_recv, h5, l4, l3, l2]
  rfl

/-- A `recv` that returns `0` ends the worker through the exit of lines 575 to 582:
`done` is set and the thread function returns. -/
theorem recv_zero_closes (t : Thread) (st : Store) (hp : t.pc = Pc.recv_loop)
    (ha : t.available_space ≠ 0) (hr : t.env.recv = []) :
    (step t st).1.pc = Pc.returned ∧ (step t st).1.done = true ∧
      recvCalls (step t st).1.trace = recvCalls t.trace ++ [0] := by
  have hs : sys_recv t.env.recv t.available_space t.errno = (0, [], t.errno, []) := by
    simp [sys_recv, hr]
  have hrc := recvCalls_loop_recv t
  rw [hs] at hrc
  rw [step_recv_loop_space t st hp ha]
  refine ⟨?_, ?_, hrc⟩
  · simp only [loop_recv, hs]
    rfl
  · simp only [loop_recv, hs]
    rfl

/-- C14, the code at the failing input: the store holds `abc\n` and is echoed in two
chunks of two bytes.  The first `read` returns `-1` and the `send` that is given its
result returns `-1` too, so the test `n_sent != n_read` of line 548 does not fire:
the worker goes on to the second round, sends the chunk `ab`, moves the offset
back to the end, unlocks and is back at the top of its loop as after a complete
echo.  The client has received `ab` of a store that holds `abc\n`. -/
theorem chunk_sent_after_failed_send :
    (run 4 (Thread.init 5 Env.failedReadAndSend) Store.fresh).1.pc = Pc.recv_loop ∧
      (run 4 (Thread.init 5 Env.failedReadAndSend) Store.fresh).1.trace.drop 11 =
        [Event.lock, Event.lseek_set 0, Event.read 2 (-1), Event.send [] (-1),
          Event.read 2 2, Event.send [97, 98] 2, Event.lseek_end 4, Event.unlock,
          Event.free 2] ∧
      sentBytes (run 4 (Thread.init 5 Env.failedReadAndSend) Store.fresh).1.trace = [97, 98] ∧
      (run 4 (Thread.init 5 Env.failedReadAndSend) Store.fresh).2 =
        { content := [97, 98, 99, 10], offset := 4 } := by
  decide

/-! ## The worker: the allocation of the echo buffer -/

/-- A `malloc` through `malloc_wrapper` that fails: nothing changes but errno, the error
code and the trace. -/
theorem call_malloc_wrapper_fails (t : Thread) (size : Nat) (e : Int) (rest : List Alloc)
    (hb : t.buf = NULL) (hu : t.Untracked) (ha : t.env.alloc = Alloc.fail e :: rest) :
    (call_malloc_wrapper t t.buf size).buf = NULL ∧
      (call_malloc_wrapper t t.buf size).error_code = e ∧
      (call_malloc_wrapper t t.buf size).Untracked ∧
      (call_malloc_wrapper t t.buf size).env.alloc = rest ∧
      (call_malloc_wrapper t t.buf size).pc = t.pc ∧
      (call_malloc_wrapper t t.buf size).n_byte = t.n_byte ∧
      (call_malloc_wrapper t t.buf size).st_size = t.st_size ∧
      (call_malloc_wrapper t t.buf size).trace =
        t.trace ++ [Event.heap (HeapCall.malloc size) NULL] := by
  rw [hb]
  simp only [call_malloc_wrapper, malloc_wrapper, hu.mem, hu.num, hu.max, ha, List.headD_cons,
    Alloc.ptr, Alloc.errnoAfter]
  simp [NULL]
  exact ⟨by simpa [NULL] using hu.mem, hu.num, hu.max⟩

/-- A `malloc` through `malloc_wrapper` that succeeds with the collector empty. -/
theorem call_malloc_wrapper_succeeds (t : Thread) (size : Nat) (p : Ptr)
    (hb : t.buf = NULL) (hu : t.Untracked) (ha : t.env.alloc.headD (Alloc.ok 1) = Alloc.ok p)
    (hp : p ≠ NULL) :
    (call_malloc_wrapper t t.buf size).buf = p ∧
      (call_malloc_wrapper t t.buf size).buf_size = size ∧
      (call_malloc_wrapper t t.buf size).Tracked ∧
      (call_malloc_wrapper t t.buf size).env.alloc = t.env.alloc.tail ∧
      (call_malloc_wrapper t t.buf size).pc = t.pc ∧
      (call_malloc_wrapper t t.buf size).n_byte = t.n_byte ∧
      (call_malloc_wrapper t t.buf size).st_size = t.st_size ∧
      (call_malloc_wrapper t t.buf size).trace =
        t.trace ++ [Event.heap (HeapCall.malloc size) p] := by
  have hp' : ¬ p = 0 := hp
  rw [hb]
  simp only [call_malloc_wrapper, malloc_wrapper, hu.mem, hu.num, hu.max, ha,
    Alloc.ptr, Alloc.errnoAfter]
  simp [NULL, hp']
  exact ⟨by simp [NULL], by simp, by simp [hu.max], by simpa [NULL] using hp'⟩

theorem alloc_echo_buffer_first_try (fuel : Nat) (t : Thread) (p : Ptr)
    (hb : t.buf = NULL) (hu : t.Untracked) (hn : 1 ≤ t.n_byte)
    (ha : t.env.alloc.headD (Alloc.ok 1) = Alloc.ok p) (hp : p ≠ NULL) :
    alloc_echo_buffer (fuel + 1) t = call_malloc_wrapper t t.buf t.n_byte := by
  obtain ⟨k1, -, -, -, -, k6, -, -⟩ := call_malloc_wrapper_succeeds t t.n_byte p hb hu ha hp
  rw [alloc_echo_buffer, if_pos hb]
  dsimp only
  rw [if_neg (by rw [k1]; exact hp), if_neg (by rw [k6]; omega)]

theorem alloc_echo_buffer_after_enomem (fuel : Nat) (t : Thread) (rest : List Alloc)
    (hb : t.buf = NULL) (hu : t.Untracked)
    (ha : t.env.alloc = Alloc.fail ENOMEM :: rest) :
    alloc_echo_buffer (fuel + 1) t =
      if t.n_byte / 2 = 0 then
        clean_return { (call_malloc_wrapper t t.buf t.n_byte) with n_byte := t.n_byte / 2 }
      else
        alloc_echo_buffer fuel
          { (call_malloc_wrapper t t.buf t.n_byte) with n_byte := t.n_byte / 2 } := by
  obtain ⟨k1, k2, -, -, -, k6, -, -⟩ := call_malloc_wrapper_fails t t.n_byte ENOMEM rest hb hu ha
  rw [alloc_echo_buffer, if_pos hb]
  dsimp only
  rw [if_pos k1, if_pos k2, k6]

/-- The loop of lines 510 to 531 when the allocator fails `j` times with `ENOMEM`
before anything else happens: the size asked for is halved once per failure. -/
theorem alloc_echo_buffer_halving (j : Nat) :
    ∀ (fuel : Nat) (t : Thread) (rest : List Alloc), t.buf = NULL → t.Untracked →
      1 ≤ t.n_byte → t.n_byte < fuel →
      t.env.alloc = List.replicate j (Alloc.fail ENOMEM) ++ rest →
      (t.n_byte / 2 ^ j = 0 →
        (alloc_echo_buffer fuel t).pc = Pc.returned ∧ (alloc_echo_buffer fuel t).buf = NULL) ∧
      (∀ p, 1 ≤ t.n_byte / 2 ^ j → p ≠ NULL → rest.headD (Alloc.ok 1) = Alloc.ok p →
        (alloc_echo_buffer fuel t).pc = t.pc ∧ (alloc_echo_buffer fuel t).buf = p ∧
        (alloc_echo_buffer fuel t).n_byte = t.n_byte / 2 ^ j ∧
        (alloc_echo_buffer fuel t).buf_size = t.n_byte / 2 ^ j ∧
        (alloc_echo_buffer fuel t).st_size = t.st_size ∧
        (alloc_echo_buffer fuel t).Tracked ∧
        (alloc_echo_buffer fuel t).trace = t.trace ++
          (List.range j).map (fun i => Event.heap (HeapCall.malloc (t.n_byte / 2 ^ i)) NULL) ++
          [Event.heap (HeapCall.malloc (t.n_byte / 2 ^ j)) p]) := by
  induction j with
  | zero =>
    intro fuel t rest hb hu hn hfuel ha
    obtain ⟨f, rfl⟩ : ∃ f, fuel = f + 1 := ⟨fuel - 1, by omega⟩
    simp only [List.replicate_zero, List.nil_append] at ha
    refine ⟨fun h0 => ?_, fun p _ hp hhead => ?_⟩
    · simp at h0; omega
    · rw [← ha] at hhead
      obtain ⟨k1, k2, k3, -, k5, k6, k7, k8⟩ :=
        call_malloc_wrapper_succeeds t t.n_byte p hb hu hhead hp
      rw [alloc_echo_buffer_first_try f t p hb hu hn hhead hp]
      exact ⟨k5, k1, by simpa using k6, by simpa using k2, k7, k3, by simpa using k8⟩
  | succ j ih =>
    intro fuel t rest hb hu hn hfuel ha
    obtain ⟨f, rfl⟩ : ∃ f, fuel = f + 1 := ⟨fuel - 1, by omega⟩
    have ha1 : t.env.alloc =
        Alloc.fail ENOMEM :: (List.replicate j (Alloc.fail ENOMEM) ++ rest) := by
      rw [ha, List.replicate_succ, List.cons_append]
    obtain ⟨k1, k2, k3, k4, k5, k6, k7, k8⟩ :=
      call_malloc_wrapper_fails t t.n_byte ENOMEM _ hb hu ha1
    have hdiv : ∀ i, t.n_byte / 2 ^ (i + 1) = t.n_byte / 2 / 2 ^ i := by
      intro i
      rw [Nat.div_div_eq_div_mul, pow_succ, Nat.mul_comm]
    rw [alloc_echo_buffer_after_enomem f t _ hb hu ha1]
    by_cases h2 : t.n_byte / 2 = 0
    · rw [if_pos h2]
      refine ⟨fun _ => ⟨rfl, k1⟩, fun p h1 _ _ => ?_⟩
      rw [hdiv, h2] at h1
      simp at h1
    · rw [if_neg h2]
      obtain ⟨i1, i2⟩ := ih f
        { (call_malloc_wrapper t t.buf t.n_byte) with n_byte := t.n_byte / 2 } rest k1
        ⟨k3.mem, k3.num, k3.max⟩ (Nat.one_le_iff_ne_zero.mpr h2)
        (by show t.n_byte / 2 < f; omega) k4
      refine ⟨fun h0 => i1 (by rw [hdiv] at h0; exact h0), fun p h1 hp hhead => ?_⟩
      obtain ⟨b1, b2, b3, b4, b5, b6, b7⟩ := i2 p (by rw [hdiv] at h1; exact h1) hp hhead
      refine ⟨b1.trans k5, b2, by rw [hdiv]; exact b3, by rw [hdiv]; exact b4, b5.trans k7,
        b6, ?_⟩
      rw [b7]
      show (call_malloc_wrapper t t.buf t.n_byte).trace ++ _ ++ _ = _
      rw [k8, List.range_succ_eq_map, List.map_cons, List.map_map, hdiv]
      simp only [List.append_assoc, List.singleton_append, pow_zero, Nat.div_one,
        List.cons_append, List.nil_append]
      congr 3
      apply List.map_congr_left
      intro i _
      simp [hdiv]

/-- Within the range of `int`: the store holds `n >= 1` bytes (at most `INT_MAX`) and
the allocator fails `j` times with `ENOMEM` before it does anything else.  The loop
of lines 510 to 531 ends.  When `n / 2 ^ j` is `0` the worker has returned through the
out-of-memory exit, with no buffer.  When `n / 2 ^ j >= 1` and the next allocation
succeeds with `p`, the worker goes on to the echo with `buf = p` and
`n_byte = n / 2 ^ j`, having asked `malloc` for `n`, `n / 2`, ..., `n / 2 ^ j` bytes
in turn. -/
theorem echo_buffer_halved_until_allocated (t : Thread) (st : Store) (j : Nat)
    (rest : List Alloc) (hpc : t.pc = Pc.flush_fstat) (hu : t.Untracked)
    (hf : t.env.fstat.headD IoRes.ok = IoRes.ok) (hn : 1 ≤ st.content.length)
    (hint : st.content.length ≤ INT_MAX)
    (ha : t.env.alloc = List.replicate j (Alloc.fail ENOMEM) ++ rest) :
    (st.content.length / 2 ^ j = 0 →
      (flush_fstat t st).1.pc = Pc.returned ∧ (flush_fstat t st).1.buf = NULL) ∧
    (∀ p, 1 ≤ st.content.length / 2 ^ j → p ≠ NULL → rest.headD (Alloc.ok 1) = Alloc.ok p →
      (flush_fstat t st).1.pc = Pc.flush_echo ∧ (flush_fstat t st).1.buf = p ∧
      (flush_fstat t st).1.n_byte = st.content.length / 2 ^ j ∧
      (flush_fstat t st).1.buf_size = st.content.length / 2 ^ j ∧
      (flush_fstat t st).1.st_size = st.content.length ∧
      (flush_fstat t st).1.trace = t.trace ++ [Event.lock, Event.fstat 0, Event.unlock] ++
        (List.range j).map
          (fun i => Event.heap (HeapCall.malloc (st.content.length / 2 ^ i)) NULL) ++
        [Event.heap (HeapCall.malloc (st.content.length / 2 ^ j)) p]) := by
  have f1 : (fstat_section t st).2 = 0 := by simp only [fstat_section, hf, sys_fstat]
  have f2 : (fstat_section t st).1.st_size = st.content.length := by
    simp only [fstat_section, hf, sys_fstat]
  have f3 : (fstat_section t st).1.trace =
      t.trace ++ [Event.lock, Event.fstat 0, Event.unlock] := by
    simp only [fstat_section, hf, sys_fstat]
  have hff : flush_fstat t st =
      (if (alloc_echo_buffer ((fstat_section t st).1.st_size + 1)
            { (fstat_section t st).1 with
              n_byte := (fstat_section t st).1.st_size, buf := NULL }).pc = Pc.flush_fstat then
          { (alloc_echo_buffer ((fstat_section t st).1.st_size + 1)
              { (fstat_section t st).1 with
                n_byte := (fstat_section t st).1.st_size, buf := NULL }) with
            pc := Pc.flush_echo }
        else alloc_echo_buffer ((fstat_section t st).1.st_size + 1)
            { (fstat_section t st).1 with
              n_byte := (fstat_section t st).1.st_size, buf := NULL }, st) := by
    rw [flush_fstat, if_neg (by rw [f1]; simp), if_neg (by rw [f2]; omega)]
  obtain ⟨i1, i2⟩ := alloc_echo_buffer_halving j ((fstat_section t st).1.st_size + 1)
    { (fstat_section t st).1 with n_byte := (fstat_section t st).1.st_size, buf := NULL }
    rest rfl ⟨hu.mem, hu.num, hu.max⟩ (by show 1 ≤ (fstat_section t st).1.st_size; omega)
    (by show (fstat_section t st).1.st_size < _; omega) ha
  rw [hff]
  refine ⟨fun h0 => ?_, fun p h1 hp hhead => ?_⟩
  · obtain ⟨c1, c2⟩ := i1 (by show (fstat_section t st).1.st_size / 2 ^ j = 0; rw [f2]; exact h0)
    dsimp only
    rw [if_neg (by rw [c1]; decide)]
    exact ⟨c1, c2⟩
  · obtain ⟨b1, b2, b3, b4, b5, -, b7⟩ := i2 p
      (by show 1 ≤ (fstat_section t st).1.st_size / 2 ^ j; rw [f2]; exact h1) hp hhead
    dsimp only
    rw [if_pos (b1.trans hpc)]
    refine ⟨rfl, b2, ?_, ?_, ?_, ?_⟩
    · show (alloc_echo_buffer _ _).n_byte = _
      rw [b3]; show (fstat_section t st).1.st_size / 2 ^ j = _; rw [f2]
    · show (alloc_echo_buffer _ _).buf_size = _
      rw [b4]; show (fstat_section t st).1.st_size / 2 ^ j = _; rw [f2]
    · show (alloc_echo_buffer _ _).st_size = _
      rw [b5]; exact f2
    · show (alloc_echo_buffer _ _).trace = _
      rw [b7]
      show (fstat_section t st).1.trace ++
        (List.range j).map
          (fun i => Event.heap (HeapCall.malloc ((fstat_section t st).1.st_size / 2 ^ i)) NULL) ++
        [Event.heap (HeapCall.malloc ((fstat_section t st).1.st_size / 2 ^ j)) p] = _
      rw [f2, f3]

theorem echo_buffer_halved_until_allocated_witness :
    ((flush_fstat (run 2 (Thread.init 5 Env.failedReadAndSend) Store.fresh).1
          (run 2 (Thread.init 5 Env.failedReadAndSend) Store.fresh).2).1.pc = Pc.flush_echo ∧
      (flush_fstat (run 2 (Thread.init 5 Env.failedReadAndSend) Store.fresh).1
          (run 2 (Thread.init 5 Env.failedReadAndSend) Store.fresh).2).1.buf = 2 ∧
      (flush_fstat (run 2 (Thread.init 5 Env.failedReadAndSend) Store.fresh).1
          (run 2 (Thread.init 5 Env.failedReadAndSend) Store.fresh).2).1.n_byte = 4 / 2 ^ 1 ∧
      (flush_fstat (run 2 (Thread.init 5 Env.failedReadAndSend) Store.fresh).1
          (run 2 (Thread.init 5 Env.failedReadAndSend) Store.fresh).2).1.buf_size = 4 / 2 ^ 1 ∧
      (flush_fstat (run 2 (Thread.init 5 Env.failedReadAndSend) Store.fresh).1
          (run 2 (Thread.init 5 Env.failedReadAndSend) Store.fresh).2).1.st_size = 4 ∧
      (flush_fstat (run 2 (Thread.init 5 Env.failedReadAndSend) Store.fresh).1
          (run 2 (Thread.init 5 Env.failedReadAndSend) Store.fresh).2).1.trace =
        (run 2 (Thread.init 5 Env.failedReadAndSend) Store.fresh).1.trace ++
          [Event.lock, Event.fstat 0, Event.unlock] ++
          (List.range 1).map (fun i => Event.heap (HeapCall.malloc (4 / 2 ^ i)) NULL) ++
          [Event.heap (HeapCall.malloc (4 / 2 ^ 1)) 2]) ∧
    ((flush_fstat (run 2 (Thread.init 5 Env.outOfMemory) Store.fresh).1
          (run 2 (Thread.init 5 Env.outOfMemory) Store.fresh).2).1.pc = Pc.returned ∧
      (flush_fstat (run 2 (Thread.init 5 Env.outOfMemory) Store.fresh).1
          (run 2 (Thread.init 5 Env.outOfMemory) Store.fresh).2).1.buf = NULL) :=
  ⟨(echo_buffer_halved_until_allocated
      (run 2 (Thread.init 5 Env.failedReadAndSend) Store.fresh).1
      (run 2 (Thread.init 5 Env.failedReadAndSend) Store.fresh).2 1 [Alloc.ok 2]
      (by decide) ⟨by decide, by decide, by decide⟩ (by decide) (by decide) (by decide)
      (by decide)).2 2 (by decide) (by decide) rfl,
    (echo_buffer_halved_until_allocated
      (run 2 (Thread.init 5 Env.outOfMemory) Store.fresh).1
      (run 2 (Thread.init 5 Env.outOfMemory) Store.fresh).2 3 []
      (by decide) ⟨by decide, by decide, by decide⟩ (by decide) (by decide) (by decide)
      (by decide)).1 (by decide)⟩

/-! ## The worker: the last byte received decides the append -/

/-- The worker that is about to append `bytes` appends exactly `bytes` in its next
pass when `write` stores everything and the offset is at the end of the store. -/
theorem step_ready_appends (t : Thread) (st : Store) (bytes : List Byte) (h : t.Ready bytes)
    (hoff : st.offset = st.content.length) :
    appended (step t st).1.trace = appended t.trace ++ [bytes] ∧
      (step t st).2.content = st.content ++ bytes ∧
      (step t st).1.pc = Pc.flush_fstat := by
  obtain ⟨w1, w2, -, -, -, -, -, -, -, -, w11⟩ := flush_write_ready t st bytes h hoff
  rw [step_flush_write t st h.pc]
  refine ⟨?_, by rw [w1], w2⟩
  rw [w11, appended_append]
  simp [appended]

/-- C16: the worker is at the top of its loop with `acc` in its buffer and `recv`
delivers the bytes `c`, so that the buffer holds `acc ++ c`; every call succeeds
and the offset of the store is at its end.  When the last byte is a newline the
worker appends `acc ++ c` as it is; when it is NUL the worker appends `acc ++ c` with
that byte replaced by a newline; otherwise the worker is back at the top of its
loop with `acc ++ c` in its buffer, and neither the store nor the list of appends
has changed. -/
theorem last_byte_decides_append (t : Thread) (st : Store) (acc c : List Byte)
    (rest : List RecvEv) (h : t.Accumulating acc) (hr : t.env.recv = RecvEv.data c :: rest)
    (hc : c ≠ []) (hfit : c.length ≤ t.space)
    (hint : acc.length + allocated_chunk_size ≤ INT_MAX)
    (hoff : st.offset = st.content.length) :
    ((acc ++ c).getLast? = some NL →
      (step t st).1.pc = Pc.flush_write ∧ (step t st).2 = st ∧
      appended (run 2 t st).1.trace = appended t.trace ++ [acc ++ c] ∧
      (run 2 t st).2.content = st.content ++ (acc ++ c)) ∧
    ((acc ++ c).getLast? = some NUL →
      (step t st).1.pc = Pc.flush_write ∧ (step t st).2 = st ∧
      appended (run 2 t st).1.trace = appended t.trace ++ [(acc ++ c).dropLast ++ [NL]] ∧
      (run 2 t st).2.content = st.content ++ ((acc ++ c).dropLast ++ [NL])) ∧
    ((acc ++ c).getLast? ≠ some NL → (acc ++ c).getLast? ≠ some NUL →
      (step t st).1.pc = Pc.recv_loop ∧ (step t st).1.mem = acc ++ c ∧
      (step t st).1.total_byte_read = (acc ++ c).length ∧ (step t st).2 = st ∧
      appended (step t st).1.trace = appended t.trace) := by
  obtain ⟨s1, -, -, -, -, s6, s7, s8⟩ := step_recv_data t st acc c rest h hr hc hfit hint
  have hl : (acc ++ c).getLast? = c.getLast? := List.getLast?_append_of_ne_nil _ hc
  have hr2 : run 2 t st = step (step t st).1 (step t st).2 := rfl
  have hoff1 : (step t st).2.offset = (step t st).2.content.length := by rw [s1]; exact hoff
  refine ⟨fun hnl => ?_, fun hnul => ?_, fun h1 h2 => ?_⟩
  · have he : endsPacket c := Or.inl (hl ▸ hnl)
    have hp : packetOf (acc ++ c) = acc ++ c := by
      unfold packetOf
      rw [hnl, if_neg (by simp [NL, NUL])]
    have hready := s7 he
    rw [hp] at hready
    obtain ⟨a1, a2, -⟩ := step_ready_appends _ _ _ hready hoff1
    exact ⟨hready.pc, s1, by rw [hr2, a1, s6], by rw [hr2, a2, s1]⟩
  · have he : endsPacket c := Or.inr (hl ▸ hnul)
    have hp : packetOf (acc ++ c) = (acc ++ c).dropLast ++ [NL] := by
      unfold packetOf
      rw [if_pos hnul]
    have hready := s7 he
    rw [hp] at hready
    obtain ⟨a1, a2, -⟩ := step_ready_appends _ _ _ hready hoff1
    exact ⟨hready.pc, s1, by rw [hr2, a1, s6], by rw [hr2, a2, s1]⟩
  · have he : ¬ endsPacket c := by
      rintro (he | he)
      · exact h1 (hl.trans he)
      · exact h2 (hl.trans he)
    obtain ⟨b1, -, -⟩ := s8 he
    exact ⟨b1.pc, b1.mem, b1.total, s1, s6⟩

theorem last_byte_decides_append_witness :
    ((step (Thread.init 5 (Env.ofRecv [RecvEv.data [104, 105, 10]])) Store.fresh).1.pc =
        Pc.flush_write ∧
      (step (Thread.init 5 (Env.ofRecv [RecvEv.data [104, 105, 10]])) Store.fresh).2 =
        Store.fresh ∧
      appended (run 2 (Thread.init 5 (Env.ofRecv [RecvEv.data [104, 105, 10]]))
        Store.fresh).1.trace =
        appended (Thread.init 5 (Env.ofRecv [RecvEv.data [104, 105, 10]])).trace ++
          [[] ++ [104, 105, 10]] ∧
      (run 2 (Thread.init 5 (Env.ofRecv [RecvEv.data [104, 105, 10]])) Store.fresh).2.content =
        Store.fresh.content ++ ([] ++ [104, 105, 10])) ∧
    ((step (Thread.init 5 (Env.ofRecv [RecvEv.data [104, 105, 0]])) Store.fresh).1.pc =
        Pc.flush_write ∧
      (step (Thread.init 5 (Env.ofRecv [RecvEv.data [104, 105, 0]])) Store.fresh).2 =
        Store.fresh ∧
      appended (run 2 (Thread.init 5 (Env.ofRecv [RecvEv.data [104, 105, 0]]))
        Store.fresh).1.trace =
        appended (Thread.init 5 (Env.ofRecv [RecvEv.data [104, 105, 0]])).trace ++
          [([] ++ [104, 105, 0]).dropLast ++ [NL]] ∧
      (run 2 (Thread.init 5 (Env.ofRecv [RecvEv.data [104, 105, 0]])) Store.fresh).2.content =
        Store.fresh.content ++ (([] ++ [104, 105, 0]).dropLast ++ [NL])) ∧
    ((step (Thread.init 5 (Env.ofRecv [RecvEv.data [104, 105]])) Store.fresh).1.pc =
        Pc.recv_loop ∧
      (step (Thread.init 5 (Env.ofRecv [RecvEv.data [104, 105]])) Store.fresh).1.mem =
        [] ++ [104, 105] ∧
      (step (Thread.init 5 (Env.ofRecv [RecvEv.data [104, 105]])) Store.fresh).1.total_byte_read =
        ([] ++ [104, 105]).length ∧
      (step (Thread.init 5 (Env.ofRecv [RecvEv.data [104, 105]])) Store.fresh).2 = Store.fresh ∧
      appended (step (Thread.init 5 (Env.ofRecv [RecvEv.data [104, 105]])) Store.fresh).1.trace =
        appended (Thread.init 5 (Env.ofRecv [RecvEv.data [104, 105]])).trace) :=
  ⟨(last_byte_decides_append (Thread.init 5 (Env.ofRecv [RecvEv.data [104, 105, 10]]))
      Store.fresh [] [104, 105, 10] [] (init_accumulating 5 _ (succeeds_ofRecv _)) rfl
      (by decide) (by decide) (by decide) rfl).1 (by decide),
    (last_byte_decides_append (Thread.init 5 (Env.ofRecv [RecvEv.data [104, 105, 0]]))
      Store.fresh [] [104, 105, 0] [] (init_accumulating 5 _ (succeeds_ofRecv _)) rfl
      (by decide) (by decide) (by decide) rfl).2.1 (by decide),
    (last_byte_decides_append (Thread.init 5 (Env.ofRecv [RecvEv.data [104, 105]]))
      Store.fresh [] [104, 105] [] (init_accumulating 5 _ (succeeds_ofRecv _)) rfl
      (by decide) (by decide) (by decide) rfl).2.2 (by decide) (by decide)⟩

/-! ## The worker: lock and unlock are balanced -/

theorem mutexScan_append (a b : List Event) :
    ∀ held : Bool, mutexScan held (a ++ b) = (mutexScan held a).bind (fun h => mutexScan h b) := by
  induction a with
  | nil => intro held; rfl
  | cons e a ih =>
    intro held
    cases e <;> cases held <;> simp [mutexScan, ih]

theorem mutexScan_offStore (l : List Event) (h : ∀ e ∈ l, e.offStore = true) (held : Bool) :
    mutexScan held l = some held := by
  induction l with
  | nil => rfl
  | cons e l ih =>
    have he := h e (List.mem_cons_self _ _)
    have hl := ih (fun x hx => h x (List.mem_cons_of_mem _ hx))
    cases e <;> simp [Event.offStore] at he <;> simpa [mutexScan] using hl

theorem Extends.refl (t : Thread) (b : Bool) : Extends t t b b := ⟨[], by simp, rfl⟩

theorem Extends.trans (t t1 t2 : Thread) (a b c : Bool) (h1 : Extends t t1 a b)
    (h2 : Extends t1 t2 b c) : Extends t t2 a c := by
  obtain ⟨x, hx, sx⟩ := h1
  obtain ⟨y, hy, sy⟩ := h2
  refine ⟨x ++ y, by rw [hy, hx, List.append_assoc], ?_⟩
  rw [mutexScan_append, sx]
  exact sy

theorem Extends.of_offStore (t t1 : Thread) (b : Bool)
    (h : ∃ tail, t1.trace = t.trace ++ tail ∧ ∀ e ∈ tail, e.offStore = true) :
    Extends t t1 b b := by
  obtain ⟨tail, ht, ho⟩ := h
  exact ⟨tail, ht, mutexScan_offStore tail ho b⟩

theorem extends_clean_return (t : Thread) (b : Bool) : Extends t (clean_return t) b b :=
  Extends.of_offStore _ _ b (clean_return_trace t)

theorem extends_loop_alloc (t : Thread) (b : Bool) : Extends t (loop_alloc t) b b := by
  unfold loop_alloc
  split
  · split
    · exact Extends.refl t b
    · dsimp only
      split
      · exact Extends.trans _ _ _ b b b
          (Extends.of_offStore _ _ b (call_malloc_wrapper_trace t _ _))
          (extends_clean_return _ b)
      · exact Extends.of_offStore _ _ b (call_malloc_wrapper_trace t _ _)
  · exact Extends.refl t b

theorem extends_loop_recv (t : Thread) : Extends t (loop_recv t) false false := by
  have h1 : ∀ (n : Nat) (r : Int), mutexScan false [Event.recv n r] = some false := by
    intro n r; rfl
  unfold loop_recv
  dsimp only
  split
  · refine Extends.trans t
      { t with
        env := { t.env with recv := (sys_recv t.env.recv t.available_space t.errno).2.2.2 }
        errno := (sys_recv t.env.recv t.available_space t.errno).2.2.1
        trace := t.trace ++ [Event.recv t.available_space
          (sys_recv t.env.recv t.available_space t.errno).1] } _ false false false
      ⟨_, rfl, h1 _ _⟩ ?_
    unfold thread_exit
    exact Extends.trans _ _ _ false false false ⟨[Event.set_done], rfl, rfl⟩
      (extends_clean_return _ false)
  · split
    · exact ⟨_, rfl, h1 _ _⟩
    · split
      · exact ⟨_, rfl, h1 _ _⟩
      · exact ⟨_, rfl, h1 _ _⟩

theorem extends_flush_write (t : Thread) (st : Store) :
    Extends t (flush_write t st).1 false false := by
  obtain ⟨bytes, ret, tail, ht, ho⟩ := flush_write_trace t st
  refine ⟨[Event.lock, Event.write bytes ret, Event.unlock] ++ tail, by rw [ht]; simp, ?_⟩
  rw [mutexScan_append]
  exact mutexScan_offStore tail ho false

theorem extends_flush_fstat (t : Thread) (st : Store) :
    Extends t (flush_fstat t st).1 false false := by
  obtain ⟨ret, tail, ht, ho⟩ := flush_fstat_trace t st
  refine ⟨[Event.lock, Event.fstat ret, Event.unlock] ++ tail, by rw [ht]; simp, ?_⟩
  rw [mutexScan_append]
  exact mutexScan_offStore tail ho false

theorem extends_echo_loop (rounds : Nat) :
    ∀ (t : Thread) (st : Store),
      Extends t (echo_loop rounds t st).1 true (echo_loop rounds t st).2.2 := by
  induction rounds with
  | zero => intro t st; exact Extends.refl t true
  | succ n ih =>
    intro t st
    have hr : Extends t (echo_round t st).1 true true := ⟨_, rfl, rfl⟩
    unfold echo_loop
    split
    · refine Extends.trans _ _ _ true true false hr ?_
      exact Extends.trans _ (unlock (echo_round t st).1) _ true false false
        ⟨[Event.unlock], rfl, rfl⟩ (extends_clean_return _ false)
    · exact Extends.trans _ _ _ true true _ hr (ih _ _)

theorem extends_flush_echo (t : Thread) (st : Store) :
    Extends t (flush_echo t st).1 false false := by
  have hb : Extends t (echo_begin t st).1 false true := ⟨_, rfl, rfl⟩
  have hu : ∀ x : Thread, Extends x (unlock x) true false := fun x => ⟨[Event.unlock], rfl, rfl⟩
  have hl := extends_echo_loop
    (((echo_begin t st).1.st_size + (echo_begin t st).1.n_byte - 1) /
      (echo_begin t st).1.n_byte) (echo_begin t st).1 (echo_begin t st).2.1
  have he : ∀ (x : Thread) (s : Store), Extends x (echo_end x s).1 true true :=
    fun x s => ⟨_, rfl, rfl⟩
  unfold flush_echo
  split
  · exact Extends.trans _ _ _ false true false hb
      (Extends.trans _ _ _ true false false (hu _) (extends_clean_return _ false))
  · split
    · rename_i hf
      unfold echo_rounds at hf ⊢
      rw [hf] at hl
      exact Extends.trans _ _ _ false true false hb hl
    · rename_i hf
      have hf2 : (echo_rounds t st).2.2 = true := by simpa using hf
      have hl2 : Extends (echo_begin t st).1 (echo_rounds t st).1 true true := by
        unfold echo_rounds at hf2 ⊢
        rw [hf2] at hl
        exact hl
      have h3 := Extends.trans _ _ _ false true true hb hl2
      have h4 := Extends.trans _ _ _ false true true h3
        (he (echo_rounds t st).1 (echo_rounds t st).2.1)
      split
      · exact Extends.trans _ _ _ false true false h4
          (Extends.trans _ _ _ true false false (hu _) (extends_clean_return _ false))
      · refine Extends.trans _ _ _ false true false h4
          (Extends.trans _ _ _ true false false (hu _) ?_)
        obtain ⟨tail, ht, ho⟩ := call_free_wrapper_trace
          (unlock (echo_end (echo_rounds t st).1 (echo_rounds t st).2.1).1)
        exact ⟨tail, ht, mutexScan_offStore tail ho false⟩

/-- Between two program points the worker leaves the mutex as it found it, free,
and calls `recv` only while it does not hold it. -/
theorem extends_step (t : Thread) (st : Store) : Extends t (step t st).1 false false := by
  unfold step
  split
  · dsimp only
    split
    · exact Extends.trans _ _ _ false false false (extends_loop_alloc t false)
        (extends_loop_recv _)
    · exact extends_loop_alloc t false
  · exact extends_flush_write t st
  · exact extends_flush_fstat t st
  · exact extends_flush_echo t st
  · exact Extends.refl t false
  · exact Extends.refl t false

theorem extends_run (n : Nat) :
    ∀ (t : Thread) (st : Store), Extends t (run n t st).1 false false := by
  induction n with
  | zero => intro t st; exact Extends.refl t false
  | succ n ih =>
    intro t st
    exact Extends.trans _ _ _ false false false (extends_step t st) (ih _ _)

/-- C17: whatever the client sends and whatever the calls return, the trace of a
worker, after any number of passes and at its return, is balanced: every `lock`
is met with the mutex free, every `unlock` with the mutex held, no `recv` is called
with the mutex held, and the mutex is free after the last event.  The complete
run of `socket_connection_thread` ends, and ends with the mutex free. -/
theorem worker_mutex_balanced (cfd : Int) (env : Env) (st : Store) :
    (∀ n, mutexScan false (run n (Thread.init cfd env) st).1.trace = some false) ∧
      mutexScan false (socket_connection_thread cfd env st).1.trace = some false ∧
      ((socket_connection_thread cfd env st).1.pc = Pc.returned ∨
        (socket_connection_thread cfd env st).1.pc = Pc.int_overflow) := by
  have h : ∀ n, mutexScan false (run n (Thread.init cfd env) st).1.trace = some false := by
    intro n
    obtain ⟨tail, ht, hs⟩ := extends_run n (Thread.init cfd env) st
    rw [ht]
    exact hs
  exact ⟨h, h _, socket_connection_thread_ends cfd env st⟩

/-! ## The function `main`: the startup state machine -/

theorem main_case_init_eq (s : Main) (r : ServerResult)
    (h : create_socket_server s.errno (s.env.server.headD ServerCalls.success) = some r) :
    main_case_init s =
      if r.ret = SOCKET_SERVER_SETUP_OK then
        { s with
          env := { s.env with server := s.env.server.tail }
          rc := r.ret
          sfd := r.sfd
          error_code := r.error_code
          errno := r.errno
          trace := s.trace ++ [MainEvent.create_socket_server (some r.ret)] ++
            r.closed.map MainEvent.close
          main_thread_res_collector := (register_fd s.main_thread_res_collector r.sfd).1
          system_state := .SYSTEM_STATE_SOCK_CREATED }
      else
        { s with
          env := { s.env with server := s.env.server.tail }
          rc := r.ret
          sfd := r.sfd
          error_code := r.error_code
          errno := r.errno
          trace := s.trace ++ [MainEvent.create_socket_server (some r.ret)] ++
            r.closed.map MainEvent.close } := by
  unfold main_case_init
  rw [h]

theorem main_case_init_fault (s : Main)
    (h : create_socket_server s.errno (s.env.server.headD ServerCalls.success) = none) :
    main_case_init s =
      { s with
        env := { s.env with server := s.env.server.tail }
        pc := .fault
        trace := s.trace ++ [MainEvent.create_socket_server none] } := by
  unfold main_case_init
  rw [h]

theorem main_arm_timer_system_state (s : Main) :
    (main_arm_timer s).system_state = s.system_state := by
  unfold main_arm_timer
  dsimp only
  split
  · rfl
  · split <;> rfl

theorem main_serve_system_state (s : Main) (c : Conn) :
    (main_serve s c).system_state = s.system_state := by
  unfold main_serve
  dsimp only
  split
  · rfl
  · split
    · rfl
    · split
      · split
        · rfl
        · split
          · rfl
          · split <;> rfl
      · rfl

theorem main_case_waiting_conn_system_state (s : Main) :
    (main_case_waiting_conn s).system_state = s.system_state := by
  unfold main_case_waiting_conn
  dsimp only
  split
  · split
    · rw [main_serve_system_state]
    · rfl
  · rfl

theorem main_teardown_system_state (s : Main) :
    (main_teardown s).system_state = s.system_state := by
  unfold main_teardown
  split
  · rfl
  · split <;> rfl

/-- One pass of the loop body: the state advances by one exactly when the step
succeeds, and a step that fails leaves `main` in its loop in the same state. -/
theorem main_loop_body_advance (b : Main) (hpc : b.pc = MainPc.loop) :
    ((main_loop_body b).system_state.toNat = b.system_state.toNat + 1 ↔
        b.operationSucceeds = true) ∧
      ((main_loop_body b).system_state = b.system_state ↔ b.operationSucceeds = false) ∧
      (b.operationFails = true →
        (main_loop_body b).system_state = b.system_state ∧
        (main_loop_body b).pc = MainPc.loop ∧
        (main_loop_body b).interrupt_signal_received = b.interrupt_signal_received ∧
        (main_loop_body b).unexpected_error = b.unexpected_error) := by
  cases hst : b.system_state with
  | SYSTEM_STATE_INIT =>
    have hb : main_loop_body b = main_case_init b := by
      unfold main_loop_body; rw [hst]
    rw [hb]
    cases hc : create_socket_server b.errno (b.env.server.headD ServerCalls.success) with
    | none =>
      have hS : b.operationSucceeds = false := by
        simp only [Main.operationSucceeds, hst, hc]
      have hF : b.operationFails = false := by
        simp only [Main.operationFails, hst, hc]
      rw [main_case_init_fault b hc, hS, hF]
      simp [hst, SystemState_t.toNat]
    | some r =>
      rw [main_case_init_eq b r hc]
      by_cases hr : r.ret = SOCKET_SERVER_SETUP_OK
      · have hS : b.operationSucceeds = true := by
          simp only [Main.operationSucceeds, hst, hc]; simp [hr]
        have hF : b.operationFails = false := by
          simp only [Main.operationFails, hst, hc]; simp [hr]
        rw [if_pos hr, hS, hF]
        simp [hst, SystemState_t.toNat]
      · have hS : b.operationSucceeds = false := by
          simp only [Main.operationSucceeds, hst, hc]; simp [hr]
        have hF : b.operationFails = true := by
          simp only [Main.operationFails, hst, hc]; simp [hr]
        rw [if_neg hr, hS, hF]
        simp [hst, SystemState_t.toNat, hpc]
  | SYSTEM_STATE_SOCK_CREATED =>
    have hb : main_loop_body b = main_case_sock_created b := by
      unfold main_loop_body; rw [hst]
    rw [hb]
    unfold main_case_sock_created
    by_cases hd : b.run_as_daemon = true
    · cases hf : b.env.fork.headD ForkRes.child with
      | child =>
        have hS : b.operationSucceeds = true := by
          simp only [Main.operationSucceeds, hst, hf]; simp
        have hF : b.operationFails = false := by
          simp only [Main.operationFails, hst, hf]; simp
        have e : main_fork b =
            { b with
              env := { b.env with fork := b.env.fork.tail }
              trace := b.trace ++ [MainEvent.fork ForkRes.child]
              system_state := .SYSTEM_STATE_SOCK_START_LISTENING } := by
          unfold main_fork; rw [if_pos hd, hf]
        rw [if_pos (by rw [e]; exact ⟨hpc, rfl⟩), main_arm_timer_system_state, e, hS, hF]
        simp [hst, SystemState_t.toNat]
      | fail err =>
        have hS : b.operationSucceeds = false := by
          simp only [Main.operationSucceeds, hst, hf]; simp [hd]
        have hF : b.operationFails = true := by
          simp only [Main.operationFails, hst, hf]; simp [hd]
        have e : main_fork b =
            { b with
              env := { b.env with fork := b.env.fork.tail }
              trace := b.trace ++ [MainEvent.fork (ForkRes.fail err)]
              errno := err } := by
          unfold main_fork; rw [if_pos hd, hf]
        rw [if_neg (by rw [e]; simp [hst]), e, hS, hF]
        simp [hst, SystemState_t.toNat, hpc]
      | parent =>
        have hS : b.operationSucceeds = false := by
          simp only [Main.operationSucceeds, hst, hf]; simp [hd]
        have hF : b.operationFails = false := by
          simp only [Main.operationFails, hst, hf]; simp
        have e : main_fork b =
            { b with
              env := { b.env with fork := b.env.fork.tail }
              trace := b.trace ++ [MainEvent.fork ForkRes.parent]
              pc := .returned 0 } := by
          unfold main_fork; rw [if_pos hd, hf]
        rw [if_neg (by rw [e]; simp), e, hS, hF]
        simp [hst, SystemState_t.toNat]
    · have hS : b.operationSucceeds = true := by
        simp only [Main.operationSucceeds, hst]; simp [hd]
      have hF : b.operationFails = false := by
        simp only [Main.operationFails, hst]; simp [hd]
      have e : main_fork b =
          { b with system_state := .SYSTEM_STATE_SOCK_START_LISTENING } := by
        unfold main_fork; rw [if_neg hd]
      rw [if_pos (by rw [e]; exact ⟨hpc, rfl⟩), main_arm_timer_system_state, e, hS, hF]
      simp [hst, SystemState_t.toNat]
  | SYSTEM_STATE_SOCK_START_LISTENING =>
    have hb : main_loop_body b = main_case_start_listening b := by
      unfold main_loop_body; rw [hst]
    rw [hb]
    unfold main_case_start_listening
    dsimp only
    by_cases hl : (b.env.listen.headD IoRes.ok).ret = -1
    · have hS : b.operationSucceeds = false := by
        simp only [Main.operationSucceeds, hst, hl]; rfl
      have hF : b.operationFails = true := by
        simp only [Main.operationFails, hst, hl]; rfl
      rw [if_pos hl, hS, hF]
      simp [hst, SystemState_t.toNat, hpc]
    · have hS : b.operationSucceeds = true := by
        simp only [Main.operationSucceeds, hst]; exact decide_eq_true hl
      have hF : b.operationFails = false := by
        simp only [Main.operationFails, hst]; exact decide_eq_false hl
      rw [if_neg hl, hS, hF]
      simp [hst, SystemState_t.toNat]
  | SYSTEM_STATE_SOCK_WAITING_CONN =>
    have hS : b.operationSucceeds = false := by
      simp only [Main.operationSucceeds, hst]
    have hF : b.operationFails = false := by
      simp only [Main.operationFails, hst]
    have hb : main_loop_body b = main_case_waiting_conn b := by
      unfold main_loop_body; rw [hst]
    rw [hb, main_case_waiting_conn_system_state, hS, hF]
    simp [hst, SystemState_t.toNat]

theorem main_step_system_state (s : Main) :
    s.system_state.toNat ≤ (main_step s).system_state.toNat ∧
      (main_step s).system_state.toNat ≤ s.system_state.toNat + 1 := by
  unfold main_step
  split
  · rename_i hpc
    split
    · obtain ⟨a1, a2, -⟩ := main_loop_body_advance (main_signal s) hpc
      have e : (main_signal s).system_state = s.system_state := rfl
      rw [e] at a1 a2
      cases hS : (main_signal s).operationSucceeds with
      | true => have := a1.mpr hS; omega
      | false => have := a2.mpr hS; rw [this]; omega
    · have e : (main_signal s).system_state = s.system_state := rfl
      rw [main_teardown_system_state, e]
      omega
  · omega

theorem main_run_add (a b : Nat) : ∀ s : Main, main_run (a + b) s = main_run b (main_run a s) := by
  induction a with
  | zero => intro s; simp [main_run]
  | succ n ih =>
    intro s
    have : n + 1 + b = (n + b) + 1 := by omega
    rw [this]
    simp only [main_run]
    exact ih _

theorem main_run_succ_last (n : Nat) (s : Main) :
    main_run (n + 1) s = main_step (main_run n s) := by
  rw [main_run_add]; rfl

/-- Along a run `system_state` never moves backwards. -/
theorem main_run_system_state_mono (s : Main) :
    ∀ n m, n ≤ m → (main_run n s).system_state.toNat ≤ (main_run m s).system_state.toNat := by
  intro n m h
  induction m with
  | zero =>
    have : n = 0 := by omega
    rw [this]
  | succ m ih =>
    by_cases hn : n = m + 1
    · rw [hn]
    · have h1 := ih (by omega)
      rw [main_run_succ_last]
      have h2 := (main_step_system_state (main_run m s)).1
      omega

/-- C18: along every run of `main` the value of `system_state` never decreases.  In a
pass that executes the loop body (no stop signal seen, no unexpected error) the
state advances, by exactly one, exactly when the step of the current state
succeeds (`create_socket_server` returns `SOCKET_SERVER_SETUP_OK`; daemon mode is off
or `fork` returns `0`; `listen` does not fail), and stays as it is otherwise.  When the
step fails, `main` is still in its loop with both flags clear, so that the next pass,
unless a stop signal has arrived, executes the loop body in the same state. -/
theorem system_state_advances_only_on_success (s : Main) :
    (∀ n m, n ≤ m → (main_run n s).system_state.toNat ≤ (main_run m s).system_state.toNat) ∧
      (s.pc = MainPc.loop → s.interrupt_signal_received = false →
        s.env.signal.headD false = false → s.unexpected_error = false →
        ((main_step s).system_state.toNat = s.system_state.toNat + 1 ↔
          s.operationSucceeds = true) ∧
        ((main_step s).system_state = s.system_state ↔ s.operationSucceeds = false) ∧
        (s.operationFails = true →
          (main_step s).system_state = s.system_state ∧
          (main_step s).pc = MainPc.loop ∧
          (main_step s).interrupt_signal_received = false ∧
          (main_step s).unexpected_error = false ∧
          ((main_step s).env.signal.headD false = false →
            main_step (main_step s) = main_loop_body (main_signal (main_step s))))) := by
  refine ⟨main_run_system_state_mono s, fun hpc hint hsig herr => ?_⟩
  have hi : (main_signal s).interrupt_signal_received = false := by
    show (s.interrupt_signal_received || s.env.signal.headD false) = false
    rw [hint, hsig]; rfl
  have hstep : main_step s = main_loop_body (main_signal s) := by
    unfold main_step
    rw [hpc]
    exact if_pos ⟨hi, herr⟩
  obtain ⟨a1, a2, a3⟩ := main_loop_body_advance (main_signal s) hpc
  rw [hstep]
  refine ⟨a1, a2, fun hF => ?_⟩
  obtain ⟨b1, b2, b3, b4⟩ := a3 hF
  refine ⟨b1, b2, b3.trans hi, b4.trans herr, fun hnext => ?_⟩
  have hi2 : (main_signal (main_loop_body (main_signal s))).interrupt_signal_received
      = false := by
    show ((main_loop_body (main_signal s)).interrupt_signal_received ||
      (main_loop_body (main_signal s)).env.signal.headD false) = false
    rw [b3, hi, hnext]; rfl
  show main_step (main_loop_body (main_signal s)) = _
  unfold main_step
  rw [b2]
  exact if_pos ⟨hi2, b4.trans herr⟩

theorem system_state_advances_only_on_success_witness :
    ((main_step (main_init false false SetupCalls.success MainEnv.busyPort)).system_state =
        (main_init false false SetupCalls.success MainEnv.busyPort).system_state ∧
      (main_step (main_init false false SetupCalls.success MainEnv.busyPort)).pc =
        MainPc.loop ∧
      (main_step (main_init false false SetupCalls.success
        MainEnv.busyPort)).interrupt_signal_received = false ∧
      (main_step (main_init false false SetupCalls.success
        MainEnv.busyPort)).unexpected_error = false) ∧
      (main_step (main_step (main_init false false SetupCalls.success
          MainEnv.busyPort))).system_state.toNat =
        (main_step (main_init false false SetupCalls.success
          MainEnv.busyPort)).system_state.toNat + 1 :=
  ⟨⟨(((system_state_advances_only_on_success
          (main_init false false SetupCalls.success MainEnv.busyPort)).2
          (by decide) (by decide) (by decide) (by decide)).2.2 (by decide)).1,
      (((system_state_advances_only_on_success
          (main_init false false SetupCalls.success MainEnv.busyPort)).2
          (by decide) (by decide) (by decide) (by decide)).2.2 (by decide)).2.1,
      (((system_state_advances_only_on_success
          (main_init false false SetupCalls.success MainEnv.busyPort)).2
          (by decide) (by decide) (by decide) (by decide)).2.2 (by decide)).2.2.1,
      (((system_state_advances_only_on_success
          (main_init false false SetupCalls.success MainEnv.busyPort)).2
          (by decide) (by decide) (by decide) (by decide)).2.2 (by decide)).2.2.2.1⟩,
    ((system_state_advances_only_on_success
        (main_step (main_init false false SetupCalls.success MainEnv.busyPort))).2
        (by decide) (by decide) (by decide) (by decide)).1.mpr (by decide)⟩

/-! ## The function `main`: failed startup steps -/

theorem createCalls_append (a b : List MainEvent) :
    createCalls (a ++ b) = createCalls a ++ createCalls b := by
  induction a with
  | nil => rfl
  | cons e a ih => cases e <;> simp [createCalls, ih]

theorem listenCalls_append (a b : List MainEvent) :
    listenCalls (a ++ b) = listenCalls a ++ listenCalls b := by
  induction a with
  | nil => rfl
  | cons e a ih => cases e <;> simp [listenCalls, ih]

theorem createCalls_map_close (l : List Int) : createCalls (l.map MainEvent.close) = [] := by
  induction l with
  | nil => rfl
  | cons a l ih => simpa [createCalls] using ih

theorem listenCalls_map_close (l : List Int) : listenCalls (l.map MainEvent.close) = [] := by
  induction l with
  | nil => rfl
  | cons a l ih => simpa [listenCalls] using ih

/-- With `getaddrinfo` successful, a failure of `socket` or of `bind` makes
`create_socket_server` return `SOCKET_SERVER_BIND_FAILED`. -/
theorem create_socket_server_bind_failed (errno : Int) (c : ServerCalls)
    (hg : c.getaddrinfo = 0) (hf : c.socket.ret = -1 ∨ c.bind.ret = -1) :
    create_socket_server errno c =
      some { ret := SOCKET_SERVER_BIND_FAILED
             sfd := c.socket.ret
             error_code := (sys_bind c.socket.ret (c.socket.errnoAfter errno) c.bind).2
             errno := (sys_bind c.socket.ret (c.socket.errnoAfter errno) c.bind).2
             closed := [c.socket.ret] } := by
  have hb : (sys_bind c.socket.ret (c.socket.errnoAfter errno) c.bind).1 = -1 := by
    unfold sys_bind
    by_cases hs : c.socket.ret = -1
    · rw [if_pos hs]
    · rw [if_neg hs]
      rcases hf with hf | hf
      · exact absurd hf hs
      · exact hf
  unfold create_socket_server
  simp only [hg, hb]
  simp [SOCKET_SERVER_BIND_FAILED, SOCKET_SERVER_CREATE_FAILED]

theorem create_socket_server_success (errno : Int) :
    create_socket_server errno ServerCalls.success =
      some { ret := SOCKET_SERVER_SETUP_OK, sfd := 4, error_code := 0, errno := errno,
             closed := [] } := by
  rfl

/-- A pass made during startup executes the loop body. -/
theorem startup_step (s : Main) (state : SystemState_t) (server : List ServerCalls)
    (listen : List IoRes) (accept : List AcceptRes) (sfd : Int)
    (creates : List (Option Int)) (listens : List Int)
    (h : s.StartupAt state server listen accept sfd creates listens) :
    main_step s = main_loop_body (main_signal s) ∧
      (main_signal s).StartupAt state server listen accept sfd creates listens := by
  have hi : (main_signal s).interrupt_signal_received = false := by
    show (s.interrupt_signal_received || s.env.signal.headD false) = false
    rw [h.starting.interrupt, h.starting.signal]; rfl
  have hs : (main_signal s).env.signal = [] := by
    show s.env.signal.tail = []
    rw [h.starting.signal]; rfl
  refine ⟨?_, ⟨⟨h.starting.pc, hi, h.starting.unexpected, hs, h.starting.daemon,
    h.starting.timer_create, h.starting.timer_settime⟩, h.state, h.server, h.listen,
    h.accept, h.sfd, h.creates, h.listens⟩⟩
  unfold main_step
  rw [h.starting.pc]
  exact if_pos ⟨hi, h.starting.unexpected⟩

theorem startup_init_failure (s : Main) (c : ServerCalls) (server : List ServerCalls)
    (listen : List IoRes) (accept : List AcceptRes) (sfd : Int)
    (creates : List (Option Int)) (listens : List Int)
    (h : s.StartupAt .SYSTEM_STATE_INIT (c :: server) listen accept sfd creates listens)
    (hg : c.getaddrinfo = 0) (hf : c.socket.ret = -1 ∨ c.bind.ret = -1) :
    (main_step s).StartupAt .SYSTEM_STATE_INIT server listen accept c.socket.ret
      (creates ++ [some SOCKET_SERVER_BIND_FAILED]) listens := by
  obtain ⟨hstep, hb⟩ := startup_step s _ _ _ _ _ _ _ h
  have hc : create_socket_server (main_signal s).errno
      ((main_signal s).env.server.headD ServerCalls.success) =
      some { ret := SOCKET_SERVER_BIND_FAILED
             sfd := c.socket.ret
             error_code :=
               (sys_bind c.socket.ret (c.socket.errnoAfter (main_signal s).errno) c.bind).2
             errno :=
               (sys_bind c.socket.ret (c.socket.errnoAfter (main_signal s).errno) c.bind).2
             closed := [c.socket.ret] } := by
    rw [hb.server]; exact create_socket_server_bind_failed (main_signal s).errno c hg hf
  have hne : ¬ SOCKET_SERVER_BIND_FAILED = SOCKET_SERVER_SETUP_OK := by decide
  have hbody : main_loop_body (main_signal s) = main_case_init (main_signal s) := by
    unfold main_loop_body; rw [hb.state]
  rw [hstep, hbody, main_case_init_eq _ _ hc, if_neg hne]
  refine ⟨⟨hb.starting.pc, hb.starting.interrupt, hb.starting.unexpected, hb.starting.signal,
    hb.starting.daemon, hb.starting.timer_create, hb.starting.timer_settime⟩, hb.state, ?_,
    hb.listen, hb.accept, rfl, ?_, ?_⟩
  · show (main_signal s).env.server.tail = server
    rw [hb.server]; rfl
  · show createCalls ((main_signal s).trace ++
      [MainEvent.create_socket_server (some SOCKET_SERVER_BIND_FAILED)] ++
      [c.socket.ret].map MainEvent.close) = _
    rw [createCalls_append, createCalls_append, createCalls_map_close, hb.creates]
    simp [createCalls]
  · show listenCalls ((main_signal s).trace ++
      [MainEvent.create_socket_server (some SOCKET_SERVER_BIND_FAILED)] ++
      [c.socket.ret].map MainEvent.close) = _
    rw [listenCalls_append, listenCalls_append, listenCalls_map_close, hb.listens]
    simp [listenCalls]

theorem startup_init_success (s : Main) (listen : List IoRes) (accept : List AcceptRes)
    (sfd : Int) (creates : List (Option Int)) (listens : List Int)
    (h : s.StartupAt .SYSTEM_STATE_INIT [] listen accept sfd creates listens) :
    (main_step s).StartupAt .SYSTEM_STATE_SOCK_CREATED [] listen accept 4
      (creates ++ [some SOCKET_SERVER_SETUP_OK]) listens := by
  obtain ⟨hstep, hb⟩ := startup_step s _ _ _ _ _ _ _ h
  have hc : create_socket_server (main_signal s).errno
      ((main_signal s).env.server.headD ServerCalls.success) =
      some { ret := SOCKET_SERVER_SETUP_OK, sfd := 4, error_code := 0,
             errno := (main_signal s).errno, closed := [] } := by
    rw [hb.server]; exact create_socket_server_success _
  have hbody : main_loop_body (main_signal s) = main_case_init (main_signal s) := by
    unfold main_loop_body; rw [hb.state]
  rw [hstep, hbody, main_case_init_eq _ _ hc, if_pos rfl]
  refine ⟨⟨hb.starting.pc, hb.starting.interrupt, hb.starting.unexpected, hb.starting.signal,
    hb.starting.daemon, hb.starting.timer_create, hb.starting.timer_settime⟩, rfl, ?_,
    hb.listen, hb.accept, rfl, ?_, ?_⟩
  · show (main_signal s).env.server.tail = []
    rw [hb.server]; rfl
  · show createCalls ((main_signal s).trace ++ [MainEvent.create_socket_server (some 0)] ++ []) = _
    rw [createCalls_append, createCalls_append, hb.creates]
    simp [createCalls, SOCKET_SERVER_SETUP_OK]
  · show listenCalls ((main_signal s).trace ++ [MainEvent.create_socket_server (some 0)] ++ []) = _
    rw [listenCalls_append, listenCalls_append, hb.listens]
    simp [listenCalls]

theorem startup_sock_created (s : Main) (server : List ServerCalls) (listen : List IoRes)
    (accept : List AcceptRes) (sfd : Int) (creates : List (Option Int)) (listens : List Int)
    (h : s.StartupAt .SYSTEM_STATE_SOCK_CREATED server listen accept sfd creates listens) :
    (main_step s).StartupAt .SYSTEM_STATE_SOCK_START_LISTENING server listen accept sfd
      creates listens := by
  obtain ⟨hstep, hb⟩ := startup_step s _ _ _ _ _ _ _ h
  have hbody : main_loop_body (main_signal s) = main_case_sock_created (main_signal s) := by
    unfold main_loop_body; rw [hb.state]
  have hd : ¬ (main_signal s).run_as_daemon = true := by rw [hb.starting.daemon]; simp
  have e : main_fork (main_signal s) =
      { (main_signal s) with system_state := .SYSTEM_STATE_SOCK_START_LISTENING } := by
    unfold main_fork; rw [if_neg hd]
  have ht : main_arm_timer
      { (main_signal s) with system_state := .SYSTEM_STATE_SOCK_START_LISTENING } =
      { (main_signal s) with
        system_state := .SYSTEM_STATE_SOCK_START_LISTENING
        env := { (main_signal s).env with timer_create := [], timer_settime := [] }
        rc := 0
        trace := (main_signal s).trace ++ [MainEvent.timer_create 0] ++
          [MainEvent.timer_settime 0] } := by
    unfold main_arm_timer
    simp only [hb.starting.timer_create, hb.starting.timer_settime, List.headD_nil,
      List.tail_nil, IoRes.ret, IoRes.errnoAfter]
    simp
  rw [hstep, hbody]
  unfold main_case_sock_created
  rw [if_pos (by rw [e]; exact ⟨hb.starting.pc, rfl⟩), e, ht]
  refine ⟨⟨hb.starting.pc, hb.starting.interrupt, hb.starting.unexpected, hb.starting.signal,
    hb.starting.daemon, rfl, rfl⟩, rfl, hb.server, hb.listen, hb.accept, hb.sfd, ?_, ?_⟩
  · show createCalls ((main_signal s).trace ++ [MainEvent.timer_create 0] ++
      [MainEvent.timer_settime 0]) = _
    rw [createCalls_append, createCalls_append, hb.creates]
    simp [createCalls]
  · show listenCalls ((main_signal s).trace ++ [MainEvent.timer_create 0] ++
      [MainEvent.timer_settime 0]) = _
    rw [listenCalls_append, listenCalls_append, hb.listens]
    simp [listenCalls]

theorem startup_listen (s : Main) (server : List ServerCalls) (listen : List IoRes)
    (accept : List AcceptRes) (sfd : Int) (creates : List (Option Int)) (listens : List Int)
    (h : s.StartupAt .SYSTEM_STATE_SOCK_START_LISTENING server listen accept sfd creates
      listens) :
    (main_step s).StartupAt
      (if (listen.headD IoRes.ok).ret = -1 then .SYSTEM_STATE_SOCK_START_LISTENING
        else .SYSTEM_STATE_SOCK_WAITING_CONN)
      server listen.tail accept sfd creates (listens ++ [(listen.headD IoRes.ok).ret]) := by
  obtain ⟨hstep, hb⟩ := startup_step s _ _ _ _ _ _ _ h
  have hbody : main_loop_body (main_signal s) = main_case_start_listening (main_signal s) := by
    unfold main_loop_body; rw [hb.state]
  have hl : listenCalls ((main_signal s).trace ++
      [MainEvent.listen ((main_signal s).env.listen.headD IoRes.ok).ret]) =
      listens ++ [(listen.headD IoRes.ok).ret] := by
    rw [listenCalls_append, hb.listens, hb.listen]
    simp [listenCalls]
  have hcr : createCalls ((main_signal s).trace ++
      [MainEvent.listen ((main_signal s).env.listen.headD IoRes.ok).ret]) = creates := by
    rw [createCalls_append, hb.creates]
    simp [createCalls]
  have htl : (main_signal s).env.listen.tail = listen.tail := by rw [hb.listen]
  rw [hstep, hbody]
  unfold main_case_start_listening
  dsimp only
  rw [← hb.listen]
  by_cases hr : ((main_signal s).env.listen.headD IoRes.ok).ret = -1
  · rw [if_pos hr, if_pos hr]
    exact ⟨⟨hb.starting.pc, hb.starting.interrupt, hb.starting.unexpected, hb.starting.signal,
      hb.starting.daemon, hb.starting.timer_create, hb.starting.timer_settime⟩, hb.state,
      hb.server, rfl, hb.accept, hb.sfd, hcr, by rw [hb.listen] at hl ⊢; exact hl⟩
  · rw [if_neg hr, if_neg hr]
    exact ⟨⟨hb.starting.pc, hb.starting.interrupt, hb.starting.unexpected, hb.starting.signal,
      hb.starting.daemon, hb.starting.timer_create, hb.starting.timer_settime⟩, rfl,
      hb.server, rfl, hb.accept, hb.sfd, hcr, by rw [hb.listen] at hl ⊢; exact hl⟩

theorem startup_init_retries (fails : List ServerCalls) :
    ∀ (s : Main) (listen : List IoRes) (accept : List AcceptRes) (sfd : Int)
      (creates : List (Option Int)) (listens : List Int),
      s.StartupAt .SYSTEM_STATE_INIT fails listen accept sfd creates listens →
      (∀ c ∈ fails, c.getaddrinfo = 0 ∧ (c.socket.ret = -1 ∨ c.bind.ret = -1)) →
      ∃ sfd1, (main_run fails.length s).StartupAt .SYSTEM_STATE_INIT [] listen accept sfd1
        (creates ++ List.replicate fails.length (some SOCKET_SERVER_BIND_FAILED)) listens := by
  induction fails with
  | nil =>
    intro s listen accept sfd creates listens h _
    exact ⟨sfd, by simpa [main_run] using h⟩
  | cons c fails ih =>
    intro s listen accept sfd creates listens h hf
    obtain ⟨hg, hc⟩ := hf c (List.mem_cons_self _ _)
    have h1 := startup_init_failure s c fails listen accept sfd creates listens h hg hc
    obtain ⟨sfd1, h2⟩ := ih (main_step s) listen accept _ _ listens h1
      (fun x hx => hf x (List.mem_cons_of_mem _ hx))
    refine ⟨sfd1, ?_⟩
    have e : creates ++ List.replicate (c :: fails).length (some SOCKET_SERVER_BIND_FAILED) =
        creates ++ [some SOCKET_SERVER_BIND_FAILED] ++
          List.replicate fails.length (some SOCKET_SERVER_BIND_FAILED) := by
      simp [List.replicate_succ]
    rw [e]
    exact h2

theorem startup_listen_retries (errs : List Int) :
    ∀ (s : Main) (server : List ServerCalls) (accept : List AcceptRes) (sfd : Int)
      (creates : List (Option Int)) (listens : List Int),
      s.StartupAt .SYSTEM_STATE_SOCK_START_LISTENING server (errs.map IoRes.fail) accept sfd
        creates listens →
      (main_run errs.length s).StartupAt .SYSTEM_STATE_SOCK_START_LISTENING server [] accept sfd
        creates (listens ++ List.replicate errs.length (-1)) := by
  induction errs with
  | nil =>
    intro s server accept sfd creates listens h
    simpa [main_run] using h
  | cons e errs ih =>
    intro s server accept sfd creates listens h
    have h1 := startup_listen s server _ accept sfd creates listens h
    have h2 := ih (main_step s) server accept sfd creates _ (by simpa [IoRes.ret] using h1)
    have e2 : listens ++ List.replicate (e :: errs).length (-1) =
        listens ++ [(-1 : Int)] ++ List.replicate errs.length (-1) := by
      simp [List.replicate_succ]
    rw [e2]
    simpa [IoRes.ret] using h2

theorem startup_initial (existed : Bool) (fails : List ServerCalls) (lfails : List Int)
    (accept : List AcceptRes) :
    (main_init false existed SetupCalls.success (MainEnv.startup fails lfails accept)).StartupAt
      .SYSTEM_STATE_INIT fails (lfails.map IoRes.fail) accept (-1) [] [] :=
  ⟨⟨rfl, rfl, rfl, rfl, rfl, rfl, rfl⟩, rfl, rfl, rfl, rfl, rfl, rfl, rfl⟩

/-- C19 as stated fails: at the first attempt `bind` fails with
`EADDRINUSE` and `create_socket_server` returns `SOCKET_SERVER_BIND_FAILED`; later the
first `listen` fails.  `main` stays in its loop, makes both calls again, and in its
sixth pass accepts a connection and creates a worker for it.  In the same
situation a stop signal after the failed `bind` makes `main` return with status
`0`. -/
theorem connection_accepted_after_failed_bind :
    (main_run 6 (main_init false false SetupCalls.success MainEnv.busyPort)).trace =
        [MainEvent.create_socket_server (some SOCKET_SERVER_BIND_FAILED), MainEvent.close 4,
          MainEvent.create_socket_server (some SOCKET_SERVER_SETUP_OK),
          MainEvent.timer_create 0, MainEvent.timer_settime 0, MainEvent.listen (-1),
          MainEvent.listen 0, MainEvent.accept 5, MainEvent.pthread_create 0] ∧
      (main_run 6 (main_init false false SetupCalls.success MainEnv.busyPort)).pc =
        MainPc.loop ∧
      (main_run 2 (main_init false false SetupCalls.success
        { MainEnv.busyPort with signal := [false, true] })).pc = MainPc.returned 0 := by
  decide

/-- C19, amended: a setup step that fails is retried.  In the foreground, with no
stop signal, when `create_socket_server` fails `fails.length` times (through
`socket` or `bind`) before it succeeds and `listen` then fails `lfails.length` times
before it succeeds, `main` never leaves its loop: after as many passes as there
are calls it is in `SYSTEM_STATE_SOCK_WAITING_CONN` with the listening socket `4`, no
error recorded, every outcome of `accept` still to come, and it has called
`create_socket_server` and `listen` once per failure and once more. -/
theorem failed_setup_step_is_retried (existed : Bool) (fails : List ServerCalls)
    (lfails : List Int) (accept : List AcceptRes)
    (hf : ∀ c ∈ fails, c.getaddrinfo = 0 ∧ (c.socket.ret = -1 ∨ c.bind.ret = -1)) :
    (main_run (fails.length + lfails.length + 3) (main_init false existed SetupCalls.success
        (MainEnv.startup fails lfails accept))).pc = MainPc.loop ∧
      (main_run (fails.length + lfails.length + 3) (main_init false existed SetupCalls.success
        (MainEnv.startup fails lfails accept))).system_state =
        .SYSTEM_STATE_SOCK_WAITING_CONN ∧
      (main_run (fails.length + lfails.length + 3) (main_init false existed SetupCalls.success
        (MainEnv.startup fails lfails accept))).unexpected_error = false ∧
      (main_run (fails.length + lfails.length + 3) (main_init false existed SetupCalls.success
        (MainEnv.startup fails lfails accept))).sfd = 4 ∧
      (main_run (fails.length + lfails.length + 3) (main_init false existed SetupCalls.success
        (MainEnv.startup fails lfails accept))).env.accept = accept ∧
      createCalls (main_run (fails.length + lfails.length + 3) (main_init false existed
        SetupCalls.success (MainEnv.startup fails lfails accept))).trace =
        List.replicate fails.length (some SOCKET_SERVER_BIND_FAILED) ++
          [some SOCKET_SERVER_SETUP_OK] ∧
      listenCalls (main_run (fails.length + lfails.length + 3) (main_init false existed
        SetupCalls.success (MainEnv.startup fails lfails accept))).trace =
        List.replicate lfails.length (-1) ++ [0] := by
  have h0 := startup_initial existed fails lfails accept
  obtain ⟨sfd1, h1⟩ := startup_init_retries fails _ _ _ _ _ _ h0 hf
  have h2 := startup_init_success _ _ _ _ _ _ h1
  have h3 := startup_sock_created _ _ _ _ _ _ _ h2
  have h4 := startup_listen_retries lfails _ _ _ _ _ _ h3
  have h5 := startup_listen _ _ _ _ _ _ _ h4
  have e : fails.length + lfails.length + 3 = fails.length + (1 + (1 + (lfails.length + 1))) := by
    omega
  have hrun : ∀ s : Main, main_run (fails.length + lfails.length + 3) s =
      main_step (main_run lfails.length (main_step (main_step (main_run fails.length s)))) := by
    intro s
    rw [e, main_run_add, main_run_add, main_run_add, main_run_add]
    rfl
  rw [hrun]
  have h6 : (main_step (main_run lfails.length (main_step (main_step (main_run fails.length
      (main_init false existed SetupCalls.success (MainEnv.startup fails lfails accept))))))
      ).StartupAt .SYSTEM_STATE_SOCK_WAITING_CONN [] [] accept 4
      (List.replicate fails.length (some SOCKET_SERVER_BIND_FAILED) ++
        [some SOCKET_SERVER_SETUP_OK]) (List.replicate lfails.length (-1) ++ [0]) := by
    simpa [IoRes.ret] using h5
  exact ⟨h6.starting.pc, h6.state, h6.starting.unexpected, h6.sfd, h6.accept, h6.creates,
    h6.listens⟩

theorem failed_setup_step_is_retried_witness :
    (main_run 5 (main_init false false SetupCalls.success MainEnv.busyPort)).pc = MainPc.loop ∧
      (main_run 5 (main_init false false SetupCalls.success MainEnv.busyPort)).system_state =
        .SYSTEM_STATE_SOCK_WAITING_CONN ∧
      (main_run 5 (main_init false false SetupCalls.success
        MainEnv.busyPort)).unexpected_error = false ∧
      (main_run 5 (main_init false false SetupCalls.success MainEnv.busyPort)).sfd = 4 ∧
      (main_run 5 (main_init false false SetupCalls.success MainEnv.busyPort)).env.accept =
        [AcceptRes.conn
          { cfd := 5, completed := [], params := Alloc.ok 101, created := 0, thread_id := 1,
            node := Alloc.ok 201 }] ∧
      createCalls (main_run 5 (main_init false false SetupCalls.success
        MainEnv.busyPort)).trace =
        List.replicate 1 (some SOCKET_SERVER_BIND_FAILED) ++ [some SOCKET_SERVER_SETUP_OK] ∧
      listenCalls (main_run 5 (main_init false false SetupCalls.success
        MainEnv.busyPort)).trace = List.replicate 1 (-1) ++ [0] :=
  failed_setup_step_is_retried false
    [{ getaddrinfo := 0, socket := FdRes.ok 4, bind := IoRes.fail 98 }] [98]
    [AcceptRes.conn
      { cfd := 5, completed := [], params := Alloc.ok 101, created := 0, thread_id := 1,
        node := Alloc.ok 201 }]
    (by decide)

/-! ## socket_server.c: the code returned by `create_socket_server` -/

/-- The function `create_socket_server` returns `SOCKET_SERVER_SETUP_OK` exactly when
the three calls succeed. -/
theorem create_socket_server_setup_ok_iff (errno : Int) (c : ServerCalls) :
    (create_socket_server errno c).map ServerResult.ret = some SOCKET_SERVER_SETUP_OK ↔
      c.getaddrinfo = 0 ∧ c.socket.ret ≠ -1 ∧ c.bind.ret ≠ -1 := by
  unfold create_socket_server
  by_cases hg : c.getaddrinfo = 0
  · by_cases hs : c.socket.ret = -1
    · simp [hg, hs, sys_bind, SOCKET_SERVER_SETUP_OK, SOCKET_SERVER_BIND_FAILED]
    · by_cases hb : c.bind.ret = -1
      · simp [hg, hs, hb, sys_bind, SOCKET_SERVER_SETUP_OK, SOCKET_SERVER_BIND_FAILED]
      · simp [hg, hs, hb, sys_bind, SOCKET_SERVER_SETUP_OK]
  · simp [hg]

/-- C20, the code at the failing input: `getaddrinfo` succeeds and `socket` fails
with errno `e` (`EMFILE`, say).  The function records `SOCKET_SERVER_CREATE_FAILED` and
goes on to call `bind` on the descriptor `-1`; that call fails with `EBADF`, and the
function returns `SOCKET_SERVER_BIND_FAILED` with `*error_code = EBADF` after
`close(-1)`.  No outcome of the three calls makes it return
`SOCKET_SERVER_CREATE_FAILED`, and after a failed `getaddrinfo` (`EAI_NONAME`, `-2`) the
function reads through the `NULL` pointer `sockaddrinfo` and does not return. -/
theorem socket_failure_reported_as_bind_failure (errno e : Int) (b : IoRes)
    (c : ServerCalls) :
    create_socket_server errno { getaddrinfo := 0, socket := FdRes.fail e, bind := b } =
        some { ret := SOCKET_SERVER_BIND_FAILED, sfd := -1, error_code := EBADF, errno := EBADF,
               closed := [-1] } ∧
      (create_socket_server errno c).map ServerResult.ret ≠
        some SOCKET_SERVER_CREATE_FAILED ∧
      create_socket_server errno { c with getaddrinfo := -2 } = none := by
  refine ⟨rfl, ?_, rfl⟩
  unfold create_socket_server
  by_cases hg : c.getaddrinfo ≠ 0
  · simp [hg]
  · by_cases hb : (sys_bind c.socket.ret (c.socket.errnoAfter errno) c.bind).1 = -1
    · simp [hg, hb, SOCKET_SERVER_BIND_FAILED, SOCKET_SERVER_CREATE_FAILED]
    · have hs : c.socket.ret ≠ -1 := by
        intro hs
        apply hb
        simp [sys_bind, hs]
      simp [hg, hb, hs, SOCKET_SERVER_SETUP_OK, SOCKET_SERVER_CREATE_FAILED]

/-! ## The function `main`: the status it returns -/

theorem spawn_connection_thread_result (e : Int) (params : Alloc) (created : Int) :
    (spawn_connection_thread e params created).1 =
      (spawn_connection_thread 0 params created).1 := by
  unfold spawn_connection_thread
  by_cases h1 : params.ptr = NULL
  · simp [h1]
  · by_cases h2 : created = 0
    · simp [h1, h2]
    · simp [h1, h2]

/-- What serving one connection leaves: the state of the startup machine and the
outcomes to come are untouched; unless the walk of the registry went wrong, `main`
is where it was and `unexpected_error` has been set exactly when the connection met
an unrecoverable error. -/
theorem main_serve_outcome (s : Main) (c : Conn) :
    (main_serve s c).system_state = s.system_state ∧ (main_serve s c).env = s.env ∧
      ((main_serve s c).pc = MainPc.hung ∨ (main_serve s c).pc = MainPc.fault ∨
        ((main_serve s c).pc = s.pc ∧
          (main_serve s c).unexpected_error = (s.unexpected_error || c.unrecoverable))) := by
  have hsp := spawn_connection_thread_result s.error_code c.params c.created
  unfold main_serve
  dsimp only
  split
  · exact ⟨rfl, rfl, Or.inl rfl⟩
  · split
    · exact ⟨rfl, rfl, Or.inr (Or.inl rfl)⟩
    · split
      · rename_i h3
        rw [hsp] at h3
        split
        · rename_i h4
          refine ⟨rfl, rfl, Or.inr (Or.inr ⟨rfl, ?_⟩)⟩
          simp [Conn.unrecoverable, h4]
        · rename_i h4
          have hu : c.unrecoverable = false := by
            simp [Conn.unrecoverable, h3, h4]
          split
          · exact ⟨rfl, rfl, Or.inl rfl⟩
          · split
            · exact ⟨rfl, rfl, Or.inr (Or.inl rfl)⟩
            · refine ⟨rfl, rfl, Or.inr (Or.inr ⟨rfl, ?_⟩)⟩
              rw [hu]; simp
      · rename_i h3
        rw [hsp] at h3
        refine ⟨rfl, rfl, Or.inr (Or.inr ⟨rfl, ?_⟩)⟩
        simp [Conn.unrecoverable, h3]

theorem served_append (a b : List AcceptRes) : served (a ++ b) = served a ++ served b := by
  induction a with
  | nil => rfl
  | cons x a ih => cases x <;> simp [served, ih]

theorem main_teardown_outcome (s : Main) :
    (main_teardown s).system_state = s.system_state ∧ (main_teardown s).env = s.env ∧
      ((main_teardown s).pc = MainPc.hung ∨ (main_teardown s).pc = MainPc.fault ∨
        (main_teardown s).pc = MainPc.returned (if s.unexpected_error then 1 else 0)) := by
  unfold main_teardown
  split
  · exact ⟨rfl, rfl, Or.inl rfl⟩
  · split
    · exact ⟨rfl, rfl, Or.inr (Or.inl rfl)⟩
    · exact ⟨rfl, rfl, Or.inr (Or.inr rfl)⟩

theorem serving_of_loop (s : Main) (accepted : List AcceptRes) (harmed : s.Armed)
    (hpc : s.pc = MainPc.loop)
    (h : s.unexpected_error = true ↔ ∃ c ∈ served accepted, c.unrecoverable = true) :
    s.Serving accepted := by
  unfold Main.Serving
  rw [hpc]
  exact ⟨harmed, h⟩

theorem serving_of_returned (s : Main) (accepted : List AcceptRes) (status : Int)
    (harmed : s.Armed) (hpc : s.pc = MainPc.returned status)
    (h : (status = 1 ↔ ∃ c ∈ served accepted, c.unrecoverable = true) ∧
      (status = 0 ↔ ∀ c ∈ served accepted, c.unrecoverable = false)) :
    s.Serving accepted := by
  unfold Main.Serving
  rw [hpc]
  exact ⟨harmed, h⟩

theorem serving_of_stuck (s : Main) (accepted : List AcceptRes) (harmed : s.Armed)
    (hpc : s.pc = MainPc.hung ∨ s.pc = MainPc.fault) : s.Serving accepted := by
  unfold Main.Serving
  rcases hpc with hpc | hpc <;> rw [hpc] <;> exact ⟨harmed, trivial⟩

theorem main_case_waiting_conn_outcome (s : Main) (accepted : List AcceptRes)
    (hpc : s.pc = MainPc.loop) (harmed : s.Armed) (herr : s.unexpected_error = false)
    (hnone : ∀ c ∈ served accepted, c.unrecoverable = false) :
    ∃ more, s.env.accept = more ++ (main_case_waiting_conn s).env.accept ∧
      (main_case_waiting_conn s).Serving (accepted ++ more) := by
  have hsys := main_case_waiting_conn_system_state s
  have harm : (main_case_waiting_conn s).Armed := by
    unfold Main.Armed; rw [hsys]; exact harmed
  have hno : ¬ ∃ c ∈ served accepted, c.unrecoverable = true := by
    rintro ⟨c, hc, hu⟩
    rw [hnone c hc] at hu
    exact absurd hu (by decide)
  cases hacc : s.env.accept with
  | nil =>
    refine ⟨[], ?_, ?_⟩
    · unfold main_case_waiting_conn
      simp [hacc]
    · have e : main_case_waiting_conn s =
          { s with
            env := { s.env with accept := [] }
            rc := SOCKET_SERVER_WAIT_CONN_FAILED
            cfd := -1
            error_code := EINTR
            errno := EINTR
            trace := s.trace ++ [MainEvent.accept (-1)] } := by
        unfold main_case_waiting_conn
        simp only [hacc, List.headD_nil, List.tail_nil]
        rfl
      rw [List.append_nil]
      refine serving_of_loop _ _ harm (by rw [e]; exact hpc) ?_
      rw [e]
      show (s.unexpected_error = true ↔ _)
      rw [herr]
      simp only [Bool.false_eq_true, false_iff]
      exact hno
  | cons x rest =>
    cases x with
    | fail err =>
      have e : main_case_waiting_conn s =
          { s with
            env := { s.env with accept := rest }
            rc := SOCKET_SERVER_WAIT_CONN_FAILED
            cfd := -1
            error_code := err
            errno := err
            trace := s.trace ++ [MainEvent.accept (-1)] } := by
        unfold main_case_waiting_conn
        simp only [hacc, List.headD_cons, List.tail_cons]
        rfl
      refine ⟨[AcceptRes.fail err], by rw [e]; rfl,
        serving_of_loop _ _ harm (by rw [e]; exact hpc) ?_⟩
      rw [e]
      show (s.unexpected_error = true ↔ _)
      rw [herr, served_append]
      simp only [Bool.false_eq_true, false_iff, served, List.append_nil]
      exact hno
    | conn c =>
      have e : main_case_waiting_conn s =
          main_serve
            { s with
              env := { s.env with accept := rest }
              rc := SOCKET_SERVER_WAIT_CONN_OK
              cfd := c.cfd
              error_code := s.error_code
              errno := s.errno
              trace := s.trace ++ [MainEvent.accept c.cfd] } c := by
        unfold main_case_waiting_conn
        simp only [hacc, List.headD_cons, List.tail_cons]
        have hw : wait_connection s.error_code s.errno (AcceptRes.conn c).fd =
            (SOCKET_SERVER_WAIT_CONN_OK, (c.cfd : Int), s.error_code, s.errno) := by
          have : ¬ ((c.cfd : Int) = -1) := by omega
          simp [wait_connection, AcceptRes.fd, FdRes.ret, FdRes.errnoAfter, this]
        rw [hw]
        simp
      obtain ⟨-, o2, o3⟩ := main_serve_outcome
        { s with
          env := { s.env with accept := rest }
          rc := SOCKET_SERVER_WAIT_CONN_OK
          cfd := c.cfd
          error_code := s.error_code
          errno := s.errno
          trace := s.trace ++ [MainEvent.accept c.cfd] } c
      rw [← e] at o2 o3
      refine ⟨[AcceptRes.conn c], by rw [o2]; rfl, ?_⟩
      rcases o3 with o3 | o3 | ⟨o3, o4⟩
      · exact serving_of_stuck _ _ harm (Or.inl o3)
      · exact serving_of_stuck _ _ harm (Or.inr o3)
      · refine serving_of_loop _ _ harm (o3.trans hpc) ?_
        rw [o4, served_append]
        show ((s.unexpected_error || c.unrecoverable) = true ↔ _)
        rw [herr]
        simp only [Bool.false_or, served, List.mem_append, List.mem_singleton]
        constructor
        · intro hu
          exact ⟨c, Or.inr rfl, hu⟩
        · rintro ⟨c1, hc1 | hc1, hu⟩
          · exact absurd ⟨c1, hc1, hu⟩ hno
          · rw [← hc1]; exact hu

/-- One pass of `main` after the ticker is armed. -/
theorem serving_step (s : Main) (accepted : List AcceptRes) (h : s.Serving accepted) :
    ∃ more, s.env.accept = more ++ (main_step s).env.accept ∧
      (main_step s).Serving (accepted ++ more) := by
  obtain ⟨harmed, hpcs⟩ := h
  cases hpc : s.pc with
  | loop =>
    rw [hpc] at hpcs
    have hflag : (s.unexpected_error = true ↔ ∃ c ∈ served accepted, c.unrecoverable = true) :=
      hpcs
    have hstep : main_step s =
        if (main_signal s).interrupt_signal_received = false ∧
            (main_signal s).unexpected_error = false then
          main_loop_body (main_signal s)
        else main_teardown (main_signal s) := by
      unfold main_step; rw [hpc]
    rw [hstep]
    by_cases hc : (main_signal s).interrupt_signal_received = false ∧
        (main_signal s).unexpected_error = false
    · rw [if_pos hc]
      have herr : s.unexpected_error = false := hc.2
      have hnone : ∀ c ∈ served accepted, c.unrecoverable = false := by
        intro c hcm
        cases hu : c.unrecoverable with
        | false => rfl
        | true =>
          have := hflag.mpr ⟨c, hcm, hu⟩
          rw [herr] at this
          exact absurd this (by decide)
      rcases harmed with hs | hs
      · have hb : main_loop_body (main_signal s) = main_case_start_listening (main_signal s) := by
          unfold main_loop_body
          have : (main_signal s).system_state = .SYSTEM_STATE_SOCK_START_LISTENING := hs
          rw [this]
        rw [hb]
        refine ⟨[], ?_, ?_⟩
        · unfold main_case_start_listening
          dsimp only
          split <;> rfl
        · rw [List.append_nil]
          unfold main_case_start_listening
          dsimp only
          split
          · exact serving_of_loop _ _ (Or.inl hs) hpc hflag
          · exact serving_of_loop _ _ (Or.inr rfl) hpc hflag
      · have hb : main_loop_body (main_signal s) = main_case_waiting_conn (main_signal s) := by
          unfold main_loop_body
          have : (main_signal s).system_state = .SYSTEM_STATE_SOCK_WAITING_CONN := hs
          rw [this]
        rw [hb]
        exact main_case_waiting_conn_outcome (main_signal s) accepted hpc (Or.inr hs) herr hnone
    · rw [if_neg hc]
      obtain ⟨t1, t2, t3⟩ := main_teardown_outcome (main_signal s)
      refine ⟨[], by rw [t2]; rfl, ?_⟩
      rw [List.append_nil]
      have harm : (main_teardown (main_signal s)).Armed := by
        unfold Main.Armed; rw [t1]; exact harmed
      rcases t3 with t3 | t3 | t3
      · exact serving_of_stuck _ _ harm (Or.inl t3)
      · exact serving_of_stuck _ _ harm (Or.inr t3)
      · refine serving_of_returned _ _ _ harm t3 ?_
        have e : (main_signal s).unexpected_error = s.unexpected_error := rfl
        rw [e]
        cases hu : s.unexpected_error with
        | true =>
          rw [hu] at hflag
          obtain ⟨c, hcm, hcu⟩ := hflag.mp rfl
          refine ⟨by simp; exact ⟨c, hcm, hcu⟩, ?_⟩
          simp only [if_true]
          constructor
          · intro h; exact absurd h (by decide)
          · intro h
            rw [h c hcm] at hcu
            exact absurd hcu (by decide)
        | false =>
          rw [hu] at hflag
          have hno : ¬ ∃ c ∈ served accepted, c.unrecoverable = true := by
            intro hex
            exact absurd (hflag.mpr hex) (by decide)
          refine ⟨?_, ?_⟩
          · simp only [Bool.false_eq_true, if_false]
            constructor
            · intro h; exact absurd h (by decide)
            · intro h; exact absurd h hno
          · simp only [Bool.false_eq_true, if_false, true_iff]
            intro c hcm
            cases hcu : c.unrecoverable with
            | false => rfl
            | true => exact absurd ⟨c, hcm, hcu⟩ hno
  | returned status =>
    have : main_step s = s := by unfold main_step; rw [hpc]
    rw [this]
    exact ⟨[], rfl, by rw [List.append_nil]; exact ⟨harmed, hpcs⟩⟩
  | fault =>
    have : main_step s = s := by unfold main_step; rw [hpc]
    rw [this]
    exact ⟨[], rfl, by rw [List.append_nil]; exact ⟨harmed, hpcs⟩⟩
  | hung =>
    have : main_step s = s := by unfold main_step; rw [hpc]
    rw [this]
    exact ⟨[], rfl, by rw [List.append_nil]; exact ⟨harmed, hpcs⟩⟩

theorem main_init_unarmed (run_as_daemon existed : Bool) (c : SetupCalls) (env : MainEnv) :
    (main_init run_as_daemon existed c env).Unarmed env.accept := by
  unfold main_init Main.Unarmed
  dsimp only
  split
  · simp
  · split
    · simp
    · split
      · simp
      · split
        · simp
        · simp

theorem main_cleanup_unarmed (s : Main) (accept : List AcceptRes) (status : Int)
    (h : s.env.accept = accept ∧ s.unexpected_error = false ∧
      MainEvent.timer_settime 0 ∉ s.trace) :
    Main.Unarmed { (main_cleanup s) with pc := MainPc.returned status } accept := by
  obtain ⟨h1, h2, h3⟩ := h
  unfold Main.Unarmed main_cleanup
  refine ⟨h1, h2, ?_, ?_⟩
  · simp [h3]
  · intro h; cases h

theorem main_teardown_unarmed (s : Main) (accept : List AcceptRes)
    (h : s.env.accept = accept ∧ s.unexpected_error = false ∧
      MainEvent.timer_settime 0 ∉ s.trace) :
    (main_teardown s).Unarmed accept := by
  obtain ⟨h1, h2, h3⟩ := h
  unfold main_teardown
  split
  · exact ⟨h1, h2, h3, by intro h; cases h⟩
  · split
    · exact ⟨h1, h2, h3, by intro h; cases h⟩
    · refine ⟨h1, h2, ?_, by intro h; cases h⟩
      simp [main_cleanup, h3]

theorem main_case_init_unarmed (s : Main) (accept : List AcceptRes)
    (hs : s.system_state = .SYSTEM_STATE_INIT)
    (h : s.env.accept = accept ∧ s.unexpected_error = false ∧
      MainEvent.timer_settime 0 ∉ s.trace) :
    (main_case_init s).Unarmed accept := by
  obtain ⟨h1, h2, h3⟩ := h
  unfold main_case_init
  dsimp only
  split
  · exact ⟨h1, h2, by simp [h3], by intro h; cases h⟩
  · split
    · exact ⟨h1, h2, by simp [h3], fun _ => Or.inr rfl⟩
    · exact ⟨h1, h2, by simp [h3], fun _ => Or.inl hs⟩

theorem main_arm_timer_outcome (s : Main) (accept : List AcceptRes)
    (hpc : s.pc = MainPc.loop) (hs : s.system_state = .SYSTEM_STATE_SOCK_START_LISTENING)
    (h : s.env.accept = accept ∧ s.unexpected_error = false ∧
      MainEvent.timer_settime 0 ∉ s.trace) :
    (main_arm_timer s).Unarmed accept ∨
      ((main_arm_timer s).env.accept = accept ∧ (main_arm_timer s).Serving []) := by
  obtain ⟨h1, h2, h3⟩ := h
  unfold main_arm_timer
  dsimp only
  split
  · left
    exact main_cleanup_unarmed _ _ _ ⟨h1, h2, by simp [h3]⟩
  · split
    · left
      rename_i hne
      refine main_cleanup_unarmed _ _ _ ⟨h1, h2, ?_⟩
      simp only [List.append_assoc, List.mem_append, List.mem_cons, List.mem_singleton,
        List.not_mem_nil, or_false, not_or]
      refine ⟨h3, by simp, ?_, by simp⟩
      intro he
      injection he with he
      exact hne he.symm
    · right
      refine ⟨h1, serving_of_loop _ _ (Or.inl hs) hpc ?_⟩
      show (s.unexpected_error = true ↔ _)
      rw [h2]
      simp [served]

theorem main_case_sock_created_outcome (s : Main) (accept : List AcceptRes)
    (hs : s.system_state = .SYSTEM_STATE_SOCK_CREATED)
    (h : s.env.accept = accept ∧ s.unexpected_error = false ∧
      MainEvent.timer_settime 0 ∉ s.trace) :
    (main_case_sock_created s).Unarmed accept ∨
      ((main_case_sock_created s).env.accept = accept ∧
        (main_case_sock_created s).Serving []) := by
  obtain ⟨h1, h2, h3⟩ := h
  have hf : (main_fork s).env.accept = accept ∧ (main_fork s).unexpected_error = false ∧
      MainEvent.timer_settime 0 ∉ (main_fork s).trace ∧
      ((main_fork s).pc = MainPc.loop →
        (main_fork s).system_state = .SYSTEM_STATE_SOCK_START_LISTENING ∨
          (main_fork s).system_state = .SYSTEM_STATE_SOCK_CREATED) := by
    unfold main_fork
    split
    · split
      · exact ⟨h1, h2, by simp [h3], fun _ => Or.inl rfl⟩
      · exact ⟨h1, h2, by simp [h3], fun _ => Or.inr hs⟩
      · exact ⟨h1, h2, by simp [h3], by intro h; cases h⟩
    · exact ⟨h1, h2, h3, fun _ => Or.inl rfl⟩
  unfold main_case_sock_created
  split
  · rename_i hc
    exact main_arm_timer_outcome _ _ hc.1 hc.2 ⟨hf.1, hf.2.1, hf.2.2.1⟩
  · rename_i hc
    left
    refine ⟨hf.1, hf.2.1, hf.2.2.1, ?_⟩
    intro hl
    rcases hf.2.2.2 hl with h4 | h4
    · exact absurd ⟨hl, h4⟩ hc
    · exact Or.inr h4

/-- Every pass of `main` before the ticker is armed either leaves it unarmed or
arms it and goes on to `listen`. -/
theorem unarmed_step (s : Main) (accept : List AcceptRes) (h : s.Unarmed accept) :
    (main_step s).Unarmed accept ∨
      ((main_step s).env.accept = accept ∧ (main_step s).Serving []) := by
  obtain ⟨h1, h2, h3, h4⟩ := h
  cases hpc : s.pc with
  | loop =>
    have hstep : main_step s =
        if (main_signal s).interrupt_signal_received = false ∧
            (main_signal s).unexpected_error = false then
          main_loop_body (main_signal s)
        else main_teardown (main_signal s) := by
      unfold main_step; rw [hpc]
    rw [hstep]
    have hb : (main_signal s).env.accept = accept ∧ (main_signal s).unexpected_error = false ∧
        MainEvent.timer_settime 0 ∉ (main_signal s).trace := ⟨h1, h2, h3⟩
    split
    · rcases h4 hpc with hs | hs
      · have e : main_loop_body (main_signal s) = main_case_init (main_signal s) := by
          unfold main_loop_body
          have : (main_signal s).system_state = .SYSTEM_STATE_INIT := hs
          rw [this]
        rw [e]
        exact Or.inl (main_case_init_unarmed _ _ hs hb)
      · have e : main_loop_body (main_signal s) = main_case_sock_created (main_signal s) := by
          unfold main_loop_body
          have : (main_signal s).system_state = .SYSTEM_STATE_SOCK_CREATED := hs
          rw [this]
        rw [e]
        exact main_case_sock_created_outcome _ _ hs hb
    · exact Or.inl (main_teardown_unarmed _ _ hb)
  | returned status =>
    have : main_step s = s := by unfold main_step; rw [hpc]
    rw [this]
    exact Or.inl ⟨h1, h2, h3, h4⟩
  | fault =>
    have : main_step s = s := by unfold main_step; rw [hpc]
    rw [this]
    exact Or.inl ⟨h1, h2, h3, h4⟩
  | hung =>
    have : main_step s = s := by unfold main_step; rw [hpc]
    rw [this]
    exact Or.inl ⟨h1, h2, h3, h4⟩

theorem serving_run (n : Nat) : ∀ (s : Main) (accepted : List AcceptRes), s.Serving accepted →
    ∃ more, s.env.accept = more ++ (main_run n s).env.accept ∧
      (main_run n s).Serving (accepted ++ more) := by
  induction n with
  | zero =>
    intro s accepted h
    exact ⟨[], rfl, by rw [List.append_nil]; exact h⟩
  | succ n ih =>
    intro s accepted h
    obtain ⟨m1, e1, g1⟩ := serving_step s accepted h
    obtain ⟨m2, e2, g2⟩ := ih (main_step s) (accepted ++ m1) g1
    refine ⟨m1 ++ m2, ?_, ?_⟩
    · show s.env.accept = m1 ++ m2 ++ (main_run n (main_step s)).env.accept
      rw [List.append_assoc, ← e2]
      exact e1
    · show (main_run n (main_step s)).Serving (accepted ++ (m1 ++ m2))
      rw [← List.append_assoc]
      exact g2

theorem unarmed_run (n : Nat) : ∀ (s : Main) (accept : List AcceptRes), s.Unarmed accept →
    (main_run n s).Unarmed accept ∨
      ∃ accepted, accept = accepted ++ (main_run n s).env.accept ∧
        (main_run n s).Serving accepted := by
  induction n with
  | zero =>
    intro s accept h
    exact Or.inl h
  | succ n ih =>
    intro s accept h
    rcases unarmed_step s accept h with g | ⟨g1, g2⟩
    · exact ih (main_step s) accept g
    · right
      obtain ⟨more, e, g3⟩ := serving_run n (main_step s) [] g2
      exact ⟨more, by rw [← g1]; exact e, by simpa using g3⟩

/-! ## The ticker -/

theorem strlen_append_nul (a rest : List Byte) (h : NUL ∉ a) :
    strlen (a ++ NUL :: rest) = a.length := by
  unfold strlen
  induction a with
  | nil => simp [List.takeWhile]
  | cons x a ih =>
    have hx : x ≠ NUL := fun e => h (by rw [e]; exact List.mem_cons_self _ _)
    have ha : NUL ∉ a := fun m => h (List.mem_cons_of_mem _ m)
    simp only [List.cons_append, List.takeWhile_cons, hx, ne_eq, not_false_eq_true,
      decide_True, if_true, List.length_cons, ih ha]

/-- C22: when `strftime` succeeds on the format `%a, %d %b %Y %T %z` followed by a
newline, placing the characters `body` of the date and the newline (`n` characters,
none of them NUL, at most 53 so that the NUL fits in the 54 bytes offered),
`timer_handler` locks the store mutex once, makes one `write` of the tag
`timestamp:` followed by these `n` characters, and unlocks the mutex once.  The
bytes written are `10 + n`, at most 63, and the newline is their last byte and
occurs nowhere else. -/
theorem timer_handler_writes_tagged_timestamp (body : List Byte) (st : Store) (w : Xfer)
    (hlen : (body ++ [NL]).length ≤ 53) (hnul : NUL ∉ body) (hnl : NL ∉ body) :
    (timer_handler (strftime_window (body ++ [NL])) st w).2 =
        [Event.lock,
          Event.write (TIMESTAMP_PREFIX ++ (body ++ [NL]))
            (sys_write st (TIMESTAMP_PREFIX ++ (body ++ [NL])) 0 w).2.1,
          Event.unlock] ∧
      0 < (body ++ [NL]).length ∧
      (TIMESTAMP_PREFIX ++ (body ++ [NL])).length = 10 + (body ++ [NL]).length ∧
      (TIMESTAMP_PREFIX ++ (body ++ [NL])).length ≤ 63 ∧
      (TIMESTAMP_PREFIX ++ (body ++ [NL])).getLast? = some NL ∧
      (TIMESTAMP_PREFIX ++ (body ++ [NL])).count NL = 1 := by
  have hl : body.length + 1 ≤ 53 := by simpa using hlen
  have hwin : (strftime_window (body ++ [NL]) ++ List.replicate 54 NUL).take 54 =
      (body ++ [NL]) ++ NUL :: List.replicate (52 - body.length) NUL := by
    unfold strftime_window
    rw [List.append_assoc, List.take_append_eq_append_take]
    have h1 : (body ++ [NL]).length = body.length + 1 := by simp
    rw [List.take_of_length_le (by omega), h1]
    congr 1
    have h2 : 54 - (body.length + 1) = (52 - body.length) + 1 := by omega
    rw [h2]
    show List.take (52 - body.length + 1) (NUL :: List.replicate 54 NUL) = _
    rw [List.take_succ_cons, List.take_replicate, Nat.min_eq_left (by omega)]
  have hn : NUL ∉ TIMESTAMP_PREFIX ++ (body ++ [NL]) := by
    intro hm
    rcases List.mem_append.mp hm with hm | hm
    · revert hm; decide
    · rcases List.mem_append.mp hm with hm | hm
      · exact hnul hm
      · revert hm; decide
  have hbytes : (TIMESTAMP_PREFIX ++
        (strftime_window (body ++ [NL]) ++ List.replicate 54 NUL).take 54).take
      (strlen (TIMESTAMP_PREFIX ++
        (strftime_window (body ++ [NL]) ++ List.replicate 54 NUL).take 54)) =
      TIMESTAMP_PREFIX ++ (body ++ [NL]) := by
    rw [hwin, ← List.append_assoc, strlen_append_nul _ _ hn]
    exact List.take_left _ _
  refine ⟨?_, by simp, ?_, ?_, ?_, ?_⟩
  · unfold timer_handler
    dsimp only
    rw [hbytes]
  · simp [TIMESTAMP_PREFIX]; omega
  · simp [TIMESTAMP_PREFIX]; omega
  · simp [List.getLast?_append]
  · have h0 : body.count NL = 0 := List.count_eq_zero.mpr hnl
    have hp : TIMESTAMP_PREFIX.count NL = 0 := by decide
    rw [List.count_append, List.count_append, hp, h0]
    decide

theorem timer_handler_writes_tagged_timestamp_witness :
    (timer_handler (strftime_window (epoch_plus_ten ++ [NL])) Store.fresh Xfer.full).2 =
        [Event.lock,
          Event.write (TIMESTAMP_PREFIX ++ (epoch_plus_ten ++ [NL]))
            (sys_write Store.fresh (TIMESTAMP_PREFIX ++ (epoch_plus_ten ++ [NL])) 0
              Xfer.full).2.1,
          Event.unlock] ∧
      0 < (epoch_plus_ten ++ [NL]).length ∧
      (TIMESTAMP_PREFIX ++ (epoch_plus_ten ++ [NL])).length =
        10 + (epoch_plus_ten ++ [NL]).length ∧
      (TIMESTAMP_PREFIX ++ (epoch_plus_ten ++ [NL])).length ≤ 63 ∧
      (TIMESTAMP_PREFIX ++ (epoch_plus_ten ++ [NL])).getLast? = some NL ∧
      (TIMESTAMP_PREFIX ++ (epoch_plus_ten ++ [NL])).count NL = 1 :=
  timer_handler_writes_tagged_timestamp epoch_plus_ten Store.fresh Xfer.full
    (by decide) (by decide) (by decide)

/-! ## The circular buffer -/

theorem added_snoc (cap : Nat) (es : List aesd_buffer_entry) (e : aesd_buffer_entry) :
    added cap (es ++ [e]) = aesd_circular_buffer_add_entry cap (added cap es) (some e) := by
  unfold added
  rw [List.foldl_append]
  rfl

/-- The state of the buffer after the entries `es` were added to an empty one. -/
theorem added_state (cap : Nat) (hpos : 0 < cap) (hcap : cap ≤ UINT8_MODULUS)
    (es : List aesd_buffer_entry) :
    ∃ b, added cap es = some b ∧ b.entry.length = cap ∧ b.in_offs = es.length % cap ∧
      b.out_offs = (if es.length < cap then 0 else es.length % cap) ∧
      b.full = decide (cap ≤ es.length) ∧
      ∀ m, es.length - cap ≤ m → m < es.length →
        b.slot (m % cap) = es.getD m { buffptr := NULL, size := 0 } := by
  induction es using List.reverseRecOn with
  | nil =>
    refine ⟨aesd_circular_buffer_init cap, rfl, ?_, ?_, ?_, ?_, ?_⟩
    · simp [aesd_circular_buffer_init]
    · simp [aesd_circular_buffer_init]
    · simp [aesd_circular_buffer_init, hpos]
    · simp only [aesd_circular_buffer_init, List.length_nil]
      symm
      exact decide_eq_false (by omega)
    · intro m _ h
      exact absurd h (by simp)
  | append_singleton es e ih =>
    obtain ⟨b, hb, hlen, hin, hout, hfull, hslot⟩ := ih
    have hn : (es ++ [e]).length = es.length + 1 := by simp
    have hmod : (es.length % cap + 1) % cap = (es.length + 1) % cap := Nat.mod_add_mod _ _ _
    have hlt : (es.length + 1) % cap < cap := Nat.mod_lt _ hpos
    have hin1 : (b.in_offs + 1) % cap % UINT8_MODULUS = (es.length + 1) % cap := by
      rw [hin, hmod]
      exact Nat.mod_eq_of_lt (by omega)
    have hslots : ∀ (b1 : aesd_circular_buffer), b1.entry = b.entry.set b.in_offs e →
        ∀ m, es.length + 1 - cap ≤ m → m < es.length + 1 →
          b1.slot (m % cap) = (es ++ [e]).getD m { buffptr := NULL, size := 0 } := by
      intro b1 h1 m hm1 hm2
      unfold aesd_circular_buffer.slot
      rw [h1, hin]
      by_cases hmn : m = es.length
      · subst hmn
        rw [List.getD_eq_getElem _ _ (by rw [List.length_set, hlen]; exact Nat.mod_lt _ hpos),
          List.getElem_set_self]
        simp
      · have hmlt : m < es.length := by omega
        have hne : es.length % cap ≠ m % cap := by
          intro heq
          have h2 : (es.length - m) % cap = 0 := by
            have := Nat.sub_mod_eq_zero_of_mod_eq heq
            exact this
          have h3 : cap ∣ es.length - m := Nat.dvd_of_mod_eq_zero h2
          have h4 := Nat.le_of_dvd (by omega) h3
          omega
        rw [List.getD_eq_getElem?_getD, List.getElem?_set_ne hne,
          ← List.getD_eq_getElem?_getD]
        have := hslot m (by omega) hmlt
        unfold aesd_circular_buffer.slot at this
        rw [this, List.getD_append _ _ _ _ hmlt]
    rw [added_snoc, hb]
    unfold aesd_circular_buffer_add_entry
    dsimp only
    by_cases hf : cap ≤ es.length
    · have hbf : b.full = true := by rw [hfull]; exact decide_eq_true hf
      rw [if_pos hbf]
      refine ⟨_, rfl, ?_, ?_, ?_, ?_, ?_⟩
      · simp [hlen]
      · rw [hn]; exact hin1
      · rw [hn]
        show (b.out_offs + 1) % cap % UINT8_MODULUS = _
        rw [hout, if_neg (by omega), if_neg (by omega), hmod]
        exact Nat.mod_eq_of_lt (by omega)
      · rw [hn]
        show b.full = _
        rw [hbf]
        symm
        exact decide_eq_true (by omega)
      · rw [hn]
        exact hslots _ rfl
    · have hbf : b.full = false := by rw [hfull]; exact decide_eq_false hf
      have hb0 : b.out_offs = 0 := by rw [hout, if_pos (by omega)]
      rw [if_neg (by rw [hbf]; decide)]
      by_cases hlast : es.length + 1 = cap
      · have hz : (es.length + 1) % cap = 0 := by rw [hlast]; exact Nat.mod_self _
        rw [if_pos (by rw [hin1, hz, hb0])]
        refine ⟨_, rfl, ?_, ?_, ?_, ?_, ?_⟩
        · simp [hlen]
        · rw [hn]; exact hin1
        · rw [hn]
          show b.out_offs = _
          rw [hb0, if_neg (by omega), hz]
        · rw [hn]
          symm
          exact decide_eq_true (by omega)
        · rw [hn]
          exact hslots _ rfl
      · have hz : (es.length + 1) % cap = es.length + 1 := Nat.mod_eq_of_lt (by omega)
        rw [if_neg (by rw [hin1, hz, hb0]; omega)]
        refine ⟨_, rfl, ?_, ?_, ?_, ?_, ?_⟩
        · simp [hlen]
        · rw [hn]; exact hin1
        · rw [hn]
          show b.out_offs = _
          rw [hb0, if_pos (by omega)]
        · rw [hn]
          show b.full = _
          rw [hbf]
          symm
          exact decide_eq_false (by omega)
        · rw [hn]
          exact hslots _ rfl

theorem added_stored (cap : Nat) (hpos : 0 < cap) (hcap : cap ≤ UINT8_MODULUS)
    (es : List aesd_buffer_entry) :
    ∃ b, added cap es = some b ∧ b.stored cap = es.drop (es.length - cap) := by
  obtain ⟨b, hb, _, hin, hout, hfull, hslot⟩ := added_state cap hpos hcap es
  refine ⟨b, hb, ?_⟩
  have hcount : b.count cap = min es.length cap := by
    unfold aesd_circular_buffer.count
    rw [hfull, hin, hout]
    by_cases hf : cap ≤ es.length
    · rw [if_pos (decide_eq_true hf)]
      omega
    · have h1 : es.length % cap = es.length := Nat.mod_eq_of_lt (by omega)
      rw [if_neg (by simpa using hf), if_pos (by omega), h1, Nat.sub_zero, Nat.add_mod_right,
        h1]
      omega
  apply List.ext_getElem
  · simp [aesd_circular_buffer.stored, hcount]
    omega
  · intro i h1 h2
    have hi : i < min es.length cap := by
      simpa [aesd_circular_buffer.stored, hcount] using h1
    have hidx : (b.out_offs + i) % cap = (es.length - cap + i) % cap := by
      rw [hout]
      by_cases hf : es.length < cap
      · rw [if_pos hf]
        have : es.length - cap = 0 := by omega
        rw [this]
      · rw [if_neg hf, Nat.mod_add_mod]
        have : es.length + i = (es.length - cap + i) + cap := by omega
        rw [this, Nat.add_mod_right]
    simp only [aesd_circular_buffer.stored, List.getElem_map, List.getElem_range,
      List.getElem_drop]
    rw [hidx, hslot _ (by omega) (by omega), List.getD_eq_getElem _ _ (by omega)]

/-- C30: after `aesd_circular_buffer_init` and any number of calls of
`aesd_circular_buffer_add_entry` (one per entry of `es`), with the capacity
`AESDCHAR_MAX_WRITE_OPERATIONS_SUPPORTED` positive and at most 256 so that the
offsets fit a `uint8_t`: `in_offs` and `out_offs` are below the capacity; `full` is
set exactly when at least as many entries as the capacity were added; `full`
implies `in_offs = out_offs`; and while `full` is clear, `out_offs` is `0` and
`in_offs` is the number of entries added. -/
theorem reachable_buffer_offsets (cap : Nat) (hpos : 0 < cap) (hcap : cap ≤ UINT8_MODULUS)
    (es : List aesd_buffer_entry) :
    ∃ b, added cap es = some b ∧ b.in_offs < cap ∧ b.out_offs < cap ∧
      (b.full = true ↔ cap ≤ es.length) ∧ (b.full = true → b.in_offs = b.out_offs) ∧
      (b.full = false → b.out_offs = 0 ∧ b.in_offs = es.length) := by
  obtain ⟨b, hb, _, hin, hout, hfull, _⟩ := added_state cap hpos hcap es
  have hiff : b.full = true ↔ cap ≤ es.length := by rw [hfull]; exact decide_eq_true_iff
  refine ⟨b, hb, ?_, ?_, hiff, ?_, ?_⟩
  · rw [hin]; exact Nat.mod_lt _ hpos
  · rw [hout]
    split
    · exact hpos
    · exact Nat.mod_lt _ hpos
  · intro h
    rw [hin, hout, if_neg (by have := hiff.mp h; omega)]
  · intro h
    have hlt : es.length < cap := by
      by_contra hc
      rw [hiff.mpr (by omega)] at h
      exact absurd h (by decide)
    rw [hin, hout, if_pos hlt, Nat.mod_eq_of_lt hlt]
    exact ⟨rfl, rfl⟩

theorem reachable_buffer_offsets_witness :
    ∃ b, added 3
        [{ buffptr := 100, size := 2 }, { buffptr := 200, size := 5 },
          { buffptr := 300, size := 1 }, { buffptr := 400, size := 4 }] = some b ∧
      b.in_offs < 3 ∧ b.out_offs < 3 ∧
      (b.full = true ↔
        3 ≤ [({ buffptr := 100, size := 2 } : aesd_buffer_entry), { buffptr := 200, size := 5 },
          { buffptr := 300, size := 1 }, { buffptr := 400, size := 4 }].length) ∧
      (b.full = true → b.in_offs = b.out_offs) ∧
      (b.full = false → b.out_offs = 0 ∧
        b.in_offs = [({ buffptr := 100, size := 2 } : aesd_buffer_entry),
          { buffptr := 200, size := 5 }, { buffptr := 300, size := 1 },
          { buffptr := 400, size := 4 }].length) :=
  reachable_buffer_offsets 3 (by decide) (by decide) _

/-- C24: after `aesd_circular_buffer_init` and one call of
`aesd_circular_buffer_add_entry` for each of the entries `es`, with the capacity
`AESDCHAR_MAX_WRITE_OPERATIONS_SUPPORTED` positive and at most 256: the entries
read from `out_offs` on, oldest first, are the last `min n cap` entries of `es` in
the order in which they were added.  When the buffer is full, one more call writes
the new entry over the oldest one, at the former `out_offs`, and `out_offs` moves
on by one modulo the capacity. -/
theorem buffer_holds_last_entries (cap : Nat) (hpos : 0 < cap) (hcap : cap ≤ UINT8_MODULUS)
    (es : List aesd_buffer_entry) :
    ∃ b, added cap es = some b ∧
      b.stored cap = es.drop (es.length - min es.length cap) ∧
      (b.stored cap).length = min es.length cap ∧
      ∀ e, b.full = true →
        ∃ b1, aesd_circular_buffer_add_entry cap (some b) (some e) = some b1 ∧
          b1.out_offs = (b.out_offs + 1) % cap ∧ b1.slot b.out_offs = e ∧
          b1.stored cap = (b.stored cap).tail ++ [e] := by
  obtain ⟨b, hb, hst⟩ := added_stored cap hpos hcap es
  obtain ⟨b0, hb0, _, _, hout, hfull, _⟩ := added_state cap hpos hcap es
  have hbb : b0 = b := Option.some.inj (hb0.symm.trans hb)
  subst hbb
  have hd : es.length - min es.length cap = es.length - cap := by omega
  refine ⟨b0, hb, by rw [hd]; exact hst, by rw [hst, List.length_drop]; omega, ?_⟩
  intro e hf
  have hge : cap ≤ es.length := by
    rw [hfull] at hf
    exact of_decide_eq_true hf
  obtain ⟨b1, hb1, hst1⟩ := added_stored cap hpos hcap (es ++ [e])
  obtain ⟨b2, hb2, _, _, hout2, _, hslot2⟩ := added_state cap hpos hcap (es ++ [e])
  have hbb : b2 = b1 := Option.some.inj (hb2.symm.trans hb1)
  subst hbb
  have hn : (es ++ [e]).length = es.length + 1 := by simp
  rw [added_snoc, hb] at hb1
  refine ⟨b2, hb1, ?_, ?_, ?_⟩
  · rw [hout2, hout, hn, if_neg (by omega), if_neg (by omega), Nat.mod_add_mod]
  · rw [hout, if_neg (by omega)]
    have := hslot2 es.length (by omega) (by omega)
    rw [this]
    simp
  · rw [hst1, hst, hn, List.tail_drop]
    have h1 : es.length + 1 - cap = es.length - cap + 1 := by omega
    rw [h1, List.drop_append_of_le_length (by omega)]

theorem buffer_holds_last_entries_witness :
    ∃ b, added 3
        [{ buffptr := 100, size := 2 }, { buffptr := 200, size := 5 },
          { buffptr := 300, size := 1 }, { buffptr := 400, size := 4 }] = some b ∧
      b.stored 3 =
        [({ buffptr := 100, size := 2 } : aesd_buffer_entry), { buffptr := 200, size := 5 },
          { buffptr := 300, size := 1 }, { buffptr := 400, size := 4 }].drop
          ([({ buffptr := 100, size := 2 } : aesd_buffer_entry), { buffptr := 200, size := 5 },
              { buffptr := 300, size := 1 }, { buffptr := 400, size := 4 }].length -
            min [({ buffptr := 100, size := 2 } : aesd_buffer_entry),
              { buffptr := 200, size := 5 }, { buffptr := 300, size := 1 },
              { buffptr := 400, size := 4 }].length 3) ∧
      (b.stored 3).length =
        min [({ buffptr := 100, size := 2 } : aesd_buffer_entry), { buffptr := 200, size := 5 },
          { buffptr := 300, size := 1 }, { buffptr := 400, size := 4 }].length 3 ∧
      ∀ e, b.full = true →
        ∃ b1, aesd_circular_buffer_add_entry 3 (some b) (some e) = some b1 ∧
          b1.out_offs = (b.out_offs + 1) % 3 ∧ b1.slot b.out_offs = e ∧
          b1.stored 3 = (b.stored 3).tail ++ [e] :=
  buffer_holds_last_entries 3 (by decide) (by decide) _

theorem add_mod_cases (a i cap : Nat) (ha : a < cap) (hi : i ≤ cap) :
    (a + i) % cap = if a + i < cap then a + i else a + i - cap := by
  split
  · rename_i h
    exact Nat.mod_eq_of_lt h
  · rename_i h
    have : a + i = (a + i - cap) + cap := by omega
    rw [this, Nat.add_mod_right, Nat.mod_eq_of_lt (by omega)]
    omega

theorem count_cases (cap : Nat) (b : aesd_circular_buffer) (hwf : b.WellFormed cap) :
    b.count cap = if b.full = true then cap
      else if b.out_offs ≤ b.in_offs then b.in_offs - b.out_offs
      else b.in_offs + cap - b.out_offs := by
  have h1 := hwf.in_lt
  have h2 := hwf.out_lt
  unfold aesd_circular_buffer.count
  split
  · rfl
  · split
    · have : b.in_offs + cap - b.out_offs = (b.in_offs - b.out_offs) + cap := by omega
      rw [this, Nat.add_mod_right, Nat.mod_eq_of_lt (by omega)]
    · exact Nat.mod_eq_of_lt (by omega)

theorem count_le (cap : Nat) (b : aesd_circular_buffer) (hwf : b.WellFormed cap) :
    b.count cap ≤ cap := by
  have h1 := hwf.in_lt
  have h2 := hwf.out_lt
  rw [count_cases cap b hwf]
  split
  · exact Nat.le_refl _
  · split <;> omega

/-- The loop condition `index != in_offs || (full && is_first)` before the entry
number `i`, counted from the oldest: it holds while entries are left. -/
theorem loop_condition_iff (cap : Nat) (b : aesd_circular_buffer) (hwf : b.WellFormed cap)
    (i : Nat) (hi : i ≤ b.count cap) :
    ((b.out_offs + i) % cap ≠ b.in_offs ∨ (b.full = true ∧ decide (i = 0) = true)) ↔
      i < b.count cap := by
  have h1 := hwf.in_lt
  have h2 := hwf.out_lt
  have h3 := hwf.full_eq
  have hle := count_le cap b hwf
  have hc := count_cases cap b hwf
  rw [add_mod_cases _ _ _ h2 (by omega)]
  by_cases hf : b.full = true
  · have hk : b.count cap = cap := by rw [hc, if_pos hf]
    rw [hk] at hi ⊢
    have := h3 hf
    simp only [hf, true_and, decide_eq_true_eq]
    split <;> omega
  · simp only [hf, Bool.false_eq_true, false_and, or_false]
    by_cases ho : b.out_offs ≤ b.in_offs
    · have hk : b.count cap = b.in_offs - b.out_offs := by rw [hc, if_neg hf, if_pos ho]
      rw [hk] at hi ⊢
      split <;> omega
    · have hk : b.count cap = b.in_offs + cap - b.out_offs := by
        rw [hc, if_neg hf, if_neg ho]
      rw [hk] at hi ⊢
      split <;> omega

theorem sizes_length (cap : Nat) (b : aesd_circular_buffer) :
    (b.sizes cap).length = b.count cap := by
  simp [aesd_circular_buffer.sizes, aesd_circular_buffer.stored]

theorem sizes_getElem (cap : Nat) (b : aesd_circular_buffer) (i : Nat)
    (hi : i < (b.sizes cap).length) :
    (b.sizes cap)[i] = (b.slot ((b.out_offs + i) % cap)).size := by
  simp [aesd_circular_buffer.sizes, aesd_circular_buffer.stored]

/-- The loop of `aesd_circular_buffer_find_entry_offset_for_fpos` from the entry
number `i` on, with `char_len` the sum of the sizes before it. -/
theorem find_entry_loop_scan (cap : Nat) (b : aesd_circular_buffer) (hwf : b.WellFormed cap)
    (hcap : cap ≤ UINT8_MODULUS) (char_offset : Nat)
    (hsum : (b.sizes cap).sum < SIZE_MODULUS) :
    ∀ d i fuel rtn entry, i + d = b.count cap → d < fuel →
      ((b.sizes cap).take i).sum ≤ char_offset →
      (char_offset < (b.sizes cap).sum →
        ∃ j o, i ≤ j ∧ j < b.count cap ∧ ((b.sizes cap).take j).sum + o = char_offset ∧
          o < (b.sizes cap).getD j 0 ∧
          ∃ cl, char_offset < cl ∧
            find_entry_loop cap b char_offset fuel ((b.out_offs + i) % cap)
              ((b.sizes cap).take i).sum (decide (i = 0)) rtn entry =
              some (cl, o, (b.out_offs + j) % cap)) ∧
      ((b.sizes cap).sum ≤ char_offset →
        find_entry_loop cap b char_offset fuel ((b.out_offs + i) % cap)
          ((b.sizes cap).take i).sum (decide (i = 0)) rtn entry =
          some ((b.sizes cap).sum, rtn, entry)) := by
  have hslen := sizes_length cap b
  intro d
  induction d with
  | zero =>
    intro i fuel rtn entry hid hfuel hP
    have hik : i = b.count cap := by omega
    have htake : (b.sizes cap).take i = b.sizes cap := by
      rw [hik, ← hslen]; exact List.take_length _
    obtain ⟨f, rfl⟩ : ∃ f, fuel = f + 1 := ⟨fuel - 1, by omega⟩
    have hcond : ¬ (((b.sizes cap).take i).sum ≤ char_offset ∧
        ((b.out_offs + i) % cap ≠ b.in_offs ∨ (b.full = true ∧ decide (i = 0) = true))) := by
      rintro ⟨-, h⟩
      have := (loop_condition_iff cap b hwf i (by omega)).mp h
      omega
    constructor
    · intro hlt
      rw [htake] at hP
      omega
    · intro _
      unfold find_entry_loop
      rw [if_neg hcond, htake]
  | succ d ih =>
    intro i fuel rtn entry hid hfuel hP
    have hik : i < b.count cap := by omega
    obtain ⟨f, rfl⟩ : ∃ f, fuel = f + 1 := ⟨fuel - 1, by omega⟩
    have hcond : ((b.sizes cap).take i).sum ≤ char_offset ∧
        ((b.out_offs + i) % cap ≠ b.in_offs ∨ (b.full = true ∧ decide (i = 0) = true)) :=
      ⟨hP, (loop_condition_iff cap b hwf i (by omega)).mpr hik⟩
    have hil : i < (b.sizes cap).length := by rw [hslen]; exact hik
    have hsucc : ((b.sizes cap).take (i + 1)).sum =
        ((b.sizes cap).take i).sum + (b.slot ((b.out_offs + i) % cap)).size := by
      rw [List.sum_take_succ _ _ hil, sizes_getElem]
    have hle : ((b.sizes cap).take (i + 1)).sum ≤ (b.sizes cap).sum := by
      have := List.sum_take_add_sum_drop (b.sizes cap) (i + 1)
      omega
    have hwrap : (((b.sizes cap).take i).sum + (b.slot ((b.out_offs + i) % cap)).size) %
        SIZE_MODULUS = ((b.sizes cap).take (i + 1)).sum := by
      rw [← hsucc]
      exact Nat.mod_eq_of_lt (by omega)
    have hnext : ((b.out_offs + i) % cap + 1) % cap % UINT8_MODULUS =
        (b.out_offs + (i + 1)) % cap := by
      rw [Nat.mod_add_mod, Nat.add_assoc]
      exact Nat.mod_eq_of_lt (lt_of_lt_of_le (Nat.mod_lt _ (by have := hwf.in_lt; omega)) hcap)
    have hfirst : (false : Bool) = decide (i + 1 = 0) := by simp
    unfold find_entry_loop
    rw [if_pos hcond, hwrap, hnext, hfirst]
    by_cases hhit : ((b.sizes cap).take (i + 1)).sum > char_offset
    · rw [if_pos hhit]
      constructor
      · intro _
        refine ⟨i, char_offset - ((b.sizes cap).take i).sum, Nat.le_refl _, hik, by omega, ?_,
          ((b.sizes cap).take (i + 1)).sum, hhit, ?_⟩
        · rw [List.getD_eq_getElem _ _ hil, sizes_getElem]
          omega
        · obtain ⟨g, rfl⟩ : ∃ g, f = g + 1 := ⟨f - 1, by omega⟩
          unfold find_entry_loop
          rw [if_neg (by intro h; have := h.1; omega)]
      · intro h
        omega
    · rw [if_neg hhit]
      obtain ⟨h1, h2⟩ := ih (i + 1) f rtn entry (by omega) (by omega) (by omega)
      refine ⟨?_, h2⟩
      intro hlt
      obtain ⟨j, o, hj1, hj2, hj3, hj4, cl, hcl, hres⟩ := h1 hlt
      exact ⟨j, o, by omega, hj2, hj3, hj4, cl, hcl, hres⟩

/-- C23: for a well-formed buffer (`cap` slots, `in_offs` and `out_offs` below
`cap`, `full` only with `in_offs = out_offs`) whose entries, oldest first, have the
sizes `s_0 .. s_(k-1)`, with the capacity at most 256 and the sum of the sizes a
`size_t`: when `char_offset` is below the sum,
`aesd_circular_buffer_find_entry_offset_for_fpos` returns the entry number `j` (the
slot `(out_offs + j) % cap`) and stores the offset `o` with
`s_0 + .. + s_(j-1) + o = char_offset` and `o < s_j`; otherwise it returns `NULL`.
The loop ends within `cap + 1` tests of its condition. -/
theorem find_entry_offset_for_fpos_locates (cap fuel : Nat) (b : aesd_circular_buffer)
    (char_offset before : Nat) (hwf : b.WellFormed cap) (hcap : cap ≤ UINT8_MODULUS)
    (hsum : (b.sizes cap).sum < SIZE_MODULUS) (hfuel : cap < fuel) :
    (char_offset < (b.sizes cap).sum →
      ∃ j o, j < (b.stored cap).length ∧ ((b.sizes cap).take j).sum + o = char_offset ∧
        o < (b.sizes cap).getD j 0 ∧
        (b.stored cap)[j]? = some (b.slot ((b.out_offs + j) % cap)) ∧
        aesd_circular_buffer_find_entry_offset_for_fpos cap fuel (some b) char_offset
          (some before) = some (some ((b.out_offs + j) % cap), some o)) ∧
    ((b.sizes cap).sum ≤ char_offset →
      ∃ after, aesd_circular_buffer_find_entry_offset_for_fpos cap fuel (some b) char_offset
        (some before) = some (none, after)) := by
  have hle := count_le cap b hwf
  have h0 : b.out_offs % cap = b.out_offs := Nat.mod_eq_of_lt hwf.out_lt
  obtain ⟨h1, h2⟩ := find_entry_loop_scan cap b hwf hcap char_offset hsum (b.count cap) 0 fuel
    0 b.out_offs (by omega) (by omega) (by simp)
  simp only [Nat.add_zero, h0, List.take_zero, List.sum_nil, decide_True] at h1 h2
  constructor
  · intro hlt
    obtain ⟨j, o, -, hj2, hj3, hj4, cl, hcl, hres⟩ := h1 hlt
    have hjl : j < (b.stored cap).length := by
      simpa [aesd_circular_buffer.stored] using hj2
    refine ⟨j, o, hjl, hj3, hj4, ?_, ?_⟩
    · rw [List.getElem?_eq_getElem hjl]
      simp [aesd_circular_buffer.stored]
    · unfold aesd_circular_buffer_find_entry_offset_for_fpos
      simp only [hres]
      rw [if_neg (by omega)]
  · intro hge
    refine ⟨some 0, ?_⟩
    unfold aesd_circular_buffer_find_entry_offset_for_fpos
    simp only [h2 hge]
    rw [if_pos hge]

theorem find_entry_offset_for_fpos_locates_witness :
    (∃ j o, j < (wrapped_buffer.stored 3).length ∧
        ((wrapped_buffer.sizes 3).take j).sum + o = 6 ∧
        o < (wrapped_buffer.sizes 3).getD j 0 ∧
        (wrapped_buffer.stored 3)[j]? =
          some (wrapped_buffer.slot ((wrapped_buffer.out_offs + j) % 3)) ∧
        aesd_circular_buffer_find_entry_offset_for_fpos 3 4 (some wrapped_buffer) 6 (some 7) =
          some (some ((wrapped_buffer.out_offs + j) % 3), some o)) ∧
    (∃ after, aesd_circular_buffer_find_entry_offset_for_fpos 3 4 (some wrapped_buffer) 10
        (some 7) = some (none, after)) :=
  ⟨(find_entry_offset_for_fpos_locates 3 4 wrapped_buffer 6 7
      ⟨by decide, by decide, by decide, by decide⟩ (by decide) (by decide) (by decide)).1
      (by decide),
    (find_entry_offset_for_fpos_locates 3 4 wrapped_buffer 10 7
      ⟨by decide, by decide, by decide, by decide⟩ (by decide) (by decide) (by decide)).2
      (by decide)⟩

/-- C25, the code at the failing input: the buffer is empty and the variable that
`entry_offset_byte_rtn` points to holds `before`.  Line 39 stores `0` through the
pointer before the search, so for every capacity and every `char_offset` the
function returns `NULL` and the variable holds `0` afterwards; the same on a full
buffer of ten bytes asked for position `10`, where the variable held `7`. -/
theorem entry_offset_cleared_when_not_found (cap fuel char_offset before : Nat) :
    aesd_circular_buffer_find_entry_offset_for_fpos cap (fuel + 1)
        (some (aesd_circular_buffer_init cap)) char_offset (some before) =
        some (none, some 0) ∧
      aesd_circular_buffer_find_entry_offset_for_fpos 3 4 (some wrapped_buffer) 10 (some 7) =
        some (none, some 0) := by
  refine ⟨?_, by decide⟩
  unfold aesd_circular_buffer_find_entry_offset_for_fpos
  simp [find_entry_loop, aesd_circular_buffer_init]

/-! ## The process helpers of `systemcalls.c` -/

/-- C26, the code at the failing input: `fork` fails and returns `-1`.  `do_exec` has
no branch for `pid < 0` and does not look at what `waitpid` returns: it returns
`true`, where `do_exec_redirect` returns `false`; and when `waitpid` fails in the
parent, `rc` is still `0` and it returns `true`.  When the child was reaped, it
returns `true` exactly for a normal exit with status `0`, so a command that `execv`
could not start (`_exit(EXIT_FAILURE)`) or that exits with a status from `1` to
`255` gives `false`. -/
theorem do_exec_true_after_failed_fork (waitpid : WaitRes) (child : Nat) (e : Int)
    (status code : Nat) :
    do_exec (-1) waitpid = some true ∧
      do_exec_redirect (-1) waitpid = some false ∧
      do_exec ((child : Int) + 1) (WaitRes.fail e) = some true ∧
      do_exec ((child : Int) + 1) (WaitRes.reaped status) =
        some (WIFEXITED status && decide (WEXITSTATUS status = 0)) ∧
      do_exec ((child : Int) + 1) (WaitRes.reaped (W_EXITCODE code)) =
        some (decide (code % 256 = 0)) := by
  have hpos : (child : Int) + 1 > 0 := by omega
  have hgen : ∀ s, do_exec ((child : Int) + 1) (WaitRes.reaped s) =
      some (WIFEXITED s && decide (WEXITSTATUS s = 0)) := by
    intro s
    unfold do_exec
    simp only [hpos, if_true]
    cases h1 : WIFEXITED s <;> by_cases h2 : WEXITSTATUS s = 0 <;> simp [h2]
  refine ⟨by simp [do_exec], by simp [do_exec_redirect], ?_, hgen status, ?_⟩
  · unfold do_exec
    simp only [hpos, if_true]
    simp [WIFEXITED, WEXITSTATUS]
  · rw [hgen]
    have h1 : WIFEXITED (W_EXITCODE code) = true := by
      unfold WIFEXITED W_EXITCODE
      exact decide_eq_true (by omega)
    have h2 : WEXITSTATUS (W_EXITCODE code) = code % 256 := by
      unfold WEXITSTATUS W_EXITCODE
      omega
    rw [h1, h2]
    simp

/-! ## The resource collector -/

theorem is_allocated_untracked (collector : ResourcesCollector) (ptr : Ptr)
    (h : ptr ∉ collector.tracked) : is_allocated collector ptr = -1 := by
  unfold is_allocated
  cases hm : collector.allocated_mem with
  | none => rfl
  | some mem =>
    dsimp only
    split
    · rfl
    · have hnone : (List.range collector.num_of_allocated_mem).find?
          (fun i => decide (mem.getD i NULL = ptr)) = none := by
        rw [List.find?_eq_none]
        intro i hi
        simp only [decide_eq_true_eq]
        intro he
        apply h
        unfold ResourcesCollector.tracked
        rw [hm]
        exact List.mem_map.mpr ⟨i, hi, he⟩
      rw [hnone]

/-- C28: for every collector (its count an `unsigned int`) and every pointer
`buf_ptr` that is not `NULL` and not among the pointers the collector tracks,
`malloc_wrapper` returns `NULL`, calls neither `malloc` nor `realloc`, and leaves the
collector, table and count, as it was. -/
theorem malloc_wrapper_rejects_untracked (collector : ResourcesCollector) (buf_ptr : Ptr)
    (size : Nat) (error_code errno : Int) (libc : Alloc) (hnn : buf_ptr ≠ NULL)
    (hnt : buf_ptr ∉ collector.tracked)
    (hnum : collector.num_of_allocated_mem < UINT_MODULUS) :
    (malloc_wrapper collector buf_ptr size error_code errno libc).ret = NULL ∧
      (malloc_wrapper collector buf_ptr size error_code errno libc).call = HeapCall.none ∧
      (malloc_wrapper collector buf_ptr size error_code errno libc).collector = collector := by
  have hia := is_allocated_untracked collector buf_ptr hnt
  have hidx : ((-1 : Int) % (UINT_MODULUS : Int)).toNat = 4294967295 := by decide
  have hge : ¬ 4294967295 < collector.num_of_allocated_mem := by
    unfold UINT_MODULUS at hnum
    omega
  unfold malloc_wrapper
  cases hm : collector.allocated_mem with
  | none => exact ⟨rfl, rfl, rfl⟩
  | some mem =>
    simp only [if_neg hnn, hia, hidx, if_neg hge, if_true]
    exact ⟨trivial, trivial, trivial⟩

theorem malloc_wrapper_rejects_untracked_witness :
    (malloc_wrapper (free_wrapper (ResourcesCollector.holding 1) 1).1 1 4096 0 0
        (Alloc.ok 2)).ret = NULL ∧
      (malloc_wrapper (free_wrapper (ResourcesCollector.holding 1) 1).1 1 4096 0 0
        (Alloc.ok 2)).call = HeapCall.none ∧
      (malloc_wrapper (free_wrapper (ResourcesCollector.holding 1) 1).1 1 4096 0 0
        (Alloc.ok 2)).collector = (free_wrapper (ResourcesCollector.holding 1) 1).1 :=
  malloc_wrapper_rejects_untracked (free_wrapper (ResourcesCollector.holding 1) 1).1 1 4096 0 0
    (Alloc.ok 2) (by decide) (by decide) (by decide)

/-- C29, the code at the failing input: the descriptor table of the collector is
full.  `close_file_wrapper` acts only under the guard
`num_of_open_file < max_num_of_open_file` of line 193, so on every such collector it
closes nothing and leaves the collector as it was, whatever `fd` is; for the
collector of a worker, whose one slot holds the socket `5`, the descriptor `5` stays
registered.  `free_wrapper` has no such guard and
releases the pointer of a full table.  With a free slot left the descriptor is
removed: from the table `3, 4, -1` of `main` the call for `3` closes it and leaves
`4, -1, -1` with one descriptor registered. -/
theorem close_file_wrapper_skips_full_table (collector : ResourcesCollector) (fd : Int) :
    close_file_wrapper
        { collector with max_num_of_open_file := collector.num_of_open_file } fd =
        ({ collector with max_num_of_open_file := collector.num_of_open_file }, none) ∧
      (5 : Int) ∈ (ResourcesCollector.holding 1).registered ∧
      close_file_wrapper (ResourcesCollector.holding 1) 5 =
        (ResourcesCollector.holding 1, none) ∧
      (close_file_wrapper (ResourcesCollector.holding 1) 5).1.num_of_open_file = 1 ∧
      free_wrapper
          { allocated_mem := some [1], num_of_allocated_mem := 1, max_num_of_allocated_mem := 1,
            open_file_fd := some [5], num_of_open_file := 1, max_num_of_open_file := 1 } 1 =
        ({ allocated_mem := some [NULL], num_of_allocated_mem := 0,
           max_num_of_allocated_mem := 1, open_file_fd := some [5], num_of_open_file := 1,
           max_num_of_open_file := 1 }, some 1) ∧
      close_file_wrapper
          { allocated_mem := none, num_of_allocated_mem := 0, max_num_of_allocated_mem := 0,
            open_file_fd := some [3, 4, -1], num_of_open_file := 2, max_num_of_open_file := 3 }
          3 =
        ({ allocated_mem := none, num_of_allocated_mem := 0, max_num_of_allocated_mem := 0,
           open_file_fd := some [4, -1, -1], num_of_open_file := 1,
           max_num_of_open_file := 3 }, some 3) := by
  refine ⟨?_, by decide, by decide, by decide, by decide, by decide⟩
  unfold close_file_wrapper
  cases collector.open_file_fd with
  | none => rfl
  | some fds =>
    dsimp only
    rw [if_neg (Nat.lt_irrefl _)]

/-! ## The packet buffer of a worker -/

theorem call_malloc_wrapper_frame (t : Thread) (buf_ptr : Ptr) (size : Nat) :
    (call_malloc_wrapper t buf_ptr size).pc = t.pc ∧
      (call_malloc_wrapper t buf_ptr size).total_byte_read = t.total_byte_read ∧
      (call_malloc_wrapper t buf_ptr size).available_space = t.available_space ∧
      (call_malloc_wrapper t buf_ptr size).n_byte = t.n_byte ∧
      ((call_malloc_wrapper t buf_ptr size).buf ≠ NULL →
        (call_malloc_wrapper t buf_ptr size).buf_size = size) := by
  refine ⟨rfl, rfl, rfl, rfl, ?_⟩
  intro h
  exact if_neg h

/-- The call `malloc_wrapper(&collector, NULL, size, &error_code)` on a collector
that tracks nothing: `NULL` and the collector as it was, or a pointer that is then
tracked. -/
theorem call_malloc_wrapper_fresh (t : Thread) (size : Nat) (hu : t.Untracked) :
    ((call_malloc_wrapper t NULL size).buf = NULL ∧ (call_malloc_wrapper t NULL size).Untracked) ∨
      (call_malloc_wrapper t NULL size).Tracked := by
  cases ha : t.env.alloc.headD (Alloc.ok 1) with
  | fail e =>
    left
    simp only [call_malloc_wrapper, malloc_wrapper, hu.mem, hu.num, hu.max, ha, Alloc.ptr]
    simp [NULL]
    exact ⟨by simpa [NULL] using hu.mem, hu.num, hu.max⟩
  | ok p =>
    by_cases hp : p = 0
    · left
      simp only [call_malloc_wrapper, malloc_wrapper, hu.mem, hu.num, hu.max, ha, Alloc.ptr]
      simp [NULL, hp]
      exact ⟨by simpa [NULL] using hu.mem, hu.num, hu.max⟩
    · right
      simp only [call_malloc_wrapper, malloc_wrapper, hu.mem, hu.num, hu.max, ha, Alloc.ptr]
      simp [NULL, hp]
      exact ⟨by simp [NULL], by simp, by simp, by simpa [NULL] using hp⟩

/-- The call `malloc_wrapper(&collector, buf, size, &error_code)` for the tracked
pointer: `NULL`, or the pointer `realloc` returned, tracked in the place of `buf`. -/
theorem call_malloc_wrapper_regrow (t : Thread) (size : Nat) (ht : t.Tracked) :
    (call_malloc_wrapper t t.buf size).buf = NULL ∨ (call_malloc_wrapper t t.buf size).Tracked := by
  have hb : ¬ t.buf = 0 := ht.buf
  have hia : is_allocated t.conn_thread_res_collector t.buf = 0 := by
    simp [is_allocated, ht.mem, ht.num, NULL, hb, List.range_succ]
  cases ha : t.env.alloc.headD (Alloc.ok 1) with
  | fail e =>
    left
    simp only [call_malloc_wrapper, malloc_wrapper, ht.mem, ht.num, ht.max, ha, Alloc.ptr, hia]
    simp [NULL, hb, UINT_MODULUS]
  | ok p =>
    by_cases hp : p = 0
    · left
      simp only [call_malloc_wrapper, malloc_wrapper, ht.mem, ht.num, ht.max, ha, Alloc.ptr, hia]
      simp [NULL, hb, hp, UINT_MODULUS]
    · right
      simp only [call_malloc_wrapper, malloc_wrapper, ht.mem, ht.num, ht.max, ha, Alloc.ptr, hia]
      simp [NULL, hb, hp, UINT_MODULUS]
      exact ⟨by simp [NULL], by simp [ht.num], by simp [ht.max], by simpa [NULL] using hp⟩

theorem call_free_wrapper_coll (t : Thread) (h : t.Untracked ∨ t.Tracked) :
    (call_free_wrapper t).Untracked ∧
      (call_free_wrapper t).available_space = t.available_space ∧
      (call_free_wrapper t).total_byte_read = t.total_byte_read ∧
      (call_free_wrapper t).pc = t.pc := by
  rcases h with hu | ht
  · refine ⟨?_, rfl, rfl, rfl⟩
    have hia : is_allocated t.conn_thread_res_collector t.buf = -1 := by
      by_cases hb : t.buf = 0
      · simp [is_allocated, hu.mem, NULL, hb]
      · simp [is_allocated, hu.mem, hu.num, NULL, hb]
    have e : (call_free_wrapper t).conn_thread_res_collector = t.conn_thread_res_collector := by
      simp only [call_free_wrapper, free_wrapper, hu.mem, hia]
      simp
    exact ⟨e ▸ hu.mem, e ▸ hu.num, e ▸ hu.max⟩
  · obtain ⟨h1, -, -, h4, -, h6, h7, -⟩ := call_free_wrapper_tracked t ht
    exact ⟨h1, h7, h6, h4⟩

theorem bufferInv_of_returned (t : Thread) (h : t.pc = Pc.returned) : t.BufferInv := by
  unfold Thread.BufferInv
  rw [h]
  trivial

theorem bufferInv_of_overflow (t : Thread) (h : t.pc = Pc.int_overflow) : t.BufferInv := by
  unfold Thread.BufferInv
  rw [h]
  trivial

/-- Lines 431 to 448 when `recv` is reached: the buffer is tracked, space is left in
it, and after a (re)allocation its size is `total_byte_read + 4096`. -/
theorem loop_alloc_ready (t : Thread) (hpc : t.pc = Pc.recv_loop) (hinv : t.BufferInv)
    (hcall : (loop_alloc t).pc = Pc.recv_loop) :
    (loop_alloc t).Tracked ∧ 0 < (loop_alloc t).available_space ∧
      (loop_alloc t).total_byte_read + (loop_alloc t).available_space =
        (loop_alloc t).buf_size ∧
      (loop_alloc t).total_byte_read = t.total_byte_read ∧
      (t.available_space = 0 →
        (loop_alloc t).buf_size = t.total_byte_read + allocated_chunk_size ∧
          (loop_alloc t).available_space = allocated_chunk_size) := by
  unfold Thread.BufferInv at hinv
  rw [hpc] at hinv
  obtain ⟨hcoll, hspace⟩ := hinv
  by_cases h0 : t.available_space = 0
  · have hfr := call_malloc_wrapper_frame t t.buf (t.total_byte_read + allocated_chunk_size)
    by_cases hov : t.total_byte_read + allocated_chunk_size > INT_MAX
    · have e : loop_alloc t = { t with pc := Pc.int_overflow } := by
        unfold loop_alloc
        rw [if_pos h0, if_pos hov]
      rw [e] at hcall
      cases hcall
    · by_cases hb : (call_malloc_wrapper t t.buf
          (t.total_byte_read + allocated_chunk_size)).buf = NULL
      · have e : loop_alloc t = clean_return (call_malloc_wrapper t t.buf
            (t.total_byte_read + allocated_chunk_size)) := by
          unfold loop_alloc
          rw [if_pos h0, if_neg hov]
          exact if_pos hb
        rw [e] at hcall
        cases hcall
      · have e : loop_alloc t =
            { (call_malloc_wrapper t t.buf (t.total_byte_read + allocated_chunk_size)) with
              available_space := allocated_chunk_size } := by
          unfold loop_alloc
          rw [if_pos h0, if_neg hov]
          exact if_neg hb
        have htr : (call_malloc_wrapper t t.buf
            (t.total_byte_read + allocated_chunk_size)).Tracked := by
          rcases hcoll with hu | ht
          · by_cases hn : t.buf = NULL
            · rw [hn] at hb ⊢
              rcases call_malloc_wrapper_fresh t _ hu with h | h
              · exact absurd h.1 hb
              · exact h
            · exact absurd (call_malloc_wrapper_stale t _ hu hn).1 hb
          · rcases call_malloc_wrapper_regrow t (t.total_byte_read + allocated_chunk_size) ht
              with h | h
            · exact absurd h hb
            · exact h
        rw [e]
        refine ⟨⟨htr.mem, htr.num, htr.max, htr.buf⟩, ?_, ?_, hfr.2.1, ?_⟩
        · show 0 < allocated_chunk_size
          decide
        · show (call_malloc_wrapper t t.buf (t.total_byte_read + allocated_chunk_size)).total_byte_read
            + allocated_chunk_size =
            (call_malloc_wrapper t t.buf (t.total_byte_read + allocated_chunk_size)).buf_size
          rw [hfr.2.1, hfr.2.2.2.2 hb]
        · intro _
          exact ⟨hfr.2.2.2.2 hb, rfl⟩
  · have e : loop_alloc t = t := by
      unfold loop_alloc
      rw [if_neg h0]
    rw [e]
    have hp : 0 < t.available_space := Nat.pos_of_ne_zero h0
    exact ⟨(hspace hp).1, hp, (hspace hp).2, rfl, fun h => absurd h h0⟩

theorem bufferInv_of_recv_loop (t : Thread) (hpc : t.pc = Pc.recv_loop)
    (h : (t.Untracked ∨ t.Tracked) ∧
      (0 < t.available_space →
        t.Tracked ∧ t.total_byte_read + t.available_space = t.buf_size)) : t.BufferInv := by
  unfold Thread.BufferInv
  rw [hpc]
  exact h

theorem bufferInv_of_flush_write (t : Thread) (hpc : t.pc = Pc.flush_write)
    (h : t.Untracked ∨ t.Tracked) : t.BufferInv := by
  unfold Thread.BufferInv
  rw [hpc]
  exact h

theorem bufferInv_of_flush_fstat (t : Thread) (hpc : t.pc = Pc.flush_fstat)
    (h : t.Untracked ∧ t.available_space = 0) : t.BufferInv := by
  unfold Thread.BufferInv
  rw [hpc]
  exact h

theorem bufferInv_of_flush_echo (t : Thread) (hpc : t.pc = Pc.flush_echo)
    (h : (t.Untracked ∨ t.Tracked) ∧ t.available_space = 0) : t.BufferInv := by
  unfold Thread.BufferInv
  rw [hpc]
  exact h

theorem sys_recv_range (inbox : List RecvEv) (space : Nat) (errno : Int) :
    (sys_recv inbox space errno).1 = -1 ∨
      (0 ≤ (sys_recv inbox space errno).1 ∧ (sys_recv inbox space errno).1 ≤ space) := by
  unfold sys_recv
  split
  · right; exact ⟨by simp, by simp⟩
  · left; rfl
  · right
    split
    · rename_i h
      exact ⟨by simp, by simpa using h⟩
    · exact ⟨by simp, by simp⟩

/-- Lines 450 to 475 on a tracked buffer with space left: the counters still add
up to the size of the buffer, and after a `recv` that returned data the index
`total_byte_read - 1` is inside it. -/
theorem loop_recv_outcome (t : Thread) (hpc : t.pc = Pc.recv_loop) (ht : t.Tracked)
    (hsum : t.total_byte_read + t.available_space = t.buf_size) :
    (loop_recv t).BufferInv ∧
      (0 < (sys_recv t.env.recv t.available_space t.errno).1 →
        (loop_recv t).total_byte_read =
            t.total_byte_read + (sys_recv t.env.recv t.available_space t.errno).1.toNat ∧
          (sys_recv t.env.recv t.available_space t.errno).1.toNat ≤ t.available_space ∧
          1 ≤ (loop_recv t).total_byte_read ∧
          (loop_recv t).total_byte_read ≤ (loop_recv t).buf_size ∧
          (loop_recv t).buf_size = t.buf_size ∧ (loop_recv t).buf = t.buf ∧
          (loop_recv t).Tracked) := by
  have hr := sys_recv_range t.env.recv t.available_space t.errno
  unfold loop_recv
  dsimp only
  by_cases h0 : (sys_recv t.env.recv t.available_space t.errno).1 = 0
  · rw [if_pos h0]
    exact ⟨bufferInv_of_returned _ rfl, fun h => absurd h (by omega)⟩
  · rw [if_neg h0]
    by_cases h1 : (sys_recv t.env.recv t.available_space t.errno).1 = -1
    · rw [if_pos h1]
      refine ⟨bufferInv_of_recv_loop _ hpc ⟨Or.inr ⟨ht.mem, ht.num, ht.max, ht.buf⟩, ?_⟩,
        fun h => absurd h (by omega)⟩
      intro _
      exact ⟨⟨ht.mem, ht.num, ht.max, ht.buf⟩, hsum⟩
    · rw [if_neg h1]
      have hle : (sys_recv t.env.recv t.available_space t.errno).1.toNat ≤ t.available_space := by
        omega
      have hpos : 0 < (sys_recv t.env.recv t.available_space t.errno).1.toNat := by omega
      split
      · refine ⟨bufferInv_of_recv_loop _ hpc ⟨Or.inr ⟨ht.mem, ht.num, ht.max, ht.buf⟩, ?_⟩, ?_⟩
        · intro _
          refine ⟨⟨ht.mem, ht.num, ht.max, ht.buf⟩, ?_⟩
          show t.total_byte_read + (sys_recv t.env.recv t.available_space t.errno).1.toNat +
            (t.available_space - (sys_recv t.env.recv t.available_space t.errno).1.toNat) =
            t.buf_size
          omega
        · intro _
          refine ⟨rfl, hle, ?_, ?_, rfl, rfl, ⟨ht.mem, ht.num, ht.max, ht.buf⟩⟩
          · show 1 ≤ t.total_byte_read +
              (sys_recv t.env.recv t.available_space t.errno).1.toNat
            omega
          · show t.total_byte_read +
              (sys_recv t.env.recv t.available_space t.errno).1.toNat ≤ t.buf_size
            omega
      · refine ⟨bufferInv_of_flush_write _ rfl (Or.inr ⟨ht.mem, ht.num, ht.max, ht.buf⟩), ?_⟩
        intro _
        refine ⟨rfl, hle, ?_, ?_, rfl, rfl, ⟨ht.mem, ht.num, ht.max, ht.buf⟩⟩
        · show 1 ≤ t.total_byte_read +
            (sys_recv t.env.recv t.available_space t.errno).1.toNat
          omega
        · show t.total_byte_read +
            (sys_recv t.env.recv t.available_space t.errno).1.toNat ≤ t.buf_size
          omega

theorem alloc_echo_buffer_coll (fuel : Nat) :
    ∀ t : Thread, t.Untracked →
      (alloc_echo_buffer fuel t).pc = Pc.returned ∨
        ((alloc_echo_buffer fuel t).pc = t.pc ∧
          ((alloc_echo_buffer fuel t).Untracked ∨ (alloc_echo_buffer fuel t).Tracked) ∧
          (alloc_echo_buffer fuel t).available_space = t.available_space) := by
  induction fuel with
  | zero => intro t hu; exact Or.inr ⟨rfl, Or.inl hu, rfl⟩
  | succ n ih =>
    intro t hu
    unfold alloc_echo_buffer
    by_cases hb : t.buf = NULL
    · rw [if_pos hb]
      dsimp only
      have hfresh : ((call_malloc_wrapper t t.buf t.n_byte).buf = NULL ∧
            (call_malloc_wrapper t t.buf t.n_byte).Untracked) ∨
          (call_malloc_wrapper t t.buf t.n_byte).Tracked := by
        rw [hb]
        exact call_malloc_wrapper_fresh t t.n_byte hu
      by_cases h1 : (call_malloc_wrapper t t.buf t.n_byte).buf = NULL
      · rw [if_pos h1]
        by_cases h2 : (call_malloc_wrapper t t.buf t.n_byte).error_code = ENOMEM
        · rw [if_pos h2]
          by_cases h3 : (call_malloc_wrapper t t.buf t.n_byte).n_byte / 2 = 0
          · rw [if_pos h3]
            exact Or.inl rfl
          · rw [if_neg h3]
            have hu1 : (call_malloc_wrapper t t.buf t.n_byte).Untracked := by
              rcases hfresh with h | h
              · exact h.2
              · exact absurd h1 h.buf
            rcases ih
              { (call_malloc_wrapper t t.buf t.n_byte) with
                n_byte := (call_malloc_wrapper t t.buf t.n_byte).n_byte / 2 }
              ⟨hu1.mem, hu1.num, hu1.max⟩ with i | ⟨i1, i2, i3⟩
            · exact Or.inl i
            · exact Or.inr ⟨i1, i2, i3⟩
        · rw [if_neg h2]
          exact Or.inl rfl
      · rw [if_neg h1]
        by_cases h4 : (call_malloc_wrapper t t.buf t.n_byte).n_byte = 0
        · rw [if_pos h4]; exact Or.inl rfl
        · rw [if_neg h4]
          refine Or.inr ⟨rfl, ?_, rfl⟩
          rcases hfresh with h | h
          · exact absurd h.1 h1
          · exact Or.inr h
    · rw [if_neg hb]; exact Or.inr ⟨rfl, Or.inl hu, rfl⟩

theorem echo_loop_frame (rounds : Nat) :
    ∀ (t : Thread) (st : Store), (echo_loop rounds t st).2.2 = true →
      (echo_loop rounds t st).1.conn_thread_res_collector = t.conn_thread_res_collector ∧
        (echo_loop rounds t st).1.buf = t.buf ∧
        (echo_loop rounds t st).1.available_space = t.available_space := by
  induction rounds with
  | zero => intro t st _; exact ⟨rfl, rfl, rfl⟩
  | succ n ih =>
    intro t st
    unfold echo_loop
    by_cases hb : (echo_round t st).2.2 = false
    · rw [if_pos hb]
      intro h
      exact absurd h (by simp)
    · rw [if_neg hb]
      intro h
      exact ih (echo_round t st).1 (echo_round t st).2.1 h

theorem flush_write_bufferInv (t : Thread) (st : Store) (h : t.Untracked ∨ t.Tracked) :
    (flush_write t st).1.BufferInv := by
  unfold flush_write
  split
  · exact bufferInv_of_returned _ rfl
  · have hc : (append_section t st).1.Untracked ∨ (append_section t st).1.Tracked := by
      rcases h with hu | ht
      · exact Or.inl ⟨hu.mem, hu.num, hu.max⟩
      · exact Or.inr ⟨ht.mem, ht.num, ht.max, ht.buf⟩
    obtain ⟨f1, -, -, -⟩ := call_free_wrapper_coll _ hc
    exact bufferInv_of_flush_fstat _ rfl ⟨⟨f1.mem, f1.num, f1.max⟩, rfl⟩

theorem flush_fstat_bufferInv (t : Thread) (st : Store) (hpc : t.pc = Pc.flush_fstat)
    (h : t.Untracked ∧ t.available_space = 0) : (flush_fstat t st).1.BufferInv := by
  obtain ⟨hu, h0⟩ := h
  unfold flush_fstat
  split
  · exact bufferInv_of_returned _ rfl
  · split
    · exact bufferInv_of_overflow _ rfl
    · dsimp only
      rcases alloc_echo_buffer_coll ((fstat_section t st).1.st_size + 1)
        { (fstat_section t st).1 with n_byte := (fstat_section t st).1.st_size, buf := NULL }
        ⟨hu.mem, hu.num, hu.max⟩ with i | ⟨i1, i2, i3⟩
      · rw [if_neg (by rw [i]; decide)]
        exact bufferInv_of_returned _ i
      · have i1' : (alloc_echo_buffer ((fstat_section t st).1.st_size + 1)
            { (fstat_section t st).1 with
              n_byte := (fstat_section t st).1.st_size, buf := NULL }).pc = Pc.flush_fstat :=
          i1.trans hpc
        rw [if_pos i1']
        refine bufferInv_of_flush_echo _ rfl ⟨?_, i3.trans h0⟩
        rcases i2 with hu2 | ht2
        · exact Or.inl ⟨hu2.mem, hu2.num, hu2.max⟩
        · exact Or.inr ⟨ht2.mem, ht2.num, ht2.max, ht2.buf⟩

theorem flush_echo_bufferInv (t : Thread) (st : Store)
    (h : (t.Untracked ∨ t.Tracked) ∧ t.available_space = 0) :
    (flush_echo t st).1.BufferInv := by
  obtain ⟨hc, h0⟩ := h
  unfold flush_echo
  split
  · exact bufferInv_of_returned _ rfl
  · split
    · rename_i hf
      exact bufferInv_of_returned _
        ((echo_loop_recv _ (echo_begin t st).1 (echo_begin t st).2.1).2.2 hf)
    · rename_i hf
      have hf' : (echo_rounds t st).2.2 = true := by simpa using hf
      obtain ⟨e1, e2, e3⟩ := echo_loop_frame _ (echo_begin t st).1 (echo_begin t st).2.1 hf'
      split
      · exact bufferInv_of_returned _ rfl
      · have hcoll :
            (unlock (echo_end (echo_rounds t st).1 (echo_rounds t st).2.1).1).Untracked ∨
              (unlock (echo_end (echo_rounds t st).1 (echo_rounds t st).2.1).1).Tracked := by
          have c1 : (unlock (echo_end (echo_rounds t st).1
              (echo_rounds t st).2.1).1).conn_thread_res_collector =
              t.conn_thread_res_collector := e1
          have c2 : (unlock (echo_end (echo_rounds t st).1 (echo_rounds t st).2.1).1).buf =
              t.buf := e2
          rcases hc with hu | ht
          · exact Or.inl ⟨c1 ▸ hu.mem, c1 ▸ hu.num, c1 ▸ hu.max⟩
          · exact Or.inr ⟨by rw [c1, c2]; exact ht.mem, c1 ▸ ht.num, c1 ▸ ht.max,
              by rw [c2]; exact ht.buf⟩
        obtain ⟨f1, f2, -, -⟩ := call_free_wrapper_coll _ hcoll
        have c3 : (unlock (echo_end (echo_rounds t st).1
            (echo_rounds t st).2.1).1).available_space = 0 := e3.trans h0
        refine bufferInv_of_recv_loop _ rfl ⟨Or.inl ⟨f1.mem, f1.num, f1.max⟩, ?_⟩
        intro hp
        have : (call_free_wrapper (unlock (echo_end (echo_rounds t st).1
            (echo_rounds t st).2.1).1)).available_space = 0 := f2.trans c3
        exact absurd hp (by
          show ¬ 0 < (call_free_wrapper (unlock (echo_end (echo_rounds t st).1
            (echo_rounds t st).2.1).1)).available_space
          omega)

theorem init_untracked (cfd : Int) (env : Env) : (Thread.init cfd env).Untracked :=
  ⟨rfl, rfl, rfl⟩

theorem step_bufferInv (t : Thread) (st : Store) (h : t.BufferInv) :
    (step t st).1.BufferInv := by
  cases hpc : t.pc with
  | recv_loop =>
    have e : step t st =
        if (loop_alloc t).pc = Pc.recv_loop then (loop_recv (loop_alloc t), st)
        else (loop_alloc t, st) := by
      unfold step
      rw [hpc]
    rw [e]
    by_cases hcall : (loop_alloc t).pc = Pc.recv_loop
    · rw [if_pos hcall]
      obtain ⟨h1, -, h3, -, -⟩ := loop_alloc_ready t hpc h hcall
      exact (loop_recv_outcome (loop_alloc t) hcall h1 h3).1
    · rw [if_neg hcall]
      show (loop_alloc t).BufferInv
      by_cases h0 : t.available_space = 0
      · by_cases hov : t.total_byte_read + allocated_chunk_size > INT_MAX
        · have e : loop_alloc t = { t with pc := Pc.int_overflow } := by
            unfold loop_alloc
            rw [if_pos h0, if_pos hov]
          rw [e]
          exact bufferInv_of_overflow _ rfl
        · by_cases hb : (call_malloc_wrapper t t.buf
              (t.total_byte_read + allocated_chunk_size)).buf = NULL
          · have e : loop_alloc t = clean_return (call_malloc_wrapper t t.buf
                (t.total_byte_read + allocated_chunk_size)) := by
              unfold loop_alloc
              rw [if_pos h0, if_neg hov]
              exact if_pos hb
            rw [e]
            exact bufferInv_of_returned _ rfl
          · have e : loop_alloc t =
                { (call_malloc_wrapper t t.buf (t.total_byte_read + allocated_chunk_size)) with
                  available_space := allocated_chunk_size } := by
              unfold loop_alloc
              rw [if_pos h0, if_neg hov]
              exact if_neg hb
            rw [e] at hcall
            exact absurd hpc hcall
      · have e : loop_alloc t = t := by
          unfold loop_alloc
          rw [if_neg h0]
        rw [e] at hcall
        exact absurd hpc hcall
  | flush_write =>
    rw [step_flush_write t st hpc]
    unfold Thread.BufferInv at h
    rw [hpc] at h
    exact flush_write_bufferInv t st h
  | flush_fstat =>
    rw [step_flush_fstat t st hpc]
    unfold Thread.BufferInv at h
    rw [hpc] at h
    exact flush_fstat_bufferInv t st hpc h
  | flush_echo =>
    rw [step_flush_echo t st hpc]
    unfold Thread.BufferInv at h
    rw [hpc] at h
    exact flush_echo_bufferInv t st h
  | returned =>
    have e : step t st = (t, st) := by unfold step; rw [hpc]
    rw [e]
    exact h
  | int_overflow =>
    have e : step t st = (t, st) := by unfold step; rw [hpc]
    rw [e]
    exact h

theorem reachable_bufferInv (t : Thread) (h : t.Reachable) : t.BufferInv := by
  induction h with
  | init cfd env =>
    exact bufferInv_of_recv_loop _ rfl
      ⟨Or.inl (init_untracked cfd env), fun hp => absurd hp (Nat.lt_irrefl 0)⟩
  | step t st _ ih => exact step_bufferInv t st ih

/-- C27: in every state a worker can reach, whatever its calls return, when it is
at the top of its loop and goes on to `recv` (lines 431 to 450; the sizes stay
within `int`), the buffer `buf` is the one the collector tracks, `available_space` is
positive and `total_byte_read + available_space` is the size last obtained for
`buf`, which is `total_byte_read + 4096` when the buffer was (re)allocated in this
pass.  `recv` is offered `available_space` bytes at index `total_byte_read`; when it
returns `n > 0` then `n ≤ available_space`, and afterwards
`1 ≤ total_byte_read ≤` the size of the same buffer, so the index
`total_byte_read - 1` is inside it. -/
theorem recv_stays_within_buffer (t : Thread) (st : Store) (hr : t.Reachable)
    (hpc : t.pc = Pc.recv_loop) (hcall : (loop_alloc t).pc = Pc.recv_loop) :
    (loop_alloc t).Tracked ∧ 0 < (loop_alloc t).available_space ∧
      (loop_alloc t).total_byte_read + (loop_alloc t).available_space =
        (loop_alloc t).buf_size ∧
      (loop_alloc t).total_byte_read = t.total_byte_read ∧
      (t.available_space = 0 →
        (loop_alloc t).buf_size = t.total_byte_read + allocated_chunk_size ∧
          (loop_alloc t).available_space = allocated_chunk_size) ∧
      (step t st).1 = loop_recv (loop_alloc t) ∧
      (0 < (sys_recv (loop_alloc t).env.recv (loop_alloc t).available_space
          (loop_alloc t).errno).1 →
        (loop_recv (loop_alloc t)).total_byte_read =
            (loop_alloc t).total_byte_read +
              (sys_recv (loop_alloc t).env.recv (loop_alloc t).available_space
                (loop_alloc t).errno).1.toNat ∧
          (sys_recv (loop_alloc t).env.recv (loop_alloc t).available_space
            (loop_alloc t).errno).1.toNat ≤ (loop_alloc t).available_space ∧
          1 ≤ (loop_recv (loop_alloc t)).total_byte_read ∧
          (loop_recv (loop_alloc t)).total_byte_read ≤ (loop_recv (loop_alloc t)).buf_size ∧
          (loop_recv (loop_alloc t)).buf_size = (loop_alloc t).buf_size ∧
          (loop_recv (loop_alloc t)).buf = (loop_alloc t).buf ∧
          (loop_recv (loop_alloc t)).Tracked) := by
  have hinv := reachable_bufferInv t hr
  obtain ⟨h1, h2, h3, h4, h5⟩ := loop_alloc_ready t hpc hinv hcall
  have hstep : (step t st).1 = loop_recv (loop_alloc t) := by
    unfold step
    rw [hpc]
    dsimp only
    rw [if_pos hcall]
  exact ⟨h1, h2, h3, h4, h5, hstep, (loop_recv_outcome (loop_alloc t) hcall h1 h3).2⟩

theorem recv_stays_within_buffer_witness :
    0 < (loop_alloc Thread.afterFirstSegment).available_space ∧
      (loop_alloc Thread.afterFirstSegment).total_byte_read +
          (loop_alloc Thread.afterFirstSegment).available_space =
        (loop_alloc Thread.afterFirstSegment).buf_size ∧
      1 ≤ (loop_recv (loop_alloc Thread.afterFirstSegment)).total_byte_read ∧
      (loop_recv (loop_alloc Thread.afterFirstSegment)).total_byte_read ≤
        (loop_recv (loop_alloc Thread.afterFirstSegment)).buf_size :=
  ⟨(recv_stays_within_buffer Thread.afterFirstSegment Store.fresh
      (Thread.Reachable.step _ _ (Thread.Reachable.init _ _)) (by decide) (by decide)).2.1,
    (recv_stays_within_buffer Thread.afterFirstSegment Store.fresh
      (Thread.Reachable.step _ _ (Thread.Reachable.init _ _)) (by decide) (by decide)).2.2.1,
    ((recv_stays_within_buffer Thread.afterFirstSegment Store.fresh
      (Thread.Reachable.step _ _ (Thread.Reachable.init _ _)) (by decide)
      (by decide)).2.2.2.2.2.2 (by decide)).2.2.1,
    ((recv_stays_within_buffer Thread.afterFirstSegment Store.fresh
      (Thread.Reachable.step _ _ (Thread.Reachable.init _ _)) (by decide)
      (by decide)).2.2.2.2.2.2 (by decide)).2.2.2.1⟩

/-! ## The echo buffer for a store beyond the range of `int` -/

theorem malloc_wrapper_untracked_null (cfd : Int) (size : Nat) (error_code errno : Int)
    (libc : Alloc) :
    (malloc_wrapper
        { allocated_mem := some [NULL, NULL], num_of_allocated_mem := 0,
          max_num_of_allocated_mem := 2, open_file_fd := some [cfd], num_of_open_file := 1,
          max_num_of_open_file := 1 } NULL size error_code errno libc).call =
        HeapCall.malloc size ∧
      (malloc_wrapper
        { allocated_mem := some [NULL, NULL], num_of_allocated_mem := 0,
          max_num_of_allocated_mem := 2, open_file_fd := some [cfd], num_of_open_file := 1,
          max_num_of_open_file := 1 } NULL size error_code errno libc).ret = libc.ptr ∧
      (libc.ptr = NULL →
        malloc_wrapper
          { allocated_mem := some [NULL, NULL], num_of_allocated_mem := 0,
            max_num_of_allocated_mem := 2, open_file_fd := some [cfd], num_of_open_file := 1,
            max_num_of_open_file := 1 } NULL size error_code errno libc =
          { ret := NULL, error_code := libc.errnoAfter errno,
            collector :=
              { allocated_mem := some [NULL, NULL], num_of_allocated_mem := 0,
                max_num_of_allocated_mem := 2, open_file_fd := some [cfd],
                num_of_open_file := 1, max_num_of_open_file := 1 },
            errno := libc.errnoAfter errno, call := HeapCall.malloc size }) := by
  by_cases h : libc.ptr = NULL
  · simp [malloc_wrapper, h]
  · simp [malloc_wrapper, h]

/-- The state of the loop while every allocation has failed: the collector tracks
nothing, `buf` is `NULL` and `n_byte` is negative. -/
theorem echo_alloc_loop_negative (cfd : Int) (fuel : Nat) :
    ∀ s : EchoAlloc,
      s.conn_thread_res_collector =
        { allocated_mem := some [NULL, NULL], num_of_allocated_mem := 0,
          max_num_of_allocated_mem := 2, open_file_fd := some [cfd], num_of_open_file := 1,
          max_num_of_open_file := 1 } →
      s.buf = NULL → -2147483648 ≤ s.n_byte → s.n_byte < 0 →
      (∀ size ∈ s.requested, 18446744071562067968 ≤ size) →
      (∀ k rest, k = fuel → s.alloc = List.replicate k (Alloc.fail ENOMEM) ++ rest →
        echo_alloc_loop fuel s = none) ∧
      ∀ e s1, echo_alloc_loop fuel s = some (e, s1) →
        e ≠ EchoAllocEnd.out_of_memory ∧ s1.n_byte < 0 ∧
          ∀ size ∈ s1.requested, 18446744071562067968 ≤ size := by
  induction fuel with
  | zero =>
    intro s _ _ _ _ _
    exact ⟨fun _ _ _ _ => rfl, fun e s1 h => by simp [echo_alloc_loop] at h⟩
  | succ n ih =>
    intro s hc hb hlo hneg hreq
    obtain ⟨m1, m2, m3⟩ := malloc_wrapper_untracked_null cfd (size_t_of_int s.n_byte)
      s.error_code s.errno (s.alloc.headD (Alloc.ok 1))
    have hsize : 18446744071562067968 ≤ size_t_of_int s.n_byte := by
      unfold size_t_of_int SIZE_MODULUS
      omega
    have hhalf1 : -2147483648 ≤ s.n_byte / 2 := by omega
    have hhalf2 : s.n_byte / 2 < 0 := by omega
    have hreq1 : ∀ size ∈ s.requested ++ [size_t_of_int s.n_byte],
        18446744071562067968 ≤ size := by
      intro size hm
      rcases List.mem_append.mp hm with hm | hm
      · exact hreq size hm
      · rw [List.mem_singleton.mp hm]; exact hsize
    have hcall : ∀ (x : Nat) (a b : List Alloc),
        (if HeapCall.malloc x = HeapCall.none then a else b) = b :=
      fun x a b => if_neg (by intro h; cases h)
    unfold echo_alloc_loop
    rw [if_pos hb]
    simp only [hc, hb, m1, m2, hcall]
    by_cases hp : (s.alloc.headD (Alloc.ok 1)).ptr = NULL
    · rw [if_pos hp, m3 hp]
      simp only [hp]
      by_cases he : (s.alloc.headD (Alloc.ok 1)).errnoAfter s.errno = ENOMEM
      · rw [if_pos he, if_neg (by omega)]
        obtain ⟨i1, i2⟩ := ih
          { s with
            conn_thread_res_collector :=
              { allocated_mem := some [NULL, NULL], num_of_allocated_mem := 0,
                max_num_of_allocated_mem := 2, open_file_fd := some [cfd],
                num_of_open_file := 1, max_num_of_open_file := 1 }
            buf := NULL
            error_code := (s.alloc.headD (Alloc.ok 1)).errnoAfter s.errno
            errno := (s.alloc.headD (Alloc.ok 1)).errnoAfter s.errno
            alloc := s.alloc.tail
            requested := s.requested ++ [size_t_of_int s.n_byte]
            n_byte := s.n_byte / 2 } rfl rfl hhalf1 hhalf2 hreq1
        refine ⟨?_, i2⟩
        intro k rest hk ha
        subst hk
        refine i1 n rest rfl ?_
        show s.alloc.tail = _
        rw [ha]
        rfl
      · rw [if_neg he]
        constructor
        · intro k rest hk ha
          exfalso
          apply he
          subst hk
          rw [ha]
          rfl
        · intro e s1 h
          have h1 := Option.some.inj h
          rw [← (Prod.mk.inj h1).1, ← (Prod.mk.inj h1).2]
          exact ⟨by decide, hneg, hreq1⟩
    · rw [if_neg hp, if_neg (by omega)]
      constructor
      · intro k rest hk ha
        exfalso
        apply hp
        subst hk
        rw [ha]
        rfl
      · intro e s1 h
        have h1 := Option.some.inj h
        rw [← (Prod.mk.inj h1).1, ← (Prod.mk.inj h1).2]
        exact ⟨by decide, hneg, hreq1⟩

/-- C15, the code at the failing input: the store holds `2147483648` bytes.  Line 508
makes `n_byte` the `int` `-2147483648`, and `n_byte >>= 1` keeps it negative.  For every
`k`, after `k` allocations that failed with `ENOMEM` the loop of lines 510 to 531 has
not ended; whatever the allocator does, the loop is never left through the exit
`n_byte == 0`, `n_byte` is never the size of the store halved, and every size `malloc`
is asked for is at least `2 ^ 64 - 2 ^ 31`.  The same holds for every store of
`2 ^ 31` to `2 ^ 32 - 1` bytes. -/
theorem echo_allocation_never_ends_for_large_store (cfd : Int) (extra : Nat)
    (error_code errno : Int) (k : Nat) (rest alloc : List Alloc) (fuel : Nat)
    (e : EchoAllocEnd) (s1 : EchoAlloc) :
    int_of_off_t 2147483648 = -2147483648 ∧
      echo_alloc_loop k
        (EchoAlloc.start cfd (2147483648 + extra % 2147483648) error_code errno
          (List.replicate k (Alloc.fail ENOMEM) ++ rest)) = none ∧
      (echo_alloc_loop fuel
          (EchoAlloc.start cfd (2147483648 + extra % 2147483648) error_code errno alloc) =
          some (e, s1) →
        e ≠ EchoAllocEnd.out_of_memory ∧ s1.n_byte < 0 ∧
          ∀ size ∈ s1.requested, 18446744071562067968 ≤ size) := by
  have hlo : -2147483648 ≤ int_of_off_t (2147483648 + extra % 2147483648) := by
    unfold int_of_off_t
    omega
  have hneg : int_of_off_t (2147483648 + extra % 2147483648) < 0 := by
    unfold int_of_off_t
    omega
  refine ⟨by decide, ?_, ?_⟩
  · exact (echo_alloc_loop_negative cfd k
      (EchoAlloc.start cfd (2147483648 + extra % 2147483648) error_code errno
        (List.replicate k (Alloc.fail ENOMEM) ++ rest)) rfl rfl hlo hneg
      (fun _ h => absurd h (List.not_mem_nil _))).1 k rest rfl rfl
  · exact (echo_alloc_loop_negative cfd fuel
      (EchoAlloc.start cfd (2147483648 + extra % 2147483648) error_code errno alloc)
      rfl rfl hlo hneg (fun _ h => absurd h (List.not_mem_nil _))).2 e s1

/-! ## `main` returns once its loop is left -/

theorem chain_congr (r r1 : Registry) (ps : List Ptr) :
    ∀ p, (∀ a ∈ ps, r1.node a = r.node a ∧ r1.node_live a = r.node_live a) →
      r.Chain p ps → r1.Chain p ps := by
  induction ps with
  | nil => intro p _ h; exact h
  | cons a rest ih =>
    intro p hx h
    obtain ⟨h1, h2, h3, n, h4, h5⟩ := h
    obtain ⟨e1, e2⟩ := hx a (List.mem_cons_self _ _)
    exact ⟨h1, h2, by rw [e2]; exact h3, n, by rw [e1]; exact h4,
      ih _ (fun y hy => hx y (List.mem_cons_of_mem _ hy)) h5⟩

theorem chain_of_same (r r1 : Registry) (ps : List Ptr) (p : Ptr) (h1 : r1.node = r.node)
    (h2 : r1.node_live = r.node_live) (h : r.Chain p ps) : r1.Chain p ps :=
  chain_congr r r1 ps p (fun a _ => ⟨by rw [h1], by rw [h2]⟩) h

theorem linked_of_same (r r1 : Registry) (ps : List Ptr) (h1 : r1.node = r.node)
    (h2 : r1.node_live = r.node_live) (h3 : r1.slh_first = r.slh_first)
    (h4 : r1.fault = r.fault) (h : r.Linked ps) : r1.Linked ps :=
  ⟨by rw [h3]; exact chain_of_same r r1 ps _ h1 h2 h.chain, h.nodup, by rw [h1]; exact h.null,
    by rw [h4]; exact h.fault⟩

/-- The part of a chain from one of its cells on. -/
theorem chain_suffix (r : Registry) (a : Ptr) (post : List Ptr) :
    ∀ (pre : List Ptr) (p : Ptr), r.Chain p (pre ++ a :: post) →
      a ≠ NULL ∧ r.node_live a = true ∧ ∃ n, r.node a = some n ∧ r.Chain n.next post := by
  intro pre
  induction pre with
  | nil =>
    intro p h
    obtain ⟨-, h2, h3, n, h4, h5⟩ := h
    exact ⟨h2, h3, n, h4, h5⟩
  | cons x pre ih =>
    intro p h
    obtain ⟨-, -, -, n, -, h5⟩ := h
    exact ih _ h5

/-- A chain whose cell `a` gets a new successor list. -/
theorem chain_splice (r r1 : Registry) (a : Ptr) (post post1 : List Ptr) (n1 : ThreadNode)
    (ha : r1.node a = some n1) (hl : r1.node_live a = true) (hc : r1.Chain n1.next post1) :
    ∀ (pre : List Ptr) (p : Ptr),
      (∀ x ∈ pre, r1.node x = r.node x ∧ r1.node_live x = r.node_live x) →
      r.Chain p (pre ++ a :: post) → r1.Chain p (pre ++ a :: post1) := by
  intro pre
  induction pre with
  | nil =>
    intro p _ h
    obtain ⟨h1, h2, -, -⟩ := h
    exact ⟨h1, h2, hl, n1, ha, hc⟩
  | cons x pre ih =>
    intro p hx h
    obtain ⟨h1, h2, h3, n, h4, h5⟩ := h
    obtain ⟨e1, e2⟩ := hx x (List.mem_cons_self _ _)
    exact ⟨h1, h2, by rw [e2]; exact h3, n, by rw [e1]; exact h4,
      ih _ (fun y hy => hx y (List.mem_cons_of_mem _ hy)) h5⟩

theorem chain_nil_iff (r : Registry) (p : Ptr) (ps : List Ptr) (h : r.Chain p ps) :
    p = NULL ↔ ps = [] := by
  cases ps with
  | nil => exact ⟨fun _ => rfl, fun _ => h⟩
  | cons a rest =>
    obtain ⟨h1, h2, -⟩ := h
    constructor
    · intro hp
      rw [h1] at hp
      exact absurd hp h2
    · intro hc
      cases hc

theorem load_some (r : Registry) (p : Ptr) (n : ThreadNode) (r1 : Registry)
    (h : r.load p = some (n, r1)) :
    r.node p = some n ∧ r1.node = r.node ∧ r1.node_live = r.node_live ∧
      r1.slh_first = r.slh_first ∧ r1.fault = r.fault ∧
      r1.last_thread_node = r.last_thread_node := by
  unfold Registry.load at h
  cases hn : r.node p with
  | none => rw [hn] at h; cases h
  | some m =>
    rw [hn] at h
    have h1 := Option.some.inj h
    have e1 := (Prod.mk.inj h1).1
    have e2 := (Prod.mk.inj h1).2
    rw [← e2, ← e1]
    refine ⟨rfl, ?_, ?_, ?_, ?_, ?_⟩ <;> split <;> rfl

theorem load_done_some (r : Registry) (p : Ptr) (d : Bool) (r1 : Registry)
    (h : r.load_done p = some (d, r1)) :
    r1.node = r.node ∧ r1.node_live = r.node_live ∧ r1.slh_first = r.slh_first ∧
      r1.fault = r.fault ∧ r1.last_thread_node = r.last_thread_node := by
  unfold Registry.load_done at h
  cases hn : r.done p with
  | none => rw [hn] at h; cases h
  | some m =>
    rw [hn] at h
    have h1 := Option.some.inj h
    have e2 := (Prod.mk.inj h1).2
    rw [← e2]
    refine ⟨?_, ?_, ?_, ?_, ?_⟩ <;> split <;> rfl

theorem store_next_some (r : Registry) (p q : Ptr) (r1 : Registry)
    (h : r.store_next p q = some r1) :
    ∃ n, r.node p = some n ∧
      r1.node = Function.update r.node p (some { n with next := q }) ∧
      r1.node_live = r.node_live ∧ r1.slh_first = r.slh_first ∧ r1.fault = r.fault ∧
      r1.last_thread_node = r.last_thread_node := by
  unfold Registry.store_next at h
  cases hn : r.node p with
  | none => rw [hn] at h; cases h
  | some m =>
    rw [hn] at h
    have h1 := Option.some.inj h
    rw [← h1]
    exact ⟨m, rfl, rfl, rfl, rfl, rfl, rfl⟩

/-- The search loop of `SLIST_REMOVE` on a chain: when it finds a cell in front of
`elm`, both are neighbours in the chain. -/
theorem slist_find_prev_some (elm : Ptr) (helm : elm ≠ NULL) (fuel : Nat) :
    ∀ (r : Registry) (p : Ptr) (ps : List Ptr) (curelm : Ptr) (r1 : Registry),
      r.Chain p ps → r.node NULL = none →
      slist_find_prev fuel r p elm = some (some (curelm, r1)) →
      (r1.node = r.node ∧ r1.node_live = r.node_live ∧ r1.slh_first = r.slh_first ∧
        r1.fault = r.fault ∧ r1.last_thread_node = r.last_thread_node) ∧
        ∃ pre post, ps = pre ++ curelm :: elm :: post := by
  induction fuel with
  | zero =>
    intro r p ps curelm r1 _ _ h
    simp [slist_find_prev] at h
  | succ k ih =>
    intro r p ps curelm r1 hc hnull h
    unfold slist_find_prev at h
    cases hl : r.load p with
    | none =>
      rw [hl] at h
      cases h
    | some x =>
      obtain ⟨n, ra⟩ := x
      rw [hl] at h
      obtain ⟨l1, l2, l3, l4, l5, l6⟩ := load_some r p n ra hl
      cases ps with
      | nil =>
        have hp : p = NULL := hc
        rw [hp, hnull] at l1
        cases l1
      | cons a rest =>
        obtain ⟨c1, c2, c3, m, c4, c5⟩ := hc
        have hm : m = n := by
          rw [c1, c4] at l1
          exact Option.some.inj l1
        rw [hm] at c5
        dsimp only at h
        by_cases hne : n.next ≠ elm
        · rw [if_pos hne] at h
          obtain ⟨⟨i1, i2, i3, i4, i5⟩, pre, post, i6⟩ := ih ra n.next rest curelm r1
            (chain_of_same r ra rest _ l2 l3 c5) (by rw [l2]; exact hnull) h
          refine ⟨⟨i1.trans l2, i2.trans l3, i3.trans l4, i4.trans l5, i5.trans l6⟩,
            a :: pre, post, ?_⟩
          rw [i6]
          rfl
        · rw [if_neg hne] at h
          have heq : n.next = elm := not_not.mp hne
          have h1 := Option.some.inj (Option.some.inj h)
          have e1 := (Prod.mk.inj h1).1
          have e2 := (Prod.mk.inj h1).2
          rw [← e2]
          refine ⟨⟨l2, l3, l4, l5, l6⟩, [], ?_⟩
          rw [heq] at c5
          cases rest with
          | nil => exact absurd c5 helm
          | cons b post =>
            obtain ⟨d1, -⟩ := c5
            refine ⟨post, ?_⟩
            rw [← e1, c1, d1]
            rfl

theorem linked_free_node (r : Registry) (ps : List Ptr) (a : Ptr) (h : r.Linked ps)
    (ha : a ∉ ps) : (r.free_node a).Linked ps := by
  refine ⟨?_, h.nodup, h.null, h.fault⟩
  refine chain_congr r (r.free_node a) ps _ ?_ h.chain
  intro x hx
  refine ⟨rfl, ?_⟩
  show Function.update r.node_live a false x = r.node_live x
  rw [Function.update_noteq]
  intro e
  exact ha (e ▸ hx)

/-- The macro `SLIST_REMOVE` on a list of distinct cells: when it meets no invalid
pointer, the list is the same without `elm`. -/
theorem slist_remove_linked (fuel : Nat) (r : Registry) (ps : List Ptr) (elm : Ptr)
    (r1 : Registry) (h : r.Linked ps) (helm : elm ≠ NULL)
    (hr : slist_remove fuel r elm = some r1) (hf : r1.fault = false) :
    ∃ ps1, r1.Linked ps1 ∧ elm ∉ ps1 ∧ ps1.length ≤ ps.length ∧
      r1.node_live = r.node_live := by
  unfold slist_remove at hr
  by_cases hh : r.slh_first = elm
  · rw [if_pos hh] at hr
    cases hl : r.load r.slh_first with
    | none =>
      rw [hl] at hr
      have := Option.some.inj hr
      rw [← this] at hf
      cases hf
    | some x =>
      obtain ⟨n, ra⟩ := x
      rw [hl] at hr
      obtain ⟨l1, l2, l3, l4, l5, -⟩ := load_some r _ n ra hl
      have e := Option.some.inj hr
      cases ps with
      | nil =>
        have : r.slh_first = NULL := h.chain
        rw [this] at hh
        exact absurd hh.symm helm
      | cons a rest =>
        obtain ⟨c1, c2, c3, m, c4, c5⟩ := h.chain
        have hm : m = n := by
          rw [c1, c4] at l1
          exact Option.some.inj l1
        rw [hm] at c5
        have hnd := List.nodup_cons.mp h.nodup
        refine ⟨rest, ⟨?_, hnd.2, ?_, ?_⟩, ?_, ?_, ?_⟩
        · rw [← e]
          exact chain_of_same r _ rest _ l2 l3 c5
        · rw [← e]
          show ra.node NULL = none
          rw [l2]; exact h.null
        · exact hf
        · rw [← hh, c1]
          exact hnd.1
        · simp
        · rw [← e]
          exact l3
  · rw [if_neg hh] at hr
    cases hfp : slist_find_prev fuel r r.slh_first elm with
    | none =>
      rw [hfp] at hr
      cases hr
    | some y =>
      cases y with
      | none =>
        rw [hfp] at hr
        have := Option.some.inj hr
        rw [← this] at hf
        cases hf
      | some z =>
        obtain ⟨curelm, ra⟩ := z
        rw [hfp] at hr
        obtain ⟨⟨f1, f2, f3, f4, -⟩, pre, post, hps⟩ :=
          slist_find_prev_some elm helm fuel r r.slh_first ps curelm ra h.chain h.null hfp
        dsimp only at hr
        cases hl : ra.load elm with
        | none =>
          rw [hl] at hr
          have := Option.some.inj hr
          rw [← this] at hf
          cases hf
        | some x =>
          obtain ⟨e, rb⟩ := x
          rw [hl] at hr
          obtain ⟨l1, l2, l3, l4, l5, -⟩ := load_some ra _ e rb hl
          dsimp only at hr
          cases hs : rb.store_next curelm e.next with
          | none =>
            rw [hs] at hr
            have := Option.some.inj hr
            rw [← this] at hf
            cases hf
          | some rc =>
            rw [hs] at hr
            have erc := Option.some.inj hr
            obtain ⟨n, s1, s2, s3, s4, s5, -⟩ := store_next_some rb curelm e.next rc hs
            rw [← erc]
            -- the old chain, seen in `rb`
            have hchain : rb.Chain rb.slh_first (pre ++ curelm :: elm :: post) := by
              rw [l4, f3, ← hps]
              exact chain_of_same r rb ps _ (l2.trans f1) (l3.trans f2) h.chain
            have hnd : (pre ++ curelm :: elm :: post).Nodup := by rw [← hps]; exact h.nodup
            have hnd1 : curelm ∉ pre ∧ elm ∉ pre ∧ curelm ≠ elm ∧ curelm ∉ post ∧ elm ∉ post ∧
                (pre ++ curelm :: post).Nodup := by
              simp only [List.nodup_append, List.nodup_cons, List.mem_cons, not_or,
                List.mem_append] at hnd ⊢
              obtain ⟨g1, ⟨⟨g2, g3⟩, g4, g5⟩, g6⟩ := hnd
              refine ⟨?_, ?_, g2, g3, g4, ⟨g1, ⟨g3, g5⟩, ?_⟩⟩
              · intro hm
                exact (g6 hm (List.mem_cons_self _ _)).elim
              · intro hm
                exact (g6 hm (List.mem_cons_of_mem _ (List.mem_cons_self _ _))).elim
              · intro x hx1 hx2
                rcases List.mem_cons.mp hx2 with hx2 | hx2
                · exact g6 hx1 (hx2 ▸ List.mem_cons_self _ _)
                · exact g6 hx1 (List.mem_cons_of_mem _ (List.mem_cons_of_mem _ hx2))
            obtain ⟨q1, q2, q3, q4, q5, q6⟩ := hnd1
            obtain ⟨-, u2, m, u3, u4⟩ := chain_suffix rb curelm (elm :: post) pre _ hchain
            obtain ⟨-, v1, -, me, v3, v4⟩ := u4
            have hme : me = e := by
              rw [l2] at v3
              rw [v3] at l1
              exact (Option.some.inj l1)
            rw [hme] at v4
            have hcell : rc.node curelm = some { n with next := e.next } := by
              rw [s2, Function.update_same]
            have hpost : rc.Chain e.next post := by
              refine chain_congr rb rc post _ ?_ v4
              intro x hx
              refine ⟨?_, by rw [s3]⟩
              rw [s2, Function.update_noteq]
              intro ex
              exact q4 (ex ▸ hx)
            refine ⟨pre ++ curelm :: post, ⟨?_, q6, ?_, ?_⟩, ?_, ?_, ?_⟩
            · rw [s4]
              refine chain_splice rb rc curelm (elm :: post) post _ hcell (by rw [s3]; exact u2)
                hpost pre _ ?_ hchain
              intro x hx
              refine ⟨?_, by rw [s3]⟩
              rw [s2, Function.update_noteq]
              intro ex
              exact q1 (ex ▸ hx)
            · rw [s2, Function.update_noteq, l2, f1]
              · exact h.null
              · intro ex
                rw [← ex, l2, f1, h.null] at s1
                cases s1
            · rw [← erc] at hf
              exact hf
            · intro hm
              rcases List.mem_append.mp hm with hm | hm
              · exact q2 hm
              · rcases List.mem_cons.mp hm with hm | hm
                · exact q3 hm.symm
                · exact q5 hm
            · rw [hps]
              simp
            · rw [s3, l3, f2]

/-- The walk of `handle_completed_threads`: when it meets no invalid pointer, it
leaves a list of distinct allocated cells, no longer than before. -/
theorem reap_loop_linked (fuel : Nat) :
    ∀ (r : Registry) (node prev_node : Ptr) (ps : List Ptr) (r1 : Registry),
      r.Linked ps → reap_loop fuel r node prev_node = some r1 → r1.fault = false →
      ∃ ps1, r1.Linked ps1 ∧ ps1.length ≤ ps.length := by
  induction fuel with
  | zero =>
    intro r node prev_node ps r1 _ h _
    simp [reap_loop] at h
  | succ k ih =>
    intro r node prev_node ps r1 hl h hf
    unfold reap_loop at h
    by_cases hn : node = NULL
    · rw [if_pos hn] at h
      have := Option.some.inj h
      rw [← this]
      exact ⟨ps, hl, Nat.le_refl _⟩
    · rw [if_neg hn] at h
      cases h1 : r.load node with
      | none =>
        rw [h1] at h
        have := Option.some.inj h
        rw [← this] at hf
        cases hf
      | some x =>
        obtain ⟨n, ra⟩ := x
        rw [h1] at h
        obtain ⟨-, a2, a3, a4, a5, -⟩ := load_some r node n ra h1
        dsimp only at h
        cases h2 : ra.load_done n.thread_params with
        | none =>
          rw [h2] at h
          have := Option.some.inj h
          rw [← this] at hf
          cases hf
        | some y =>
          obtain ⟨d, rb⟩ := y
          rw [h2] at h
          obtain ⟨b1, b2, b3, b4, -⟩ := load_done_some ra _ d rb h2
          have hlb : rb.Linked ps :=
            linked_of_same r rb ps (b1.trans a2) (b2.trans a3) (b3.trans a4) (b4.trans a5) hl
          dsimp only at h
          cases d with
          | false =>
            simp only [Bool.false_eq_true, if_false] at h
            exact ih rb n.next node ps r1 hlb h hf
          | true =>
            simp only [if_true] at h
            have hlR : ((rb.join n.thread_id).free_params n.thread_params).Linked ps :=
              linked_of_same rb _ ps rfl rfl rfl rfl hlb
            cases h3 : slist_remove k ((rb.join n.thread_id).free_params n.thread_params)
                node with
            | none =>
              rw [h3] at h
              cases h
            | some rc =>
              rw [h3] at h
              dsimp only at h
              by_cases hcf : rc.fault = true
              · rw [if_pos hcf] at h
                have := Option.some.inj h
                rw [← this, hcf] at hf
                cases hf
              · rw [if_neg hcf] at h
                have hcf1 : rc.fault = false := by simpa using hcf
                obtain ⟨ps1, c1, c2, c3, -⟩ := slist_remove_linked k _ ps node rc hlR hn h3 hcf1
                have hlf := linked_free_node rc ps1 node c1 c2
                cases h4 : (rc.free_node node).load prev_node with
                | none =>
                  rw [h4] at h
                  have := Option.some.inj h
                  rw [← this] at hf
                  cases hf
                | some z =>
                  obtain ⟨pn, rd⟩ := z
                  rw [h4] at h
                  obtain ⟨-, d2, d3, d4, d5, -⟩ := load_some _ prev_node pn rd h4
                  have hld : rd.Linked ps1 := linked_of_same _ rd ps1 d2 d3 d4 d5 hlf
                  obtain ⟨ps2, e1, e2⟩ := ih rd pn.next prev_node ps1 r1 hld h hf
                  exact ⟨ps2, e1, Nat.le_trans e2 c3⟩

theorem handle_completed_threads_linked (fuel : Nat) (r r1 : Registry) (ps : List Ptr)
    (hl : r.Linked ps) (h : handle_completed_threads fuel r = some r1)
    (hf : r1.fault = false) : ∃ ps1, r1.Linked ps1 ∧ ps1.length ≤ ps.length :=
  reap_loop_linked fuel r _ _ ps r1 hl h hf

theorem set_done_linked (l : List Ptr) :
    ∀ (r : Registry) (ps : List Ptr), r.Linked ps →
      (l.foldl Registry.set_done r).Linked ps := by
  induction l with
  | nil => intro r ps h; exact h
  | cons x l ih =>
    intro r ps h
    exact ih (r.set_done x) ps (linked_of_same r _ ps rfl rfl rfl rfl h)

theorem chain_live (r : Registry) (ps : List Ptr) :
    ∀ p, r.Chain p ps → ∀ a ∈ ps, r.node_live a = true := by
  induction ps with
  | nil => intro p _ a ha; cases ha
  | cons x rest ih =>
    intro p h a ha
    obtain ⟨-, -, h3, n, -, h5⟩ := h
    rcases List.mem_cons.mp ha with ha | ha
    · rw [ha]; exact h3
    · exact ih _ h5 a ha

/-- Lines 303 to 314: the insertion of the node at `node`, an allocated cell that
is not in the list.  When no invalid pointer is met, the list consists of
distinct allocated cells, at most one more than before. -/
theorem insert_node_linked (r2 rr : Registry) (node : Ptr) (ps1 : List Ptr)
    (hl2 : r2.Linked ps1) (hnode : node ≠ NULL) (hlive2 : r2.node_live node = true)
    (hnotin : node ∉ ps1)
    (h : (if r2.slh_first = NULL then
        match r2.store_next node r2.slh_first with
        | none => some { r2 with fault := true }
        | some r3 => some { r3 with slh_first := node, last_thread_node := node }
      else
        match r2.load r2.last_thread_node with
        | none => some { r2 with fault := true }
        | some (l, r3) =>
          match r3.store_next node l.next with
          | none => some { r3 with fault := true }
          | some r4 =>
            match r4.store_next r4.last_thread_node node with
            | none => some { r4 with fault := true }
            | some r5 => some { r5 with last_thread_node := node }) = some rr)
    (hf : rr.fault = false) :
    ∃ ps2, rr.Linked ps2 ∧ ps2.length ≤ ps1.length + 1 := by
  by_cases hempty : r2.slh_first = NULL
  · rw [if_pos hempty] at h
    cases hs : r2.store_next node r2.slh_first with
    | none =>
      rw [hs] at h
      have := Option.some.inj h
      rw [← this] at hf
      cases hf
    | some r3 =>
      rw [hs] at h
      obtain ⟨n, t1, t2, t3, -, t5, -⟩ := store_next_some r2 node _ r3 hs
      have e := Option.some.inj h
      refine ⟨[node], ⟨?_, by simp, ?_, hf⟩, ?_⟩
      · rw [← e]
        refine ⟨rfl, hnode, ?_, { n with next := r2.slh_first }, ?_, ?_⟩
        · show r3.node_live node = true
          rw [t3]; exact hlive2
        · show r3.node node = _
          rw [t2, Function.update_same]
        · exact hempty
      · rw [← e]
        show r3.node NULL = none
        rw [t2, Function.update_noteq (Ne.symm hnode)]
        exact hl2.null
      · simp
  · rw [if_neg hempty] at h
    cases hld : r2.load r2.last_thread_node with
    | none =>
      rw [hld] at h
      have := Option.some.inj h
      rw [← this] at hf
      cases hf
    | some x =>
      obtain ⟨l, r3⟩ := x
      rw [hld] at h
      obtain ⟨a1, a2, a3, a4, a5, a6⟩ := load_some r2 _ l r3 hld
      dsimp only at h
      cases hs4 : r3.store_next node l.next with
      | none =>
        rw [hs4] at h
        have := Option.some.inj h
        rw [← this] at hf
        cases hf
      | some r4 =>
        rw [hs4] at h
        obtain ⟨nn, b1, b2, b3, b4, b5, b6⟩ := store_next_some r3 node _ r4 hs4
        dsimp only at h
        cases hs5 : r4.store_next r4.last_thread_node node with
        | none =>
          rw [hs5] at h
          have := Option.some.inj h
          rw [← this] at hf
          cases hf
        | some r5 =>
          rw [hs5] at h
          obtain ⟨m, c1, c2, c3, c4, c5, -⟩ := store_next_some r4 _ node r5 hs5
          have e := Option.some.inj h
          have hL : r4.last_thread_node = r2.last_thread_node := b6.trans a6
          rw [hL] at c1 c2
          have hLnull : r2.last_thread_node ≠ NULL := by
            intro ex
            rw [ex, b2, Function.update_noteq (Ne.symm hnode), a2, hl2.null] at c1
            cases c1
          have houtside : ∀ x, x ≠ r2.last_thread_node → x ≠ node →
              r5.node x = r2.node x ∧ r5.node_live x = r2.node_live x := by
            intro x h1 h2
            refine ⟨?_, by rw [c3, b3, a3]⟩
            rw [c2, Function.update_noteq h1, b2, Function.update_noteq h2, a2]
          have hnull5 : r5.node NULL = none := by
            rw [(houtside NULL (Ne.symm hLnull) (Ne.symm hnode)).1]
            exact hl2.null
          have hslh : r5.slh_first = r2.slh_first := c4.trans (b4.trans a4)
          have hfault : r5.fault = false := by
            rw [← e] at hf
            exact hf
          by_cases hin : r2.last_thread_node ∈ ps1
          · obtain ⟨pre, post, hps⟩ := List.append_of_mem hin
            have hLn : r2.last_thread_node ≠ node := fun ex => hnotin (ex ▸ hin)
            have hnd : (pre ++ r2.last_thread_node :: post).Nodup := by
              rw [← hps]; exact hl2.nodup
            have hnd1 : r2.last_thread_node ∉ pre ∧ r2.last_thread_node ∉ post := by
              simp only [List.nodup_append, List.nodup_cons] at hnd
              obtain ⟨-, ⟨g2, -⟩, g3⟩ := hnd
              exact ⟨fun hm => (g3 hm (List.mem_cons_self _ _)).elim, g2⟩
            have hnpre : node ∉ pre := fun hm => hnotin (by rw [hps]; simp [hm])
            have hnpost : node ∉ post := fun hm => hnotin (by rw [hps]; simp [hm])
            have hchain2 : r2.Chain r2.slh_first (pre ++ r2.last_thread_node :: post) := by
              rw [← hps]; exact hl2.chain
            obtain ⟨-, u2, l0, u3, u4⟩ := chain_suffix r2 _ post pre _ hchain2
            have hl0 : l0 = l := by
              rw [u3] at a1
              exact Option.some.inj a1
            rw [hl0] at u4
            have hm : m = l := by
              rw [b2, Function.update_noteq hLn, a2, a1] at c1
              exact (Option.some.inj c1).symm
            have hcellL : r5.node r2.last_thread_node = some { m with next := node } := by
              rw [c2, Function.update_same]
            have hcelln : r5.node node = some { nn with next := l.next } := by
              rw [c2, Function.update_noteq (Ne.symm hLn), b2, Function.update_same]
            have hpost5 : r5.Chain l.next post := by
              refine chain_congr r2 r5 post _ ?_ u4
              intro x hx
              exact houtside x (fun ex => hnd1.2 (ex ▸ hx)) (fun ex => hnpost (ex ▸ hx))
            have hnew : r5.Chain node (node :: post) :=
              ⟨rfl, hnode, by rw [c3, b3, a3]; exact hlive2, _, hcelln, hpost5⟩
            refine ⟨pre ++ r2.last_thread_node :: node :: post, ⟨?_, ?_, ?_, hf⟩, ?_⟩
            · rw [← e]
              refine chain_of_same r5 _ _ _ rfl rfl ?_
              show r5.Chain r5.slh_first _
              rw [hslh]
              refine chain_splice r2 r5 _ post (node :: post) _ hcellL
                (by rw [c3, b3, a3]; exact u2) hnew pre _ ?_ hchain2
              intro x hx
              exact houtside x (fun ex => hnd1.1 (ex ▸ hx)) (fun ex => hnpre (ex ▸ hx))
            · simp only [List.nodup_append, List.nodup_cons, List.mem_cons, not_or] at hnd ⊢
              obtain ⟨g1, ⟨g2, g4⟩, g3⟩ := hnd
              refine ⟨g1, ⟨⟨hLn, g2⟩, hnpost, g4⟩, ?_⟩
              intro x hx1 hx2
              rcases List.mem_cons.mp hx2 with hx2 | hx2
              · exact g3 hx1 (hx2 ▸ List.mem_cons_self _ _)
              · rcases List.mem_cons.mp hx2 with hx2 | hx2
                · exact hnpre (hx2 ▸ hx1)
                · exact g3 hx1 (List.mem_cons_of_mem _ hx2)
            · rw [← e]
              exact hnull5
            · have : ps1.length = pre.length + post.length + 1 := by
                rw [hps]; simp; omega
              simp
              omega
          · refine ⟨ps1, ⟨?_, hl2.nodup, ?_, hf⟩, by omega⟩
            · rw [← e]
              refine chain_of_same r5 _ _ _ rfl rfl ?_
              show r5.Chain r5.slh_first _
              rw [hslh]
              refine chain_congr r2 r5 ps1 _ ?_ hl2.chain
              intro x hx
              exact houtside x (fun ex => hin (ex ▸ hx)) (fun ex => hnotin (ex ▸ hx))
            · rw [← e]
              exact hnull5

/-- Lines 289 to 315: the walk, then the insertion of the new node.  When no
invalid pointer is met and the node is at an address that was not allocated, the
list still consists of distinct allocated cells, at most one more than before. -/
theorem register_worker_linked (fuel : Nat) (r rr : Registry) (tid : Nat) (params node : Ptr)
    (ps : List Ptr) (hl : r.Linked ps) (hnode : node ≠ NULL)
    (hfresh : ∀ r1, handle_completed_threads fuel r = some r1 → r1.node_live node = false)
    (h : register_worker fuel r tid params node = some rr) (hf : rr.fault = false) :
    ∃ ps1, rr.Linked ps1 ∧ ps1.length ≤ ps.length + 1 := by
  unfold register_worker at h
  cases hh : handle_completed_threads fuel r with
  | none =>
    rw [hh] at h
    cases h
  | some r1 =>
    rw [hh] at h
    by_cases hf1 : r1.fault = true
    · have e : some r1 = some rr := by
        simpa [hf1] using h
      have := Option.some.inj e
      rw [← this, hf1] at hf
      cases hf
    · have hf1' : r1.fault = false := by simpa using hf1
      obtain ⟨ps1, hl1, hlen1⟩ := handle_completed_threads_linked fuel r r1 ps hl hh hf1'
      have hdead := hfresh r1 hh
      have hnotin : node ∉ ps1 := by
        intro hm
        have := chain_live r1 ps1 _ hl1.chain node hm
        rw [hdead] at this
        cases this
      have hl2 : ({ r1 with
          done := Function.update r1.done params (some false)
          params_live := Function.update r1.params_live params true
          node := Function.update r1.node node
            (some { thread_id := tid, thread_params := params,
                    next := match r1.node node with
                      | some old => old.next
                      | none => NULL })
          node_live := Function.update r1.node_live node true } : Registry).Linked ps1 := by
        refine ⟨?_, hl1.nodup, ?_, hf1'⟩
        · refine chain_congr r1 _ ps1 _ ?_ hl1.chain
          intro x hx
          have hxn : x ≠ node := fun e => hnotin (e ▸ hx)
          exact ⟨Function.update_noteq hxn _ _, Function.update_noteq hxn _ _⟩
        · show Function.update r1.node node _ NULL = none
          rw [Function.update_noteq (Ne.symm hnode)]
          exact hl1.null
      have h2 := insert_node_linked _ rr node ps1 hl2 hnode (Function.update_same _ _ _) hnotin
        (by
          dsimp only at h
          rw [if_neg hf1] at h
          exact h) hf
      obtain ⟨ps2, g1, g2⟩ := h2
      exact ⟨ps2, g1, by omega⟩

theorem load_of_node (r : Registry) (p : Ptr) (n : ThreadNode) (h : r.node p = some n) :
    ∃ r1, r.load p = some (n, r1) := by
  unfold Registry.load
  rw [h]
  exact ⟨_, rfl⟩

theorem slist_remove_head (fuel : Nat) (r : Registry) (n : ThreadNode)
    (h : r.node r.slh_first = some n) :
    ∃ r1, slist_remove fuel r r.slh_first = some r1 ∧ r1.node = r.node ∧
      r1.node_live = r.node_live ∧ r1.slh_first = n.next ∧ r1.fault = r.fault := by
  obtain ⟨ra, hl⟩ := load_of_node r _ n h
  obtain ⟨-, a2, a3, -, a5, -⟩ := load_some r _ n ra hl
  unfold slist_remove
  rw [if_pos rfl, hl]
  exact ⟨_, rfl, a2, a3, rfl, a5⟩

/-- The drain loop of lines 336 to 344 on a list of distinct allocated cells: it
ends after one round per cell, and meets no invalid pointer. -/
theorem drain_loop_linked (ps : List Ptr) :
    ∀ (fuel : Nat) (r : Registry) (rounds : Nat), r.Linked ps → ps.length < fuel →
      ∃ r1, drain_loop fuel r rounds = some (r1, rounds + ps.length) ∧ r1.fault = false := by
  induction ps with
  | nil =>
    intro fuel r rounds hl hfuel
    obtain ⟨f, rfl⟩ : ∃ f, fuel = f + 1 := ⟨fuel - 1, by simp at hfuel; omega⟩
    have h0 : r.slh_first = NULL := hl.chain
    unfold drain_loop
    rw [if_pos h0]
    exact ⟨r, rfl, hl.fault⟩
  | cons a rest ih =>
    intro fuel r rounds hl hfuel
    obtain ⟨f, rfl⟩ : ∃ f, fuel = f + 1 := ⟨fuel - 1, by simp at hfuel; omega⟩
    obtain ⟨c1, c2, c3, n, c4, c5⟩ := hl.chain
    have hne : ¬ r.slh_first = NULL := by rw [c1]; exact c2
    have hcell : r.node r.slh_first = some n := by rw [c1]; exact c4
    obtain ⟨ra, hla⟩ := load_of_node r _ n hcell
    obtain ⟨-, a2, a3, a4, a5, -⟩ := load_some r _ n ra hla
    have hcellR : ((ra.join n.thread_id).free_params n.thread_params).node
        ((ra.join n.thread_id).free_params n.thread_params).slh_first = some n := by
      show ra.node ra.slh_first = some n
      rw [a2, a4]; exact hcell
    obtain ⟨rb, hrem, b2, b3, b4, b5⟩ := slist_remove_head f _ n hcellR
    have hslh : ((ra.join n.thread_id).free_params n.thread_params).slh_first = r.slh_first :=
      a4
    rw [hslh] at hrem
    have hfb : rb.fault = false := by
      rw [b5]
      show ra.fault = false
      rw [a5]; exact hl.fault
    have hnd := List.nodup_cons.mp hl.nodup
    have hlb : rb.Linked rest := by
      refine ⟨?_, hnd.2, ?_, hfb⟩
      · rw [b4]
        refine chain_of_same r rb rest _ ?_ ?_ c5
        · rw [b2]; exact a2
        · rw [b3]; exact a3
      · rw [b2]
        show ra.node NULL = none
        rw [a2]; exact hl.null
    have hlf : (rb.free_node r.slh_first).Linked rest :=
      linked_free_node rb rest _ hlb (by rw [c1]; exact hnd.1)
    obtain ⟨r1, i1, i2⟩ := ih f (rb.free_node r.slh_first) (rounds + 1) hlf
      (by simp at hfuel; omega)
    refine ⟨r1, ?_, i2⟩
    unfold drain_loop
    rw [if_neg hne, hla]
    dsimp only
    rw [hrem]
    dsimp only
    rw [if_neg (by rw [hfb]; decide), i1]
    simp
    omega

theorem main_teardown_returns (s : Main) (ps : List Ptr) (hl : s.registry.Linked ps)
    (hlen : ps.length ≤ s.spawned) :
    (main_teardown s).pc = MainPc.returned (if s.unexpected_error then 1 else 0) := by
  obtain ⟨r1, h1, h2⟩ := drain_loop_linked ps s.fuel s.registry 0 hl
    (by unfold Main.fuel; omega)
  unfold main_teardown
  rw [h1]
  dsimp only
  rw [if_neg (by rw [h2]; decide)]
  rfl

/-- Lines 289 to 321 keep the list in order, as long as `main` stays in its loop. -/
theorem main_serve_tidy (s : Main) (c : Conn) (ps : List Ptr) (hl : s.registry.Linked ps)
    (hlen : ps.length ≤ s.spawned)
    (hfresh : ∀ r1,
      handle_completed_threads s.fuel (c.completed.foldl Registry.set_done s.registry) =
        some r1 → c.node.ptr ≠ NULL → r1.node_live c.node.ptr = false)
    (hpc : (main_serve s c).pc = MainPc.loop) :
    ∃ ps1, (main_serve s c).registry.Linked ps1 ∧ ps1.length ≤ (main_serve s c).spawned := by
  have hl0 := set_done_linked c.completed s.registry ps hl
  unfold main_serve at hpc ⊢
  dsimp only at hpc ⊢
  cases hh : handle_completed_threads s.fuel (c.completed.foldl Registry.set_done s.registry) with
  | none =>
    rw [hh] at hpc
    cases hpc
  | some r1 =>
    rw [hh] at hpc
    dsimp only at hpc ⊢
    by_cases hf1 : r1.fault = true
    · rw [if_pos hf1] at hpc
      cases hpc
    · rw [if_neg hf1] at hpc ⊢
      have hf1' : r1.fault = false := by simpa using hf1
      obtain ⟨ps1, hl1, hlen1⟩ := handle_completed_threads_linked _ _ r1 ps hl0 hh hf1'
      by_cases hsp : (spawn_connection_thread s.error_code c.params c.created).1 = true
      · rw [if_pos hsp] at hpc ⊢
        by_cases hnode : c.node.ptr = NULL
        · rw [if_pos hnode]
          exact ⟨ps1, linked_of_same r1 _ ps1 rfl rfl rfl rfl hl1, by
            show ps1.length ≤ s.spawned + 1
            omega⟩
        · rw [if_neg hnode] at hpc ⊢
          cases hreg : register_worker s.fuel (c.completed.foldl Registry.set_done s.registry)
              c.thread_id (spawn_connection_thread s.error_code c.params c.created).2.1
              c.node.ptr with
          | none =>
            rw [hreg] at hpc
            cases hpc
          | some r2 =>
            rw [hreg] at hpc
            dsimp only at hpc ⊢
            by_cases hf2 : r2.fault = true
            · rw [if_pos hf2] at hpc
              cases hpc
            · rw [if_neg hf2]
              have hf2' : r2.fault = false := by simpa using hf2
              obtain ⟨ps2, g1, g2⟩ := register_worker_linked _ _ r2 _ _ _ ps hl0 hnode
                (fun r1 h1 => hfresh r1 h1 hnode) hreg hf2'
              exact ⟨ps2, g1, by
                show ps2.length ≤ s.spawned + 1
                omega⟩
      · rw [if_neg hsp]
        exact ⟨ps1, hl1, by
          show ps1.length ≤ s.spawned
          omega⟩

theorem main_case_init_registry (s : Main) :
    (main_case_init s).registry = s.registry ∧ (main_case_init s).spawned = s.spawned := by
  unfold main_case_init
  dsimp only
  split
  · exact ⟨rfl, rfl⟩
  · split <;> exact ⟨rfl, rfl⟩

theorem main_arm_timer_registry (s : Main) :
    (main_arm_timer s).registry = s.registry ∧ (main_arm_timer s).spawned = s.spawned := by
  unfold main_arm_timer
  dsimp only
  split
  · exact ⟨rfl, rfl⟩
  · split <;> exact ⟨rfl, rfl⟩

theorem main_fork_registry (s : Main) :
    (main_fork s).registry = s.registry ∧ (main_fork s).spawned = s.spawned := by
  unfold main_fork
  split
  · split <;> exact ⟨rfl, rfl⟩
  · exact ⟨rfl, rfl⟩

theorem main_case_sock_created_registry (s : Main) :
    (main_case_sock_created s).registry = s.registry ∧
      (main_case_sock_created s).spawned = s.spawned := by
  unfold main_case_sock_created
  split
  · exact ⟨(main_arm_timer_registry _).1.trans (main_fork_registry s).1,
      (main_arm_timer_registry _).2.trans (main_fork_registry s).2⟩
  · exact main_fork_registry s

theorem main_case_start_listening_registry (s : Main) :
    (main_case_start_listening s).registry = s.registry ∧
      (main_case_start_listening s).spawned = s.spawned := by
  unfold main_case_start_listening
  dsimp only
  split <;> exact ⟨rfl, rfl⟩

theorem tidy_of_registry (s t : Main) (h : s.Tidy) (hpc : t.pc = MainPc.loop → s.pc = MainPc.loop)
    (hr : t.registry = s.registry ∧ t.spawned = s.spawned) : t.Tidy := by
  intro hl
  obtain ⟨ps, g1, g2⟩ := h (hpc hl)
  exact ⟨ps, by rw [hr.1]; exact g1, by rw [hr.2]; exact g2⟩

theorem main_case_waiting_conn_tidy (s : Main) (hpc : s.pc = MainPc.loop)
    (hs : s.system_state = .SYSTEM_STATE_SOCK_WAITING_CONN) (ht : s.Tidy)
    (hfresh : s.node_fresh = true) : (main_case_waiting_conn s).Tidy := by
  obtain ⟨ps, hl, hlen⟩ := ht hpc
  intro hloop
  cases hacc : s.env.accept.headD (AcceptRes.fail EINTR) with
  | fail e =>
    have e1 : (main_case_waiting_conn s).registry = s.registry ∧
        (main_case_waiting_conn s).spawned = s.spawned := by
      unfold main_case_waiting_conn
      simp only [hacc]
      refine ⟨?_, ?_⟩ <;> first | rfl | trivial
    exact ⟨ps, by rw [e1.1]; exact hl, by rw [e1.2]; exact hlen⟩
  | conn c =>
    have hfr : ∀ r1,
        handle_completed_threads s.fuel (c.completed.foldl Registry.set_done s.registry) =
          some r1 → c.node.ptr ≠ NULL → r1.node_live c.node.ptr = false := by
      intro r1 h1 hnn
      unfold Main.node_fresh at hfresh
      rw [hs, hacc] at hfresh
      simp only [h1] at hfresh
      simpa [hnn] using hfresh
    by_cases hrc : (wait_connection s.error_code s.errno (AcceptRes.conn c).fd).1 =
        SOCKET_SERVER_WAIT_CONN_OK
    · have e1 : main_case_waiting_conn s =
          main_serve
            { s with
              env := { s.env with accept := s.env.accept.tail }
              rc := (wait_connection s.error_code s.errno (AcceptRes.conn c).fd).1
              cfd := (wait_connection s.error_code s.errno (AcceptRes.conn c).fd).2.1
              error_code := (wait_connection s.error_code s.errno (AcceptRes.conn c).fd).2.2.1
              errno := (wait_connection s.error_code s.errno (AcceptRes.conn c).fd).2.2.2
              trace := s.trace ++
                [MainEvent.accept
                  (wait_connection s.error_code s.errno (AcceptRes.conn c).fd).2.1] } c := by
        unfold main_case_waiting_conn
        simp only [hacc]
        exact if_pos hrc
      rw [e1] at hloop ⊢
      exact main_serve_tidy _ c ps hl hlen hfr hloop
    · have e1 : (main_case_waiting_conn s).registry = s.registry ∧
          (main_case_waiting_conn s).spawned = s.spawned := by
        unfold main_case_waiting_conn
        simp only [hacc]
        rw [if_neg hrc]
        exact ⟨rfl, rfl⟩
      exact ⟨ps, by rw [e1.1]; exact hl, by rw [e1.2]; exact hlen⟩

/-- One pass of `main` keeps the list of the registry in order, when `malloc`
gives the new node an address that is not allocated. -/
theorem tidy_step (s : Main) (ht : s.Tidy) (hfresh : s.node_fresh = true) :
    (main_step s).Tidy := by
  cases hpc : s.pc with
  | loop =>
    have hstep : main_step s =
        if (main_signal s).interrupt_signal_received = false ∧
            (main_signal s).unexpected_error = false then
          main_loop_body (main_signal s)
        else main_teardown (main_signal s) := by
      unfold main_step; rw [hpc]
    rw [hstep]
    have htsig : (main_signal s).Tidy := tidy_of_registry s _ ht (fun _ => hpc) ⟨rfl, rfl⟩
    split
    · unfold main_loop_body
      cases hs : (main_signal s).system_state with
      | SYSTEM_STATE_INIT =>
        exact tidy_of_registry _ _ htsig (fun _ => hpc) (main_case_init_registry _)
      | SYSTEM_STATE_SOCK_CREATED =>
        exact tidy_of_registry _ _ htsig (fun _ => hpc) (main_case_sock_created_registry _)
      | SYSTEM_STATE_SOCK_START_LISTENING =>
        exact tidy_of_registry _ _ htsig (fun _ => hpc) (main_case_start_listening_registry _)
      | SYSTEM_STATE_SOCK_WAITING_CONN =>
        exact main_case_waiting_conn_tidy _ hpc hs htsig hfresh
    · intro hl
      rcases (main_teardown_outcome (main_signal s)).2.2 with h | h | h <;>
        rw [h] at hl <;> cases hl
  | returned status =>
    have : main_step s = s := by unfold main_step; rw [hpc]
    rw [this]; exact ht
  | fault =>
    have : main_step s = s := by unfold main_step; rw [hpc]
    rw [this]; exact ht
  | hung =>
    have : main_step s = s := by unfold main_step; rw [hpc]
    rw [this]; exact ht

theorem tidy_run (s0 : Main) (h0 : s0.Tidy) (n : Nat) :
    (∀ k, k < n → (main_run k s0).node_fresh = true) → (main_run n s0).Tidy := by
  induction n with
  | zero => intro _; exact h0
  | succ n ih =>
    intro hf
    rw [main_run_succ_last]
    exact tidy_step _ (ih (fun k hk => hf k (by omega))) (hf n (by omega))

theorem main_init_tidy (run_as_daemon existed : Bool) (c : SetupCalls) (env : MainEnv) :
    (main_init run_as_daemon existed c env).Tidy := by
  intro _
  have hr : (main_init run_as_daemon existed c env).registry = Registry.empty ∧
      (main_init run_as_daemon existed c env).spawned = 0 := by
    unfold main_init
    dsimp only
    split
    · exact ⟨rfl, rfl⟩
    · split
      · exact ⟨rfl, rfl⟩
      · split
        · exact ⟨rfl, rfl⟩
        · split <;> exact ⟨rfl, rfl⟩
  refine ⟨[], ?_, by simp⟩
  rw [hr.1]
  exact ⟨rfl, List.nodup_nil, rfl, rfl⟩

/-- C21: once `main` is in its loop with the ticker armed (`timer_settime` has
returned `0`, in the foreground process or in the daemon child) and the test of
the `while` fails in pass `n + 1` (a stop signal has arrived or an error was
recorded), this pass walks the registry to its end, meets no invalid pointer and
returns; `malloc` is taken to have given every node an address that was not
allocated.  The status `main` returns is `1` exactly when, for one of the
connections it accepted, `spawn_connection_thread` failed or the allocation of the
registry node failed, and `0` otherwise; so it is `0` when only the stop signal
ended the loop.  The same holds of the status of every run that has returned
with the ticker armed, whatever `malloc` did. -/
theorem main_status_tells_unrecoverable_error (run_as_daemon existed : Bool)
    (c : SetupCalls) (env : MainEnv) (n : Nat)
    (harmed : MainEvent.timer_settime 0 ∈
      (main_run n (main_init run_as_daemon existed c env)).trace) :
    ((∀ k, k < n → (main_run k (main_init run_as_daemon existed c env)).node_fresh = true) →
      (main_run n (main_init run_as_daemon existed c env)).pc = MainPc.loop →
      ((main_signal (main_run n (main_init run_as_daemon existed c env))).interrupt_signal_received
          = true ∨
        (main_run n (main_init run_as_daemon existed c env)).unexpected_error = true) →
      ∃ status accepted,
        (main_run (n + 1) (main_init run_as_daemon existed c env)).pc =
          MainPc.returned status ∧
        env.accept =
          accepted ++ (main_run (n + 1) (main_init run_as_daemon existed c env)).env.accept ∧
        (status = 1 ↔ ∃ k ∈ served accepted, k.unrecoverable = true) ∧
        (status = 0 ↔ ∀ k ∈ served accepted, k.unrecoverable = false)) ∧
    (∀ status,
      (main_run n (main_init run_as_daemon existed c env)).pc = MainPc.returned status →
      ∃ accepted,
        env.accept =
          accepted ++ (main_run n (main_init run_as_daemon existed c env)).env.accept ∧
        (status = 1 ↔ ∃ k ∈ served accepted, k.unrecoverable = true) ∧
        (status = 0 ↔ ∀ k ∈ served accepted, k.unrecoverable = false)) := by
  have hserv : ∃ accepted,
      env.accept =
        accepted ++ (main_run n (main_init run_as_daemon existed c env)).env.accept ∧
      (main_run n (main_init run_as_daemon existed c env)).Serving accepted := by
    rcases unarmed_run n _ _ (main_init_unarmed run_as_daemon existed c env) with g | g
    · exact absurd harmed g.2.2.1
    · exact g
  obtain ⟨accepted, e, g1⟩ := hserv
  constructor
  · intro hfresh hloop hleft
    have htidy := tidy_run _ (main_init_tidy run_as_daemon existed c env) n hfresh
    obtain ⟨ps, hl, hlen⟩ := htidy hloop
    have hstep : main_step (main_run n (main_init run_as_daemon existed c env)) =
        main_teardown (main_signal (main_run n (main_init run_as_daemon existed c env))) := by
      unfold main_step
      rw [hloop]
      dsimp only
      rw [if_neg]
      rintro ⟨h1, h2⟩
      rcases hleft with h | h
      · rw [h] at h1; cases h1
      · have h3 : (main_run n (main_init run_as_daemon existed c env)).unexpected_error =
            false := h2
        rw [h] at h3; cases h3
    have hret := main_teardown_returns
      (main_signal (main_run n (main_init run_as_daemon existed c env))) ps hl hlen
    rw [← hstep, ← main_run_succ_last] at hret
    obtain ⟨more, e1, g2⟩ := serving_step _ accepted g1
    rw [← main_run_succ_last] at e1 g2
    refine ⟨_, accepted ++ more, hret, ?_, ?_⟩
    · rw [List.append_assoc, ← e1]
      exact e
    · unfold Main.Serving at g2
      rw [hret] at g2
      exact g2.2
  · intro status hret
    refine ⟨accepted, e, ?_⟩
    unfold Main.Serving at g1
    rw [hret] at g1
    exact g1.2

theorem main_status_tells_unrecoverable_error_witness :
    (∃ status accepted,
      (main_run 8 (main_init false false SetupCalls.success MainEnv.workerCompletes)).pc =
        MainPc.returned status ∧
      MainEnv.workerCompletes.accept =
        accepted ++ (main_run 8 (main_init false false SetupCalls.success
          MainEnv.workerCompletes)).env.accept ∧
      (status = 1 ↔ ∃ k ∈ served accepted, k.unrecoverable = true) ∧
      (status = 0 ↔ ∀ k ∈ served accepted, k.unrecoverable = false)) ∧
    (∃ status accepted,
      (main_run 6 (main_init false false SetupCalls.success MainEnv.nodeAllocationFails)).pc =
        MainPc.returned status ∧
      MainEnv.nodeAllocationFails.accept =
        accepted ++ (main_run 6 (main_init false false SetupCalls.success
          MainEnv.nodeAllocationFails)).env.accept ∧
      (status = 1 ↔ ∃ k ∈ served accepted, k.unrecoverable = true) ∧
      (status = 0 ↔ ∀ k ∈ served accepted, k.unrecoverable = false)) ∧
    (∃ accepted,
      MainEnv.signalWhileWaiting.accept =
        accepted ++ (main_run 5 (main_init true false SetupCalls.success
          MainEnv.signalWhileWaiting)).env.accept ∧
      ((0 : Int) = 1 ↔ ∃ k ∈ served accepted, k.unrecoverable = true) ∧
      ((0 : Int) = 0 ↔ ∀ k ∈ served accepted, k.unrecoverable = false)) ∧
    (main_run 8 (main_init false false SetupCalls.success MainEnv.workerCompletes)).pc =
      MainPc.returned 0 ∧
    (main_run 8 (main_init false false SetupCalls.success
      MainEnv.workerCompletes)).registry.uaf = false ∧
    (main_run 6 (main_init false false SetupCalls.success MainEnv.nodeAllocationFails)).pc =
      MainPc.returned 1 :=
  ⟨(main_status_tells_unrecoverable_error false false SetupCalls.success
      MainEnv.workerCompletes 7 (by decide)).1 (by decide) (by decide) (by decide),
    (main_status_tells_unrecoverable_error false false SetupCalls.success
      MainEnv.nodeAllocationFails 5 (by decide)).1 (by decide) (by decide) (by decide),
    (main_status_tells_unrecoverable_error true false SetupCalls.success
      MainEnv.signalWhileWaiting 5 (by decide)).2 0 (by decide),
    by decide, by decide, by decide⟩

end AesdSocket
